import Mathlib

/-!
The pg_art adaptive radix tree index.

Shallow embedding of the node operations (`art_utils.c`), the insertion engine
(`art_insert.c`) and the scan engine (`art_scan.c`).

Conventions of the embedding.

* A byte is a `Nat` below 256; `uint8` and `uint16` fields are reduced modulo
  `2^8` / `2^16` where the source assigns a wider value to them.
* A C array of fixed capacity is a `List` of that length; `arr[i]` is
  `List.getD arr i 0` and `arr[i] = v` is `List.set`.
* The five node shapes that overlay one header in C are one inductive type; the
  `node_type` tag is the constructor.
* A pointer into a page is the `ItemPointerData` of the slot together with the
  value read from it; writing through the pointer is a store update.
-/

namespace PgArt

/-! ## Item pointers -/

/-- Tuple identifier `ItemPointerData`: block number and line pointer offset. -/
structure ItemPointerData where
  ip_blkid : Nat
  ip_posid : Nat
deriving DecidableEq, Repr, Inhabited

/-- The all-zero item pointer left by `palloc0`. -/
def zero_iptr : ItemPointerData := ⟨0, 0⟩

/-- Model of `InvalidBlockNumber`. -/
def InvalidBlockNumber : Nat := 0xFFFFFFFF

/-- Result of `ItemPointerSetInvalid`. -/
def invalid_iptr : ItemPointerData := ⟨InvalidBlockNumber, 0⟩

/-- Model of `ItemPointerIsValid`: the offset number is not `InvalidOffsetNumber`. -/
def ItemPointerIsValid (p : ItemPointerData) : Bool := p.ip_posid != 0

/-- Model of `ItemPointerIsValid` applied to a possibly-NULL pointer. -/
def ItemPointerIsValid_ptr : Option ItemPointerData → Bool
  | none => false
  | some p => ItemPointerIsValid p

/-! ## Node layouts (`art.h`) -/

def MAX_PREFIX_KEY_LEN : Nat := 8

/-- Model of `ArtNodeHeader` without the type tag. -/
structure ArtNodeHeader where
  parent_iptr : ItemPointerData
  num_children : Nat
  prefix_key_len : Nat
  prefix_bytes : List Nat
deriving DecidableEq, Repr, Inhabited

/-- Model of `ArtNodeLeaf`; `data` is split into the key bytes and the locator array,
`key_len` and `num_items` are the lengths of the two parts. -/
structure ArtNodeLeaf where
  parent_iptr : ItemPointerData
  next_leaf_iptr : ItemPointerData
  last_leaf_iptr : ItemPointerData
  key : List Nat
  items : List ItemPointerData
deriving DecidableEq, Repr, Inhabited

/-- Tagged union of `ArtNodeLeaf`, `ArtNode4`, `ArtNode16`, `ArtNode48`, `ArtNode256`. -/
inductive ArtNode where
  | leaf (l : ArtNodeLeaf)
  | node4 (h : ArtNodeHeader) (keys : List Nat) (children : List ItemPointerData)
  | node16 (h : ArtNodeHeader) (keys : List Nat) (children : List ItemPointerData)
  | node48 (h : ArtNodeHeader) (keys : List Nat) (children : List ItemPointerData)
  | node256 (h : ArtNodeHeader) (children : List ItemPointerData)
deriving DecidableEq, Repr, Inhabited

/-- Header as zeroed by `palloc0`. -/
def zero_header : ArtNodeHeader :=
  { parent_iptr := zero_iptr, num_children := 0, prefix_key_len := 0,
    prefix_bytes := List.replicate 8 0 }

/-- Source `_art_alloc_node` for `NODE_4`. -/
def alloc_node4 : ArtNode :=
  .node4 zero_header (List.replicate 4 0) (List.replicate 4 zero_iptr)

/-- Source `_art_alloc_node` for `NODE_16`. -/
def alloc_node16 : ArtNode :=
  .node16 zero_header (List.replicate 16 0) (List.replicate 16 zero_iptr)

/-- Source `_art_alloc_node` for `NODE_48`. -/
def alloc_node48 : ArtNode :=
  .node48 zero_header (List.replicate 256 0) (List.replicate 48 zero_iptr)

/-- Source `_art_alloc_node` for `NODE_256`. -/
def alloc_node256 : ArtNode :=
  .node256 zero_header (List.replicate 256 zero_iptr)

/-- Header of an internal node (`none` on a leaf). -/
def ArtNode.header? : ArtNode → Option ArtNodeHeader
  | .leaf _ => none
  | .node4 h _ _ => some h
  | .node16 h _ _ => some h
  | .node48 h _ _ => some h
  | .node256 h _ => some h

/-- Source `_art_copy_header(dest, src)`. The last statement is
`ItemPointerCopy(&dest->parent_iptr, &src->parent_iptr)`, whose first argument is the
source of the copy: it overwrites `src->parent_iptr` with `dest->parent_iptr`.
Returns the pair `(dest, src)` after the call. -/
def _art_copy_header (dest src : ArtNodeHeader) : ArtNodeHeader × ArtNodeHeader :=
  let n := min MAX_PREFIX_KEY_LEN src.prefix_key_len
  ({ dest with
      num_children := src.num_children
      prefix_key_len := src.prefix_key_len
      prefix_bytes := src.prefix_bytes.take n ++ dest.prefix_bytes.drop n },
   { src with parent_iptr := dest.parent_iptr })

/-! ## Child lookup (`_art_find_child_equal`) -/

/-- First index `i < n` with `keys[i] = key`: the loop of the `NODE_4` case, and the value
of `__builtin_ctz(bitfield)` in the `NODE_16` case (`bitfield` has bit `i` set when
`keys[i] == key`, masked to the low `num_children` bits). -/
def find_key_index (keys : List Nat) (n key : Nat) : Option Nat :=
  if key ∈ keys.take n then some ((keys.take n).indexOf key) else none

/-- Source `_art_find_child_equal`; the result is the child slot's content, `none` is NULL. -/
def _art_find_child_equal (n : ArtNode) (key : Nat) : Option ItemPointerData :=
  match n with
  | .leaf _ => none
  | .node4 h keys children =>
      (find_key_index keys h.num_children key).map (fun i => children.getD i zero_iptr)
  | .node16 h keys children =>
      (find_key_index keys (min h.num_children 16) key).map (fun i => children.getD i zero_iptr)
  | .node48 _ keys children =>
      if keys.getD key 0 != 0 then some (children.getD (keys.getD key 0 - 1) zero_iptr) else none
  | .node256 _ children =>
      if ItemPointerIsValid (children.getD key zero_iptr) then some (children.getD key zero_iptr)
      else none

/-! ## Adding a child (`_add_child`) -/

/-- Loop `for (idx = 0; idx < num_children; idx++) if (key < keys[idx]) break;`. -/
def add_child_pos (keys : List Nat) (n key : Nat) : Nat :=
  ((keys.take n).takeWhile (fun x => !decide (key < x))).length

/-- Effect of `memmove(a + idx + 1, a + idx, cnt)` on the array `a`. -/
def memmove_up {α : Type} (a : List α) (idx cnt : Nat) : List α :=
  a.take (idx + 1) ++ (a.drop idx).take cnt ++ a.drop (idx + 1 + cnt)

/-- Loop `while (ItemPointerIsValid(&children[idx])) idx++;` of `_add_child_node48`
(the scan stops at the end of the array in the model). -/
def first_free_slot (children : List ItemPointerData) : Nat :=
  (children.takeWhile ItemPointerIsValid).length

/-- Source `_add_child_node256`; `num_children` is a `uint8`. -/
def _add_child_node256 (h : ArtNodeHeader) (children : List ItemPointerData)
    (key : Nat) (iptr : ItemPointerData) : ArtNode :=
  .node256 { h with num_children := (h.num_children + 1) % 256 } (children.set key iptr)

/-- Loop of the growth branch of `_add_child_node48`:
`if (n->keys[i]) new_node->children[i] = n->children[n->keys[i] - 1]`. -/
def node48_to_256_children (keys : List Nat) (children : List ItemPointerData) :
    List ItemPointerData :=
  (List.range 256).map (fun i =>
    if keys.getD i 0 != 0 then children.getD (keys.getD i 0 - 1) zero_iptr else zero_iptr)

/-- Source `_add_child_node48`. Returns the node `n` after the call and the value returned
(`none` is NULL, `some` the newly allocated larger node). -/
def _add_child_node48 (h : ArtNodeHeader) (keys : List Nat) (children : List ItemPointerData)
    (key : Nat) (iptr : ItemPointerData) : ArtNode × Option ArtNode :=
  if h.num_children < 48 then
    let idx := first_free_slot children
    (.node48 { h with num_children := (h.num_children + 1) % 256 }
        (keys.set key (idx + 1)) (children.set idx iptr), none)
  else
    let hs := _art_copy_header zero_header h
    (.node48 hs.2 keys children,
     some (_add_child_node256 hs.1 (node48_to_256_children keys children) key iptr))

/-- Loop of the growth branch of `_add_child_node16`:
`new_node->keys[n->keys[i]] = i + 1` for `i < num_children`. -/
def node16_to_48_keys (keys : List Nat) (n : Nat) : List Nat :=
  (List.range n).foldl (fun acc i => acc.set (keys.getD i 0) (i + 1)) (List.replicate 256 0)

/-- Effect of `memcpy(dst, src, n * sizeof(elem))` on the array `dst`. -/
def memcpy_arr {α : Type} (dst src : List α) (n : Nat) : List α :=
  src.take n ++ dst.drop n

/-- Source `_add_child_node16`. -/
def _add_child_node16 (h : ArtNodeHeader) (keys : List Nat) (children : List ItemPointerData)
    (key : Nat) (iptr : ItemPointerData) : ArtNode × Option ArtNode :=
  if h.num_children < 16 then
    let idx := add_child_pos keys h.num_children key
    let cnt := h.num_children - idx
    (.node16 { h with num_children := (h.num_children + 1) % 256 }
        ((memmove_up keys idx cnt).set idx key)
        ((memmove_up children idx cnt).set idx iptr), none)
  else
    let new_children := memcpy_arr (List.replicate 48 zero_iptr) children h.num_children
    let new_keys := node16_to_48_keys keys h.num_children
    let hs := _art_copy_header zero_header h
    (.node16 hs.2 keys children,
     some (_add_child_node48 hs.1 new_keys new_children key iptr).1)

/-- Source `_add_child_node4`. -/
def _add_child_node4 (h : ArtNodeHeader) (keys : List Nat) (children : List ItemPointerData)
    (key : Nat) (iptr : ItemPointerData) : ArtNode × Option ArtNode :=
  if h.num_children < 4 then
    let idx := add_child_pos keys h.num_children key
    let cnt := h.num_children - idx
    (.node4 { h with num_children := (h.num_children + 1) % 256 }
        ((memmove_up keys idx cnt).set idx key)
        ((memmove_up children idx cnt).set idx iptr), none)
  else
    let new_children := memcpy_arr (List.replicate 16 zero_iptr) children h.num_children
    let new_keys := memcpy_arr (List.replicate 16 0) keys h.num_children
    let hs := _art_copy_header zero_header h
    (.node4 hs.2 keys children,
     some (_add_child_node16 hs.1 new_keys new_children key iptr).1)

/-- Source `_add_child`: `none` is `elog(ERROR, "Unknown node type")`; otherwise the node
after the call and the returned pointer (`none` is NULL, `some` the grown node). -/
def _add_child (node : ArtNode) (key : Nat) (iptr : ItemPointerData) :
    Option (ArtNode × Option ArtNode) :=
  match node with
  | .leaf _ => none
  | .node4 h keys children => some (_add_child_node4 h keys children key iptr)
  | .node16 h keys children => some (_add_child_node16 h keys children key iptr)
  | .node48 h keys children => some (_add_child_node48 h keys children key iptr)
  | .node256 h children => some (_add_child_node256 h children key iptr, none)

/-- The node that stands for `node` after `_add_child`: the grown node when one is
returned, otherwise the node itself as modified in place. -/
def add_child_result (node : ArtNode) (key : Nat) (iptr : ItemPointerData) : Option ArtNode :=
  (_add_child node key iptr).map (fun r => r.2.getD r.1)

/-! ## Abstractions used to state the node-level properties -/

/-- The `(key byte, child)` pairs a node holds. For `Node4`/`Node16` the first `num_children`
entries of the two parallel arrays, index by index; for `Node48` every byte whose map entry
is non-zero with the child slot it designates; for `Node256` every byte whose slot holds a
valid reference. -/
def node_pairs : ArtNode → List (Nat × ItemPointerData)
  | .leaf _ => []
  | .node4 h keys children => (keys.take h.num_children).zip (children.take h.num_children)
  | .node16 h keys children => (keys.take h.num_children).zip (children.take h.num_children)
  | .node48 _ keys children =>
      (List.range 256).filterMap (fun i =>
        if keys.getD i 0 != 0 then some (i, children.getD (keys.getD i 0 - 1) zero_iptr) else none)
  | .node256 _ children =>
      (List.range 256).filterMap (fun i =>
        if ItemPointerIsValid (children.getD i zero_iptr) then some (i, children.getD i zero_iptr)
        else none)

/-- Model of `ArtNodeType` tag of a node. -/
def node_type : ArtNode → Nat
  | .leaf _ => 0
  | .node4 _ _ _ => 1
  | .node16 _ _ _ => 2
  | .node48 _ _ _ => 3
  | .node256 _ _ => 4

/-- Number of child slots of the variant. -/
def capacity : ArtNode → Nat
  | .leaf _ => 0
  | .node4 _ _ _ => 4
  | .node16 _ _ _ => 16
  | .node48 _ _ _ => 48
  | .node256 _ _ => 256

/-- A `Node4` or `Node16` whose arrays have the declared capacity, whose child count does not
exceed it and whose first `num_children` keys are strictly ascending. -/
def sorted_node : ArtNode → Prop
  | .node4 h keys children =>
      keys.length = 4 ∧ children.length = 4 ∧ h.num_children ≤ 4 ∧
      (keys.take h.num_children).Pairwise (· < ·)
  | .node16 h keys children =>
      keys.length = 16 ∧ children.length = 16 ∧ h.num_children ≤ 16 ∧
      (keys.take h.num_children).Pairwise (· < ·)
  | _ => False

/-- The node is a `Node4`, or a `Node16` that is not full: `_add_child` yields a `Node4` or
`Node16` again. -/
def stays_small : ArtNode → Prop
  | .node4 _ _ _ => True
  | .node16 h _ _ => h.num_children < 16
  | _ => False

/-- Well-formed internal node. `Node4`/`Node16`: arrays of the declared capacity, child count
within it, used keys strictly ascending bytes, used children valid. `Node48`: a 256-entry map
into 48 slots, every mapped slot valid, `num_children` equal to the number of occupied
slots and to the number of mapped bytes. `Node256`: 256 slots. -/
def well_formed : ArtNode → Prop
  | .leaf _ => False
  | .node4 h keys children =>
      keys.length = 4 ∧ children.length = 4 ∧ h.num_children ≤ 4 ∧
      (keys.take h.num_children).Pairwise (· < ·) ∧
      (∀ x ∈ keys.take h.num_children, x < 256) ∧
      (∀ c ∈ children.take h.num_children, ItemPointerIsValid c = true)
  | .node16 h keys children =>
      keys.length = 16 ∧ children.length = 16 ∧ h.num_children ≤ 16 ∧
      (keys.take h.num_children).Pairwise (· < ·) ∧
      (∀ x ∈ keys.take h.num_children, x < 256) ∧
      (∀ c ∈ children.take h.num_children, ItemPointerIsValid c = true)
  | .node48 h keys children =>
      keys.length = 256 ∧ children.length = 48 ∧ h.num_children ≤ 48 ∧
      (∀ x ∈ keys, x ≠ 0 → ItemPointerIsValid (children.getD (x - 1) zero_iptr) = true) ∧
      children.countP ItemPointerIsValid = h.num_children ∧
      keys.countP (fun x => x != 0) = h.num_children
  | .node256 _ children => children.length = 256

/-- Number of children a node holds: the child count of a `Node4`/`Node16`, the number of
mapped key bytes of a `Node48`, the number of valid slots of a `Node256`. -/
def children_held : ArtNode → Nat
  | .leaf _ => 0
  | .node4 h _ _ => h.num_children
  | .node16 h _ _ => h.num_children
  | .node48 _ keys _ => keys.countP (fun x => x != 0)
  | .node256 _ children => children.countP ItemPointerIsValid

/-- Whether `_add_child` returned a newly allocated (grown) node. -/
def add_child_grows (node : ArtNode) (key : Nat) (iptr : ItemPointerData) : Bool :=
  match _add_child node key iptr with
  | some (_, some _) => true
  | _ => false

/-- What `_add_child(node, k, c)` must establish for the node `r` that stands for `node`
afterwards: `r` is well formed, maps `k` to `c`, maps every other byte as `node` did, holds
one child more, and is of the next larger variant exactly when `node` was full. -/
def add_child_post (node : ArtNode) (k : Nat) (c : ItemPointerData) (r : ArtNode) : Prop :=
  well_formed r ∧
  _art_find_child_equal r k = some c ∧
  (∀ k', k' ≠ k → _art_find_child_equal r k' = _art_find_child_equal node k') ∧
  children_held r = children_held node + 1 ∧
  node_type r
    = (if children_held node < capacity node then node_type node else node_type node + 1)

/-- Insertion of `v` before position `i` of a list. -/
def ins_at {α : Type} (xs : List α) (i : Nat) (v : α) : List α := xs.take i ++ v :: xs.drop i

/-- Insertion of a pair into a list of pairs ordered by key byte, before the first pair
with a larger key. -/
def insert_pair (S : List (Nat × ItemPointerData)) (kc : Nat × ItemPointerData) :
    List (Nat × ItemPointerData) :=
  ins_at S (((S.map Prod.fst).takeWhile (fun x => !decide (kc.1 < x))).length) kc

/-- The pairs of a list ordered by key byte (insertion sort). -/
def sort_pairs (L : List (Nat × ItemPointerData)) : List (Nat × ItemPointerData) :=
  L.foldl insert_pair []

/-- The `Node4` (up to 4 pairs) or `Node16` (up to 16 pairs) with zero header fields that
stores the pairs `S` in its leading slots and zeroes in the others. -/
def canon_small (S : List (Nat × ItemPointerData)) : ArtNode :=
  if S.length ≤ 4 then
    .node4 { zero_header with num_children := S.length }
      (S.map Prod.fst ++ List.replicate (4 - S.length) 0)
      (S.map Prod.snd ++ List.replicate (4 - S.length) zero_iptr)
  else
    .node16 { zero_header with num_children := S.length }
      (S.map Prod.fst ++ List.replicate (16 - S.length) 0)
      (S.map Prod.snd ++ List.replicate (16 - S.length) zero_iptr)

/-- Successive `_add_child` calls, each applied to the node that stands for the previous one
(`add_child_result`). -/
def add_children (node : ArtNode) (kcs : List (Nat × ItemPointerData)) : Option ArtNode :=
  kcs.foldl (fun acc kc => acc.bind (fun n => add_child_result n kc.1 kc.2)) (some node)

end PgArt

namespace PgArt

/-! ## Keys (`art.c`) -/

/-- Source `_art_compare_key`. -/
def _art_compare_key (a b : Nat) : Int := (a : Int) - (b : Int)

/-- Model of `ArtTuple`: the formed key (`key_len` is the length of `key`) and the row's locator. -/
structure ArtTuple where
  key : List Nat
  iptr : ItemPointerData
deriving DecidableEq, Repr, Inhabited

/-- Model of `key_len` of an `ArtTuple` (a `uint32_t`). -/
def ArtTuple.key_len (t : ArtTuple) : Nat := t.key.length

/-- Source `_art_form_key`, variable-width attribute (`attlen == -1`): the value's bytes
followed by one byte left zero by `palloc0`. -/
def _art_form_key_varlena (value : List Nat) (iptr : ItemPointerData) : ArtTuple :=
  { key := value ++ [0], iptr := iptr }

/-- Source `_art_form_key`, fixed-width attribute: the bytes of the value in reversed order. -/
def _art_form_key_fixed (value_bytes : List Nat) (iptr : ItemPointerData) : ArtTuple :=
  { key := value_bytes.reverse, iptr := iptr }

/-- Model of `key[i]` on a key buffer; a read past the end of the buffer yields 0 in the model. -/
def key_at (key : List Nat) (i : Nat) : Nat := key.getD i 0

/-! ## Leaves -/

/-- Bytes of an `ItemPointerData` in memory (`bi_hi`, `bi_lo`, `ip_posid`, each a
little-endian `uint16`). -/
def iptr_bytes (p : ItemPointerData) : List Nat :=
  [p.ip_blkid / 65536 % 256, p.ip_blkid / 65536 / 256 % 256,
   p.ip_blkid % 65536 % 256, p.ip_blkid % 65536 / 256,
   p.ip_posid % 256, p.ip_posid / 256 % 256]

/-- The flexible array `data` of a leaf: the key bytes followed by the locator array. -/
def ArtNodeLeaf.data (l : ArtNodeLeaf) : List Nat :=
  l.key ++ (l.items.map iptr_bytes).flatten

/-- Model of `leaf->data[i]`; a read past the end of the leaf yields 0 in the model. -/
def leaf_data_at (l : ArtNodeLeaf) (i : Nat) : Nat := l.data.getD i 0

/-- Source `_art_leaf_matches`; `key_len` is the `uint16` parameter. The result is 0 when the
leaf matches (the sign of a non-zero `memcmp` result is not used by any caller). -/
def _art_leaf_matches (n : ArtNodeLeaf) (key : List Nat) (key_len : Nat) : Nat :=
  if n.key.length != key_len then 1
  else if n.data.take key_len == key.take key_len then 0 else 1

/-- Loop `for (; idx < max_cmp; idx++) if (a[idx] != b[idx]) return idx;` followed by
`return idx`: `as` and `bs` hold the bytes of the two buffers from the current index on (a
read past the end of a buffer yields 0 in the model) and `todo` is `max_cmp - idx`. -/
def mismatch_loop : List Nat → List Nat → Nat → Nat → Nat
  | _, _, 0, idx => idx
  | as, bs, todo + 1, idx =>
      if as.headD 0 != bs.headD 0 then idx else mismatch_loop as.tail bs.tail todo (idx + 1)

/-- Source `_art_longest_common_prefix`; `max_cmp` is an `int` and may be negative, in which
case the loop body never runs. -/
def _art_longest_common_prefix (l1 l2 : ArtNodeLeaf) (depth : Nat) : Nat :=
  let max_cmp := min l1.key.length l2.key.length - depth
  mismatch_loop (l1.data.drop depth) (l2.data.drop depth) max_cmp 0

/-! ## Pages (PostgreSQL page layout, `bufpage.c`) -/

def BLCKSZ : Nat := 8192

/-- Model of `MAXALIGN` for an 8-byte maximum alignment. -/
def MAXALIGN (n : Nat) : Nat := (n + 7) / 8 * 8

def SizeOfPageHeaderData : Nat := 24
def sizeof_ItemIdData : Nat := 4
def sizeof_ItemPointerData : Nat := 6
def sizeof_ArtDataPageOpaqueData : Nat := 12
def sizeof_ArtNodeLeaf : Nat := 24
def sizeof_ArtNode4 : Nat := 46
def sizeof_ArtNode16 : Nat := 130
def sizeof_ArtNode48 : Nat := 562
def sizeof_ArtNode256 : Nat := 1554

def ART_METADATA_NODE_BLKNO : Nat := 0
def ART_ROOT_NODE_BLKNO : Nat := 1
def ART_LEAF_NODE_BLKNO : Nat := 2
def ART_ROOT_NODE_ITEM : Nat := 1
def ART_NODE_PAGE : Nat := 1
def ART_LEAF_PAGE : Nat := 2

/-- Macro `ART_PAGE_SIZE` of `art_insert.c`. -/
def ART_PAGE_SIZE : Nat :=
  BLCKSZ - MAXALIGN SizeOfPageHeaderData - MAXALIGN sizeof_ItemPointerData
    - MAXALIGN sizeof_ArtDataPageOpaqueData

/-- Source `_art_node_size`. -/
def _art_node_size : ArtNode → Nat
  | .leaf l => sizeof_ArtNodeLeaf + l.key.length + l.items.length * sizeof_ItemPointerData
  | .node4 _ _ _ => sizeof_ArtNode4
  | .node16 _ _ _ => sizeof_ArtNode16
  | .node48 _ _ _ => sizeof_ArtNode48
  | .node256 _ _ => sizeof_ArtNode256

/-- A data page: the fields of `ArtDataPageOpaqueData`, the line pointer array (`none` is an
unused line pointer) with the item each pointer designates, and the `dirty` flag of the
page's `ArtPageEntry`. -/
structure ArtPage where
  page_flags : Nat
  n_total : Nat
  n_deleted : Nat
  deleted_item_size : Nat
  right_link : Nat
  items : List (Option ArtNode)
  dirty : Bool
deriving Repr, Inhabited

/-- Source `_art_init_data_page` on a page entry made by `_art_new_page` / `_art_get_buffer`. -/
def _art_init_data_page (flags : Nat) (dirty : Bool) : ArtPage :=
  { page_flags := flags, n_total := 0, n_deleted := 0, deleted_item_size := 0,
    right_link := InvalidBlockNumber, items := [], dirty := dirty }

/-- Bytes taken by the stored items, each rounded up by `MAXALIGN`. -/
def page_used (p : ArtPage) : Nat :=
  (p.items.map (fun it => match it with
    | none => 0
    | some n => MAXALIGN (_art_node_size n))).sum

def pd_lower (p : ArtPage) : Nat := SizeOfPageHeaderData + sizeof_ItemIdData * p.items.length
def pd_special : Nat := BLCKSZ - MAXALIGN sizeof_ArtDataPageOpaqueData
def pd_upper (p : ArtPage) : Nat := pd_special - page_used p

/-- Model of `PageGetExactFreeSpace`. -/
def PageGetExactFreeSpace (p : ArtPage) : Nat := pd_upper p - pd_lower p

/-- Model of `PageGetFreeSpace`: room for one more item and its line pointer. -/
def PageGetFreeSpace (p : ArtPage) : Nat :=
  if PageGetExactFreeSpace p < sizeof_ItemIdData then 0
  else PageGetExactFreeSpace p - sizeof_ItemIdData

/-- Model of `PageAddItem(page, item, size, InvalidOffsetNumber, false, false)`: the item goes to the
first offset past the line pointer array; the result offset is `InvalidOffsetNumber` (0), and
the page unchanged, when the item and its line pointer do not fit. -/
def PageAddItem (p : ArtPage) (node : ArtNode) : ArtPage × Nat :=
  if pd_lower p + sizeof_ItemIdData + MAXALIGN (_art_node_size node) > pd_upper p then (p, 0)
  else ({ p with items := p.items ++ [some node] }, p.items.length + 1)

/-- Model of `PageIndexTupleOverwrite`: `none` is `elog(ERROR)` (offset out of range, or a line pointer
without storage); the page is unchanged (the call returns false, which no caller checks) when
the new size does not fit. -/
def PageIndexTupleOverwrite (p : ArtPage) (offnum : Nat) (node : ArtNode) : Option ArtPage :=
  if offnum = 0 ∨ offnum > p.items.length then none
  else match p.items.getD (offnum - 1) none with
    | none => none
    | some old =>
        if MAXALIGN (_art_node_size node)
            > MAXALIGN (_art_node_size old) + (pd_upper p - pd_lower p) then some p
        else some { p with items := p.items.set (offnum - 1) (some node) }

/-- Model of `PageIndexTupleDeleteNoCompact`: the line pointer becomes unused, or is removed when it
is the last one; `none` is `elog(ERROR)`. -/
def PageIndexTupleDeleteNoCompact (p : ArtPage) (offnum : Nat) : Option ArtPage :=
  if offnum = 0 ∨ offnum > p.items.length then none
  else match p.items.getD (offnum - 1) none with
    | none => none
    | some _ =>
        if offnum < p.items.length then some { p with items := p.items.set (offnum - 1) none }
        else some { p with items := p.items.dropLast }

/-! ## The index relation -/

/-- Number of binary digits of `p`, by repeated halving (`fuel` bounds the number of steps). -/
def bit_length_loop : Nat → Nat → Nat
  | 0, _ => 0
  | fuel + 1, p => if p = 0 then 0 else bit_length_loop fuel (p / 2) + 1

/-- Number of binary digits of `p` (0 for 0). -/
def bit_length (p : Nat) : Nat := bit_length_loop p p

/-- The multiple count `q` with `q * 2 ^ s` nearest to `p`, a tie going to the even `q`
(IEEE 754 round-to-nearest-even at the binary position `s`). -/
def round_half_even (p s : Nat) : Nat :=
  let q := p / 2 ^ s
  let r := p % 2 ^ s
  if 2 * r > 2 ^ s ∨ (2 * r = 2 ^ s ∧ q % 2 = 1) then q + 1 else q

/-- The natural number `p` rounded to 53 significant binary digits, the precision of a C
`double` (the value stays a natural number; below `2 ^ 53` nothing changes). -/
def round_to_double (p : Nat) : Nat :=
  let s := bit_length p - 53
  round_half_even p s * 2 ^ s

/-- The C statement `page_freespace *= t` on a `Size` variable with the `double`
`t = mant / 2 ^ exp`: the variable is converted to `double`, the product is rounded to
`double` (IEEE 754 binary64, round to nearest, ties to even), and the conversion back to
`Size` drops the fractional part. The product is kept as the natural number
`round_to_double (n * mant)` in units of `2 ^ -exp`; rounding to 53 significant digits does
not depend on the unit, and a product so small that a `double` holds it with fewer digits
is below 1 and becomes 0 either way. -/
def size_times_double (n mant exp : Nat) : Nat :=
  round_to_double (round_to_double n * mant) / 2 ^ exp

/-- Tunables (`art.c`): `update_parent_iptr`, and the `double` `page_leaf_insert_treshold`
(range 0.0 to 1.0) as the binary fraction `leaf_treshold_mant / 2 ^ leaf_treshold_exp`, which
every finite non-negative `double` is, with `leaf_treshold_mant < 2 ^ 53`. -/
structure ArtConfig where
  update_parent_iptr : Bool
  leaf_treshold_mant : Nat
  leaf_treshold_exp : Nat
deriving DecidableEq, Repr, Inhabited

/-- Default settings: back references maintained, and the reservation fraction the `double`
nearest to 0.8, `7205759403792794 / 2 ^ 53` (bit pattern `0x3FE999999999999A`). The
initialiser `0.8f` of the variable is replaced by the boot value `0.8` when
`DefineCustomRealVariable` registers it. -/
def default_config : ArtConfig :=
  { update_parent_iptr := true, leaf_treshold_mant := 7205759403792794, leaf_treshold_exp := 53 }

/-- The pages of the index by block number (block 0, the metadata page, holds no item) and
the two tail block numbers of `ArtMetaDataPageOpaqueData`. -/
structure ArtIndex where
  pages : List ArtPage
  last_internal_node_blk_num : Nat
  last_leaf_blk_num : Nat
deriving Repr, Inhabited

/-- The index after `artbuild` on an empty table, or `artbuildempty`: metadata page, one
internal-node page holding the root `Node256` at item 1, one empty leaf page. -/
def empty_index : ArtIndex :=
  { pages :=
      [ _art_init_data_page 0 false,
        (PageAddItem (_art_init_data_page ART_NODE_PAGE false) alloc_node256).1,
        _art_init_data_page ART_LEAF_PAGE false ],
    last_internal_node_blk_num := ART_ROOT_NODE_BLKNO,
    last_leaf_blk_num := ART_LEAF_NODE_BLKNO }

/-- The page of a block. -/
def get_page (S : ArtIndex) (blk : Nat) : Option ArtPage := S.pages[blk]?

/-- Model of `PageGetItem(page, PageGetItemId(page, off))`: the node stored at an item pointer; `none`
when the pointer designates no stored item. -/
def get_node (S : ArtIndex) (iptr : ItemPointerData) : Option ArtNode :=
  if iptr.ip_posid = 0 then none
  else match S.pages[iptr.ip_blkid]? with
    | none => none
    | some p => p.items.getD (iptr.ip_posid - 1) none

/-- Replacement of the page of a block. -/
def set_page (S : ArtIndex) (blk : Nat) (p : ArtPage) : ArtIndex :=
  { S with pages := S.pages.set blk p }

/-- A write through a pointer into a page: the item at `iptr` is replaced, nothing else
changes (an item pointer that designates no stored item leaves the index as it is). -/
def write_in_place (S : ArtIndex) (iptr : ItemPointerData) (node : ArtNode) : ArtIndex :=
  match get_node S iptr, get_page S iptr.ip_blkid with
  | some _, some page =>
      set_page S iptr.ip_blkid
        { page with items := page.items.set (iptr.ip_posid - 1) (some node) }
  | _, _ => S

/-- Number of line pointers of the index plus one: a bound on the length of every cycle-free
chain of item pointers, used as recursion fuel. -/
def store_fuel (S : ArtIndex) : Nat := (S.pages.map (fun p => p.items.length)).sum + 1

/-! ## Prefix comparison and minimum leaf (`art_utils.c`) -/

/-- First occupied slot of a `Node48` key map / `Node256` child array, scanning from 0. -/
def first_index_where {α : Type} (p : α → Bool) (l : List α) : Nat :=
  (l.takeWhile (fun x => !p x)).length

/-- Source `_art_minimum_leaf`; `none` when the descent does not reach a leaf. -/
def _art_minimum_leaf (S : ArtIndex) : Nat → ArtNode → Option ArtNodeLeaf
  | 0, _ => none
  | fuel + 1, n =>
      match n with
      | .leaf l => some l
      | .node4 _ _ children =>
          (get_node S (children.getD 0 zero_iptr)).bind (_art_minimum_leaf S fuel)
      | .node16 _ _ children =>
          (get_node S (children.getD 0 zero_iptr)).bind (_art_minimum_leaf S fuel)
      | .node48 _ keys children =>
          let idx := first_index_where (fun x => x != 0) keys
          (get_node S (children.getD (keys.getD idx 0 - 1) zero_iptr)).bind
            (_art_minimum_leaf S fuel)
      | .node256 _ children =>
          let idx := first_index_where ItemPointerIsValid children
          (get_node S (children.getD idx zero_iptr)).bind (_art_minimum_leaf S fuel)

/-- Model of `a - b` in `uint32` arithmetic. -/
def sub_u32 (a b : Nat) : Nat := (a + 4294967296 - b % 4294967296) % 4294967296

/-- Source `_art_prefix_mismatch`; `none` when the minimum leaf cannot be reached. -/
def _art_prefix_mismatch (S : ArtIndex) (h : ArtNodeHeader) (node : ArtNode)
    (key : List Nat) (key_len : Nat) (depth : Nat) : Option Nat :=
  let max_cmp := min (min MAX_PREFIX_KEY_LEN h.prefix_key_len) (sub_u32 key_len depth)
  let idx := mismatch_loop h.prefix_bytes (key.drop depth) max_cmp 0
  if idx < max_cmp then some idx
  else if h.prefix_key_len > MAX_PREFIX_KEY_LEN then
    match _art_minimum_leaf S (store_fuel S) node with
    | none => none
    | some l =>
        let max_cmp2 := min l.key.length key_len - depth
        some (mismatch_loop (l.data.drop (depth + idx)) (key.drop (depth + idx))
          (max_cmp2 - idx) idx)
  else some idx

/-- Source `_art_check_prefix`; `key_len - depth` is an `int` and may be negative, in which
case the loop body never runs. -/
def _art_check_prefix (h : ArtNodeHeader) (key : List Nat) (key_len : Nat) (depth : Nat) : Nat :=
  let max_cmp := min (min h.prefix_key_len MAX_PREFIX_KEY_LEN) (key_len - depth)
  mismatch_loop h.prefix_bytes (key.drop depth) max_cmp 0

end PgArt

namespace PgArt

/-! ## Insertion engine (`art_insert.c`) -/

/-- Replacement of the header of an internal node (a leaf is left as it is). -/
def ArtNode.with_header (n : ArtNode) (h : ArtNodeHeader) : ArtNode :=
  match n with
  | .leaf l => .leaf l
  | .node4 _ keys children => .node4 h keys children
  | .node16 _ keys children => .node16 h keys children
  | .node48 _ keys children => .node48 h keys children
  | .node256 _ children => .node256 h children

/-- Assignment to `parent_iptr`, which the leaf layout and the header share. -/
def ArtNode.with_parent (n : ArtNode) (p : ItemPointerData) : ArtNode :=
  match n with
  | .leaf l => .leaf { l with parent_iptr := p }
  | .node4 h keys children => .node4 { h with parent_iptr := p } keys children
  | .node16 h keys children => .node16 { h with parent_iptr := p } keys children
  | .node48 h keys children => .node48 { h with parent_iptr := p } keys children
  | .node256 h children => .node256 { h with parent_iptr := p } children

/-- Model of `n` bytes read from `a` starting at `off` (a read past the end yields 0 in the model). -/
def read_bytes (a : Nat → Nat) (off n : Nat) : List Nat :=
  (List.range n).map (fun i => a (off + i))

/-- Source `_get_page_with_free_space`: the index afterwards and the block number of the page
returned. `page_freespace *= page_leaf_insert_treshold` is the `double` product stored back
into the `Size` variable (`size_times_double`). -/
def _get_page_with_free_space (cfg : ArtConfig) (S : ArtIndex) (pageType : Nat)
    (itemsz : Nat) : ArtIndex × Nat :=
  let last := if pageType = ART_NODE_PAGE then S.last_internal_node_blk_num
              else S.last_leaf_blk_num
  let last_page := (get_page S last).getD (_art_init_data_page 0 false)
  let page_freespace := PageGetFreeSpace last_page
  let page_freespace :=
    if pageType = ART_LEAF_PAGE then
      size_times_double page_freespace cfg.leaf_treshold_mant cfg.leaf_treshold_exp
    else page_freespace
  if page_freespace > MAXALIGN itemsz then (S, last)
  else
    let new_blk := S.pages.length
    let new_page :=
      _art_init_data_page (if pageType = ART_NODE_PAGE then ART_NODE_PAGE else ART_LEAF_PAGE) false
    let S1 := set_page S last { last_page with right_link := new_blk }
    let S2 := { S1 with pages := S1.pages ++ [new_page] }
    if pageType = ART_NODE_PAGE then ({ S2 with last_internal_node_blk_num := new_blk }, new_blk)
    else ({ S2 with last_leaf_blk_num := new_blk }, new_blk)

/-- Source `_page_add_node`: the index afterwards and the item pointer of the new node entry
(its offset is `InvalidOffsetNumber` when `PageAddItem` found no room). -/
def _page_add_node (S : ArtIndex) (blk : Nat) (node : ArtNode) : ArtIndex × ItemPointerData :=
  let page := (get_page S blk).getD (_art_init_data_page 0 false)
  let r := PageAddItem page node
  (set_page S blk { r.1 with dirty := true, n_total := (r.1.n_total + 1) % 65536 },
   { ip_blkid := blk, ip_posid := r.2 })

/-- Source `_page_update_node`; `none` is the `elog(ERROR)` of `PageIndexTupleOverwrite`. -/
def _page_update_node (S : ArtIndex) (iptr : ItemPointerData) (node : ArtNode) :
    Option ArtIndex :=
  match get_page S iptr.ip_blkid with
  | none => none
  | some page =>
      (PageIndexTupleOverwrite page iptr.ip_posid node).map
        (fun p => set_page S iptr.ip_blkid { p with dirty := true })

/-- Source `_add_leaf`: the index afterwards, the new entry's item pointer and the leaf. -/
def _add_leaf (cfg : ArtConfig) (S : ArtIndex) (parentIptr : Option ItemPointerData)
    (artTuple : ArtTuple) : ArtIndex × ItemPointerData × ArtNodeLeaf :=
  let leaf : ArtNodeLeaf :=
    { parent_iptr :=
        match parentIptr with
        | some p => if cfg.update_parent_iptr then p else zero_iptr
        | none => zero_iptr
      next_leaf_iptr := zero_iptr
      last_leaf_iptr := zero_iptr
      key := artTuple.key
      items := [artTuple.iptr] }
  let r := _get_page_with_free_space cfg S ART_LEAF_PAGE (_art_node_size (.leaf leaf))
  let a := _page_add_node r.1 r.2 (.leaf leaf)
  (a.1, a.2, leaf)

/-- The loop of source `_update_leaf_item`, entered with the current `leaf` of the chain at
`leaf_iptr`; `init_iptr` is the entry the function was called with. `none`: the chain does
not end, a reference designates no leaf, or `PageIndexTupleOverwrite` raised an error. -/
def _update_leaf_item_loop (cfg : ArtConfig) (artTuple : ArtTuple) (init_iptr : ItemPointerData) :
    Nat → ArtIndex → ItemPointerData → ArtNodeLeaf → Option ArtIndex
  | 0, _, _, _ => none
  | fuel + 1, S, leaf_iptr, leaf =>
      if ItemPointerIsValid leaf.last_leaf_iptr then
        match get_node S leaf.last_leaf_iptr with
        | some (.leaf l) =>
            _update_leaf_item_loop cfg artTuple init_iptr fuel S leaf.last_leaf_iptr l
        | _ => none
      else
        let leaf_page := (get_page S leaf_iptr.ip_blkid).getD (_art_init_data_page 0 false)
        if PageGetFreeSpace leaf_page > MAXALIGN sizeof_ItemPointerData then
          let new_leaf : ArtNodeLeaf :=
            { parent_iptr := if cfg.update_parent_iptr then leaf.parent_iptr else zero_iptr
              next_leaf_iptr := invalid_iptr
              last_leaf_iptr := invalid_iptr
              key := leaf.key
              items := leaf.items ++ [artTuple.iptr] }
          _page_update_node S leaf_iptr (.leaf new_leaf)
        else
          let a := _add_leaf cfg S (some leaf.parent_iptr) artTuple
          let leaf1 := { leaf with next_leaf_iptr := a.2.1 }
          match _page_update_node a.1 leaf_iptr (.leaf leaf1) with
          | none => none
          | some S2 =>
              -- `init_leaf` points into the page: it reads the entry as it is now
              match get_node S2 init_iptr with
              | some (.leaf init_leaf) =>
                  _page_update_node S2 init_iptr (.leaf { init_leaf with last_leaf_iptr := a.2.1 })
              | _ => none

/-- Source `_update_leaf_item`. -/
def _update_leaf_item (cfg : ArtConfig) (S : ArtIndex) (leaf_iptr : ItemPointerData)
    (leaf : ArtNodeLeaf) (artTuple : ArtTuple) : Option ArtIndex :=
  _update_leaf_item_loop cfg artTuple leaf_iptr (store_fuel S) S leaf_iptr leaf

/-- Source `_replace_child_iptr`: the node after the child slot found by
`_art_find_child_equal` was overwritten; `none` when no slot is found (NULL dereference). -/
def _replace_child_iptr (node : ArtNode) (key : Nat) (iptr : ItemPointerData) : Option ArtNode :=
  match node with
  | .leaf _ => none
  | .node4 h keys children =>
      (find_key_index keys h.num_children key).map (fun i => .node4 h keys (children.set i iptr))
  | .node16 h keys children =>
      (find_key_index keys (min h.num_children 16) key).map
        (fun i => .node16 h keys (children.set i iptr))
  | .node48 h keys children =>
      if keys.getD key 0 != 0 then some (.node48 h keys (children.set (keys.getD key 0 - 1) iptr))
      else none
  | .node256 h children =>
      if ItemPointerIsValid (children.getD key zero_iptr) then
        some (.node256 h (children.set key iptr))
      else none

/-- Source `_update_child_node_parent_iptr`: the parent reference of the node at `childIptr`
is written in place (a reference that designates no item leaves the index as it is). -/
def _update_child_node_parent_iptr (cfg : ArtConfig) (S : ArtIndex)
    (childIptr parentIptr : ItemPointerData) : ArtIndex :=
  match get_node S childIptr with
  | some child =>
      if cfg.update_parent_iptr then write_in_place S childIptr (child.with_parent parentIptr)
      else S
  | none => S

/-- Child references visited by source `_update_child_list_parent_iptr`. -/
def child_list (node : ArtNode) : List ItemPointerData :=
  match node with
  | .leaf _ => []
  | .node4 h _ children => children.take h.num_children
  | .node16 h _ children => children.take h.num_children
  | .node48 h _ children => children.take h.num_children
  | .node256 _ children => children.filter ItemPointerIsValid

/-- Source `_update_child_list_parent_iptr`. -/
def _update_child_list_parent_iptr (cfg : ArtConfig) (S : ArtIndex)
    (node_iptr : ItemPointerData) (node : ArtNode) : ArtIndex :=
  (child_list node).foldl (fun acc c => _update_child_node_parent_iptr cfg acc c node_iptr) S

/-- Source `_page_replace_node`: the index afterwards and the new node entry's item pointer
(`none` is the NULL result of the in-place branch). The outer `none` is an error. -/
def _page_replace_node (cfg : ArtConfig) (S : ArtIndex) (old_iptr : ItemPointerData)
    (oldNodeSize : Nat) (node : ArtNode) (parent_iptr : Option ItemPointerData) (key : Nat) :
    Option (ArtIndex × Option ItemPointerData) :=
  match get_page S old_iptr.ip_blkid with
  | none => none
  | some old_page =>
      if PageGetExactFreeSpace old_page ≥ MAXALIGN (_art_node_size node - oldNodeSize) then
        (PageIndexTupleOverwrite old_page old_iptr.ip_posid node).map
          (fun p => (set_page S old_iptr.ip_blkid p, none))
      else
        match PageIndexTupleDeleteNoCompact old_page old_iptr.ip_posid with
        | none => none
        | some p =>
            let S1 := set_page S old_iptr.ip_blkid
              { p with dirty := true, n_deleted := (p.n_deleted + 1) % 65536,
                       deleted_item_size := (p.deleted_item_size + oldNodeSize) % 65536 }
            let r := _get_page_with_free_space cfg S1 ART_NODE_PAGE (_art_node_size node)
            let a := _page_add_node r.1 r.2 node
            match parent_iptr with
            | none => none
            | some pi =>
                match get_node a.1 pi with
                | none => none
                | some parent_node =>
                    match _replace_child_iptr parent_node key a.2 with
                    | none => none
                    | some parent1 =>
                        (_page_update_node a.1 pi parent1).map (fun S2 => (S2, some a.2))

/-- The part of source `_node_insert_recursive` that splits a leaf whose key differs from the
new key: a new leaf, a new `Node4` over both, and the parent's slot redirected. -/
def split_leaf (cfg : ArtConfig) (S : ArtIndex) (leaf_iptr : ItemPointerData)
    (leaf : ArtNodeLeaf) (parent : Option (ItemPointerData × ArtNode)) (artTuple : ArtTuple)
    (depth : Nat) : Option ArtIndex :=
  let a := _add_leaf cfg S none artTuple
  let new_leaf := a.2.2
  let longest := _art_longest_common_prefix leaf new_leaf depth
  let h4 : ArtNodeHeader :=
    { zero_header with
        prefix_key_len := longest % 256
        prefix_bytes := memcpy_arr zero_header.prefix_bytes
          (read_bytes (key_at artTuple.key) depth (min MAX_PREFIX_KEY_LEN longest))
          (min MAX_PREFIX_KEY_LEN longest) }
  let n4 := ArtNode.node4 h4 (List.replicate 4 0) (List.replicate 4 zero_iptr)
  match _add_child n4 (leaf_data_at leaf (depth + longest)) leaf_iptr with
  | none => none
  | some r1 =>
    match _add_child r1.1 (leaf_data_at new_leaf (depth + longest)) a.2.1 with
    | none => none
    | some r2 =>
      match parent with
      | none => none
      | some (parent_iptr, parent_node) =>
        let n4 := if cfg.update_parent_iptr then r2.1.with_parent parent_iptr else r2.1
        let pg := _get_page_with_free_space cfg a.1 ART_NODE_PAGE (_art_node_size n4)
        let b := _page_add_node pg.1 pg.2 n4
        let S3 : Option ArtIndex :=
          if cfg.update_parent_iptr then
            _page_update_node b.1 a.2.1 (.leaf { new_leaf with parent_iptr := b.2 })
          else some b.1
        match S3 with
        | none => none
        | some S3 =>
          match _replace_child_iptr parent_node (key_at artTuple.key (depth - 1)) b.2 with
          | none => none
          | some parent1 => _page_update_node S3 parent_iptr parent1

/-- The part of source `_node_insert_recursive` that splits the compressed prefix of an
internal node at `prefix_diff`. -/
def split_node_pfx (cfg : ArtConfig) (S : ArtIndex) (node_iptr : ItemPointerData)
    (node : ArtNode) (h : ArtNodeHeader) (parent : Option (ItemPointerData × ArtNode))
    (artTuple : ArtTuple) (depth prefix_diff : Nat) : Option ArtIndex :=
  let h4 : ArtNodeHeader :=
    { zero_header with
        prefix_key_len := prefix_diff
        prefix_bytes := memcpy_arr zero_header.prefix_bytes h.prefix_bytes
          (min MAX_PREFIX_KEY_LEN prefix_diff) }
  let n4 := ArtNode.node4 h4 (List.replicate 4 0) (List.replicate 4 zero_iptr)
  let new_len := (h.prefix_key_len + 256 - (prefix_diff + 1) % 256) % 256
  -- the new Node4 with the existing node as its first child, and the existing node's
  -- shortened prefix
  let step : Option (ArtNode × ArtNodeHeader) :=
    if h.prefix_key_len ≤ MAX_PREFIX_KEY_LEN then
      (_add_child n4 (h.prefix_bytes.getD prefix_diff 0) node_iptr).map (fun r =>
        let moved := memcpy_arr h.prefix_bytes
          (read_bytes (fun i => h.prefix_bytes.getD i 0) (prefix_diff + 1)
            (min MAX_PREFIX_KEY_LEN new_len))
          (min MAX_PREFIX_KEY_LEN new_len)
        (r.1, { h with
                  prefix_key_len := new_len
                  prefix_bytes := moved.take new_len
                    ++ List.replicate (MAX_PREFIX_KEY_LEN - new_len) 0 }))
    else
      match _art_minimum_leaf S (store_fuel S) (node.with_header { h with prefix_key_len := new_len })
      with
      | none => none
      | some minimum_leaf =>
          (_add_child n4 (leaf_data_at minimum_leaf (depth + prefix_diff)) node_iptr).map (fun r =>
            (r.1, { h with
                      prefix_key_len := new_len
                      prefix_bytes := memcpy_arr h.prefix_bytes
                        (read_bytes (leaf_data_at minimum_leaf) (depth + prefix_diff + 1)
                          (min MAX_PREFIX_KEY_LEN new_len))
                        (min MAX_PREFIX_KEY_LEN new_len) }))
  match step with
  | none => none
  | some (n4, h1) =>
    match _page_update_node S node_iptr (node.with_header h1) with
    | none => none
    | some S1 =>
      let a := _add_leaf cfg S1 none artTuple
      match _add_child n4 (key_at artTuple.key (depth + prefix_diff)) a.2.1 with
      | none => none
      | some r2 =>
        let n4 := r2.1.with_parent node_iptr
        let pg := _get_page_with_free_space cfg a.1 ART_NODE_PAGE (_art_node_size n4)
        let b := _page_add_node pg.1 pg.2 n4
        let S3 : Option ArtIndex :=
          if cfg.update_parent_iptr then
            _page_update_node b.1 a.2.1 (.leaf { a.2.2 with parent_iptr := b.2 })
          else some b.1
        match S3, parent with
        | some S3, some (parent_iptr, parent_node) =>
          match _replace_child_iptr parent_node (key_at artTuple.key (depth - 1)) b.2 with
          | none => none
          | some parent1 => _page_update_node S3 parent_iptr parent1
        | _, _ => none

/-- The part of source `_node_insert_recursive` after `RECURSE_SEARCH` that is reached when
the node has no valid child for `key[depth]`: a new leaf is added as a child, with growth
and relocation of the node when it was full. `pfx_len` is `node->prefix_key_len`. -/
def add_leaf_child (cfg : ArtConfig) (S : ArtIndex) (node_iptr : ItemPointerData)
    (node : ArtNode) (pfx_len : Nat) (parent : Option (ItemPointerData × ArtNode))
    (artTuple : ArtTuple) (depth : Nat) : Option ArtIndex :=
  let a := _add_leaf cfg S (some node_iptr) artTuple
  match _add_child node (key_at artTuple.key depth) a.2.1 with
  | none => none
  | some (node1, some replaced_node) =>
      -- `_art_copy_header` changed the old node through the pointer into its page
      let S1 := write_in_place a.1 node_iptr node1
      match _page_replace_node cfg S1 node_iptr (_art_node_size node1) replaced_node
          (parent.map Prod.fst) (key_at artTuple.key (depth - pfx_len - 1)) with
      | none => none
      | some (S2, some new_iptr) =>
          if cfg.update_parent_iptr then
            some (_update_child_list_parent_iptr cfg S2 new_iptr replaced_node)
          else some S2
      | some (S2, none) => some S2
  | some (node1, none) => _page_update_node a.1 node_iptr node1

/-- Source `_node_insert_recursive`, entered on the node entry `(node_iptr, node)` with its
parent entry. `none`: an error is raised, a reference designates no item, or the descent
does not end. -/
def _node_insert_recursive (cfg : ArtConfig) (artTuple : ArtTuple) :
    Nat → ArtIndex → ItemPointerData → ArtNode → Option (ItemPointerData × ArtNode) → Nat →
      Option ArtIndex
  | 0, _, _, _, _, _ => none
  | fuel + 1, S, node_iptr, node, parent, depth =>
      match node with
      | .leaf leaf =>
          if _art_leaf_matches leaf artTuple.key (artTuple.key_len % 65536) = 0 then
            _update_leaf_item cfg S node_iptr leaf artTuple
          else split_leaf cfg S node_iptr leaf parent artTuple depth
      | _ =>
          match node.header? with
          | none => none
          | some h =>
            -- the code from the label `RECURSE_SEARCH` on, at depth `depth1`
            let recurse_search := fun (depth1 : Nat) =>
              let iptr := _art_find_child_equal node (key_at artTuple.key depth1)
              if ItemPointerIsValid_ptr iptr then
                match get_node S (iptr.getD zero_iptr) with
                | none => none
                | some child =>
                    _node_insert_recursive cfg artTuple fuel S (iptr.getD zero_iptr) child
                      (some (node_iptr, node)) (depth1 + 1)
              else
                add_leaf_child cfg S node_iptr node h.prefix_key_len parent artTuple depth1
            if h.prefix_key_len != 0 then
              match _art_prefix_mismatch S h node artTuple.key artTuple.key_len depth with
              | none => none
              | some diff =>
                  -- `uint8_t prefix_diff`
                  let prefix_diff := diff % 256
                  if prefix_diff ≥ h.prefix_key_len then recurse_search (depth + h.prefix_key_len)
                  else split_node_pfx cfg S node_iptr node h parent artTuple depth prefix_diff
            else recurse_search depth

/-- Source `_node_insert`. -/
def _node_insert (cfg : ArtConfig) (S : ArtIndex) (artTuple : ArtTuple) : Option ArtIndex :=
  let root_itemptr : ItemPointerData := ⟨ART_ROOT_NODE_BLKNO, ART_ROOT_NODE_ITEM⟩
  match get_node S root_itemptr with
  | none => none
  | some root => _node_insert_recursive cfg artTuple (store_fuel S) S root_itemptr root none 0

/-- Page entries are made anew, with the dirty flag clear, by every `artinsert` call. -/
def fresh_entries (S : ArtIndex) : ArtIndex :=
  { S with pages := S.pages.map (fun p => { p with dirty := false }) }

/-- Source `artinsert` (and, for the content of the pages, `_art_build_callback`) on the formed
key: a key of length 0, or of length `ART_PAGE_SIZE` or more, is skipped. -/
def artinsert (cfg : ArtConfig) (S : ArtIndex) (artTuple : ArtTuple) : Option ArtIndex :=
  if artTuple.key_len = 0 then some S
  else if artTuple.key_len ≥ ART_PAGE_SIZE then some S
  else _node_insert cfg (fresh_entries S) artTuple

/-- A sequence of inserts, in order. -/
def insert_all (cfg : ArtConfig) (S : ArtIndex) (tuples : List ArtTuple) : Option ArtIndex :=
  tuples.foldl (fun acc t => acc.bind (fun s => artinsert cfg s t)) (some S)

end PgArt

namespace PgArt

/-! ## Pairing heap (PostgreSQL `lib/pairingheap.c`) -/

/-- A heap node with its children, first child first. -/
inductive PHNode (α : Type) where
  | mk (val : α) (children : List (PHNode α))

def PHNode.val {α : Type} : PHNode α → α
  | .mk v _ => v

def PHNode.children {α : Type} : PHNode α → List (PHNode α)
  | .mk _ c => c

/-- Model of `merge`: the node that compares lower becomes the first child of the other; `b` goes
below `a` unless `compare(a, b) < 0`. -/
def ph_merge {α : Type} (cmp : α → α → Int) (a b : PHNode α) : PHNode α :=
  if cmp a.val b.val < 0 then .mk b.val (a :: b.children) else .mk a.val (b :: a.children)

/-- Model of `pairingheap_add`. -/
def ph_add {α : Type} (cmp : α → α → Int) (root : Option (PHNode α)) (x : α) :
    Option (PHNode α) :=
  match root with
  | none => some (.mk x [])
  | some r => some (ph_merge cmp r (.mk x []))

/-- First pass of `merge_children`: the siblings are merged in pairs from left to right, each
merged pair pushed on the front of `pairs`. -/
def ph_pair_up {α : Type} (cmp : α → α → Int) : List (PHNode α) → List (PHNode α) →
    List (PHNode α)
  | [], pairs => pairs
  | [c], pairs => c :: pairs
  | c1 :: c2 :: rest, pairs => ph_pair_up cmp rest (ph_merge cmp c1 c2 :: pairs)

/-- Model of `merge_children`. -/
def ph_merge_children {α : Type} (cmp : α → α → Int) (children : List (PHNode α)) :
    Option (PHNode α) :=
  match ph_pair_up cmp children [] with
  | [] => none
  | p :: ps => some (ps.foldl (fun newroot curr => ph_merge cmp newroot curr) p)

/-- Model of `pairingheap_remove_first` repeated until the heap is empty, at most `n` times: the
values in the order in which they are removed. -/
def ph_drain {α : Type} (cmp : α → α → Int) : Nat → Option (PHNode α) → List α
  | 0, _ => []
  | _ + 1, none => []
  | n + 1, some r => r.val :: ph_drain cmp n (ph_merge_children cmp r.children)

/-! ## Scan engine (`art_scan.c`, `_art_find_child_range`) -/

def BTLessStrategyNumber : Nat := 1
def BTLessEqualStrategyNumber : Nat := 2
def BTEqualStrategyNumber : Nat := 3
def BTGreaterEqualStrategyNumber : Nat := 4
def BTGreaterStrategyNumber : Nat := 5

/-- Model of `ArtQueueItemPointer` without the heap linkage. -/
structure ArtQueueItemPointer where
  iptr : ItemPointerData
  compare : Bool
deriving DecidableEq, Repr, Inhabited

/-- Source `_art_find_cmp_order`. -/
def _art_find_cmp_order (a b : ArtQueueItemPointer) : Int :=
  if a.iptr.ip_blkid = b.iptr.ip_blkid then 0
  else if a.iptr.ip_blkid < b.iptr.ip_blkid then 1 else -1

/-- Source `_art_find_cmp_distance`; `arg` is the item pointer the heap was allocated with. -/
def _art_find_cmp_distance (arg : ItemPointerData) (_a b : ArtQueueItemPointer) : Int :=
  if arg.ip_blkid = b.iptr.ip_blkid then 0 else 1

/-- The loop of the `NODE_4` / `NODE_16` case of source `_art_find_child_range` over the
first `num_children` (key, child) pairs: the queue items added, in order. -/
def find_child_range_small (key : Nat) (skStrategy : Nat) (compare : Bool) :
    List (Nat × ItemPointerData) → List ArtQueueItemPointer
  | [] => []
  | (child_key, child) :: rest =>
      if !compare then
        ⟨child, false⟩ :: find_child_range_small key skStrategy compare rest
      else
        let cmp := _art_compare_key child_key key
        if skStrategy = BTLessStrategyNumber ∨ skStrategy = BTLessEqualStrategyNumber then
          if cmp < 0 then ⟨child, false⟩ :: find_child_range_small key skStrategy compare rest
          else if cmp = 0 then
            ⟨child, true⟩ :: find_child_range_small key skStrategy compare rest
          else []
        else if skStrategy = BTGreaterStrategyNumber ∨ skStrategy = BTGreaterEqualStrategyNumber
        then
          if cmp > 0 then ⟨child, false⟩ :: find_child_range_small key skStrategy compare rest
          else if cmp = 0 then
            ⟨child, true⟩ :: find_child_range_small key skStrategy compare rest
          else []
        else find_child_range_small key skStrategy compare rest

/-- Bounds `[start, end)` of the slot scan of the `NODE_48` / `NODE_256` case. -/
def range_bounds (key : Nat) (skStrategy : Nat) (compare : Bool) : Nat × Nat :=
  if compare then
    if skStrategy = BTLessStrategyNumber ∨ skStrategy = BTLessEqualStrategyNumber then
      (0, key + 1)
    else if skStrategy = BTGreaterStrategyNumber ∨ skStrategy = BTGreaterEqualStrategyNumber
    then (key, 256)
    else (0, 256)
  else (0, 256)

/-- Source `_art_find_child_range`: the queue items added, in the order of the calls to
`_art_add_queue_itemptr`. The slot loops of `NODE_48` and `NODE_256` run over the slots
`start .. end - 1` of the array, each paired with its index. -/
def _art_find_child_range (n : ArtNode) (key : Nat) (skStrategy : Nat) (compare : Bool) :
    List ArtQueueItemPointer :=
  match n with
  | .leaf _ => []
  | .node4 h keys children =>
      find_child_range_small key skStrategy compare
        ((keys.take h.num_children).zip (children.take h.num_children))
  | .node16 h keys children =>
      find_child_range_small key skStrategy compare
        ((keys.take h.num_children).zip (children.take h.num_children))
  | .node48 _ keys children =>
      let b := range_bounds key skStrategy compare
      (((keys.enum.drop b.1).take (b.2 - b.1)).filter (fun s => s.2 != 0)).map (fun s =>
        ⟨children.getD (s.2 - 1) zero_iptr, if compare then decide (s.1 = key) else false⟩)
  | .node256 _ children =>
      let b := range_bounds key skStrategy compare
      (((children.enum.drop b.1).take (b.2 - b.1)).filter
        (fun s => ItemPointerIsValid s.2)).map (fun s =>
        ⟨s.2, if compare then decide (s.1 = key) else false⟩)

/-- The leaf branch of source `_art_search`: whether the leaf is added to the result queue. -/
def leaf_admitted (leaf : ArtNodeLeaf) (sk_strategy : Nat) (key : List Nat) (range compare : Bool)
    (depth : Nat) : Bool :=
  if range then
    if !compare then true
    else
      let cmp := _art_compare_key (leaf_data_at leaf (depth - 1)) (key_at key (depth - 1))
      if sk_strategy = BTLessStrategyNumber then decide (cmp < 0)
      else if sk_strategy = BTLessEqualStrategyNumber then decide (cmp ≤ 0)
      else if sk_strategy = BTGreaterStrategyNumber then decide (cmp > 0)
      else if sk_strategy = BTGreaterEqualStrategyNumber then decide (cmp ≥ 0)
      else false
  else _art_leaf_matches leaf key (key.length % 65536) = 0

/-- Source `_art_search`: the result queue `leaf_list_queue` after the call. The recursion
stops without a result when the fuel is used up, and a reference that designates no item is
not followed. -/
def _art_search (S : ArtIndex) (sk_strategy : Nat) (key : List Nat) :
    Nat → ArtNode → ItemPointerData → Bool → Bool → Nat →
      Option (PHNode ArtQueueItemPointer) → Option (PHNode ArtQueueItemPointer)
  | 0, _, _, _, _, _, q => q
  | fuel + 1, node, iptr, range, compare, depth, q =>
      match node with
      | .leaf leaf =>
          if leaf_admitted leaf sk_strategy key range compare depth then
            ph_add _art_find_cmp_order q ⟨iptr, false⟩
          else q
      | _ =>
          match node.header? with
          | none => q
          | some h =>
            if h.prefix_key_len != 0 ∧
                ( _art_check_prefix h key key.length depth)
                  ≠ min MAX_PREFIX_KEY_LEN h.prefix_key_len then q
            else
              let depth := if h.prefix_key_len != 0 then depth + h.prefix_key_len else depth
              let added : List ArtQueueItemPointer :=
                if !range then
                  match _art_find_child_equal node (key_at key depth) with
                  | some c => [⟨c, true⟩]
                  | none => []
                else _art_find_child_range node (key_at key depth) sk_strategy compare
              let children_queue :=
                added.foldl (fun hq x => ph_add (_art_find_cmp_distance iptr) hq x) none
              (ph_drain (_art_find_cmp_distance iptr) added.length children_queue).foldl
                (fun q item =>
                  match get_node S item.iptr with
                  | none => q
                  | some child =>
                      _art_search S sk_strategy key fuel child item.iptr range item.compare
                        (depth + 1) q)
                q

/-- The leaf fetch loop of source `artgettuple`, run until the result queue is empty: the
locators handed to the caller, in order. Each pending reference is removed from the queue,
the continuation leaf of the leaf it designates is queued, and the leaf's locators follow. -/
def fetch_leaves (S : ArtIndex) : Nat → Option (PHNode ArtQueueItemPointer) →
    List ItemPointerData
  | 0, _ => []
  | _ + 1, none => []
  | fuel + 1, some r =>
      let rest := ph_merge_children _art_find_cmp_order r.children
      match get_node S r.val.iptr with
      | some (.leaf leaf) =>
          let rest :=
            if ItemPointerIsValid leaf.next_leaf_iptr then
              ph_add _art_find_cmp_order rest ⟨leaf.next_leaf_iptr, false⟩
            else rest
          leaf.items ++ fetch_leaves S fuel rest
      | _ => fetch_leaves S fuel rest

/-- Source `artgettuple` called until it returns false, for the scan key `key` (as formed by
`_art_form_key`) and strategy `sk_strategy`: all locators returned, in order. -/
def art_scan (S : ArtIndex) (sk_strategy : Nat) (key : List Nat) : List ItemPointerData :=
  let root_iptr : ItemPointerData := ⟨ART_ROOT_NODE_BLKNO, 1⟩
  match get_node S root_iptr with
  | none => []
  | some root_node =>
      let q := _art_search S sk_strategy key (store_fuel S) root_node root_iptr
        (sk_strategy != BTEqualStrategyNumber) true 0 none
      fetch_leaves S (store_fuel S * store_fuel S) q

end PgArt

namespace PgArt

/-! ## Auxiliary definitions for the statements -/

/-- The code from the label `RECURSE_SEARCH` on. -/
def recurse_search (cfg : ArtConfig) (t : ArtTuple) (fuel : Nat) (S : ArtIndex)
    (i : ItemPointerData) (node : ArtNode) (h : ArtNodeHeader)
    (parent : Option (ItemPointerData × ArtNode)) (depth1 : Nat) : Option ArtIndex :=
  let iptr := _art_find_child_equal node (key_at t.key depth1)
  if ItemPointerIsValid_ptr iptr then
    match get_node S (iptr.getD zero_iptr) with
    | none => none
    | some child =>
        _node_insert_recursive cfg t fuel S (iptr.getD zero_iptr) child (some (i, node))
          (depth1 + 1)
  else add_leaf_child cfg S i node h.prefix_key_len parent t depth1

/-- Item pointer of the root node: block `ART_ROOT_NODE_BLKNO`, item `ART_ROOT_NODE_ITEM`. -/
def root_iptr : ItemPointerData := ⟨ART_ROOT_NODE_BLKNO, ART_ROOT_NODE_ITEM⟩

/-- A `Node256` whose compressed prefix is empty. -/
def is_root_node : ArtNode → Bool
  | .node256 h _ => h.prefix_key_len == 0
  | _ => false

/-- The entry at the root item pointer is a `Node256` with prefix length 0. -/
def root_ok (S : ArtIndex) : Prop :=
  ∃ n, get_node S root_iptr = some n ∧ is_root_node n = true

/-- The parent entry handed down by `_node_insert_recursive` is a root node when it sits at
the root item pointer. -/
def parent_ok (parent : Option (ItemPointerData × ArtNode)) : Prop :=
  ∀ pi pn, parent = some (pi, pn) → pi = root_iptr → is_root_node pn = true

/-- All nodes stored in the index, page by page. -/
def stored_nodes (S : ArtIndex) : List ArtNode :=
  (S.pages.map (fun p => p.items.filterMap id)).flatten

/-- The field `prefix_key_len` of every stored internal node. -/
def internal_prefix_lens (S : ArtIndex) : List Nat :=
  (stored_nodes S).filterMap (fun n => n.header?.map (fun h => h.prefix_key_len))

/-- The (key byte, child) pairs of the occupied slots of an internal node, in slot order. -/
def child_slots : ArtNode → List (Nat × ItemPointerData)
  | .leaf _ => []
  | .node4 h keys children => (keys.take h.num_children).zip (children.take h.num_children)
  | .node16 h keys children => (keys.take h.num_children).zip (children.take h.num_children)
  | .node48 _ keys children =>
      (keys.enum.filter (fun s => s.2 != 0)).map
        (fun s => (s.1, children.getD (s.2 - 1) zero_iptr))
  | .node256 _ children => children.enum.filter (fun s => ItemPointerIsValid s.2)

/-- The leaf-key path invariant below a node entered at `depth`: `cs` holds the pairs
(key index, byte) fixed by the nodes passed so far; an internal node with prefix length `p`
fixes the key bytes `depth .. depth + min p 8 - 1` to its inline prefix and, for each child
slot, the key byte `depth + p` to the slot's key byte; a leaf must carry all fixed bytes. -/
def path_inv (S : ArtIndex) : Nat → ArtNode → Nat → List (Nat × Nat) → Bool
  | 0, _, _, _ => true
  | fuel + 1, node, depth, cs =>
      match node with
      | .leaf l => cs.all (fun c => decide (c.1 < l.key.length) && l.key.getD c.1 0 == c.2)
      | _ =>
        match node.header? with
        | none => true
        | some h =>
            let cs1 := cs ++ (List.range (min h.prefix_key_len MAX_PREFIX_KEY_LEN)).map
              (fun i => (depth + i, h.prefix_bytes.getD i 0))
            (child_slots node).all (fun kc =>
              match get_node S kc.2 with
              | none => true
              | some child =>
                  path_inv S fuel child (depth + h.prefix_key_len + 1)
                    ((depth + h.prefix_key_len, kc.1) :: cs1))

/-- The leaf-key path invariant of the whole tree, from the root at depth 0. -/
def leaf_key_path_invariant (S : ArtIndex) : Bool :=
  match get_node S root_iptr with
  | none => false
  | some root => path_inv S (store_fuel S) root 0 []

/-- The node that the root's child slot for key byte `b` refers to. -/
def node_below_root (S : ArtIndex) (b : Nat) : Option ArtNode :=
  (get_node S root_iptr).bind (fun root =>
    (_art_find_child_equal root b).bind (fun c => get_node S c))

/-- Prefix length, inline prefix bytes and result of `_art_prefix_mismatch` against `key` for
the internal node below the root's slot `key[0]`, which the descent enters at depth 1. -/
def mismatch_below_root (S : ArtIndex) (key : List Nat) : Option (Nat × List Nat × Nat) :=
  (node_below_root S (key_at key 0)).bind (fun n =>
    n.header?.bind (fun h =>
      ( _art_prefix_mismatch S h n key key.length 1).map (fun m =>
        (h.prefix_key_len, h.prefix_bytes, m))))

end PgArt

namespace PgArt

/-! ## Attribute values as bytes, and the order of keys -/

/-- The `n` low bytes of `x`, least significant first. -/
def le_bytes : Nat → Nat → List Nat
  | 0, _ => []
  | n + 1, x => (x % 256) :: le_bytes n (x / 256)

/-- The bytes `((uint8_t *) values)[0 .. attlen-1]` of a by-value integer `Datum` on a
little-endian machine: the two's complement representation of `v` in `attlen` bytes, least
significant byte first. -/
def datum_bytes (attlen : Nat) (v : Int) : List Nat :=
  le_bytes attlen (v % (256 : Int) ^ attlen).toNat

/-- Byte-wise lexicographic order of two keys (a proper prefix precedes). -/
def lex_lt : List Nat → List Nat → Bool
  | [], [] => false
  | [], _ :: _ => true
  | _ :: _, [] => false
  | a :: as, b :: bs => decide (a < b) || (a == b && lex_lt as bs)

/-! ## Page handles (`art_pageops.c`) -/

def InvalidBuffer : Nat := 0

/-- Model of `ArtPageEntry` without the list linkage; `page` is the address held in the field
`page`, `ref_count` is a `uint8`. -/
structure ArtPageEntry where
  blk_num : Nat
  buffer : Nat
  page : Nat
  ref_count : Nat
  dirty : Bool
  is_copy : Bool
deriving DecidableEq, Repr, Inhabited

/-- Calls made by the page-handle routines into the buffer manager, the list package and
the allocator. -/
inductive BufferOp where
  | ReadBuffer (blockNum : Nat)
  | LockBuffer (buffer : Nat) (mode : Nat)
  | MarkBufferDirty (buffer : Nat)
  | UnlockReleaseBuffer (buffer : Nat)
  | dlist_delete (entry : ArtPageEntry)
  | pfree (entry : ArtPageEntry)
deriving DecidableEq, Repr

/-- Source `_art_page_release`: the handle afterwards (`none` when the pointer was NULL or
the handle was freed) and the calls made, in order. -/
def _art_page_release (pageEntry : Option ArtPageEntry) : Option ArtPageEntry × List BufferOp :=
  match pageEntry with
  | none => (none, [])
  | some e =>
      if e.buffer = InvalidBuffer then (some e, [])
      else if e.is_copy then (some e, [])
      else if e.ref_count = 1 then
        (none,
          (if e.dirty then [BufferOp.MarkBufferDirty e.buffer] else [])
            ++ [BufferOp.UnlockReleaseBuffer e.buffer, BufferOp.dlist_delete e, BufferOp.pfree e])
      else (some { e with ref_count := (e.ref_count + 255) % 256 }, [])

/-- Result of `_art_load_page`: the working-set list afterwards, the handle returned,
`*isNewPageEntry`, and the calls made. -/
structure LoadResult where
  pageList : List ArtPageEntry
  entry : ArtPageEntry
  isNewPageEntry : Bool
  ops : List BufferOp
deriving DecidableEq, Repr

/-- The `dlist_foreach` loop of source `_art_load_page`: the list with the count of the first
handle for `blockNum` incremented, and that handle; `none` when no handle matches. -/
def load_page_loop (blockNum : Nat) : List ArtPageEntry →
    Option (List ArtPageEntry × ArtPageEntry)
  | [] => none
  | e :: rest =>
      if e.blk_num = blockNum then
        some ({ e with ref_count := (e.ref_count + 1) % 256 } :: rest,
              { e with ref_count := (e.ref_count + 1) % 256 })
      else (load_page_loop blockNum rest).map (fun r => (e :: r.1, r.2))

/-- Source `_art_load_page`; `buffer` is what `ReadBuffer` returns for the block and `page`
what `BufferGetPage` returns for that buffer. The fresh handle is not linked into the list
(the caller does that). -/
def _art_load_page (pageList : List ArtPageEntry) (blockNum : Nat) (bufferLockMode : Nat)
    (buffer page : Nat) : LoadResult :=
  match load_page_loop blockNum pageList with
  | some r => { pageList := r.1, entry := r.2, isNewPageEntry := false, ops := [] }
  | none =>
      { pageList := pageList,
        entry := { blk_num := blockNum, buffer := buffer, page := page,
                   ref_count := (0 + 1) % 256, dirty := false, is_copy := false },
        isNewPageEntry := true,
        ops := [BufferOp.ReadBuffer blockNum, BufferOp.LockBuffer buffer bufferLockMode] }

end PgArt

namespace PgArt

/-! ## Dispatch on the `node_type` byte -/

def NODE_LEAF : Nat := 0
def NODE_4 : Nat := 1
def NODE_16 : Nat := 2
def NODE_48 : Nat := 3
def NODE_256 : Nat := 4

/-- The two messages raised by the node operations: "Invalid ART NODE" (`_art_alloc_node`)
and "Unknown node type" (`_add_child`). -/
inductive ArtError where
  | invalid_art_node
  | unknown_node_type
deriving DecidableEq, Repr

/-- What a call yields: a value, or `elog(ERROR, ...)`, which aborts the enclosing
operation. -/
inductive Outcome (α : Type) where
  | value (a : α)
  | error (e : ArtError)
deriving DecidableEq, Repr

/-- A page item as the node operations receive it: for the five tags of `ArtNodeType` the
node in the layout the tag selects, otherwise only the `node_type` byte (no `case` of a
`switch` is entered, so nothing else of the item is read). -/
inductive TaggedNode where
  | known (n : ArtNode)
  | other (tag : Nat)
deriving DecidableEq, Repr

/-- Source `_art_alloc_node` as a function of the type byte: the `switch` has the cases
`NODE_4`, `NODE_16`, `NODE_48`, `NODE_256` and a `default` that raises an error. -/
def _art_alloc_node (type : Nat) : Outcome ArtNode :=
  if type = NODE_4 then .value alloc_node4
  else if type = NODE_16 then .value alloc_node16
  else if type = NODE_48 then .value alloc_node48
  else if type = NODE_256 then .value alloc_node256
  else .error .invalid_art_node

/-- Source `_art_node_size` on a tagged item: the `switch` has no `default`, the statement
after it is `return 0`. -/
def _art_node_size_tagged : TaggedNode → Nat
  | .known n => _art_node_size n
  | .other _ => 0

/-- Source `_art_find_child_equal` on a tagged item: the `switch` has no `default`, the
statement after it is `return NULL`. -/
def _art_find_child_equal_tagged : TaggedNode → Nat → Option ItemPointerData
  | .known n, key => _art_find_child_equal n key
  | .other _, _ => none

/-- Source `_art_find_child_range` on a tagged item: the `switch` has no `default` and the
function ends after it, nothing is queued. -/
def _art_find_child_range_tagged : TaggedNode → Nat → Nat → Bool → List ArtQueueItemPointer
  | .known n, key, skStrategy, compare => _art_find_child_range n key skStrategy compare
  | .other _, _, _, _ => []

/-- Source `_add_child` on a tagged item: the cases are `NODE_4`, `NODE_16`, `NODE_48`,
`NODE_256`, the `default` raises an error. -/
def _add_child_tagged : TaggedNode → Nat → ItemPointerData →
    Outcome (ArtNode × Option ArtNode)
  | .known n, key, iptr =>
      match _add_child n key iptr with
      | some r => .value r
      | none => .error .unknown_node_type
  | .other _, _, _ => .error .unknown_node_type

/-! ## Statements about pages -/

/-- The recorded tail block of a page kind: `last_internal_node_blk_num` for
`ART_NODE_PAGE`, `last_leaf_blk_num` otherwise. -/
def tail_blk_num (S : ArtIndex) (pageType : Nat) : Nat :=
  if pageType = ART_NODE_PAGE then S.last_internal_node_blk_num else S.last_leaf_blk_num

/-- Free space of a page as `_get_page_with_free_space` counts it: `PageGetFreeSpace`, for a
leaf page multiplied in `double` arithmetic by the reservation fraction and stored back into
the `Size` variable (the product is rounded to a `double`, then its fractional part is
dropped). -/
def usable_free_space (cfg : ArtConfig) (pageType : Nat) (p : ArtPage) : Nat :=
  if pageType = ART_LEAF_PAGE then
    size_times_double (PageGetFreeSpace p) cfg.leaf_treshold_mant cfg.leaf_treshold_exp
  else PageGetFreeSpace p

/-- Both recorded tail blocks exist. -/
def tails_ok (S : ArtIndex) : Prop :=
  S.last_internal_node_blk_num < S.pages.length ∧ S.last_leaf_blk_num < S.pages.length

/-- The key array of an internal node (`Node256` has none). -/
def node_keys : ArtNode → List Nat
  | .leaf _ => []
  | .node4 _ keys _ => keys
  | .node16 _ keys _ => keys
  | .node48 _ keys _ => keys
  | .node256 _ _ => []

/-- The child array of an internal node. -/
def node_children : ArtNode → List ItemPointerData
  | .leaf _ => []
  | .node4 _ _ children => children
  | .node16 _ _ children => children
  | .node48 _ _ children => children
  | .node256 _ children => children

/-! ## Statements about prefixes and subtrees -/

/-- Index of the first position at which two byte strings differ; the length of the shorter
one when there is none. -/
def first_difference : List Nat → List Nat → Nat
  | a :: as, b :: bs => if a = b then first_difference as bs + 1 else 0
  | _, _ => 0

/-- The leaves stored in the subtree of a node, in slot order, at most `fuel` levels down. -/
def subtree_leaves (S : ArtIndex) : Nat → ArtNode → List ArtNodeLeaf
  | 0, _ => []
  | fuel + 1, node =>
      match node with
      | .leaf l => [l]
      | _ =>
        ((child_slots node).map (fun kc =>
          match get_node S kc.2 with
          | none => []
          | some child => subtree_leaves S fuel child)).flatten

/-- A well-formed subtree of height at most `fuel` whose root is entered at key index
`depth`. A leaf is one. An internal node with prefix length `p` is one when it has a child,
its child slots carry strictly ascending key bytes, every child slot refers to a stored node
that is the root of a well-formed subtree entered at `depth + p + 1`, every leaf below the
slot with key byte `b` is longer than `depth + p` and carries `b` at index `depth + p`, and
all leaves below the node agree on their first `depth + p` bytes. -/
def wf_subtree (S : ArtIndex) : Nat → ArtNode → Nat → Bool
  | 0, _, _ => false
  | fuel + 1, node, depth =>
      match node with
      | .leaf _ => true
      | _ =>
        match node.header? with
        | none => false
        | some h =>
          !(child_slots node).isEmpty &&
          decide ((child_slots node).Pairwise (fun a b => a.1 < b.1)) &&
          (child_slots node).all (fun kc =>
            match get_node S kc.2 with
            | none => false
            | some child =>
                wf_subtree S fuel child (depth + h.prefix_key_len + 1) &&
                (subtree_leaves S fuel child).all (fun l =>
                  decide (depth + h.prefix_key_len < l.key.length) &&
                  l.key.getD (depth + h.prefix_key_len) 0 == kc.1)) &&
          (subtree_leaves S (fuel + 1) node).all (fun l1 =>
            (subtree_leaves S (fuel + 1) node).all (fun l2 =>
              l1.key.take (depth + h.prefix_key_len) == l2.key.take (depth + h.prefix_key_len)))

/-- The slot with the smallest key byte (the first one among equals). -/
def smallest_slot : List (Nat × ItemPointerData) → Option (Nat × ItemPointerData)
  | [] => none
  | kc :: rest =>
      match smallest_slot rest with
      | none => some kc
      | some m => if m.1 < kc.1 then some m else some kc

/-- The leaf reached from a node by following, at each internal node, the child with the
smallest key byte; a leaf is its own leaf. -/
def leftmost_leaf (S : ArtIndex) : Nat → ArtNode → Option ArtNodeLeaf
  | 0, _ => none
  | fuel + 1, node =>
      match node with
      | .leaf l => some l
      | _ =>
        match smallest_slot (child_slots node) with
        | none => none
        | some kc => (get_node S kc.2).bind (leftmost_leaf S fuel)

/-! ## The two halves of the prefix split -/

/-- The index after the inserts of the variable-width values `01 .. 0c 0d` and
`01 .. 0c 0e` with the locators (0,1) and (0,2) into the empty index. -/
def two_key_index : ArtIndex :=
  (insert_all default_config empty_index
    [_art_form_key_varlena [1, 2, 3, 4, 5, 6, 7, 8, 9, 10, 11, 12, 13] ⟨0, 1⟩,
     _art_form_key_varlena [1, 2, 3, 4, 5, 6, 7, 8, 9, 10, 11, 12, 14] ⟨0, 2⟩]).getD
    empty_index

/-- The root node of `two_key_index`. -/
def two_key_root : ArtNode := (get_node two_key_index root_iptr).getD alloc_node256

/-- The Node4 below the root of `two_key_index`, entered at depth 1. -/
def two_key_node : ArtNode := (node_below_root two_key_index 1).getD alloc_node4

/-- The header of `two_key_node`. -/
def two_key_header : ArtNodeHeader := two_key_node.header?.getD zero_header

/-- The minimum leaf of `two_key_node`. -/
def two_key_min_leaf : ArtNodeLeaf :=
  (_art_minimum_leaf two_key_index (store_fuel two_key_index) two_key_node).getD default

/-! ## A full node page used to instantiate the relocation statements -/

/-- A full `Node4` whose parent is the root. -/
def full_node4 : ArtNode :=
  .node4 { parent_iptr := root_iptr, num_children := 4, prefix_key_len := 0,
           prefix_bytes := [0, 0, 0, 0, 0, 0, 0, 0] }
    [1, 2, 3, 4] [⟨2, 1⟩, ⟨2, 2⟩, ⟨2, 3⟩, ⟨2, 4⟩]

/-- The `Node16` that `_add_child` returns for `full_node4`, key byte 5 and child (2,5). -/
def grown_node16 : ArtNode :=
  ((_add_child full_node4 5 ⟨2, 5⟩).bind (fun r => r.2)).getD alloc_node16

/-- A root node whose slot for key byte 97 refers to item 2 of block 1. -/
def full_page_root : ArtNode :=
  .node256 { zero_header with num_children := 1 }
    ((List.replicate 256 zero_iptr).set 97 ⟨1, 2⟩)

/-- A node page that holds `full_page_root`, `full_node4` and 125 further `Node4` items, so
that 36 bytes are free on it; the deletion counters are the two arguments. -/
def full_node_page (n_deleted deleted_item_size : Nat) : ArtPage :=
  { page_flags := ART_NODE_PAGE, n_total := 127, n_deleted := n_deleted,
    deleted_item_size := deleted_item_size, right_link := InvalidBlockNumber,
    items := some full_page_root :: some full_node4 :: List.replicate 125 (some alloc_node4),
    dirty := false }

/-- An index whose node page (block 1) is `full_node_page`. -/
def full_page_index (n_deleted deleted_item_size : Nat) : ArtIndex :=
  { pages :=
      [ _art_init_data_page 0 false, full_node_page n_deleted deleted_item_size,
        _art_init_data_page ART_LEAF_PAGE false ],
    last_internal_node_blk_num := ART_ROOT_NODE_BLKNO,
    last_leaf_blk_num := ART_LEAF_NODE_BLKNO }

end PgArt
namespace PgArt

/-! ## The stored child count -/

/-- The `num_children` field of a node's header (0 for a leaf, which has no such field). -/
def num_children_field (n : ArtNode) : Nat :=
  match n.header? with
  | some h => h.num_children
  | none => 0

/-- The 256 (key byte, child) pairs `(i, (7, i + 1))`, one for every byte value. -/
def all_bytes_children : List (Nat × ItemPointerData) :=
  (List.range 256).map (fun i => (i, ⟨7, i + 1⟩))

end PgArt
namespace PgArt

/-! ## The result queue of a scan -/

/-- Model of `pairingheap_remove_first`: the value at the root and the heap that remains
(`none` on an empty heap, which the source excludes by assertion). -/
def pairingheap_remove_first {α : Type} (cmp : α → α → Int) :
    Option (PHNode α) → Option (α × Option (PHNode α))
  | none => none
  | some r => some (r.val, ph_merge_children cmp r.children)

mutual
/-- The values held in a heap, root first. -/
def ph_elems {α : Type} : PHNode α → List α
  | .mk v cs => v :: ph_elems_list cs
/-- The values held in a list of heaps. -/
def ph_elems_list {α : Type} : List (PHNode α) → List α
  | [] => []
  | c :: cs => ph_elems c ++ ph_elems_list cs
end

mutual
/-- Heap order: no child's root is ranked above its parent by the comparator, at every node
of the heap. -/
def ph_ordered {α : Type} (cmp : α → α → Int) : PHNode α → Prop
  | .mk v cs => ph_ordered_list cmp v cs
/-- Heap order of the children `cs` of a node with value `v`. -/
def ph_ordered_list {α : Type} (cmp : α → α → Int) (v : α) : List (PHNode α) → Prop
  | [] => True
  | c :: cs => 0 ≤ cmp v c.val ∧ ph_ordered cmp c ∧ ph_ordered_list cmp v cs
end

/-- The values pending in a queue. -/
def queue_elems {α : Type} : Option (PHNode α) → List α
  | none => []
  | some r => ph_elems r

/-- A queue operation of the scan: `some x` is `pairingheap_add` of `x` (a leaf reference
found by the search, or the continuation reference of a fetched leaf), `none` is
`pairingheap_remove_first` (skipped on an empty queue, as `artgettuple` tests
`pairingheap_is_empty` first). -/
def queue_step (q : Option (PHNode ArtQueueItemPointer)) :
    Option ArtQueueItemPointer → Option (PHNode ArtQueueItemPointer)
  | some x => ph_add _art_find_cmp_order q x
  | none =>
      match pairingheap_remove_first _art_find_cmp_order q with
      | none => none
      | some r => r.2

/-- The result queue after a sequence of queue operations on the empty queue of
`pairingheap_allocate`. -/
def queue_run (ops : List (Option ArtQueueItemPointer)) : Option (PHNode ArtQueueItemPointer) :=
  ops.foldl queue_step none

end PgArt
namespace PgArt

/-! ## Example indexes of five short keys -/

/-- The variable-width values `xa`, `xb`, `xc`, `xd` with the locators (0,1) .. (0,4). -/
def four_key_tuples : List ArtTuple :=
  [_art_form_key_varlena [120, 97] ⟨0, 1⟩, _art_form_key_varlena [120, 98] ⟨0, 2⟩,
   _art_form_key_varlena [120, 99] ⟨0, 3⟩, _art_form_key_varlena [120, 100] ⟨0, 4⟩]

/-- The index after the inserts of `four_key_tuples` into the empty index: the root refers to
a full `Node4` at (1,2) whose children are the four leaves. -/
def four_key_index : ArtIndex :=
  (insert_all default_config empty_index four_key_tuples).getD empty_index

/-- The index after the further insert of the value `xe` with the locator (0,5): the `Node4`
has grown into a `Node16` that replaced it in place. -/
def five_key_index : ArtIndex :=
  (artinsert default_config four_key_index (_art_form_key_varlena [120, 101] ⟨0, 5⟩)).getD
    empty_index

/-- The dirty flag of the page entry of a block. -/
def page_dirty (S : ArtIndex) (blk : Nat) : Option Bool := (get_page S blk).map (fun p => p.dirty)

/-- The item that a block holds at an offset differs between two indexes. -/
def item_differs (S T : ArtIndex) (iptr : ItemPointerData) : Bool :=
  get_node S iptr != get_node T iptr

/-! ## Parent back-references -/

/-- The field `parent_iptr`, which the leaf layout and the header share. -/
def ArtNode.parent_ref : ArtNode → ItemPointerData
  | .leaf l => l.parent_iptr
  | .node4 h _ _ => h.parent_iptr
  | .node16 h _ _ => h.parent_iptr
  | .node48 h _ _ => h.parent_iptr
  | .node256 h _ => h.parent_iptr

/-- Every stored node with its item pointer, page by page. -/
def stored_entries (S : ArtIndex) : List (ItemPointerData × ArtNode) :=
  (S.pages.enum.map (fun p =>
    p.2.items.enum.filterMap (fun i => i.2.map (fun n => (⟨p.1, i.1 + 1⟩, n))))).flatten

/-- The child slots whose target carries a parent reference other than the address of the
node that holds the slot: (address of the holder, key byte of the slot, address of the
child, parent reference stored in the child). -/
def stale_parent_refs (S : ArtIndex) :
    List (ItemPointerData × Nat × ItemPointerData × ItemPointerData) :=
  ((stored_entries S).map (fun e =>
    (child_slots e.2).filterMap (fun s =>
      match get_node S s.2 with
      | some c => if c.parent_ref = e.1 then none else some (e.1, s.1, s.2, c.parent_ref)
      | none => none))).flatten

end PgArt
namespace PgArt

/-! ## Scan state (`artbeginscan`, `artrescan`, `artgettuple`) -/

/-- The part of `ScanKeyData` that the scan reads: the strategy number, and the key that
`_art_form_key` forms from `sk_argument`. -/
structure ScanKeyData where
  sk_strategy : Nat
  sk_key : List Nat
deriving DecidableEq, Repr, Inhabited

/-- Model of `ArtScanOpaqueData` without the page handles: `art_tuple` and `leaf_iptr` are
`none` when NULL, `leaf_list_queue` is the content of the heap. -/
structure ArtScanOpaqueData where
  art_tuple : Option (List Nat)
  sk_strategy : Nat
  leaf_list_queue : Option (PHNode ArtQueueItemPointer)
  leaf_num_items : Nat
  leaf_current_item : Nat
  leaf_iptr : Option (List ItemPointerData)
  fetching : Bool

/-- Model of `IndexScanDescData`: the scan key, the locator handed to the caller and the
scan state `so`. -/
structure IndexScanDesc where
  keyData : ScanKeyData
  xs_heaptid : ItemPointerData
  so : ArtScanOpaqueData

/-- Source `artbeginscan`; `keyData` is the content of the freshly allocated scan key array,
which `RelationGetIndexScan` leaves unset. -/
def artbeginscan (keyData : ScanKeyData) : IndexScanDesc :=
  { keyData := keyData
    xs_heaptid := invalid_iptr
    so :=
      { art_tuple := none, sk_strategy := 0, leaf_list_queue := none, leaf_num_items := 0,
        leaf_current_item := 0, leaf_iptr := none, fetching := false } }

/-- Source `artrescan`; `scankey` is `none` when no new scan key is given. -/
def artrescan (scan : IndexScanDesc) (scankey : Option ScanKeyData) : IndexScanDesc :=
  { scan with
      so := { scan.so with art_tuple := none, leaf_iptr := none }
      keyData := scankey.getD scan.keyData }

/-- The first part of source `artgettuple`, run when `fetching` is clear: the key is formed,
the result queue allocated and filled by `_art_search` from the root. `none` when the root
item pointer designates no item. -/
def start_fetching (S : ArtIndex) (scan : IndexScanDesc) : Option ArtScanOpaqueData :=
  if !scan.so.fetching then
    match get_node S ⟨ART_ROOT_NODE_BLKNO, 1⟩ with
    | none => none
    | some root_node =>
        some { scan.so with
          art_tuple := some scan.keyData.sk_key
          sk_strategy := scan.keyData.sk_strategy
          leaf_list_queue :=
            _art_search S scan.keyData.sk_strategy scan.keyData.sk_key (store_fuel S) root_node
              ⟨ART_ROOT_NODE_BLKNO, 1⟩ (scan.keyData.sk_strategy != BTEqualStrategyNumber)
              true 0 none
          fetching := true }
  else some scan.so

/-- The second part of source `artgettuple`, run when no locator of the current leaf is
left: the next pending leaf reference is removed from the queue, the leaf's continuation
reference queued and its locators copied. The result is the state and whether a leaf was
loaded (`false`: the queue is empty and `artgettuple` returns false). `none` when the
reference removed designates no leaf. -/
def next_leaf (S : ArtIndex) (so : ArtScanOpaqueData) : Option (ArtScanOpaqueData × Bool) :=
  let so := { so with leaf_iptr := none }
  match pairingheap_remove_first _art_find_cmp_order so.leaf_list_queue with
  | none => some (so, false)
  | some (item, rest) =>
      match get_node S item.iptr with
      | some (.leaf leaf) =>
          some ({ so with
            leaf_list_queue :=
              if ItemPointerIsValid leaf.next_leaf_iptr then
                ph_add _art_find_cmp_order rest ⟨leaf.next_leaf_iptr, false⟩
              else rest
            leaf_num_items := leaf.items.length % 65536
            leaf_current_item := 0
            leaf_iptr := some leaf.items }, true)
      | _ => none

/-- Source `artgettuple`: the scan afterwards and the value returned; when it is true,
`xs_heaptid` holds the locator handed to the caller. -/
def artgettuple (S : ArtIndex) (scan : IndexScanDesc) : Option (IndexScanDesc × Bool) :=
  match start_fetching S scan with
  | none => none
  | some so =>
      let loaded : Option (ArtScanOpaqueData × Bool) :=
        if so.leaf_iptr.isNone ∨ so.leaf_num_items = so.leaf_current_item then next_leaf S so
        else some (so, true)
      match loaded with
      | none => none
      | some (so, false) => some ({ scan with so := so }, false)
      | some (so, true) =>
          some ({ scan with
            xs_heaptid := (so.leaf_iptr.getD []).getD so.leaf_current_item zero_iptr
            so := { so with leaf_current_item := so.leaf_current_item + 1 } }, true)

/-- The outcome of an `artgettuple` call as the caller sees it: the value returned and, when
it is true, the locator. `none` when the call has no defined outcome. -/
def gettuple_result (r : Option (IndexScanDesc × Bool)) : Option (Option ItemPointerData) :=
  r.map (fun x => if x.2 then some x.1.xs_heaptid else none)

/-- Repeated `artgettuple` calls, at most `n`, until one returns false: the locators handed to
the caller, in order, and the scan after the last call. -/
def gettuple_all (S : ArtIndex) : Nat → IndexScanDesc → List ItemPointerData × IndexScanDesc
  | 0, scan => ([], scan)
  | n + 1, scan =>
      match artgettuple S scan with
      | some (scan1, true) =>
          let r := gettuple_all S n scan1
          (scan1.xs_heaptid :: r.1, r.2)
      | some (scan1, false) => ([], scan1)
      | none => ([], scan)

end PgArt
namespace PgArt

/-! ## Key-byte reads of the insertion descent -/

/-- The reads `key[depth]`, `key[depth - 1]`, `key[depth + prefix_diff]`,
`leaf->data[depth + longest_prefix]`, `new_leaf->data[depth + longest_prefix]` and
`minimum_leaf->data[depth + prefix_diff]` that source `_node_insert_recursive` makes for the
tuple `t`, entered on `node` at `depth`, in program order: each as the pair of the index read
and the length of the key that is read (the tuple's key, or the key of the leaf). -/
def insert_key_reads (t : ArtTuple) : Nat → ArtIndex → ArtNode → Nat → List (Nat × Nat)
  | 0, _, _, _ => []
  | fuel + 1, S, node, depth =>
      match node with
      | .leaf leaf =>
          if _art_leaf_matches leaf t.key (t.key_len % 65536) = 0 then []
          else
            let new_leaf : ArtNodeLeaf :=
              { parent_iptr := zero_iptr, next_leaf_iptr := zero_iptr,
                last_leaf_iptr := zero_iptr, key := t.key, items := [t.iptr] }
            let longest := _art_longest_common_prefix leaf new_leaf depth
            [(depth + longest, leaf.key.length), (depth + longest, new_leaf.key.length),
             (depth - 1, t.key.length)]
      | _ =>
          match node.header? with
          | none => []
          | some h =>
            -- the code from the label `RECURSE_SEARCH` on, at depth `depth1`
            let recurse_search := fun (depth1 : Nat) =>
              (depth1, t.key.length) ::
                (let iptr := _art_find_child_equal node (key_at t.key depth1)
                 if ItemPointerIsValid_ptr iptr then
                   match get_node S (iptr.getD zero_iptr) with
                   | none => []
                   | some child => insert_key_reads t fuel S child (depth1 + 1)
                 else [])
            if h.prefix_key_len != 0 then
              match _art_prefix_mismatch S h node t.key t.key_len depth with
              | none => []
              | some diff =>
                  let prefix_diff := diff % 256
                  if prefix_diff ≥ h.prefix_key_len then recurse_search (depth + h.prefix_key_len)
                  else
                    (if h.prefix_key_len ≤ MAX_PREFIX_KEY_LEN then []
                     else
                       let new_len := (h.prefix_key_len + 256 - (prefix_diff + 1) % 256) % 256
                       match _art_minimum_leaf S (store_fuel S)
                           (node.with_header { h with prefix_key_len := new_len }) with
                       | none => []
                       | some minimum_leaf => [(depth + prefix_diff, minimum_leaf.key.length)])
                      ++ [(depth + prefix_diff, t.key.length), (depth - 1, t.key.length)]
            else recurse_search depth

/-- The reads of `insert_key_reads` for the insert of `t` into the index `S`, from the root. -/
def artinsert_key_reads (S : ArtIndex) (t : ArtTuple) : List (Nat × Nat) :=
  match get_node S ⟨ART_ROOT_NODE_BLKNO, ART_ROOT_NODE_ITEM⟩ with
  | none => []
  | some root => insert_key_reads t (store_fuel S) S root 0

/-- No key of the list is empty and no key is a prefix of another key of the list. -/
def prefix_free_keys : List (List Nat) → Bool
  | [] => true
  | k :: ks =>
      !k.isEmpty && ks.all (fun k2 => !k.isPrefixOf k2 && !k2.isPrefixOf k) && prefix_free_keys ks

end PgArt
namespace PgArt

/-! ## Leaf chains -/

/-- The key and the next reference of the leaf stored at `a` (`none` when `a` designates no
leaf). -/
def leaf_next (S : ArtIndex) (a : ItemPointerData) : Option (List Nat × ItemPointerData) :=
  match get_node S a with
  | some (.leaf l) => some (l.key, l.next_leaf_iptr)
  | _ => none

/-- The last reference of the leaf stored at `a` (`none` when `a` designates no leaf). -/
def leaf_last (S : ArtIndex) (a : ItemPointerData) : Option ItemPointerData :=
  match get_node S a with
  | some (.leaf l) => some l.last_leaf_iptr
  | _ => none

/-- The addresses `segs` are what following the next references visits: every address
designates a leaf with the key `key`, the next reference of each leaf but the final one is
valid and is the address that follows, and the next reference of the final leaf is invalid.
`nx` gives the key and next reference at an address. -/
def chain_linked (nx : ItemPointerData → Option (List Nat × ItemPointerData)) (key : List Nat) :
    List ItemPointerData → Bool
  | [] => false
  | [a] =>
      match nx a with
      | some (k, n) => k == key && !ItemPointerIsValid n
      | none => false
  | a :: b :: rest =>
      match nx a with
      | some (k, n) => k == key && ItemPointerIsValid n && n == b && chain_linked nx key (b :: rest)
      | none => false

/-- The last references along a chain: the head's last reference is invalid when the head
is the only segment and is the address of the final segment otherwise; the last reference of
every other segment is invalid. `ls` gives the last reference at an address. -/
def chain_last_refs (ls : ItemPointerData → Option ItemPointerData) :
    List ItemPointerData → Bool
  | [] => false
  | [a] =>
      match ls a with
      | some p => !ItemPointerIsValid p
      | none => false
  | a :: b :: rest =>
      (ls a == (b :: rest).getLast?) &&
      (b :: rest).all (fun c =>
        match ls c with
        | some p => !ItemPointerIsValid p
        | none => false)

/-- The leaf chain invariant of the index `S` for the chain `segs` (head first) of the key
`key`: no address occurs twice, the segments are linked by their next references, and the
last references are as `chain_last_refs` says. -/
def leaf_chain_ok (S : ArtIndex) (key : List Nat) (segs : List ItemPointerData) : Bool :=
  decide segs.Nodup && chain_linked (leaf_next S) key segs && chain_last_refs (leaf_last S) segs

/-- Successive duplicate-key inserts under the key of the head leaf at `head`: each insert
starts with fresh page entries, as `artinsert` does, reaches the head leaf and calls
`_update_leaf_item` on its entry. -/
def update_leaf_items (cfg : ArtConfig) (head : ItemPointerData) :
    ArtIndex → List ArtTuple → Option ArtIndex
  | S, [] => some S
  | S, t :: ts =>
      match get_node (fresh_entries S) head with
      | some (.leaf l) =>
          match _update_leaf_item cfg (fresh_entries S) head l t with
          | some S1 => update_leaf_items cfg head S1 ts
          | none => none
      | _ => none

/-- The locators of the leaf stored at `a` (none when `a` designates no leaf). -/
def leaf_items (S : ArtIndex) (a : ItemPointerData) : List ItemPointerData :=
  match get_node S a with
  | some (.leaf l) => l.items
  | _ => []

/-- The locators stored along a chain, segment by segment. -/
def chain_items (S : ArtIndex) (segs : List ItemPointerData) : List ItemPointerData :=
  (segs.map (leaf_items S)).flatten

/-- The index after the insert of the variable-width value `xa` with the locator (0,1) into
the empty index: one leaf, at (2,1). -/
def one_key_index : ArtIndex :=
  (insert_all default_config empty_index [_art_form_key_varlena [120, 97] ⟨0, 1⟩]).getD
    empty_index

end PgArt
namespace PgArt

/-! ## The references a search reads -/

/-- The references that source `_art_search`, entered on `node`, hands to
`_art_get_node_from_iptr`, in the order of the calls: every item removed from the children
queue is read with `PageGetItem(page, PageGetItemId(page, off))` before the recursive call,
whatever its offset number is. The traversal is that of `_art_search`. -/
def search_dereferences (S : ArtIndex) (sk_strategy : Nat) (key : List Nat) :
    Nat → ArtNode → ItemPointerData → Bool → Bool → Nat → List ItemPointerData
  | 0, _, _, _, _, _ => []
  | fuel + 1, node, iptr, range, compare, depth =>
      match node with
      | .leaf _ => []
      | _ =>
          match node.header? with
          | none => []
          | some h =>
            if h.prefix_key_len != 0 ∧
                ( _art_check_prefix h key key.length depth)
                  ≠ min MAX_PREFIX_KEY_LEN h.prefix_key_len then []
            else
              let depth := if h.prefix_key_len != 0 then depth + h.prefix_key_len else depth
              let added : List ArtQueueItemPointer :=
                if !range then
                  match _art_find_child_equal node (key_at key depth) with
                  | some c => [⟨c, true⟩]
                  | none => []
                else _art_find_child_range node (key_at key depth) sk_strategy compare
              let children_queue :=
                added.foldl (fun hq x => ph_add (_art_find_cmp_distance iptr) hq x) none
              ((ph_drain (_art_find_cmp_distance iptr) added.length children_queue).map
                (fun item =>
                  item.iptr ::
                    (match get_node S item.iptr with
                     | none => []
                     | some child =>
                         search_dereferences S sk_strategy key fuel child item.iptr range
                           item.compare (depth + 1)))).flatten

/-- The references read by the search that the first `artgettuple` call of a scan runs: the
root reference and those of `_art_search` from the root. -/
def scan_dereferences (S : ArtIndex) (sk_strategy : Nat) (key : List Nat) :
    List ItemPointerData :=
  ⟨ART_ROOT_NODE_BLKNO, 1⟩ ::
    (match get_node S ⟨ART_ROOT_NODE_BLKNO, 1⟩ with
     | none => []
     | some root_node =>
         search_dereferences S sk_strategy key (store_fuel S) root_node ⟨ART_ROOT_NODE_BLKNO, 1⟩
           (sk_strategy != BTEqualStrategyNumber) true 0)

/-- The references of a list that designate no stored item. -/
def undesignated (S : ArtIndex) (refs : List ItemPointerData) : List ItemPointerData :=
  refs.filter (fun r => (get_node S r).isNone)

/-- The variable-width value `x c 07^8112` (8114 bytes) with the locator (0,3): its key of
8115 bytes passes the size check of `artinsert`, and its leaf fits no page. -/
def oversize_tuple : ArtTuple :=
  _art_form_key_varlena (120 :: 99 :: List.replicate 8112 7) ⟨0, 3⟩

/-- The index after the inserts of `xa`, `xb` and `oversize_tuple` into the empty index
(`none` if an insert raised an error). -/
def oversize_child_index : Option ArtIndex :=
  insert_all default_config empty_index
    [_art_form_key_varlena [120, 97] ⟨0, 1⟩, _art_form_key_varlena [120, 98] ⟨0, 2⟩,
     oversize_tuple]

end PgArt

namespace PgArt

/-! ## A leaf tail page under a non-default reservation fraction -/

/-- Settings with `art.page_leaf_insert_treshold = 0.57`: the `double` nearest to 0.57 is
`5134103575202365 / 2 ^ 53` (bit pattern `0x3FE23D70A3D70A3D`), slightly below 0.57. -/
def reserve_example_config : ArtConfig :=
  { update_parent_iptr := true, leaf_treshold_mant := 5134103575202365, leaf_treshold_exp := 53 }

/-- A leaf of the two-byte key `[b, 0]` holding `m` locators. -/
def reserve_example_leaf (b m : Nat) : ArtNode :=
  .leaf { parent_iptr := ⟨1, 1⟩, next_leaf_iptr := invalid_iptr, last_leaf_iptr := invalid_iptr,
          key := [b, 0], items := List.replicate m ⟨0, 1⟩ }

/-- A leaf page holding two leaves of 4034 and 3998 bytes: 100 bytes are free. -/
def reserve_example_page : ArtPage :=
  { _art_init_data_page ART_LEAF_PAGE false with
    items := [some (reserve_example_leaf 1 668), some (reserve_example_leaf 2 662)] }

/-- The empty index with `reserve_example_page` as its leaf tail page. -/
def reserve_example_index : ArtIndex :=
  { empty_index with pages := empty_index.pages.set ART_LEAF_NODE_BLKNO reserve_example_page }

end PgArt

namespace PgArt

/-! ## The leaf split -/

end PgArt

namespace PgArt

/-! ## Arithmetic of the `double` reservation fraction -/

theorem bit_length_loop_spec (fuel : Nat) : ∀ p, p ≤ fuel →
    p < 2 ^ bit_length_loop fuel p ∧ (p ≠ 0 → 2 ^ (bit_length_loop fuel p - 1) ≤ p) := by
  induction fuel with
  | zero =>
    intro p hp
    have : p = 0 := by omega
    subst this
    simp [bit_length_loop]
  | succ f ih =>
    intro p hp
    unfold bit_length_loop
    by_cases h0 : p = 0
    · subst h0; simp
    · rw [if_neg h0]
      have hle : p / 2 ≤ f := by omega
      obtain ⟨h1, h2⟩ := ih (p / 2) hle
      refine ⟨?_, fun _ => ?_⟩
      · rw [pow_succ]; omega
      · simp only [Nat.add_sub_cancel]
        by_cases h3 : p / 2 = 0
        · have : bit_length_loop f (p / 2) = 0 := by
            rw [h3]; cases f <;> simp [bit_length_loop]
          rw [this]; simp; omega
        · have h4 := h2 h3
          have h5 : bit_length_loop f (p / 2) ≠ 0 := by
            intro h6; rw [h6] at h1; simp at h1; exact h3 h1
          obtain ⟨k, hk⟩ := Nat.exists_eq_succ_of_ne_zero h5
          rw [hk] at h4 ⊢
          simp only [Nat.succ_sub_one] at h4
          rw [pow_succ]; omega

theorem lt_pow_bit_length (p : Nat) : p < 2 ^ bit_length p :=
  (bit_length_loop_spec p p (Nat.le_refl p)).1

theorem pow_bit_length_le (p : Nat) (h : p ≠ 0) : 2 ^ (bit_length p - 1) ≤ p :=
  (bit_length_loop_spec p p (Nat.le_refl p)).2 h

theorem bit_length_le (p k : Nat) (h : p < 2 ^ k) : bit_length p ≤ k := by
  by_contra hc
  have h0 : p ≠ 0 := by
    intro h0; subst h0
    have : bit_length 0 = 0 := rfl
    omega
  have h1 := pow_bit_length_le p h0
  have h2 : 2 ^ k ≤ 2 ^ (bit_length p - 1) := Nat.pow_le_pow_right (by decide) (by omega)
  omega

theorem round_half_even_zero (p : Nat) : round_half_even p 0 = p := by
  simp [round_half_even]
  omega

theorem round_to_double_small (p : Nat) (h : p < 2 ^ 53) : round_to_double p = p := by
  have := bit_length_le p 53 h
  unfold round_to_double
  have hs : bit_length p - 53 = 0 := by omega
  simp only [hs, round_half_even_zero, pow_zero, Nat.mul_one]

/-- Rounding never passes a multiple of the rounding unit that lies above. -/
theorem round_half_even_le (p s c : Nat) (hpc : p ≤ c * 2 ^ s) :
    round_half_even p s * 2 ^ s ≤ c * 2 ^ s := by
  have hpos : 0 < 2 ^ s := Nat.two_pow_pos _
  apply Nat.mul_le_mul_right
  unfold round_half_even
  simp only
  have hq : p / 2 ^ s ≤ c :=
    Nat.div_le_of_le_mul (by rw [Nat.mul_comm]; exact hpc)
  split
  · rename_i h
    have hr : p % 2 ^ s ≠ 0 := by
      rcases h with h | h
      · omega
      · omega
    by_contra hc
    have hqc : p / 2 ^ s = c := by omega
    have := Nat.div_add_mod p (2 ^ s)
    rw [hqc, Nat.mul_comm] at this
    omega
  · exact hq

theorem round_to_double_le (p n k : Nat) (hn : n < 2 ^ 53) (hp : p ≤ n * 2 ^ k) :
    round_to_double p ≤ n * 2 ^ k := by
  unfold round_to_double
  by_cases hs : bit_length p - 53 = 0
  · simp only [hs, round_half_even_zero, pow_zero, Nat.mul_one]; exact hp
  · have h0 : p ≠ 0 := by
      intro h0; subst h0
      have : bit_length 0 = 0 := rfl
      omega
    have h1 := pow_bit_length_le p h0
    have hsk : bit_length p - 53 ≤ k := by
      by_contra hc
      have h2 : 2 ^ (53 + k) ≤ 2 ^ (bit_length p - 1) :=
        Nat.pow_le_pow_right (by decide) (by omega)
      have h3 : n * 2 ^ k < 2 ^ 53 * 2 ^ k :=
        Nat.mul_lt_mul_of_pos_right hn (Nat.two_pow_pos _)
      rw [← pow_add] at h3
      omega
    obtain ⟨d, hd⟩ := Nat.exists_eq_add_of_le hsk
    have hc : n * 2 ^ k = (n * 2 ^ d) * 2 ^ (bit_length p - 53) := by
      rw [Nat.mul_assoc, ← pow_add, Nat.add_comm d, ← hd]
    rw [hc] at hp ⊢
    exact round_half_even_le p _ _ hp

theorem size_times_double_le (n mant exp : Nat) (hn : n < 2 ^ 53) (hm : mant ≤ 2 ^ exp) :
    size_times_double n mant exp ≤ n := by
  unfold size_times_double
  rw [round_to_double_small n hn]
  have h1 : n * mant ≤ n * 2 ^ exp := Nat.mul_le_mul_left n hm
  have h2 := round_to_double_le (n * mant) n exp hn h1
  exact Nat.div_le_of_le_mul (by rw [Nat.mul_comm (2 ^ exp) n]; exact h2)

theorem round_half_even_bounds (p s : Nat) :
    p / 2 ^ s ≤ round_half_even p s ∧ round_half_even p s ≤ p / 2 ^ s + 1 := by
  unfold round_half_even
  simp only
  split <;> omega

/-- With the `double` nearest to 0.8 the rounded and truncated product is the whole part of
four fifths, for every free space a page can have. -/
theorem default_product_floor (f : Nat) (hf : f ≤ 8192) :
    size_times_double f 7205759403792794 53 = 4 * f / 5 := by
  unfold size_times_double
  have hf53 : f < 2 ^ 53 := by
    have : (8192 : Nat) < 2 ^ 53 := by decide
    omega
  rw [round_to_double_small f hf53]
  unfold round_to_double
  simp only
  have hp : f * 7205759403792794 < 2 ^ 66 := by
    have : (8192 : Nat) * 7205759403792794 < 2 ^ 66 := by decide
    omega
  have hb := bit_length_le _ 66 hp
  generalize bit_length (f * 7205759403792794) = b at hb ⊢
  have hs : b - 53 ≤ 13 := by omega
  generalize b - 53 = s at hs ⊢
  obtain ⟨hlo, hhi⟩ := round_half_even_bounds (f * 7205759403792794) s
  generalize round_half_even (f * 7205759403792794) s = q at hlo hhi ⊢
  have hx1 : 2 ^ s ≤ 2 ^ 13 := Nat.pow_le_pow_right (by decide) hs
  have hx0 : 0 < 2 ^ s := Nat.two_pow_pos _
  have hy : (2 : Nat) ^ 53 = 2 ^ (53 - s) * 2 ^ s := by
    rw [← pow_add]; congr 1; omega
  have hdm := Nat.div_add_mod (f * 7205759403792794) (2 ^ s)
  have hml := Nat.mod_lt (f * 7205759403792794) hx0
  have hq1 : q * 2 ^ s ≤ (f * 7205759403792794 / 2 ^ s + 1) * 2 ^ s :=
    Nat.mul_le_mul_right _ hhi
  have hq2 : f * 7205759403792794 / 2 ^ s * 2 ^ s ≤ q * 2 ^ s :=
    Nat.mul_le_mul_right _ hlo
  have ha : 4 * f / 5 * 2 ^ 53 ≤ f * 7205759403792794 := by
    norm_num
    omega
  apply Nat.div_eq_of_lt_le
  · -- the rounded product is not below the multiple of 2 ^ 53
    rw [hy, ← Nat.mul_assoc] at ha ⊢
    have h1 : 4 * f / 5 * 2 ^ (53 - s) ≤ f * 7205759403792794 / 2 ^ s :=
      (Nat.le_div_iff_mul_le hx0).2 ha
    exact Nat.le_trans (Nat.mul_le_mul_right _ h1) hq2
  · have h2 : (f * 7205759403792794 / 2 ^ s + 1) * 2 ^ s
        = 2 ^ s * (f * 7205759403792794 / 2 ^ s) + 2 ^ s := by ring
    rw [h2] at hq1
    have h13 : (2 : Nat) ^ 13 = 8192 := by decide
    have h53 : (2 : Nat) ^ 53 = 9007199254740992 := by decide
    rw [h13] at hx1
    generalize 2 ^ s = x at *
    generalize f * 7205759403792794 / x = d at *
    generalize x * d = e at *
    show q * x < (4 * f / 5 + 1) * 2 ^ 53
    rw [h53]
    omega

/-- No page has more free space than a block holds. -/
theorem free_space_le_block (p : ArtPage) : PageGetFreeSpace p ≤ 8192 := by
  have h : pd_special = 8176 := by decide
  unfold PageGetFreeSpace PageGetExactFreeSpace pd_upper
  rw [h]
  split <;> omega

theorem free_space_lt_pow (p : ArtPage) : PageGetFreeSpace p < 2 ^ 53 := by
  have h := free_space_le_block p
  have : (8192 : Nat) < 2 ^ 53 := by decide
  omega

end PgArt

namespace PgArt

theorem memmove_up_set_append {α : Type} (xs pad : List α) (idx : Nat) (v : α)
    (h : idx ≤ xs.length) (hp : pad ≠ []) :
    (memmove_up (xs ++ pad) idx (xs.length - idx)).set idx v
      = xs.take idx ++ v :: xs.drop idx ++ pad.tail := by
  cases pad with
  | nil => exact absurd rfl hp
  | cons p ps =>
    unfold memmove_up
    have hlen : idx < (xs ++ p :: ps).length := by simp; omega
    have h1 : ((xs ++ p :: ps).take (idx + 1)).set idx v = xs.take idx ++ [v] := by
      rw [List.set_eq_take_append_cons_drop]
      have : idx < (List.take (idx + 1) (xs ++ p :: ps)).length := by
        simp [List.length_take]; omega
      rw [if_pos this, List.take_take, List.drop_take]
      simp [List.take_append_eq_append_take]
      omega
    have h2 : ((xs ++ p :: ps).drop idx).take (xs.length - idx) = xs.drop idx := by
      rw [List.drop_append_eq_append_drop]
      simp [List.take_append_eq_append_take]
    have h3 : (xs ++ p :: ps).drop (idx + 1 + (xs.length - idx)) = ps := by
      have : idx + 1 + (xs.length - idx) = xs.length + 1 := by omega
      rw [this, List.drop_append_eq_append_drop]
      simp
    rw [h2, h3, List.append_assoc, List.set_append]
    have : idx < (List.take (idx + 1) (xs ++ p :: ps)).length := by
      simp [List.length_take]; omega
    rw [if_pos this, h1]
    simp

theorem kv_lookup (ks : List Nat) (cs : List ItemPointerData) (key : Nat) (d : ItemPointerData)
    (hlen : ks.length ≤ cs.length) :
    (if key ∈ ks then some (cs.getD (ks.indexOf key) d) else none)
      = List.lookup key (ks.zip cs) := by
  induction ks generalizing cs with
  | nil => simp
  | cons a t ih =>
    cases cs with
    | nil => simp at hlen
    | cons c cs =>
      simp only [List.length_cons, Nat.add_le_add_iff_right] at hlen
      by_cases h : key = a
      · subst h; simp [List.lookup]
      · have h' : (key == a) = false := by simpa using h
        have h'' : (a == key) = false := by simpa using (Ne.symm h)
        simp only [List.mem_cons, h, false_or, List.zip_cons_cons, List.lookup, h',
          List.indexOf_cons, h'', cond_false, List.getD_cons_succ]
        exact ih cs hlen

end PgArt

namespace PgArt


theorem node_arr_insert {α : Type} (a : List α) (n idx : Nat) (v : α)
    (hn : n < a.length) (hi : idx ≤ n) :
    (memmove_up a idx (n - idx)).set idx v = ins_at (a.take n) idx v ++ a.drop (n + 1) := by
  have hx : (a.take n).length = n := by simp [List.length_take]; omega
  have hp : a.drop n ≠ [] := by
    intro h
    have := congrArg List.length h
    simp at this; omega
  have key := memmove_up_set_append (a.take n) (a.drop n) idx v (by omega) hp
  rw [List.take_append_drop, hx] at key
  rw [key]
  simp [ins_at, List.tail_drop]

theorem length_ins_at {α : Type} (xs : List α) (i : Nat) (v : α) (h : i ≤ xs.length) :
    (ins_at xs i v).length = xs.length + 1 := by
  simp [ins_at, List.length_take]; omega

theorem take_node_arr_insert {α : Type} (a : List α) (n idx : Nat) (v : α)
    (hn : n < a.length) (hi : idx ≤ n) :
    ((memmove_up a idx (n - idx)).set idx v).take (n + 1) = ins_at (a.take n) idx v := by
  rw [node_arr_insert a n idx v hn hi]
  have hx : (a.take n).length = n := by simp [List.length_take]; omega
  have : (ins_at (a.take n) idx v).length = n + 1 := by
    rw [length_ins_at _ _ _ (by omega), hx]
  exact List.take_left' this

theorem length_node_arr_insert {α : Type} (a : List α) (n idx : Nat) (v : α) :
    ((memmove_up a idx (n - idx)).set idx v).length
      = (memmove_up a idx (n - idx)).length := by simp

theorem length_node_arr_insert' {α : Type} (a : List α) (n idx : Nat) (v : α)
    (hn : n < a.length) (hi : idx ≤ n) :
    ((memmove_up a idx (n - idx)).set idx v).length = a.length := by
  rw [node_arr_insert a n idx v hn hi]
  have hx : (a.take n).length = n := by simp [List.length_take]; omega
  rw [List.length_append, length_ins_at _ _ _ (by omega), hx, List.length_drop]
  omega

theorem add_child_pos_le (keys : List Nat) (n key : Nat) : add_child_pos keys n key ≤ n := by
  unfold add_child_pos
  have h1 : ((keys.take n).takeWhile (fun x => !decide (key < x))).length
      ≤ (keys.take n).length :=
    (List.takeWhile_sublist _).length_le
  have h2 : (keys.take n).length ≤ n := by simp [List.length_take]
  omega

theorem ins_at_pos_eq (ks : List Nat) (k : Nat) :
    ins_at ks ((ks.takeWhile (fun x => !decide (k < x))).length) k
      = ks.takeWhile (fun x => !decide (k < x)) ++ k :: ks.dropWhile (fun x => !decide (k < x)) := by
  unfold ins_at
  have h := List.takeWhile_append_dropWhile (fun x => !decide (k < x)) ks
  have h1 : ks.take (ks.takeWhile (fun x => !decide (k < x))).length
      = ks.takeWhile (fun x => !decide (k < x)) := by
    have := @List.take_left' _ (ks.takeWhile (fun x => !decide (k < x)))
      (ks.dropWhile (fun x => !decide (k < x))) _ rfl
    rwa [h] at this
  have h2 : ks.drop (ks.takeWhile (fun x => !decide (k < x))).length
      = ks.dropWhile (fun x => !decide (k < x)) := by
    have := @List.drop_left' _ (ks.takeWhile (fun x => !decide (k < x)))
      (ks.dropWhile (fun x => !decide (k < x))) _ rfl
    rwa [h] at this
  rw [h1, h2]

theorem sorted_ins_at_pos (ks : List Nat) (k : Nat) (hs : ks.Pairwise (· < ·)) (hk : k ∉ ks) :
    (ins_at ks ((ks.takeWhile (fun x => !decide (k < x))).length) k).Pairwise (· < ·) := by
  rw [ins_at_pos_eq]
  have h := List.takeWhile_append_dropWhile (fun x => !decide (k < x)) ks
  rw [← h] at hs hk
  rw [List.pairwise_append] at hs ⊢
  obtain ⟨h1, h2, h3⟩ := hs
  have hlt : ∀ a ∈ ks.takeWhile (fun x => !decide (k < x)), a < k := by
    intro a ha
    have := List.mem_takeWhile_imp ha
    simp at this
    have hne : a ≠ k := by
      intro e; subst e; exact hk (List.mem_append_left _ ha)
    omega
  have hgt : ∀ b ∈ ks.dropWhile (fun x => !decide (k < x)), k < b := by
    intro b hb
    cases hd : ks.dropWhile (fun x => !decide (k < x)) with
    | nil => rw [hd] at hb; simp at hb
    | cons y ys =>
      have hy : k < y := by
        have := List.head_dropWhile_not (fun x => !decide (k < x)) ks (by rw [hd]; simp)
        simp [hd] at this
        exact this
      rw [hd] at hb h2
      rcases List.mem_cons.1 hb with e | hm
      · subst e; exact hy
      · have := (List.pairwise_cons.1 h2).1 b hm
        omega
  refine ⟨h1, ?_, ?_⟩
  · rw [List.pairwise_cons]
    exact ⟨hgt, h2⟩
  · intro a ha b hb
    rcases List.mem_cons.1 hb with e | hm
    · subst e; exact hlt a ha
    · exact h3 a ha b hm

theorem perm_ins_at {α : Type} (xs : List α) (i : Nat) (v : α) :
    List.Perm (ins_at xs i v) (v :: xs) := by
  unfold ins_at
  have := @List.perm_middle _ v (xs.take i) (xs.drop i)
  simpa using this

theorem zip_ins_at {α β : Type} (xs : List α) (ys : List β) (i : Nat) (a : α) (b : β)
    (h : xs.length = ys.length) :
    (ins_at xs i a).zip (ins_at ys i b) = ins_at (xs.zip ys) i (a, b) := by
  unfold ins_at
  rw [List.zip_append (by simp [List.length_take, h])]
  simp [List.zip_cons_cons, List.zip, List.take_zipWith, List.drop_zipWith]

theorem lookup_ins_at (L : List (Nat × ItemPointerData)) (i : Nat) (k : Nat) (c : ItemPointerData)
    (hk : List.lookup k L = none) (k' : Nat) :
    List.lookup k' (ins_at L i (k, c)) = if k' = k then some c else List.lookup k' L := by
  unfold ins_at
  rw [List.lookup_append]
  have hL : List.lookup k' L
      = (List.lookup k' (L.take i)).or (List.lookup k' (L.drop i)) := by
    rw [← List.lookup_append, List.take_append_drop]
  by_cases e : k' = k
  · subst e
    rw [hL] at hk
    have h1 : List.lookup k' (L.take i) = none := by
      cases h : List.lookup k' (L.take i) <;> simp_all
    simp [h1, List.lookup]
  · have e' : (k' == k) = false := by simpa using e
    simp [e, hL, List.lookup, e']

end PgArt


namespace PgArt

theorem add_child_pos_eq (keys : List Nat) (n key : Nat) :
    add_child_pos keys n key = ((keys.take n).takeWhile (fun x => !decide (key < x))).length := rfl

theorem memcpy_arr_take {α : Type} (dst src : List α) (n : Nat) (h : n ≤ src.length) :
    (memcpy_arr dst src n).take n = src.take n := by
  unfold memcpy_arr
  exact List.take_left' (by simp [List.length_take]; omega)

theorem memcpy_arr_length {α : Type} (dst src : List α) (n : Nat) (h : n ≤ src.length)
    (h' : n ≤ dst.length) : (memcpy_arr dst src n).length = dst.length := by
  unfold memcpy_arr
  simp [List.length_take]; omega

/-- The in-place branch shared by `_add_child_node4` and `_add_child_node16`, on the used
parts of the two arrays. -/
theorem inplace_step (keys : List Nat) (children : List ItemPointerData) (n k : Nat)
    (c : ItemPointerData) (hk : n < keys.length) (hc : n < children.length) :
    ((memmove_up keys (add_child_pos keys n k) (n - add_child_pos keys n k)).set
        (add_child_pos keys n k) k).length = keys.length ∧
    ((memmove_up children (add_child_pos keys n k) (n - add_child_pos keys n k)).set
        (add_child_pos keys n k) c).length = children.length ∧
    ((memmove_up keys (add_child_pos keys n k) (n - add_child_pos keys n k)).set
        (add_child_pos keys n k) k).take (n + 1)
      = ins_at (keys.take n) (add_child_pos keys n k) k ∧
    ((memmove_up children (add_child_pos keys n k) (n - add_child_pos keys n k)).set
        (add_child_pos keys n k) c).take (n + 1)
      = ins_at (children.take n) (add_child_pos keys n k) c :=
  ⟨length_node_arr_insert' keys n _ k hk (add_child_pos_le keys n k),
   length_node_arr_insert' children n _ c hc (add_child_pos_le keys n k),
   take_node_arr_insert keys n _ k hk (add_child_pos_le keys n k),
   take_node_arr_insert children n _ c hc (add_child_pos_le keys n k)⟩

theorem map_fst_zip_take (keys : List Nat) (children : List ItemPointerData) (n : Nat)
    (h : keys.length = children.length) :
    ((keys.take n).zip (children.take n)).map Prod.fst = keys.take n := by
  apply List.map_fst_zip
  simp [List.length_take, h]

/-- What the in-place branch establishes for the node that results. -/
theorem inplace_result (keys : List Nat) (children : List ItemPointerData) (n k cap : Nat)
    (c : ItemPointerData) (hkl : keys.length = cap) (hcl : children.length = cap) (hn : n < cap)
    (hs : (keys.take n).Pairwise (· < ·)) (hk : k ∉ keys.take n) :
    ((memmove_up keys (add_child_pos keys n k) (n - add_child_pos keys n k)).set
        (add_child_pos keys n k) k).length = cap ∧
    ((memmove_up children (add_child_pos keys n k) (n - add_child_pos keys n k)).set
        (add_child_pos keys n k) c).length = cap ∧
    (((memmove_up keys (add_child_pos keys n k) (n - add_child_pos keys n k)).set
        (add_child_pos keys n k) k).take (n + 1)).Pairwise (· < ·) ∧
    ((((memmove_up keys (add_child_pos keys n k) (n - add_child_pos keys n k)).set
        (add_child_pos keys n k) k).take (n + 1)).zip
      (((memmove_up children (add_child_pos keys n k) (n - add_child_pos keys n k)).set
        (add_child_pos keys n k) c).take (n + 1)))
      = ins_at ((keys.take n).zip (children.take n)) (add_child_pos keys n k) (k, c) := by
  obtain ⟨h1, h2, h3, h4⟩ := inplace_step keys children n k c (by omega) (by omega)
  refine ⟨by omega, by omega, ?_, ?_⟩
  · rw [h3, add_child_pos_eq]
    exact sorted_ins_at_pos _ k hs hk
  · rw [h3, h4]
    apply zip_ins_at
    simp [List.length_take, hkl, hcl]

theorem add_child_node4_lt (h : ArtNodeHeader) (keys : List Nat) (children : List ItemPointerData)
    (k : Nat) (c : ItemPointerData) (hlt : h.num_children < 4) :
    add_child_result (.node4 h keys children) k c
      = some (.node4 { h with num_children := (h.num_children + 1) % 256 }
          ((memmove_up keys (add_child_pos keys h.num_children k)
            (h.num_children - add_child_pos keys h.num_children k)).set
              (add_child_pos keys h.num_children k) k)
          ((memmove_up children (add_child_pos keys h.num_children k)
            (h.num_children - add_child_pos keys h.num_children k)).set
              (add_child_pos keys h.num_children k) c)) := by
  simp [add_child_result, _add_child, _add_child_node4, hlt]

theorem add_child_node16_lt (h : ArtNodeHeader) (keys : List Nat) (children : List ItemPointerData)
    (k : Nat) (c : ItemPointerData) (hlt : h.num_children < 16) :
    add_child_result (.node16 h keys children) k c
      = some (.node16 { h with num_children := (h.num_children + 1) % 256 }
          ((memmove_up keys (add_child_pos keys h.num_children k)
            (h.num_children - add_child_pos keys h.num_children k)).set
              (add_child_pos keys h.num_children k) k)
          ((memmove_up children (add_child_pos keys h.num_children k)
            (h.num_children - add_child_pos keys h.num_children k)).set
              (add_child_pos keys h.num_children k) c)) := by
  simp [add_child_result, _add_child, _add_child_node16, hlt]

theorem add_child_node4_full (h : ArtNodeHeader) (keys : List Nat)
    (children : List ItemPointerData) (k : Nat) (c : ItemPointerData) (hn : h.num_children = 4) :
    add_child_result (.node4 h keys children) k c
      = add_child_result (.node16 (_art_copy_header zero_header h).1
          (memcpy_arr (List.replicate 16 0) keys 4)
          (memcpy_arr (List.replicate 16 zero_iptr) children 4)) k c := by
  simp [add_child_result, _add_child, _add_child_node4, _add_child_node16, hn, _art_copy_header]

theorem add_child_grows_node4 (h : ArtNodeHeader) (keys : List Nat)
    (children : List ItemPointerData) (k : Nat) (c : ItemPointerData) :
    add_child_grows (.node4 h keys children) k c = !decide (h.num_children < 4) := by
  by_cases hlt : h.num_children < 4 <;> simp [add_child_grows, _add_child, _add_child_node4, hlt]

theorem add_child_grows_node16 (h : ArtNodeHeader) (keys : List Nat)
    (children : List ItemPointerData) (k : Nat) (c : ItemPointerData) :
    add_child_grows (.node16 h keys children) k c = !decide (h.num_children < 16) := by
  by_cases hlt : h.num_children < 16 <;>
    simp [add_child_grows, _add_child, _add_child_node16, hlt]

theorem add_child_grows_node48 (h : ArtNodeHeader) (keys : List Nat)
    (children : List ItemPointerData) (k : Nat) (c : ItemPointerData) :
    add_child_grows (.node48 h keys children) k c = !decide (h.num_children < 48) := by
  by_cases hlt : h.num_children < 48 <;>
    simp [add_child_grows, _add_child, _add_child_node48, hlt]

theorem add_child_grows_node256 (h : ArtNodeHeader)
    (children : List ItemPointerData) (k : Nat) (c : ItemPointerData) :
    add_child_grows (.node256 h children) k c = false := by
  simp [add_child_grows, _add_child]

/-- Model of `_add_child` on a sorted `Node4`, or on a sorted `Node16` with room: the result is a sorted
`Node4`/`Node16` whose index-wise pairs are the old ones with `(k, c)` inserted. -/
theorem small_step (node : ArtNode) (k : Nat) (c : ItemPointerData)
    (hs : sorted_node node) (hr : stays_small node)
    (hk : k ∉ (node_pairs node).map Prod.fst) :
    ∃ r i, add_child_result node k c = some r ∧ sorted_node r ∧
      node_pairs r = ins_at (node_pairs node) i (k, c) ∧
      children_held r = children_held node + 1 ∧
      node_type r
        = (if children_held node < capacity node then node_type node else node_type node + 1) ∧
      (add_child_grows node k c = true ↔ children_held node = capacity node) := by
  cases node with
  | leaf l => exact absurd hs id
  | node48 h keys children => exact absurd hs id
  | node256 h children => exact absurd hs id
  | node4 h keys children =>
    obtain ⟨hkl, hcl, hn, hsort⟩ := hs
    simp only [node_pairs] at hk ⊢
    rw [map_fst_zip_take keys children _ (by omega)] at hk
    by_cases hlt : h.num_children < 4
    · obtain ⟨h1, h2, h3, h4⟩ :=
        inplace_result keys children h.num_children k 4 c hkl hcl hlt hsort hk
      have hmod : (h.num_children + 1) % 256 = h.num_children + 1 := by omega
      refine ⟨_, add_child_pos keys h.num_children k, add_child_node4_lt h keys children k c hlt,
        ?_, ?_, ?_, ?_, ?_⟩
      · simp only [sorted_node, hmod]
        exact ⟨h1, h2, by omega, h3⟩
      · simp only [node_pairs, hmod, h4]
      · simp only [children_held, hmod]
      · simp only [children_held, capacity, node_type, hlt, if_true]
      · rw [add_child_grows_node4]
        simp only [children_held, capacity]
        simp; omega
    · have hn4 : h.num_children = 4 := by omega
      have hk4 : (memcpy_arr (List.replicate 16 0) keys 4).take 4 = keys.take 4 :=
        memcpy_arr_take _ _ _ (by omega)
      have hc4 : (memcpy_arr (List.replicate 16 zero_iptr) children 4).take 4 = children.take 4 :=
        memcpy_arr_take _ _ _ (by omega)
      have hkl' : (memcpy_arr (List.replicate 16 0) keys 4).length = 16 := by
        rw [memcpy_arr_length _ _ _ (by omega) (by simp)]; simp
      have hcl' : (memcpy_arr (List.replicate 16 zero_iptr) children 4).length = 16 := by
        rw [memcpy_arr_length _ _ _ (by omega) (by simp)]; simp
      rw [hn4] at hk hsort
      obtain ⟨h1, h2, h3, h4⟩ :=
        inplace_result (memcpy_arr (List.replicate 16 0) keys 4)
          (memcpy_arr (List.replicate 16 zero_iptr) children 4) 4 k 16 c hkl' hcl' (by omega)
          (by rw [hk4]; exact hsort) (by rw [hk4]; exact hk)
      have hnc : (_art_copy_header zero_header h).1.num_children = 4 := hn4
      refine ⟨_, add_child_pos (memcpy_arr (List.replicate 16 0) keys 4) 4 k,
        (add_child_node4_full h keys children k c hn4).trans
        (add_child_node16_lt _ _ _ k c (by rw [hnc]; omega)), ?_, ?_, ?_, ?_, ?_⟩
      · simp only [sorted_node, hnc]
        exact ⟨h1, h2, by omega, h3⟩
      · simp only [node_pairs, hn4, hnc]
        rw [show (4 + 1) % 256 = 4 + 1 from rfl, h4, hk4, hc4]
      · simp only [children_held, hnc, hn4]
      · simp only [children_held, capacity, node_type, hn4]
        rfl
      · rw [add_child_grows_node4]
        simp only [children_held, capacity]
        simp; omega
  | node16 h keys children =>
    obtain ⟨hkl, hcl, hn, hsort⟩ := hs
    have hlt : h.num_children < 16 := hr
    simp only [node_pairs] at hk ⊢
    rw [map_fst_zip_take keys children _ (by omega)] at hk
    obtain ⟨h1, h2, h3, h4⟩ :=
      inplace_result keys children h.num_children k 16 c hkl hcl hlt hsort hk
    have hmod : (h.num_children + 1) % 256 = h.num_children + 1 := by omega
    refine ⟨_, add_child_pos keys h.num_children k, add_child_node16_lt h keys children k c hlt,
      ?_, ?_, ?_, ?_, ?_⟩
    · simp only [sorted_node, hmod]
      exact ⟨h1, h2, by omega, h3⟩
    · simp only [node_pairs, hmod, h4]
    · simp only [children_held, hmod]
    · simp only [children_held, capacity, node_type, hlt, if_true]
    · rw [add_child_grows_node16]
      simp only [children_held, capacity]
      simp; omega

theorem sorted_node_type (node : ArtNode) (hs : sorted_node node) :
    node_type node = 1 ∨ node_type node = 2 := by
  cases node with
  | leaf l => exact absurd hs id
  | node48 h keys children => exact absurd hs id
  | node256 h children => exact absurd hs id
  | node4 h keys children => exact Or.inl rfl
  | node16 h keys children => exact Or.inr rfl

end PgArt

namespace PgArt

theorem getD_take_of_lt {α : Type} (l : List α) (n i : Nat) (d : α) (h : i < n) :
    (l.take n).getD i d = l.getD i d := by
  simp [List.getD_eq_getElem?_getD, List.getElem?_take, h]

theorem find_small_eq_lookup (keys : List Nat) (children : List ItemPointerData) (n key : Nat)
    (h : keys.length = children.length) :
    (find_key_index keys n key).map (fun i => children.getD i zero_iptr)
      = List.lookup key ((keys.take n).zip (children.take n)) := by
  rw [← kv_lookup (keys.take n) (children.take n) key zero_iptr (by simp [List.length_take, h])]
  unfold find_key_index
  by_cases hm : key ∈ keys.take n
  · simp only [hm, if_true, Option.map_some']
    have hi : (keys.take n).indexOf key < n := by
      have := List.indexOf_lt_length.2 hm
      have h2 : (keys.take n).length ≤ n := by simp [List.length_take]
      omega
    rw [getD_take_of_lt _ _ _ _ hi]
  · simp [hm]

theorem find_eq_lookup_of_sorted (node : ArtNode) (hs : sorted_node node) (key : Nat) :
    _art_find_child_equal node key = List.lookup key (node_pairs node) := by
  cases node with
  | leaf l => exact absurd hs id
  | node48 h keys children => exact absurd hs id
  | node256 h children => exact absurd hs id
  | node4 h keys children =>
    obtain ⟨hkl, hcl, hn, _⟩ := hs
    simp only [_art_find_child_equal, node_pairs]
    exact find_small_eq_lookup keys children _ key (by omega)
  | node16 h keys children =>
    obtain ⟨hkl, hcl, hn, _⟩ := hs
    simp only [_art_find_child_equal, node_pairs]
    rw [Nat.min_eq_left hn]
    exact find_small_eq_lookup keys children _ key (by omega)

theorem lookup_eq_none_iff_not_mem (L : List (Nat × ItemPointerData)) (k : Nat) :
    List.lookup k L = none ↔ k ∉ L.map Prod.fst := by
  induction L with
  | nil => simp
  | cons p t ih =>
    obtain ⟨a, b⟩ := p
    by_cases h : k = a
    · subst h; simp [List.lookup]
    · have h' : (k == a) = false := by simpa using h
      simp [List.lookup, h', ih, h]

theorem mem_ins_at {α : Type} (xs : List α) (i : Nat) (v x : α) :
    x ∈ ins_at xs i v ↔ x = v ∨ x ∈ xs := by
  rw [(perm_ins_at xs i v).mem_iff]; simp

end PgArt

namespace PgArt

theorem getD_set_eq {α : Type} (l : List α) (i : Nat) (a d : α) (h : i < l.length) :
    (l.set i a).getD i d = a := by
  simp [List.getD_eq_getElem?_getD, List.getElem?_set, h]

theorem getD_set_ne {α : Type} (l : List α) (i j : Nat) (a d : α) (h : i ≠ j) :
    (l.set i a).getD j d = l.getD j d := by
  simp [List.getD_eq_getElem?_getD, List.getElem?_set, h]

theorem getD_mem {α : Type} (l : List α) (i : Nat) (d : α) (h : i < l.length) :
    l.getD i d ∈ l := by
  rw [List.getD_eq_getElem?_getD, List.getElem?_eq_getElem h]
  simp

theorem getD_of_length_le {α : Type} (l : List α) (i : Nat) (d : α) (h : l.length ≤ i) :
    l.getD i d = d := by
  simp [List.getD_eq_getElem?_getD, List.getElem?_eq_none h]

theorem node16_to_48_keys_succ (keys : List Nat) (m : Nat) :
    node16_to_48_keys keys (m + 1)
      = (node16_to_48_keys keys m).set (keys.getD m 0) (m + 1) := by
  unfold node16_to_48_keys
  rw [List.range_succ, List.foldl_append]
  rfl

theorem node16_to_48_keys_length (keys : List Nat) (m : Nat) :
    (node16_to_48_keys keys m).length = 256 := by
  induction m with
  | zero =>
    unfold node16_to_48_keys
    rw [List.range_zero, List.foldl_nil, List.length_replicate]
  | succ m ih => rw [node16_to_48_keys_succ, List.length_set]; exact ih

theorem node16_to_48_keys_hit (keys : List Nat) (m : Nat)
    (hnd : ∀ i j, i < m → j < m → keys.getD i 0 = keys.getD j 0 → i = j)
    (hb : ∀ i, i < m → keys.getD i 0 < 256) :
    ∀ i, i < m → (node16_to_48_keys keys m).getD (keys.getD i 0) 0 = i + 1 := by
  induction m with
  | zero => intro i hi; omega
  | succ m ih =>
    intro i hi
    rw [node16_to_48_keys_succ]
    by_cases e : i = m
    · subst e
      exact getD_set_eq _ _ _ _ (by rw [node16_to_48_keys_length]; exact hb i (by omega))
    · have hne : keys.getD m 0 ≠ keys.getD i 0 := by
        intro h; exact e (hnd i m (by omega) (by omega) h.symm)
      rw [getD_set_ne _ _ _ _ _ hne]
      exact ih (fun a b ha hb' => hnd a b (by omega) (by omega)) (fun a ha => hb a (by omega))
        i (by omega)

theorem node16_to_48_keys_miss (keys : List Nat) (m b : Nat)
    (hmiss : ∀ i, i < m → keys.getD i 0 ≠ b) :
    (node16_to_48_keys keys m).getD b 0 = 0 := by
  induction m with
  | zero =>
    unfold node16_to_48_keys
    rw [List.range_zero, List.foldl_nil, List.getD_eq_getElem?_getD, List.getElem?_replicate]
    split <;> rfl
  | succ m ih =>
    rw [node16_to_48_keys_succ, getD_set_ne _ _ _ _ _ (hmiss m (by omega))]
    exact ih (fun i hi => hmiss i (by omega))

theorem node16_to_48_keys_count (keys : List Nat) (m : Nat)
    (hnd : ∀ i j, i < m → j < m → keys.getD i 0 = keys.getD j 0 → i = j)
    (hb : ∀ i, i < m → keys.getD i 0 < 256) :
    (node16_to_48_keys keys m).countP (fun x => x != 0) = m := by
  induction m with
  | zero =>
    unfold node16_to_48_keys
    rw [List.range_zero, List.foldl_nil]
    exact List.countP_eq_zero.2 (fun x hx => by rw [List.eq_of_mem_replicate hx]; decide)
  | succ m ih =>
    have hlen := node16_to_48_keys_length keys m
    have hlt : keys.getD m 0 < (node16_to_48_keys keys m).length := by
      rw [hlen]; exact hb m (by omega)
    have hz : (node16_to_48_keys keys m).getD (keys.getD m 0) 0 = 0 :=
      node16_to_48_keys_miss keys m _ (fun i hi h => by
        have := hnd i m (by omega) (by omega) h; omega)
    rw [node16_to_48_keys_succ, List.countP_set _ _ _ _ hlt,
      ih (fun a b ha hb' => hnd a b (by omega) (by omega)) (fun a ha => hb a (by omega))]
    have hz' : (node16_to_48_keys keys m)[keys.getD m 0] = 0 := by
      rw [List.getD_eq_getElem?_getD, List.getElem?_eq_getElem hlt] at hz
      exact hz
    rw [hz']
    simp

theorem node16_to_48_keys_mem (keys : List Nat) (m x : Nat)
    (hx : x ∈ node16_to_48_keys keys m) : x ≤ m := by
  induction m with
  | zero =>
    unfold node16_to_48_keys at hx
    rw [List.range_zero, List.foldl_nil] at hx
    have := List.eq_of_mem_replicate hx
    omega
  | succ m ih =>
    rw [node16_to_48_keys_succ] at hx
    rcases List.mem_or_eq_of_mem_set hx with h | h
    · have := ih h; omega
    · omega

end PgArt

namespace PgArt

theorem first_free_spec (children : List ItemPointerData)
    (h : children.countP ItemPointerIsValid < children.length) :
    first_free_slot children < children.length ∧
      ItemPointerIsValid (children.getD (first_free_slot children) zero_iptr) = false := by
  induction children with
  | nil => simp at h
  | cons a t ih =>
    unfold first_free_slot
    by_cases ha : ItemPointerIsValid a = true
    · have h' : t.countP ItemPointerIsValid < t.length := by
        simp [List.countP_cons, ha] at h; exact h
      obtain ⟨h1, h2⟩ := ih h'
      simp only [List.takeWhile_cons, ha, if_true, List.length_cons, List.getD_cons_succ]
      exact ⟨by unfold first_free_slot at h1; omega, h2⟩
    · simp only [List.takeWhile_cons, ha]
      simp
      simpa using ha

theorem map_getD_range {α : Type} (l : List α) (d : α) :
    (List.range l.length).map (fun i => l.getD i d) = l := by
  apply List.ext_getElem?
  intro i
  by_cases h : i < l.length
  · simp [List.getElem?_map, List.getElem?_range h, List.getD_eq_getElem?_getD,
      List.getElem?_eq_getElem h]
  · have h1 : l.length ≤ i := by omega
    rw [List.getElem?_eq_none h1, List.getElem?_eq_none (by simpa using h1)]

theorem countP_range_getD {α : Type} (l : List α) (d : α) (q : α → Bool) :
    (List.range l.length).countP (fun i => q (l.getD i d)) = l.countP q := by
  conv_rhs => rw [← map_getD_range l d]
  rw [List.countP_map]
  rfl

theorem node48_to_256_length (keys : List Nat) (children : List ItemPointerData) :
    (node48_to_256_children keys children).length = 256 := by
  unfold node48_to_256_children
  rw [List.length_map, List.length_range]

theorem node48_to_256_getD (keys : List Nat) (children : List ItemPointerData) (i : Nat) :
    (node48_to_256_children keys children).getD i zero_iptr
      = if keys.getD i 0 != 0 ∧ i < 256 then children.getD (keys.getD i 0 - 1) zero_iptr
        else zero_iptr := by
  unfold node48_to_256_children
  by_cases h : i < 256
  · rw [List.getD_eq_getElem?_getD, List.getElem?_map, List.getElem?_range h]
    simp [h]
  · rw [getD_of_length_le _ _ _ (by rw [List.length_map, List.length_range]; omega)]
    simp [h]

theorem node48_to_256_count (keys : List Nat) (children : List ItemPointerData)
    (hl : keys.length = 256)
    (hv : ∀ x ∈ keys, x ≠ 0 → ItemPointerIsValid (children.getD (x - 1) zero_iptr) = true) :
    (node48_to_256_children keys children).countP ItemPointerIsValid
      = keys.countP (fun x => x != 0) := by
  unfold node48_to_256_children
  rw [List.countP_map, ← countP_range_getD keys 0, hl]
  apply List.countP_congr
  intro i hi
  have hi' : i < keys.length := by rw [hl]; simpa using hi
  by_cases hz : keys.getD i 0 = 0
  · simp [-List.getD_eq_getElem?_getD, hz, ItemPointerIsValid, zero_iptr]
  · have := hv _ (getD_mem keys i 0 hi') hz
    simp [-List.getD_eq_getElem?_getD, hz, this]

end PgArt

namespace PgArt

theorem forall_mem_zip {α β : Type} (a : List α) (b : List β) (P : α → Prop) (Q : β → Prop)
    (h : a.length = b.length) :
    (∀ p ∈ a.zip b, P p.1 ∧ Q p.2) ↔ (∀ x ∈ a, P x) ∧ (∀ y ∈ b, Q y) := by
  induction a generalizing b with
  | nil =>
    cases b with
    | nil => simp
    | cons y t => simp at h
  | cons x s ih =>
    cases b with
    | nil => simp at h
    | cons y t =>
      simp only [List.length_cons, Nat.add_right_cancel_iff] at h
      simp only [List.zip_cons_cons, List.forall_mem_cons, ih t h]
      tauto

theorem wf_small_pairs (node : ArtNode) (hs : sorted_node node) :
    well_formed node ↔ ∀ p ∈ node_pairs node, p.1 < 256 ∧ ItemPointerIsValid p.2 = true := by
  cases node with
  | leaf l => exact absurd hs id
  | node48 h keys children => exact absurd hs id
  | node256 h children => exact absurd hs id
  | node4 h keys children =>
    obtain ⟨hkl, hcl, hn, hsort⟩ := hs
    simp only [well_formed, node_pairs]
    rw [forall_mem_zip _ _ (fun x => x < 256) (fun y => ItemPointerIsValid y = true)
      (by simp [List.length_take, hkl, hcl])]
    tauto
  | node16 h keys children =>
    obtain ⟨hkl, hcl, hn, hsort⟩ := hs
    simp only [well_formed, node_pairs]
    rw [forall_mem_zip _ _ (fun x => x < 256) (fun y => ItemPointerIsValid y = true)
      (by simp [List.length_take, hkl, hcl])]
    tauto

theorem sorted_of_wf_small (node : ArtNode) (hw : well_formed node)
    (ht : node_type node = 1 ∨ node_type node = 2) : sorted_node node := by
  cases node with
  | leaf l => exact absurd hw id
  | node48 h keys children => simp [node_type] at ht
  | node256 h children => simp [node_type] at ht
  | node4 h keys children => exact ⟨hw.1, hw.2.1, hw.2.2.1, hw.2.2.2.1⟩
  | node16 h keys children => exact ⟨hw.1, hw.2.1, hw.2.2.1, hw.2.2.2.1⟩

/-- Model of `add_child_post` for a `Node4`, or a `Node16` with room. -/
theorem spec_small (node : ArtNode) (k : Nat) (c : ItemPointerData)
    (hw : well_formed node) (hs : sorted_node node) (hr : stays_small node) (hk : k < 256)
    (hf : _art_find_child_equal node k = none) (hc : ItemPointerIsValid c = true) :
    ∃ r, add_child_result node k c = some r ∧ add_child_post node k c r ∧
      (add_child_grows node k c = true ↔ children_held node = capacity node) := by
  rw [find_eq_lookup_of_sorted node hs] at hf
  have hk' : k ∉ (node_pairs node).map Prod.fst := (lookup_eq_none_iff_not_mem _ _).1 hf
  obtain ⟨r, i, hres, hsr, hp, hheld, hty, hg⟩ := small_step node k c hs hr hk'
  refine ⟨r, hres, ⟨?_, ?_, ?_, hheld, hty⟩, hg⟩
  · rw [wf_small_pairs r hsr, hp]
    intro p hp'
    rcases (mem_ins_at _ _ _ _).1 hp' with e | hm
    · subst e; exact ⟨hk, hc⟩
    · exact (wf_small_pairs node hs).1 hw p hm
  · rw [find_eq_lookup_of_sorted r hsr, hp, lookup_ins_at _ _ _ _ hf]
    simp
  · intro k' hne
    rw [find_eq_lookup_of_sorted r hsr, hp, lookup_ins_at _ _ _ _ hf,
      find_eq_lookup_of_sorted node hs]
    simp [hne]

end PgArt

namespace PgArt

theorem countP_set_invalid (l : List ItemPointerData) (i : Nat) (c : ItemPointerData)
    (hi : i < l.length) (hold : ItemPointerIsValid (l.getD i zero_iptr) = false)
    (hc : ItemPointerIsValid c = true) :
    (l.set i c).countP ItemPointerIsValid = l.countP ItemPointerIsValid + 1 := by
  rw [List.countP_set _ _ _ _ hi]
  rw [List.getD_eq_getElem?_getD, List.getElem?_eq_getElem hi] at hold
  have hold' : ItemPointerIsValid l[i] = false := hold
  rw [hold', hc]
  simp

theorem countP_set_zero (l : List Nat) (i v : Nat)
    (hi : i < l.length) (hold : l.getD i 0 = 0) (hv : v ≠ 0) :
    (l.set i v).countP (fun x => x != 0) = l.countP (fun x => x != 0) + 1 := by
  rw [List.countP_set _ _ _ _ hi]
  rw [List.getD_eq_getElem?_getD, List.getElem?_eq_getElem hi] at hold
  have hold' : l[i] = 0 := hold
  rw [hold']
  simp [hv]

theorem add_child_node256 (h : ArtNodeHeader) (children : List ItemPointerData)
    (k : Nat) (c : ItemPointerData) :
    add_child_result (.node256 h children) k c
      = some (.node256 { h with num_children := (h.num_children + 1) % 256 }
          (children.set k c)) := by
  simp [add_child_result, _add_child, _add_child_node256]

theorem add_child_node48_lt (h : ArtNodeHeader) (keys : List Nat)
    (children : List ItemPointerData) (k : Nat) (c : ItemPointerData)
    (hlt : h.num_children < 48) :
    add_child_result (.node48 h keys children) k c
      = some (.node48 { h with num_children := (h.num_children + 1) % 256 }
          (keys.set k (first_free_slot children + 1))
          (children.set (first_free_slot children) c)) := by
  simp [add_child_result, _add_child, _add_child_node48, hlt]

theorem add_child_node48_full (h : ArtNodeHeader) (keys : List Nat)
    (children : List ItemPointerData) (k : Nat) (c : ItemPointerData)
    (hn : ¬ h.num_children < 48) :
    add_child_result (.node48 h keys children) k c
      = some (.node256
          { (_art_copy_header zero_header h).1 with
            num_children := ((_art_copy_header zero_header h).1.num_children + 1) % 256 }
          ((node48_to_256_children keys children).set k c)) := by
  simp [add_child_result, _add_child, _add_child_node48, hn, _add_child_node256]

theorem add_child_node16_full (h : ArtNodeHeader) (keys : List Nat)
    (children : List ItemPointerData) (k : Nat) (c : ItemPointerData)
    (hn : h.num_children = 16) :
    add_child_result (.node16 h keys children) k c
      = add_child_result (.node48 (_art_copy_header zero_header h).1
          (node16_to_48_keys keys 16)
          (memcpy_arr (List.replicate 48 zero_iptr) children 16)) k c := by
  simp only [add_child_result, _add_child, _add_child_node16, hn, _add_child_node48,
    _art_copy_header, Nat.lt_irrefl, if_false, Option.map_some', Option.getD_some]
  simp

theorem spec_256 (h : ArtNodeHeader) (children : List ItemPointerData) (k : Nat)
    (c : ItemPointerData) (hw : well_formed (.node256 h children)) (hk : k < 256)
    (hf : _art_find_child_equal (.node256 h children) k = none)
    (hc : ItemPointerIsValid c = true) :
    ∃ r, add_child_result (.node256 h children) k c = some r ∧
      add_child_post (.node256 h children) k c r ∧
      (add_child_grows (.node256 h children) k c = true
        ↔ children_held (.node256 h children) = capacity (.node256 h children)) := by
  have hl : children.length = 256 := hw
  have hinv : ItemPointerIsValid (children.getD k zero_iptr) = false := by
    simp only [_art_find_child_equal] at hf
    by_contra hcon
    simp only [Bool.not_eq_false] at hcon
    rw [if_pos hcon] at hf
    exact absurd hf (by simp)
  have hcnt := countP_set_invalid children k c (by omega) hinv hc
  have hle : (children.set k c).countP ItemPointerIsValid ≤ (children.set k c).length :=
    List.countP_le_length _
  rw [List.length_set] at hle
  refine ⟨_, add_child_node256 h children k c, ⟨?_, ?_, ?_, ?_, ?_⟩, ?_⟩
  · simp only [well_formed, List.length_set]; exact hl
  · simp only [_art_find_child_equal]
    rw [getD_set_eq _ _ _ _ (by omega), if_pos hc]
  · intro k' hne
    simp only [_art_find_child_equal]
    rw [getD_set_ne _ _ _ _ _ (Ne.symm hne)]
  · simp only [children_held]; exact hcnt
  · simp only [children_held, capacity, node_type]
    rw [if_pos (by omega)]
  · rw [add_child_grows_node256]
    simp only [children_held, capacity]
    constructor
    · intro hh; exact absurd hh (by simp)
    · intro hh; omega

theorem find48_none (h : ArtNodeHeader) (keys : List Nat) (children : List ItemPointerData)
    (k : Nat) (hf : _art_find_child_equal (.node48 h keys children) k = none) :
    keys.getD k 0 = 0 := by
  simp only [_art_find_child_equal] at hf
  by_contra hcon
  have : (keys.getD k 0 != 0) = true := by simpa using hcon
  rw [if_pos this] at hf
  exact absurd hf (by simp)

theorem spec_48_lt (h : ArtNodeHeader) (keys : List Nat) (children : List ItemPointerData)
    (k : Nat) (c : ItemPointerData) (hw : well_formed (.node48 h keys children)) (hk : k < 256)
    (hf : _art_find_child_equal (.node48 h keys children) k = none)
    (hc : ItemPointerIsValid c = true) (hlt : h.num_children < 48) :
    ∃ r, add_child_result (.node48 h keys children) k c = some r ∧
      add_child_post (.node48 h keys children) k c r ∧
      (add_child_grows (.node48 h keys children) k c = true
        ↔ children_held (.node48 h keys children) = capacity (.node48 h keys children)) := by
  obtain ⟨hkl, hcl, hn, hv, hcc, hkc⟩ := hw
  have hz := find48_none h keys children k hf
  obtain ⟨hi, hinv⟩ := first_free_spec children (by omega)
  have hmod : (h.num_children + 1) % 256 = h.num_children + 1 := by omega
  have hne_idx : ∀ x ∈ keys, x ≠ 0 → first_free_slot children ≠ x - 1 := by
    intro x hx hx0 e
    have := hv x hx hx0
    rw [← e, hinv] at this
    exact absurd this (by simp)
  refine ⟨_, add_child_node48_lt h keys children k c hlt, ⟨?_, ?_, ?_, ?_, ?_⟩, ?_⟩
  · refine ⟨by rw [List.length_set]; exact hkl, by rw [List.length_set]; exact hcl,
      by simp only [hmod]; omega, ?_, ?_, ?_⟩
    · intro x hx hx0
      rcases List.mem_or_eq_of_mem_set hx with hm | e
      · rw [getD_set_ne _ _ _ _ _ (hne_idx x hm hx0)]
        exact hv x hm hx0
      · subst e
        rw [Nat.add_sub_cancel, getD_set_eq _ _ _ _ hi]
        exact hc
    · simp only [hmod]
      rw [countP_set_invalid children _ c hi hinv hc, hcc]
    · simp only [hmod]
      rw [countP_set_zero keys k _ (by omega) hz (by omega), hkc]
  · simp only [_art_find_child_equal]
    rw [getD_set_eq _ _ _ _ (by omega)]
    simp only [Nat.add_sub_cancel]
    rw [getD_set_eq _ _ _ _ hi]
    simp
  · intro k' hne
    simp only [_art_find_child_equal]
    rw [getD_set_ne _ _ _ _ _ (Ne.symm hne)]
    by_cases hz' : keys.getD k' 0 = 0
    · simp [-List.getD_eq_getElem?_getD, hz']
    · have hk' : k' < keys.length := by
        by_contra hge
        exact hz' (getD_of_length_le _ _ _ (by omega))
      rw [getD_set_ne _ _ _ _ _ (hne_idx _ (getD_mem keys k' 0 hk') hz')]
  · simp only [children_held]
    exact countP_set_zero keys k _ (by omega) hz (by omega)
  · simp only [children_held, capacity, node_type]
    rw [if_pos (by omega)]
  · rw [add_child_grows_node48]
    simp only [children_held, capacity]
    simp; omega

theorem spec_48_full (h : ArtNodeHeader) (keys : List Nat) (children : List ItemPointerData)
    (k : Nat) (c : ItemPointerData) (hw : well_formed (.node48 h keys children)) (hk : k < 256)
    (hf : _art_find_child_equal (.node48 h keys children) k = none)
    (hc : ItemPointerIsValid c = true) (hfull : ¬ h.num_children < 48) :
    ∃ r, add_child_result (.node48 h keys children) k c = some r ∧
      add_child_post (.node48 h keys children) k c r ∧
      (add_child_grows (.node48 h keys children) k c = true
        ↔ children_held (.node48 h keys children) = capacity (.node48 h keys children)) := by
  obtain ⟨hkl, hcl, hn, hv, hcc, hkc⟩ := hw
  have hz := find48_none h keys children k hf
  have hl := node48_to_256_length keys children
  have hinv : ItemPointerIsValid ((node48_to_256_children keys children).getD k zero_iptr)
      = false := by
    rw [node48_to_256_getD]
    simp [-List.getD_eq_getElem?_getD, hz, ItemPointerIsValid, zero_iptr]
  refine ⟨_, add_child_node48_full h keys children k c hfull, ⟨?_, ?_, ?_, ?_, ?_⟩, ?_⟩
  · simp only [well_formed, List.length_set]; exact hl
  · simp only [_art_find_child_equal]
    rw [getD_set_eq _ _ _ _ (by omega), if_pos hc]
  · intro k' hne
    simp only [_art_find_child_equal]
    rw [getD_set_ne _ _ _ _ _ (Ne.symm hne), node48_to_256_getD]
    by_cases hz' : keys.getD k' 0 = 0
    · simp [-List.getD_eq_getElem?_getD, hz', ItemPointerIsValid, zero_iptr]
    · have hk' : k' < keys.length := by
        by_contra hge
        exact hz' (getD_of_length_le _ _ _ (by omega))
      have hval := hv _ (getD_mem keys k' 0 hk') hz'
      have h256 : k' < 256 := by omega
      simp [-List.getD_eq_getElem?_getD, hz', h256, hval]
  · simp only [children_held]
    rw [countP_set_invalid _ k c (by omega) hinv hc, node48_to_256_count keys children hkl hv]
  · simp only [children_held, capacity, node_type]
    rw [if_neg (by omega)]
  · rw [add_child_grows_node48]
    simp only [children_held, capacity]
    simp; omega

end PgArt

namespace PgArt

theorem getD_inj_of_sorted (keys : List Nat) (hs : keys.Pairwise (· < ·)) (i j : Nat)
    (hi : i < keys.length) (hj : j < keys.length) (e : keys.getD i 0 = keys.getD j 0) : i = j := by
  rw [List.pairwise_iff_getElem] at hs
  rw [List.getD_eq_getElem?_getD, List.getD_eq_getElem?_getD, List.getElem?_eq_getElem hi,
    List.getElem?_eq_getElem hj] at e
  have e' : keys[i] = keys[j] := e
  rcases Nat.lt_trichotomy i j with h | h | h
  · have := hs i j hi hj h; omega
  · exact h
  · have := hs j i hj hi h; omega

theorem getD_indexOf (keys : List Nat) (k : Nat) (h : k ∈ keys) :
    keys.getD (keys.indexOf k) 0 = k := by
  have hlt := List.indexOf_lt_length.2 h
  rw [List.getD_eq_getElem?_getD, List.getElem?_eq_getElem hlt]
  exact List.getElem_indexOf hlt

theorem memcpy_arr_getD {α : Type} (dst src : List α) (n i : Nat) (d : α) (h : i < n)
    (hn : n ≤ src.length) : (memcpy_arr dst src n).getD i d = src.getD i d := by
  unfold memcpy_arr
  rw [List.getD_append _ _ _ _ (by simp [List.length_take]; omega), getD_take_of_lt _ _ _ _ h]

theorem spec_16_full (h : ArtNodeHeader) (keys : List Nat) (children : List ItemPointerData)
    (k : Nat) (c : ItemPointerData) (hw : well_formed (.node16 h keys children)) (hk : k < 256)
    (hf : _art_find_child_equal (.node16 h keys children) k = none)
    (hc : ItemPointerIsValid c = true) (hfull : h.num_children = 16) :
    ∃ r, add_child_result (.node16 h keys children) k c = some r ∧
      add_child_post (.node16 h keys children) k c r ∧
      (add_child_grows (.node16 h keys children) k c = true
        ↔ children_held (.node16 h keys children) = capacity (.node16 h keys children)) := by
  obtain ⟨hkl, hcl, hn, hsort, hb, hv⟩ := hw
  rw [hfull] at hsort hb hv
  have hkt : keys.take 16 = keys := List.take_of_length_le (by omega)
  have hct : children.take 16 = children := List.take_of_length_le (by omega)
  rw [hkt] at hsort hb
  rw [hct] at hv
  have hnd : ∀ i j, i < 16 → j < 16 → keys.getD i 0 = keys.getD j 0 → i = j :=
    fun i j hi hj e => getD_inj_of_sorted keys hsort i j (by omega) (by omega) e
  have hb' : ∀ i, i < 16 → keys.getD i 0 < 256 :=
    fun i hi => hb _ (getD_mem keys i 0 (by omega))
  have hnc : (_art_copy_header zero_header h).1.num_children = 16 := hfull
  have hc48l : (memcpy_arr (List.replicate 48 zero_iptr) children 16).length = 48 := by
    rw [memcpy_arr_length _ _ _ (by omega) (by rw [List.length_replicate]; omega),
      List.length_replicate]
  -- the freshly populated Node48 is well formed and maps every byte as the Node16 did
  have hw48 : well_formed (.node48 (_art_copy_header zero_header h).1
      (node16_to_48_keys keys 16) (memcpy_arr (List.replicate 48 zero_iptr) children 16)) := by
    refine ⟨node16_to_48_keys_length keys 16, hc48l, by rw [hnc]; omega, ?_, ?_, ?_⟩
    · intro x hx hx0
      have hle := node16_to_48_keys_mem keys 16 x hx
      rw [memcpy_arr_getD _ _ _ _ _ (by omega) (by omega)]
      exact hv _ (getD_mem children (x - 1) zero_iptr (by omega))
    · rw [hnc]
      unfold memcpy_arr
      rw [hct, List.countP_append, List.countP_eq_length.2 (fun a ha => hv a ha), hcl]
      have : (List.drop 16 (List.replicate 48 zero_iptr)).countP ItemPointerIsValid = 0 := by
        apply List.countP_eq_zero.2
        intro a ha
        have ha' := List.mem_of_mem_drop ha
        rw [List.eq_of_mem_replicate ha']
        decide
      omega
    · rw [hnc]
      exact node16_to_48_keys_count keys 16 hnd hb'
  have hfind : ∀ k', _art_find_child_equal (.node48 (_art_copy_header zero_header h).1
      (node16_to_48_keys keys 16) (memcpy_arr (List.replicate 48 zero_iptr) children 16)) k'
      = _art_find_child_equal (.node16 h keys children) k' := by
    intro k'
    simp only [_art_find_child_equal, hfull, Nat.min_self, find_key_index, hkt]
    by_cases hm : k' ∈ keys
    · have hlt : keys.indexOf k' < 16 := by
        have := List.indexOf_lt_length.2 hm; omega
      have hget := getD_indexOf keys k' hm
      have hhit := node16_to_48_keys_hit keys 16 hnd hb' _ hlt
      rw [hget] at hhit
      rw [hhit]
      simp only [hm, if_true, Option.map_some', Nat.add_sub_cancel]
      rw [memcpy_arr_getD _ _ _ _ _ hlt (by omega)]
      simp
    · have hmiss := node16_to_48_keys_miss keys 16 k' (fun i hi e => by
        apply hm; rw [← e]; exact getD_mem keys i 0 (by omega))
      rw [hmiss]
      simp [hm]
  have hf48 := hf
  rw [← hfind k] at hf48
  obtain ⟨r, hres, ⟨hwr, hfk, hfo, hheld, hty⟩, _⟩ :=
    spec_48_lt _ _ _ k c hw48 hk hf48 hc (by rw [hnc]; omega)
  have hheld48 : children_held (.node48 (_art_copy_header zero_header h).1
      (node16_to_48_keys keys 16) (memcpy_arr (List.replicate 48 zero_iptr) children 16))
      = 16 := node16_to_48_keys_count keys 16 hnd hb'
  refine ⟨r, (add_child_node16_full h keys children k c hfull).trans hres,
    ⟨hwr, hfk, ?_, ?_, ?_⟩, ?_⟩
  · intro k' hne
    rw [hfo k' hne, hfind k']
  · rw [hheld, hheld48]
    simp only [children_held, hfull]
  · rw [hty, hheld48]
    simp only [children_held, capacity, node_type, hfull]
    rfl
  · rw [add_child_grows_node16]
    simp only [children_held, capacity, hfull]
    simp

/-- Model of `_add_child` on a well-formed node with a fresh key byte and a valid child reference. -/
theorem add_child_spec (node : ArtNode) (k : Nat) (c : ItemPointerData)
    (hw : well_formed node) (hk : k < 256) (hf : _art_find_child_equal node k = none)
    (hc : ItemPointerIsValid c = true) :
    ∃ r, add_child_result node k c = some r ∧ add_child_post node k c r ∧
      (add_child_grows node k c = true ↔ children_held node = capacity node) := by
  cases node with
  | leaf l => exact absurd hw id
  | node4 h keys children =>
    exact spec_small _ k c hw (sorted_of_wf_small _ hw (Or.inl rfl)) trivial hk hf hc
  | node16 h keys children =>
    by_cases hlt : h.num_children < 16
    · exact spec_small _ k c hw (sorted_of_wf_small _ hw (Or.inr rfl)) hlt hk hf hc
    · exact spec_16_full h keys children k c hw hk hf hc (by have := hw.2.2.1; omega)
  | node48 h keys children =>
    by_cases hlt : h.num_children < 48
    · exact spec_48_lt h keys children k c hw hk hf hc hlt
    · exact spec_48_full h keys children k c hw hk hf hc hlt
  | node256 h children => exact spec_256 h children k c hw hk hf hc

end PgArt

namespace PgArt

theorem map_ins_at {α β : Type} (f : α → β) (xs : List α) (i : Nat) (v : α) :
    (ins_at xs i v).map f = ins_at (xs.map f) i (f v) := by
  simp [ins_at, List.map_take, List.map_drop]

theorem tail_replicate' {α : Type} (n : Nat) (d : α) :
    (List.replicate (n + 1) d).tail = List.replicate n d := rfl

/-- In-place insertion into an array whose used part is `xs` and whose unused part is
`m + 1` copies of `d`. -/
theorem insert_padded {α : Type} (xs : List α) (m idx : Nat) (v d : α) (h : idx ≤ xs.length) :
    (memmove_up (xs ++ List.replicate (m + 1) d) idx (xs.length - idx)).set idx v
      = ins_at xs idx v ++ List.replicate m d := by
  rw [memmove_up_set_append xs _ idx v h (by simp [List.replicate_succ])]
  rfl

theorem add_child_pos_padded (ks pad : List Nat) (k : Nat) :
    add_child_pos (ks ++ pad) ks.length k
      = (ks.takeWhile (fun x => !decide (k < x))).length := by
  unfold add_child_pos
  rw [List.take_left' rfl]

theorem padded_insert_pair (S : List (Nat × ItemPointerData)) (k m : Nat) (c : ItemPointerData) :
    (memmove_up (S.map Prod.fst ++ List.replicate (m + 1) 0)
        (add_child_pos (S.map Prod.fst ++ List.replicate (m + 1) 0) S.length k)
        (S.length - add_child_pos (S.map Prod.fst ++ List.replicate (m + 1) 0) S.length k)).set
        (add_child_pos (S.map Prod.fst ++ List.replicate (m + 1) 0) S.length k) k
      = (insert_pair S (k, c)).map Prod.fst ++ List.replicate m 0 ∧
    (memmove_up (S.map Prod.snd ++ List.replicate (m + 1) zero_iptr)
        (add_child_pos (S.map Prod.fst ++ List.replicate (m + 1) 0) S.length k)
        (S.length - add_child_pos (S.map Prod.fst ++ List.replicate (m + 1) 0) S.length k)).set
        (add_child_pos (S.map Prod.fst ++ List.replicate (m + 1) 0) S.length k) c
      = (insert_pair S (k, c)).map Prod.snd ++ List.replicate m zero_iptr := by
  have hl1 : (S.map Prod.fst).length = S.length := List.length_map _ _
  have hl2 : (S.map Prod.snd).length = S.length := List.length_map _ _
  have hpos : ((S.map Prod.fst).takeWhile (fun x => !decide (k < x))).length ≤ S.length := by
    have := (List.takeWhile_sublist (fun x => !decide (k < x)) (l := S.map Prod.fst)).length_le
    simpa using this
  have e1 := add_child_pos_padded (S.map Prod.fst) (List.replicate (m + 1) 0) k
  rw [hl1] at e1
  rw [e1]
  have e2 := insert_padded (S.map Prod.fst) m
    ((S.map Prod.fst).takeWhile (fun x => !decide (k < x))).length k 0 (by rw [hl1]; exact hpos)
  have e3 := insert_padded (S.map Prod.snd) m
    ((S.map Prod.fst).takeWhile (fun x => !decide (k < x))).length c zero_iptr
    (by rw [hl2]; exact hpos)
  rw [hl1] at e2
  rw [hl2] at e3
  rw [e2, e3]
  unfold insert_pair
  rw [map_ins_at, map_ins_at]
  exact ⟨rfl, rfl⟩

theorem length_insert_pair (S : List (Nat × ItemPointerData)) (kc : Nat × ItemPointerData) :
    (insert_pair S kc).length = S.length + 1 := by
  have hpos : ((S.map Prod.fst).takeWhile (fun x => !decide (kc.1 < x))).length ≤ S.length := by
    have := (List.takeWhile_sublist (fun x => !decide (kc.1 < x)) (l := S.map Prod.fst)).length_le
    simpa using this
  unfold insert_pair; exact length_ins_at _ _ _ hpos

theorem canon_step (S : List (Nat × ItemPointerData)) (k : Nat) (c : ItemPointerData)
    (hlen : S.length < 16) :
    add_child_result (canon_small S) k c = some (canon_small (insert_pair S (k, c))) := by
  have hlen' := length_insert_pair S (k, c)
  by_cases h4 : S.length < 4
  · -- Node4 with room
    obtain ⟨m, hm⟩ : ∃ m, 4 - S.length = m + 1 := ⟨4 - S.length - 1, by omega⟩
    have hm' : 4 - (S.length + 1) = m := by omega
    obtain ⟨e2, e3⟩ := padded_insert_pair S k m c
    unfold canon_small
    rw [if_pos (by omega), if_pos (by omega), add_child_node4_lt _ _ _ _ _ (by simpa using h4)]
    simp only [hlen', hm, hm']
    rw [e2, e3, Nat.mod_eq_of_lt (by omega)]
  · by_cases h4' : S.length = 4
    · -- full Node4: migration to Node16
      obtain ⟨e2, e3⟩ := padded_insert_pair S k 11 c
      unfold canon_small
      rw [if_pos (by omega), if_neg (by omega),
        add_child_node4_full _ _ _ _ _ (by simpa using h4')]
      have hk : memcpy_arr (List.replicate 16 0) (S.map Prod.fst ++ List.replicate (4 - S.length) 0) 4
          = S.map Prod.fst ++ List.replicate (11 + 1) 0 := by
        unfold memcpy_arr
        rw [h4', Nat.sub_self, List.replicate_zero, List.append_nil,
          List.take_of_length_le (by rw [List.length_map]; omega), List.drop_replicate]
      have hc : memcpy_arr (List.replicate 16 zero_iptr)
          (S.map Prod.snd ++ List.replicate (4 - S.length) zero_iptr) 4
          = S.map Prod.snd ++ List.replicate (11 + 1) zero_iptr := by
        unfold memcpy_arr
        rw [h4', Nat.sub_self, List.replicate_zero, List.append_nil,
          List.take_of_length_le (by rw [List.length_map]; omega), List.drop_replicate]
      have hh : (_art_copy_header zero_header { zero_header with num_children := S.length }).1
          = { zero_header with num_children := S.length } := by
        rw [h4']; rfl
      rw [hk, hc, hh, add_child_node16_lt _ _ _ _ _ (by simp only []; omega)]
      simp only [hlen']
      rw [e2, e3, Nat.mod_eq_of_lt (by omega)]
      have : 16 - (S.length + 1) = 11 := by omega
      rw [this]
    · -- Node16 with room
      obtain ⟨m, hm⟩ : ∃ m, 16 - S.length = m + 1 := ⟨16 - S.length - 1, by omega⟩
      have hm' : 16 - (S.length + 1) = m := by omega
      obtain ⟨e2, e3⟩ := padded_insert_pair S k m c
      unfold canon_small
      rw [if_neg (by omega), if_neg (by omega),
        add_child_node16_lt _ _ _ _ _ (by simpa using hlen)]
      simp only [hlen', hm, hm']
      rw [e2, e3, Nat.mod_eq_of_lt (by omega)]

end PgArt

namespace PgArt

theorem add_children_snoc (node : ArtNode) (L : List (Nat × ItemPointerData))
    (p : Nat × ItemPointerData) :
    add_children node (L ++ [p])
      = (add_children node L).bind (fun n => add_child_result n p.1 p.2) := by
  simp [add_children, List.foldl_append]

theorem sort_pairs_snoc (L : List (Nat × ItemPointerData)) (p : Nat × ItemPointerData) :
    sort_pairs (L ++ [p]) = insert_pair (sort_pairs L) p := by
  simp [sort_pairs, List.foldl_append]

theorem length_sort_pairs (L : List (Nat × ItemPointerData)) :
    (sort_pairs L).length = L.length := by
  induction L using List.reverseRecOn with
  | nil => rfl
  | append_singleton L p ih =>
    rw [sort_pairs_snoc, length_insert_pair, ih, List.length_append]
    rfl

theorem perm_sort_pairs (L : List (Nat × ItemPointerData)) : (sort_pairs L).Perm L := by
  induction L using List.reverseRecOn with
  | nil => exact List.Perm.refl _
  | append_singleton L p ih =>
    rw [sort_pairs_snoc]
    unfold insert_pair
    refine (perm_ins_at _ _ _).trans ?_
    refine (List.Perm.cons p ih).trans ?_
    exact (List.perm_append_singleton p L).symm

theorem sorted_sort_pairs (L : List (Nat × ItemPointerData)) (hnd : (L.map Prod.fst).Nodup) :
    ((sort_pairs L).map Prod.fst).Pairwise (· < ·) := by
  induction L using List.reverseRecOn with
  | nil => exact List.Pairwise.nil
  | append_singleton L p ih =>
    rw [List.map_append, List.nodup_append] at hnd
    obtain ⟨h1, _, h3⟩ := hnd
    rw [sort_pairs_snoc]
    unfold insert_pair
    rw [map_ins_at]
    apply sorted_ins_at_pos _ _ (ih h1)
    intro hmem
    have hmem' : p.1 ∈ L.map Prod.fst := ((perm_sort_pairs L).map Prod.fst).mem_iff.1 hmem
    exact h3 hmem' (by simp)

theorem sort_pairs_perm_eq (L₁ L₂ : List (Nat × ItemPointerData)) (hp : L₁.Perm L₂)
    (hnd : (L₁.map Prod.fst).Nodup) : sort_pairs L₁ = sort_pairs L₂ := by
  have hnd2 : (L₂.map Prod.fst).Nodup := (hp.map Prod.fst).nodup_iff.1 hnd
  have s1 := List.pairwise_map.1 (sorted_sort_pairs L₁ hnd)
  have s2 := List.pairwise_map.1 (sorted_sort_pairs L₂ hnd2)
  have hperm : (sort_pairs L₁).Perm (sort_pairs L₂) :=
    (perm_sort_pairs L₁).trans (hp.trans (perm_sort_pairs L₂).symm)
  haveI : IsAntisymm (Nat × ItemPointerData) (fun a b => a.1 < b.1) :=
    ⟨fun a b h1 h2 => absurd h1 (by omega)⟩
  exact List.eq_of_perm_of_sorted hperm s1 s2

theorem add_children_canon (L : List (Nat × ItemPointerData)) (hlen : L.length ≤ 16) :
    add_children alloc_node4 L = some (canon_small (sort_pairs L)) := by
  induction L using List.reverseRecOn with
  | nil => rfl
  | append_singleton L p ih =>
    rw [List.length_append] at hlen
    simp only [List.length_singleton] at hlen
    rw [add_children_snoc, ih (by omega), sort_pairs_snoc]
    simp only [Option.some_bind]
    exact canon_step _ p.1 p.2 (by rw [length_sort_pairs]; omega)

theorem nodup_bytes_length (l : List Nat) (hnd : l.Nodup) (hb : ∀ x ∈ l, x < 256) :
    l.length ≤ 256 := by
  have hsub : l.toFinset ⊆ Finset.range 256 := by
    intro x hx
    rw [List.mem_toFinset] at hx
    exact Finset.mem_range.2 (hb x hx)
  have := Finset.card_le_card hsub
  rw [List.toFinset_card_of_nodup hnd, Finset.card_range] at this
  exact this

theorem capacity_of_type (node : ArtNode) :
    capacity node = (if node_type node = 0 then 0 else if node_type node = 1 then 4
      else if node_type node = 2 then 16 else if node_type node = 3 then 48 else 256) := by
  cases node <;> rfl

theorem wf_alloc_node4 : well_formed alloc_node4 := by
  unfold alloc_node4 well_formed
  refine ⟨List.length_replicate _ _, List.length_replicate _ _, Nat.zero_le _, ?_, ?_, ?_⟩
  · exact List.Pairwise.nil
  · intro x hx; exact absurd hx (List.not_mem_nil x)
  · intro x hx; exact absurd hx (List.not_mem_nil x)

theorem find_alloc_node4 (k : Nat) : _art_find_child_equal alloc_node4 k = none := by
  unfold alloc_node4 _art_find_child_equal find_key_index
  rfl

theorem type_progress (n : Nat) (hn : n < 256) :
    (if n < (if (if n ≤ 4 then 1 else if n ≤ 16 then 2 else if n ≤ 48 then 3 else 4) = 0 then 0
          else if (if n ≤ 4 then 1 else if n ≤ 16 then 2 else if n ≤ 48 then 3 else 4) = 1 then 4
          else if (if n ≤ 4 then 1 else if n ≤ 16 then 2 else if n ≤ 48 then 3 else 4) = 2 then 16
          else if (if n ≤ 4 then 1 else if n ≤ 16 then 2 else if n ≤ 48 then 3 else 4) = 3 then 48
          else 256)
      then (if n ≤ 4 then 1 else if n ≤ 16 then 2 else if n ≤ 48 then 3 else 4)
      else (if n ≤ 4 then 1 else if n ≤ 16 then 2 else if n ≤ 48 then 3 else 4) + 1)
      = (if n + 1 ≤ 4 then 1 else if n + 1 ≤ 16 then 2 else if n + 1 ≤ 48 then 3 else 4) := by
  by_cases a1 : n ≤ 4
  · by_cases b1 : n < 4
    · have : n + 1 ≤ 4 := by omega
      simp [a1, b1, this]
    · have c1 : ¬ n + 1 ≤ 4 := by omega
      have c2 : n + 1 ≤ 16 := by omega
      simp [a1, b1, c1, c2]
  · by_cases a2 : n ≤ 16
    · by_cases b2 : n < 16
      · have c1 : ¬ n + 1 ≤ 4 := by omega
        have c2 : n + 1 ≤ 16 := by omega
        simp [a1, a2, b2, c1, c2]
      · have c1 : ¬ n + 1 ≤ 4 := by omega
        have c2 : ¬ n + 1 ≤ 16 := by omega
        have c3 : n + 1 ≤ 48 := by omega
        simp [a1, a2, b2, c1, c2, c3]
    · by_cases a3 : n ≤ 48
      · by_cases b3 : n < 48
        · have c1 : ¬ n + 1 ≤ 4 := by omega
          have c2 : ¬ n + 1 ≤ 16 := by omega
          have c3 : n + 1 ≤ 48 := by omega
          simp [a1, a2, a3, b3, c1, c2, c3]
        · have c1 : ¬ n + 1 ≤ 4 := by omega
          have c2 : ¬ n + 1 ≤ 16 := by omega
          have c3 : ¬ n + 1 ≤ 48 := by omega
          simp [a1, a2, a3, b3, c1, c2, c3]
      · have c1 : ¬ n + 1 ≤ 4 := by omega
        have c2 : ¬ n + 1 ≤ 16 := by omega
        have c3 : ¬ n + 1 ≤ 48 := by omega
        simp [a1, a2, a3, c1, c2, c3, hn]

/-- Node variant reached after `n` children were added to an empty `Node4`. -/
theorem add_children_inv (L : List (Nat × ItemPointerData))
    (hnd : (L.map Prod.fst).Nodup)
    (hb : ∀ p ∈ L, p.1 < 256 ∧ ItemPointerIsValid p.2 = true) :
    ∃ r, add_children alloc_node4 L = some r ∧ well_formed r ∧
      children_held r = L.length ∧
      node_type r = (if L.length ≤ 4 then 1 else if L.length ≤ 16 then 2
        else if L.length ≤ 48 then 3 else 4) ∧
      (∀ k, k ∉ L.map Prod.fst → _art_find_child_equal r k = none) := by
  induction L using List.reverseRecOn with
  | nil =>
    exact ⟨alloc_node4, rfl, wf_alloc_node4, rfl, rfl, fun k _ => find_alloc_node4 k⟩
  | append_singleton L p ih =>
    have hlen256 := nodup_bytes_length _ hnd (fun x hx => by
      obtain ⟨q, hq, rfl⟩ := List.mem_map.1 hx
      exact (hb q hq).1)
    rw [List.length_map, List.length_append, List.length_singleton] at hlen256
    rw [List.map_append, List.nodup_append] at hnd
    obtain ⟨h1, _, h3⟩ := hnd
    obtain ⟨r, hres, hw, hheld, hty, hfresh⟩ :=
      ih h1 (fun q hq => hb q (List.mem_append_left _ hq))
    have hp := hb p (List.mem_append_right _ (by simp))
    have hpf : p.1 ∉ L.map Prod.fst := fun hm => h3 hm (by simp)
    obtain ⟨r', hres', ⟨hw', hfk, hfo, hheld', hty'⟩, _⟩ :=
      add_child_spec r p.1 p.2 hw hp.1 (hfresh _ hpf) hp.2
    refine ⟨r', ?_, hw', ?_, ?_, ?_⟩
    · rw [add_children_snoc, hres]; exact hres'
    · rw [hheld', hheld, List.length_append]; rfl
    · rw [hty', capacity_of_type, hty, hheld, List.length_append, List.length_singleton]
      exact type_progress L.length (by omega)
    · intro k hk
      rw [List.map_append, List.mem_append] at hk
      have hne : k ≠ p.1 := fun e => hk (Or.inr (by simp [e]))
      rw [hfo k hne]
      exact hfresh k (fun hm => hk (Or.inl hm))

end PgArt

namespace PgArt

/-- C7 — growth is order independent. Any two orderings of the same set of at most 16 pairs
with pairwise distinct key bytes, added one at a time with `_add_child` to an empty `Node4`
(continuing with the grown node whenever one is returned), produce the same node. For the
keys 5, 1, 9, 3, 7 the node after the fifth insertion is the `Node16` with five children whose
leading keys are 1, 3, 5, 7, 9 and whose leading children are the ones given with those keys. -/
theorem growth_order_independent :
    (∀ L₁ L₂ : List (Nat × ItemPointerData), L₁.Perm L₂ → (L₁.map Prod.fst).Nodup →
      L₁.length ≤ 16 →
      ∃ r, add_children alloc_node4 L₁ = some r ∧ add_children alloc_node4 L₂ = some r) ∧
    (∀ c5 c1 c9 c3 c7 : ItemPointerData,
      add_children alloc_node4 [(5, c5), (1, c1), (9, c9), (3, c3), (7, c7)]
        = some (.node16 { zero_header with num_children := 5 }
            ([1, 3, 5, 7, 9] ++ List.replicate 11 0)
            ([c1, c3, c5, c7, c9] ++ List.replicate 11 zero_iptr))) := by
  constructor
  · intro L₁ L₂ hp hnd hlen
    refine ⟨canon_small (sort_pairs L₁), add_children_canon L₁ hlen, ?_⟩
    rw [add_children_canon L₂ (by rw [← hp.length_eq]; exact hlen),
      sort_pairs_perm_eq L₁ L₂ hp hnd]
  · intro c5 c1 c9 c3 c7
    rw [add_children_canon _ (by simp)]
    simp [sort_pairs, insert_pair, ins_at, canon_small, zero_header]

/-- Instance of C7: the pairs (5, a), (1, b), (9, c) added in two different orders. -/
theorem growth_order_independent_witness :
    ∃ r, add_children alloc_node4 [(5, ⟨7, 1⟩), (1, ⟨7, 2⟩), (9, ⟨7, 3⟩)] = some r ∧
      add_children alloc_node4 [(9, ⟨7, 3⟩), (5, ⟨7, 1⟩), (1, ⟨7, 2⟩)] = some r :=
  growth_order_independent.1 _ _
    (by decide) (by decide) (by decide)

/-- C8 — capacity rule. After `n` children with pairwise distinct key bytes and valid child
references were added to an empty `Node4`, the node is a `Node4` for `n ≤ 4`, a `Node16` for
`5 ≤ n ≤ 16`, a `Node48` for `17 ≤ n ≤ 48` and a `Node256` for `49 ≤ n ≤ 256`; it holds
exactly `n` children, which is at most the capacity of its variant; and adding one more child
makes `_add_child` return a grown node exactly when the node is full. -/
theorem capacity_rule (L : List (Nat × ItemPointerData))
    (hnd : (L.map Prod.fst).Nodup)
    (hb : ∀ p ∈ L, p.1 < 256 ∧ ItemPointerIsValid p.2 = true) :
    ∃ r, add_children alloc_node4 L = some r ∧
      node_type r = (if L.length ≤ 4 then 1 else if L.length ≤ 16 then 2
        else if L.length ≤ 48 then 3 else 4) ∧
      L.length ≤ 256 ∧ children_held r = L.length ∧ children_held r ≤ capacity r ∧
      (∀ k c, k < 256 → k ∉ L.map Prod.fst → ItemPointerIsValid c = true →
        (add_child_grows r k c = true ↔ children_held r = capacity r)) := by
  obtain ⟨r, hres, hw, hheld, hty, hfresh⟩ := add_children_inv L hnd hb
  have hlen := nodup_bytes_length _ hnd (fun x hx => by
    obtain ⟨q, hq, rfl⟩ := List.mem_map.1 hx
    exact (hb q hq).1)
  rw [List.length_map] at hlen
  refine ⟨r, hres, hty, hlen, hheld, ?_, ?_⟩
  · rw [hheld, capacity_of_type, hty]
    by_cases a1 : L.length ≤ 4
    · simp [a1]
    · by_cases a2 : L.length ≤ 16
      · simp [a1, a2]
      · by_cases a3 : L.length ≤ 48
        · simp [a1, a2, a3]
        · simp [a1, a2, a3, hlen]
  · intro k c hk hkf hc
    obtain ⟨_, _, _, hg⟩ := add_child_spec r k c hw hk (hfresh k hkf) hc
    exact hg

/-- Instance of C8: five children. -/
theorem capacity_rule_witness :
    ∃ r, add_children alloc_node4
        [(5, ⟨7, 1⟩), (1, ⟨7, 2⟩), (9, ⟨7, 3⟩), (3, ⟨7, 4⟩), (7, ⟨7, 5⟩)] = some r ∧
      node_type r = 2 ∧ (5 : Nat) ≤ 256 ∧ children_held r = 5 ∧ children_held r ≤ capacity r ∧
      (∀ k c, k < 256 → k ∉ [5, 1, 9, 3, 7] → ItemPointerIsValid c = true →
        (add_child_grows r k c = true ↔ children_held r = capacity r)) :=
  capacity_rule [(5, ⟨7, 1⟩), (1, ⟨7, 2⟩), (9, ⟨7, 3⟩), (3, ⟨7, 4⟩), (7, ⟨7, 5⟩)]
    (by decide) (by decide)

/-- C9 — `_add_child` then `_art_find_child_equal`. For a well-formed internal node of any
variant, a key byte `k` the node does not map and a valid child reference `c`, `_add_child`
yields a node (the grown one when one is returned, otherwise the node itself) in which `k` is
mapped to `c` and every other byte is mapped as before, to the same child or to none. -/
theorem add_child_find_child_equal (node : ArtNode) (k : Nat) (c : ItemPointerData)
    (hw : well_formed node) (hk : k < 256) (hf : _art_find_child_equal node k = none)
    (hc : ItemPointerIsValid c = true) :
    ∃ r, add_child_result node k c = some r ∧
      _art_find_child_equal r k = some c ∧
      ∀ k', k' ≠ k → _art_find_child_equal r k' = _art_find_child_equal node k' := by
  obtain ⟨r, hres, ⟨_, hfk, hfo, _, _⟩, _⟩ := add_child_spec node k c hw hk hf hc
  exact ⟨r, hres, hfk, hfo⟩

/-- Instance of C9: a full `Node4` with keys 1, 3, 5, 7 receives key 4. -/
theorem add_child_find_child_equal_witness :
    ∃ r, add_child_result
        (.node4 { zero_header with num_children := 4 } [1, 3, 5, 7]
          [⟨7, 1⟩, ⟨7, 2⟩, ⟨7, 3⟩, ⟨7, 4⟩]) 4 ⟨7, 9⟩ = some r ∧
      _art_find_child_equal r 4 = some ⟨7, 9⟩ ∧
      ∀ k', k' ≠ 4 → _art_find_child_equal r k'
        = _art_find_child_equal (.node4 { zero_header with num_children := 4 } [1, 3, 5, 7]
          [⟨7, 1⟩, ⟨7, 2⟩, ⟨7, 3⟩, ⟨7, 4⟩]) k' :=
  add_child_find_child_equal _ 4 ⟨7, 9⟩ (by unfold well_formed; decide) (by decide) (by decide)
    (by decide)

/-- C10 — sorted-key invariant. If the first `num_children` keys of a `Node4`, or of a `Node16`
that is not full, are strictly ascending and `k` is not among them, then `_add_child` yields a
`Node4` or `Node16` whose first `num_children` keys are again strictly ascending and whose
index-wise (key, child) pairs are the old pairs together with `(k, c)`; a full `Node4` is
covered, where the result is the migrated `Node16`. -/
theorem sorted_key_invariant (node : ArtNode) (k : Nat) (c : ItemPointerData)
    (hs : sorted_node node) (hr : stays_small node)
    (hk : k ∉ (node_pairs node).map Prod.fst) :
    ∃ r, add_child_result node k c = some r ∧ sorted_node r ∧
      (node_pairs r).Perm ((k, c) :: node_pairs node) := by
  obtain ⟨r, i, hres, hsr, hp, _, _, _⟩ := small_step node k c hs hr hk
  exact ⟨r, hres, hsr, by rw [hp]; exact perm_ins_at _ _ _⟩

/-- Instance of C10: the migration of a full `Node4` with keys 1, 3, 5, 7 on key 4. -/
theorem sorted_key_invariant_witness :
    ∃ r, add_child_result
        (.node4 { zero_header with num_children := 4 } [1, 3, 5, 7]
          [⟨7, 1⟩, ⟨7, 2⟩, ⟨7, 3⟩, ⟨7, 4⟩]) 4 ⟨7, 9⟩ = some r ∧ sorted_node r ∧
      (node_pairs r).Perm ((4, ⟨7, 9⟩) :: node_pairs
        (.node4 { zero_header with num_children := 4 } [1, 3, 5, 7]
          [⟨7, 1⟩, ⟨7, 2⟩, ⟨7, 3⟩, ⟨7, 4⟩])) :=
  sorted_key_invariant _ 4 ⟨7, 9⟩ (by unfold sorted_node; decide) trivial (by decide)

end PgArt

namespace PgArt

/-! ## Equality lookups that end at the root or at a leaf below the root -/

theorem fetch_leaves_none (S : ArtIndex) (n : Nat) : fetch_leaves S n none = [] := by
  cases n <;> rfl

/-- An equality lookup returns nothing when the root has no valid child for the first byte
of the search key. -/
theorem art_scan_eq_root_miss (S : ArtIndex) (key : List Nat) (h : ArtNodeHeader)
    (children : List ItemPointerData)
    (hr : get_node S ⟨ART_ROOT_NODE_BLKNO, 1⟩ = some (.node256 h children))
    (hp : h.prefix_key_len = 0)
    (hc : _art_find_child_equal (.node256 h children) (key_at key 0) = none) :
    art_scan S BTEqualStrategyNumber key = [] := by
  unfold art_scan
  simp only [hr]
  unfold store_fuel
  simp only [_art_search, ArtNode.header?, hp, BTEqualStrategyNumber]
  simp [hc, ph_drain, fetch_leaves_none]

/-- An equality lookup that reaches, through the root, a leaf without continuation which
`_art_leaf_matches` accepts on the truncated key length returns the locators of that leaf. -/
theorem art_scan_eq_root_leaf (S : ArtIndex) (key : List Nat) (h : ArtNodeHeader)
    (children : List ItemPointerData) (c : ItemPointerData) (leaf : ArtNodeLeaf)
    (hr : get_node S ⟨ART_ROOT_NODE_BLKNO, 1⟩ = some (.node256 h children))
    (hp : h.prefix_key_len = 0)
    (hc : _art_find_child_equal (.node256 h children) (key_at key 0) = some c)
    (hl : get_node S c = some (.leaf leaf))
    (hm : _art_leaf_matches leaf key (key.length % 65536) = 0)
    (hn : ItemPointerIsValid leaf.next_leaf_iptr = false)
    (hf : 2 ≤ store_fuel S) :
    art_scan S BTEqualStrategyNumber key = leaf.items := by
  unfold art_scan
  simp only [hr]
  obtain ⟨k, hk⟩ : ∃ k, store_fuel S = k + 2 := ⟨store_fuel S - 2, by omega⟩
  rw [hk]
  simp only [_art_search, ArtNode.header?, hp, BTEqualStrategyNumber]
  simp [hc, ph_drain, ph_add, ph_merge_children, ph_pair_up, hl, leaf_admitted, hm, PHNode.val,
    PHNode.children]
  have : (k + 2) * (k + 2) = (k * k + 4 * k + 3) + 1 := by ring
  rw [this]
  simp [fetch_leaves, hl, hn, PHNode.val, PHNode.children, ph_merge_children, ph_pair_up,
    fetch_leaves_none]

end PgArt

namespace PgArt

/-! ## Keys that pass the size check of `artinsert` but fit no page -/

theorem find_child_alloc_node256 (k : Nat) :
    _art_find_child_equal (.node256 zero_header (List.replicate 256 zero_iptr)) k = none := by
  have h : (List.replicate 256 zero_iptr).getD k zero_iptr = zero_iptr := by
    rw [List.getD_eq_getElem?_getD, List.getElem?_replicate]
    split <;> rfl
  unfold _art_find_child_equal
  simp only [h]
  rfl

theorem node_size_leaf (l : ArtNodeLeaf) :
    _art_node_size (.leaf l) = 24 + l.key.length + l.items.length * 6 := rfl

/-- No page has room for a node of 8145 bytes or more. -/
theorem page_add_item_no_room (page : ArtPage) (node : ArtNode)
    (h : 8145 ≤ _art_node_size node) : PageAddItem page node = (page, 0) := by
  unfold PageAddItem
  have : pd_lower page + sizeof_ItemIdData + MAXALIGN (_art_node_size node) > pd_upper page := by
    unfold pd_lower pd_upper pd_special MAXALIGN sizeof_ItemIdData SizeOfPageHeaderData BLCKSZ
      sizeof_ArtDataPageOpaqueData
    omega
  simp [this]

/-- The empty index after `_get_page_with_free_space` has appended a second leaf page. -/
theorem get_page_empty_leaf (itemsz : Nat) (h : 8145 ≤ itemsz) :
    _get_page_with_free_space default_config empty_index ART_LEAF_PAGE itemsz
      = _get_page_with_free_space default_config empty_index ART_LEAF_PAGE 8145 := by
  have hfree : size_times_double
      (PageGetFreeSpace ((get_page empty_index empty_index.last_leaf_blk_num).getD
        (_art_init_data_page 0 false)))
      default_config.leaf_treshold_mant default_config.leaf_treshold_exp = 6518 := by decide!
  have h1 : ¬ (6518 > MAXALIGN itemsz) := by unfold MAXALIGN; omega
  have h2 : ¬ (6518 > MAXALIGN 8145) := by decide
  unfold _get_page_with_free_space
  have hne : ¬ (ART_LEAF_PAGE = ART_NODE_PAGE) := by decide
  simp only [hne, if_false, if_true, hfree, h1, h2]

end PgArt

namespace PgArt

/-! ## One step of `_node_insert_recursive` -/

theorem insert_rec_leaf (cfg : ArtConfig) (t : ArtTuple) (fuel : Nat) (S : ArtIndex)
    (i : ItemPointerData) (leaf : ArtNodeLeaf) (parent : Option (ItemPointerData × ArtNode))
    (depth : Nat) :
    _node_insert_recursive cfg t (fuel + 1) S i (.leaf leaf) parent depth
      = if _art_leaf_matches leaf t.key (t.key_len % 65536) = 0 then
          _update_leaf_item cfg S i leaf t
        else split_leaf cfg S i leaf parent t depth := by
  rw [_node_insert_recursive]

theorem insert_rec_internal (cfg : ArtConfig) (t : ArtTuple) (fuel : Nat) (S : ArtIndex)
    (i : ItemPointerData) (node : ArtNode) (h : ArtNodeHeader)
    (parent : Option (ItemPointerData × ArtNode)) (depth : Nat)
    (hh : node.header? = some h) :
    _node_insert_recursive cfg t (fuel + 1) S i node parent depth
      = if h.prefix_key_len != 0 then
          match _art_prefix_mismatch S h node t.key t.key_len depth with
          | none => none
          | some diff =>
              if diff % 256 ≥ h.prefix_key_len then
                recurse_search cfg t fuel S i node h parent (depth + h.prefix_key_len)
              else split_node_pfx cfg S i node h parent t depth (diff % 256)
        else recurse_search cfg t fuel S i node h parent depth := by
  cases node with
  | leaf l => simp [ArtNode.header?] at hh
  | node4 h0 k c =>
      rw [_node_insert_recursive]
      · simp only [hh]; rfl
      · intro l hl; cases hl
  | node16 h0 k c =>
      rw [_node_insert_recursive]
      · simp only [hh]; rfl
      · intro l hl; cases hl
  | node48 h0 k c =>
      rw [_node_insert_recursive]
      · simp only [hh]; rfl
      · intro l hl; cases hl
  | node256 h0 c =>
      rw [_node_insert_recursive]
      · simp only [hh]; rfl
      · intro l hl; cases hl

end PgArt

namespace PgArt

/-! ## The root entry under the page operations -/

theorem root_ok_iff (S : ArtIndex) :
    root_ok S ↔ ∃ p n, S.pages[1]? = some p ∧ p.items[0]? = some (some n)
      ∧ is_root_node n = true := by
  unfold root_ok get_node root_iptr ART_ROOT_NODE_BLKNO ART_ROOT_NODE_ITEM
  constructor
  · rintro ⟨n, hn, hr⟩
    simp only [Nat.one_ne_zero, if_false] at hn
    cases hp : S.pages[1]? with
    | none => simp [hp] at hn
    | some p =>
        simp only [hp] at hn
        refine ⟨p, n, rfl, ?_, hr⟩
        cases h0 : p.items[0]? with
        | none => simp [List.getD_eq_getElem?_getD, h0] at hn
        | some x => simp [List.getD_eq_getElem?_getD, h0] at hn; rw [hn]
  · rintro ⟨p, n, hp, hn, hr⟩
    exact ⟨n, by simp [hp, List.getD_eq_getElem?_getD, hn], hr⟩

/-- Replacing a page keeps the root entry when the new page of block 1 still starts with a
root node. -/
theorem root_ok_set_page (S : ArtIndex) (blk : Nat) (p : ArtPage) (h : root_ok S)
    (hp : blk = 1 → ∃ n, p.items[0]? = some (some n) ∧ is_root_node n = true) :
    root_ok (set_page S blk p) := by
  rw [root_ok_iff] at h ⊢
  obtain ⟨p1, n, hp1, hn, hr⟩ := h
  have hlen : 1 < S.pages.length := by
    rcases Nat.lt_or_ge 1 S.pages.length with h | h
    · exact h
    · rw [List.getElem?_eq_none h] at hp1; cases hp1
  unfold set_page
  by_cases hb : blk = 1
  · obtain ⟨m, hm, hmr⟩ := hp hb
    subst hb
    exact ⟨p, m, by simp [hlen], hm, hmr⟩
  · exact ⟨p1, n, by simp [List.getElem?_set, hb, hp1], hn, hr⟩

/-- The page of block 1 in an index with a root entry. -/
theorem root_ok_page (S : ArtIndex) (h : root_ok S) (blk : Nat) (hb : blk = 1) (d : ArtPage) :
    ∃ n, ((get_page S blk).getD d).items[0]? = some (some n) ∧ is_root_node n = true := by
  rw [root_ok_iff] at h
  obtain ⟨p1, n, hp1, hn, hr⟩ := h
  subst hb
  exact ⟨n, by simp [get_page, hp1, hn], hr⟩

theorem root_ok_append (S : ArtIndex) (p : ArtPage) (h : root_ok S) :
    root_ok { S with pages := S.pages ++ [p] } := by
  rw [root_ok_iff] at h ⊢
  obtain ⟨p1, n, hp1, hn, hr⟩ := h
  have hlen : 1 < S.pages.length := by
    rcases Nat.lt_or_ge 1 S.pages.length with h | h
    · exact h
    · rw [List.getElem?_eq_none h] at hp1; cases hp1
  exact ⟨p1, n, by simp [List.getElem?_append_left hlen, hp1], hn, hr⟩

theorem root_ok_meta (S : ArtIndex) (a b : Nat) (h : root_ok S) :
    root_ok { S with last_internal_node_blk_num := a, last_leaf_blk_num := b } := by
  rw [root_ok_iff] at h ⊢
  exact h

end PgArt

namespace PgArt

theorem root_ok_congr (S S1 : ArtIndex) (hp : S1.pages = S.pages) (h : root_ok S) :
    root_ok S1 := by
  rw [root_ok_iff] at h ⊢
  rw [hp]; exact h

theorem root_ok_get_page_with_free_space (cfg : ArtConfig) (S : ArtIndex) (pageType itemsz : Nat)
    (h : root_ok S) : root_ok (_get_page_with_free_space cfg S pageType itemsz).1 := by
  have h1 : ∀ blk p, root_ok (ArtIndex.mk ((set_page S blk
        { (get_page S blk).getD (_art_init_data_page 0 false) with
          right_link := S.pages.length }).pages ++ [p]) 0 0) := fun blk p =>
    root_ok_append ⟨_, 0, 0⟩ p
      (root_ok_congr _ _ rfl (root_ok_set_page S blk _ h (fun hb => root_ok_page S h _ hb _)))
  unfold _get_page_with_free_space
  simp only []
  split_ifs <;> first | exact h | exact root_ok_congr _ _ rfl (h1 _ _)

theorem page_add_item_head (p : ArtPage) (node : ArtNode) (x : Option ArtNode)
    (h : p.items[0]? = some x) : (PageAddItem p node).1.items[0]? = some x := by
  unfold PageAddItem
  split
  · exact h
  · have : 0 < p.items.length := by
      rcases Nat.lt_or_ge 0 p.items.length with h1 | h1
      · exact h1
      · rw [List.getElem?_eq_none h1] at h; cases h
    simp [List.getElem?_append_left this, h]

theorem page_add_item_offset (p : ArtPage) (node : ArtNode) (x : Option ArtNode)
    (h : p.items[0]? = some x) : (PageAddItem p node).2 ≠ 1 := by
  unfold PageAddItem
  have : 0 < p.items.length := by
    rcases Nat.lt_or_ge 0 p.items.length with h1 | h1
    · exact h1
    · rw [List.getElem?_eq_none h1] at h; cases h
  split
  · simp
  · show p.items.length + 1 ≠ 1
    omega

theorem root_ok_page_add_node (S : ArtIndex) (blk : Nat) (node : ArtNode) (h : root_ok S) :
    root_ok (_page_add_node S blk node).1 ∧ (_page_add_node S blk node).2 ≠ root_iptr := by
  unfold _page_add_node
  simp only []
  constructor
  · apply root_ok_set_page S _ _ h
    intro hb
    obtain ⟨n, hn, hr⟩ := root_ok_page S h blk hb (_art_init_data_page 0 false)
    exact ⟨n, page_add_item_head _ _ _ hn, hr⟩
  · intro he
    have hb : blk = 1 := congrArg ItemPointerData.ip_blkid he
    have ho : (PageAddItem ((get_page S blk).getD (_art_init_data_page 0 false)) node).2 = 1 :=
      congrArg ItemPointerData.ip_posid he
    obtain ⟨n, hn, _⟩ := root_ok_page S h blk hb (_art_init_data_page 0 false)
    exact page_add_item_offset _ _ _ hn ho

theorem root_ok_add_leaf (cfg : ArtConfig) (S : ArtIndex) (p : Option ItemPointerData)
    (t : ArtTuple) (h : root_ok S) :
    root_ok (_add_leaf cfg S p t).1 ∧ (_add_leaf cfg S p t).2.1 ≠ root_iptr := by
  unfold _add_leaf
  simp only []
  exact root_ok_page_add_node _ _ _ (root_ok_get_page_with_free_space _ _ _ _ h)

theorem overwrite_head (p p1 : ArtPage) (off : Nat) (node : ArtNode) (x : Option ArtNode)
    (h : p.items[0]? = some x) (ho : PageIndexTupleOverwrite p off node = some p1) :
    p1.items[0]? = some (if off = 1 then
        (if p1.items = p.items then x else some node) else x) := by
  unfold PageIndexTupleOverwrite at ho
  split at ho
  · cases ho
  · split at ho
    · cases ho
    · split at ho
      · cases ho; simp [h]
      · cases ho
        have : 0 < p.items.length := by
          rcases Nat.lt_or_ge 0 p.items.length with h1 | h1
          · exact h1
          · rw [List.getElem?_eq_none h1] at h; cases h
        by_cases h1 : off = 1
        · subst h1
          simp only [Nat.sub_self, if_true]
          rw [List.getElem?_set_self this]
          split
          · rename_i heq
            have := congrArg (fun l => l[0]?) heq
            simp only [List.getElem?_set_self ‹0 < p.items.length›] at this
            rw [this, h]
          · rfl
        · have : off - 1 ≠ 0 := by omega
          simp [List.getElem?_set, this, h, h1]

/-- An overwrite keeps the root entry when the node written at the root item pointer, if
that is where it goes, is a root node. -/
theorem root_ok_page_update_node (S S1 : ArtIndex) (iptr : ItemPointerData) (node : ArtNode)
    (h : root_ok S) (hn : iptr = root_iptr → is_root_node node = true)
    (hu : _page_update_node S iptr node = some S1) : root_ok S1 := by
  unfold _page_update_node at hu
  cases hp : get_page S iptr.ip_blkid with
  | none => simp [hp] at hu
  | some page =>
      simp only [hp, Option.map_eq_some'] at hu
      obtain ⟨p1, hp1, rfl⟩ := hu
      apply root_ok_set_page S _ _ h
      intro hb
      obtain ⟨n, hn0, hr⟩ := root_ok_page S h _ hb (_art_init_data_page 0 false)
      simp only [hp, Option.getD_some] at hn0
      have := overwrite_head page p1 _ node _ hn0 hp1
      by_cases ho : iptr.ip_posid = 1
      · have hroot : iptr = root_iptr := by
          cases iptr; simp_all [root_iptr, ART_ROOT_NODE_BLKNO, ART_ROOT_NODE_ITEM]
        simp only [ho, if_true] at this
        split at this
        · exact ⟨n, this, hr⟩
        · exact ⟨node, this, hn hroot⟩
      · simp only [ho, if_false] at this
        exact ⟨n, this, hr⟩

end PgArt

namespace PgArt

theorem root_node_at_root (S : ArtIndex) (i : ItemPointerData) (n : ArtNode) (h : root_ok S)
    (hn : get_node S i = some n) (hi : i = root_iptr) : is_root_node n = true := by
  obtain ⟨m, hm, hr⟩ := h
  subst hi
  rw [hm] at hn
  cases hn
  exact hr

theorem ne_root_of_not_root_node (S : ArtIndex) (i : ItemPointerData) (n : ArtNode)
    (h : root_ok S) (hn : get_node S i = some n) (hr : is_root_node n = false) :
    i ≠ root_iptr := by
  intro hi
  rw [root_node_at_root S i n h hn hi] at hr
  cases hr

theorem is_root_node_with_parent (n : ArtNode) (p : ItemPointerData) :
    is_root_node (n.with_parent p) = is_root_node n := by
  cases n <;> rfl

theorem root_ok_write_in_place (S : ArtIndex) (iptr : ItemPointerData) (node : ArtNode)
    (h : root_ok S) (hn : iptr = root_iptr → is_root_node node = true) :
    root_ok (write_in_place S iptr node) := by
  unfold write_in_place
  split
  · rename_i old page ho hp
    apply root_ok_set_page S _ _ h
    intro hb
    obtain ⟨n, hn0, hr⟩ := root_ok_page S h _ hb (_art_init_data_page 0 false)
    simp only [hp, Option.getD_some] at hn0
    have hlen : 0 < page.items.length := by
      rcases Nat.lt_or_ge 0 page.items.length with h1 | h1
      · exact h1
      · rw [List.getElem?_eq_none h1] at hn0; cases hn0
    by_cases hpos : iptr.ip_posid - 1 = 0
    · have h0 : iptr.ip_posid ≠ 0 := by
        intro h0; simp [get_node, h0] at ho
      have hroot : iptr = root_iptr := by
        cases iptr
        simp only [root_iptr, ART_ROOT_NODE_BLKNO, ART_ROOT_NODE_ITEM, ItemPointerData.mk.injEq]
        simp only at hb hpos h0
        omega
      exact ⟨node, by simp [hpos, List.getElem?_set_self hlen], hn hroot⟩
    · exact ⟨n, by simp [List.getElem?_set, hpos, hn0], hr⟩
  · exact h

theorem root_ok_update_child_node_parent_iptr (cfg : ArtConfig) (S : ArtIndex)
    (c p : ItemPointerData) (h : root_ok S) :
    root_ok (_update_child_node_parent_iptr cfg S c p) := by
  unfold _update_child_node_parent_iptr
  split
  · rename_i child hc
    split
    · apply root_ok_write_in_place S _ _ h
      intro hi
      rw [is_root_node_with_parent]
      exact root_node_at_root S c child h hc hi
    · exact h
  · exact h

theorem root_ok_update_child_list_parent_iptr (cfg : ArtConfig) (S : ArtIndex)
    (i : ItemPointerData) (node : ArtNode) (h : root_ok S) :
    root_ok (_update_child_list_parent_iptr cfg S i node) := by
  unfold _update_child_list_parent_iptr
  generalize child_list node = l
  induction l generalizing S with
  | nil => exact h
  | cons c cs ih => exact ih _ (root_ok_update_child_node_parent_iptr cfg S c i h)

theorem is_root_node_replace_child (parent parent1 : ArtNode) (key : Nat)
    (iptr : ItemPointerData) (h : _replace_child_iptr parent key iptr = some parent1)
    (hr : is_root_node parent = true) : is_root_node parent1 = true := by
  cases parent with
  | node256 hd c =>
      unfold _replace_child_iptr at h
      simp only at h
      split at h
      · cases h; exact hr
      · cases h
  | _ => cases hr

theorem is_root_node_add_child (node node1 : ArtNode) (k : Nat) (c : ItemPointerData)
    (g : Option ArtNode) (h : _add_child node k c = some (node1, g))
    (hr : is_root_node node = true) : is_root_node node1 = true ∧ g = none := by
  cases node with
  | node256 hd ch =>
      unfold _add_child at h
      simp only [Option.some.injEq, Prod.mk.injEq] at h
      obtain ⟨h1, h2⟩ := h
      subst h1
      exact ⟨hr, h2.symm⟩
  | _ => cases hr

theorem delete_head (p p1 : ArtPage) (off : Nat) (x : Option ArtNode)
    (h : p.items[0]? = some x) (ho : off ≠ 1)
    (hd : PageIndexTupleDeleteNoCompact p off = some p1) : p1.items[0]? = some x := by
  unfold PageIndexTupleDeleteNoCompact at hd
  split at hd
  · cases hd
  · rename_i hoff
    split at hd
    · cases hd
    · split at hd
      · cases hd
        have : off - 1 ≠ 0 := by omega
        simp [List.getElem?_set, this, h]
      · cases hd
        have hlen : 2 ≤ p.items.length := by omega
        simp only
        rw [List.getElem?_eq_getElem (by simp; omega)]
        rw [List.getElem?_eq_getElem (by omega)] at h
        simp only [List.getElem_dropLast]
        exact h

end PgArt

namespace PgArt

theorem root_ok_page_replace_node (cfg : ArtConfig) (S S1 : ArtIndex) (old : ItemPointerData)
    (sz : Nat) (node : ArtNode) (pi : Option ItemPointerData) (key : Nat)
    (r : Option ItemPointerData) (h : root_ok S) (ho : old ≠ root_iptr)
    (hr : _page_replace_node cfg S old sz node pi key = some (S1, r)) : root_ok S1 := by
  unfold _page_replace_node at hr
  cases hp : get_page S old.ip_blkid with
  | none => simp [hp] at hr
  | some old_page =>
    simp only [hp] at hr
    have hne : old.ip_blkid = 1 → old.ip_posid ≠ 1 := by
      intro hb hq
      apply ho
      cases old
      simp_all [root_iptr, ART_ROOT_NODE_BLKNO, ART_ROOT_NODE_ITEM]
    split at hr
    · simp only [Option.map_eq_some', Prod.mk.injEq] at hr
      obtain ⟨p1, hp1, rfl, _⟩ := hr
      apply root_ok_set_page S _ _ h
      intro hb
      obtain ⟨n, hn0, hrn⟩ := root_ok_page S h _ hb (_art_init_data_page 0 false)
      simp only [hp, Option.getD_some] at hn0
      have := overwrite_head old_page p1 _ node _ hn0 hp1
      rw [if_neg (hne hb)] at this
      exact ⟨n, this, hrn⟩
    · cases hd : PageIndexTupleDeleteNoCompact old_page old.ip_posid with
      | none => simp [hd] at hr
      | some p =>
        simp only [hd] at hr
        have h1 : root_ok (set_page S old.ip_blkid
            { p with dirty := true, n_deleted := (p.n_deleted + 1) % 65536,
                     deleted_item_size := (p.deleted_item_size + sz) % 65536 }) := by
          apply root_ok_set_page S _ _ h
          intro hb
          obtain ⟨n, hn0, hrn⟩ := root_ok_page S h _ hb (_art_init_data_page 0 false)
          simp only [hp, Option.getD_some] at hn0
          exact ⟨n, delete_head old_page p _ _ hn0 (hne hb) hd, hrn⟩
        have h2 := root_ok_get_page_with_free_space cfg _ ART_NODE_PAGE (_art_node_size node) h1
        have h3 := fun blk => (root_ok_page_add_node _ blk node h2).1
        cases pi with
        | none => simp at hr
        | some pi =>
          simp only at hr
          split at hr
          · cases hr
          · rename_i parent_node hpn
            split at hr
            · cases hr
            · rename_i parent1 hrc
              simp only [Option.map_eq_some', Prod.mk.injEq] at hr
              obtain ⟨S2, hS2, rfl, _⟩ := hr
              exact root_ok_page_update_node _ _ _ _ (h3 _)
                (fun hi => is_root_node_replace_child _ _ _ _ hrc
                  (root_node_at_root _ _ _ (h3 _) hpn hi)) hS2

theorem root_ok_update_leaf_item_loop (cfg : ArtConfig) (t : ArtTuple) (init : ItemPointerData)
    (fuel : Nat) : ∀ (S S1 : ArtIndex) (li : ItemPointerData) (leaf : ArtNodeLeaf),
    root_ok S → get_node S li = some (.leaf leaf) →
    _update_leaf_item_loop cfg t init fuel S li leaf = some S1 → root_ok S1 := by
  induction fuel with
  | zero => intro S S1 li leaf _ _ h; simp [_update_leaf_item_loop] at h
  | succ fuel ih =>
    intro S S1 li leaf h hl hu
    rw [_update_leaf_item_loop] at hu
    have hli : li ≠ root_iptr := ne_root_of_not_root_node S li _ h hl rfl
    by_cases hv : ItemPointerIsValid leaf.last_leaf_iptr = true
    · rw [if_pos hv] at hu
      split at hu
      · rename_i l hg
        exact ih S S1 _ l h hg hu
      · cases hu
    · rw [if_neg hv] at hu
      simp only [] at hu
      by_cases hf : PageGetFreeSpace ((get_page S li.ip_blkid).getD (_art_init_data_page 0 false))
          > MAXALIGN sizeof_ItemPointerData
      · rw [if_pos hf] at hu
        exact root_ok_page_update_node S S1 li _ h (fun hi => absurd hi hli) hu
      · rw [if_neg hf] at hu
        have ha := root_ok_add_leaf cfg S (some leaf.parent_iptr) t h
        cases hS2 : _page_update_node (_add_leaf cfg S (some leaf.parent_iptr) t).1 li
            (.leaf { leaf with next_leaf_iptr := (_add_leaf cfg S (some leaf.parent_iptr) t).2.1 })
          with
        | none => simp [hS2] at hu
        | some S2 =>
          simp only [hS2] at hu
          have h2 := root_ok_page_update_node _ S2 li _ ha.1 (fun hi => absurd hi hli) hS2
          split at hu
          · rename_i init_leaf hg
            exact root_ok_page_update_node S2 S1 init _ h2
              (fun hi => absurd hi (ne_root_of_not_root_node S2 init _ h2 hg rfl)) hu
          · cases hu

end PgArt

namespace PgArt

theorem root_ok_split_leaf (cfg : ArtConfig) (S S1 : ArtIndex) (li : ItemPointerData)
    (leaf : ArtNodeLeaf) (parent : Option (ItemPointerData × ArtNode)) (t : ArtTuple)
    (depth : Nat) (h : root_ok S) (hp : parent_ok parent)
    (hs : split_leaf cfg S li leaf parent t depth = some S1) : root_ok S1 := by
  unfold split_leaf at hs
  simp only [] at hs
  have ha := root_ok_add_leaf cfg S none t h
  split at hs
  · cases hs
  · split at hs
    · cases hs
    · cases parent with
      | none => simp at hs
      | some pr =>
        obtain ⟨pi, pn⟩ := pr
        simp only at hs
        have hg := fun n => root_ok_get_page_with_free_space cfg _ ART_NODE_PAGE n ha.1
        have hb := fun n blk node => root_ok_page_add_node _ blk node (hg n)
        split at hs
        · cases hs
        · rename_i S3 hS3
          have h3 : root_ok S3 := by
            split at hS3
            · exact root_ok_page_update_node _ S3 _ _ (hb _ _ _).1
                (fun hi => absurd hi ha.2) hS3
            · cases hS3; exact (hb _ _ _).1
          split at hs
          · cases hs
          · rename_i parent1 hrc
            exact root_ok_page_update_node S3 S1 pi parent1 h3
              (fun hi => is_root_node_replace_child _ _ _ _ hrc (hp pi pn rfl hi)) hs

theorem root_ok_split_node_pfx (cfg : ArtConfig) (S S1 : ArtIndex) (ni : ItemPointerData)
    (node : ArtNode) (hd : ArtNodeHeader) (parent : Option (ItemPointerData × ArtNode))
    (t : ArtTuple) (depth diff : Nat) (h : root_ok S) (hp : parent_ok parent)
    (hni : ni ≠ root_iptr)
    (hs : split_node_pfx cfg S ni node hd parent t depth diff = some S1) : root_ok S1 := by
  unfold split_node_pfx at hs
  simp only [] at hs
  split at hs
  · cases hs
  · rename_i n4 h1 _
    split at hs
    · cases hs
    · rename_i Sa hSa
      have h1 := root_ok_page_update_node S Sa ni _ h (fun hi => absurd hi hni) hSa
      have ha := root_ok_add_leaf cfg Sa none t h1
      split at hs
      · cases hs
      · have hg := fun n => root_ok_get_page_with_free_space cfg _ ART_NODE_PAGE n ha.1
        have hb := fun n blk node => root_ok_page_add_node _ blk node (hg n)
        split at hs
        · rename_i _ _ S3 pi pn hS3
          have h3 : root_ok S3 := by
            split at hS3
            · exact root_ok_page_update_node _ S3 _ _ (hb _ _ _).1
                (fun hi => absurd hi ha.2) hS3
            · cases hS3; exact (hb _ _ _).1
          split at hs
          · cases hs
          · rename_i parent1 hrc
            exact root_ok_page_update_node S3 S1 pi parent1 h3
              (fun hi => is_root_node_replace_child _ _ _ _ hrc (hp pi pn rfl hi)) hs
        · cases hs

theorem root_ok_add_leaf_child (cfg : ArtConfig) (S S1 : ArtIndex) (ni : ItemPointerData)
    (node : ArtNode) (pfx : Nat) (parent : Option (ItemPointerData × ArtNode))
    (t : ArtTuple) (depth : Nat) (h : root_ok S) (hn : get_node S ni = some node)
    (hs : add_leaf_child cfg S ni node pfx parent t depth = some S1) : root_ok S1 := by
  unfold add_leaf_child at hs
  simp only [] at hs
  have ha := root_ok_add_leaf cfg S (some ni) t h
  have hroot : ni = root_iptr → is_root_node node = true :=
    fun hi => root_node_at_root S ni node h hn hi
  split at hs
  · cases hs
  · rename_i node1 replaced hac
    have hni : ni ≠ root_iptr := by
      intro hi
      have := (is_root_node_add_child _ _ _ _ _ hac (hroot hi)).2
      cases this
    have hw := root_ok_write_in_place _ ni node1 ha.1 (fun hi => absurd hi hni)
    split at hs
    · cases hs
    · rename_i S2 new_iptr hrep
      have h2 := root_ok_page_replace_node cfg _ S2 ni _ _ _ _ _ hw hni hrep
      split at hs
      · cases hs; exact root_ok_update_child_list_parent_iptr cfg S2 _ _ h2
      · cases hs; exact h2
    · rename_i S2 hrep
      cases hs
      exact root_ok_page_replace_node cfg _ _ ni _ _ _ _ _ hw hni hrep
  · rename_i node1 hac
    exact root_ok_page_update_node _ S1 ni node1 ha.1
      (fun hi => (is_root_node_add_child _ _ _ _ _ hac (hroot hi)).1) hs

end PgArt

namespace PgArt

theorem root_ok_node_insert_recursive (cfg : ArtConfig) (t : ArtTuple) (fuel : Nat) :
    ∀ (S S1 : ArtIndex) (ni : ItemPointerData) (node : ArtNode)
      (parent : Option (ItemPointerData × ArtNode)) (depth : Nat),
    root_ok S → get_node S ni = some node → parent_ok parent →
    _node_insert_recursive cfg t fuel S ni node parent depth = some S1 → root_ok S1 := by
  induction fuel with
  | zero => intro S S1 ni node parent depth _ _ _ h; simp [_node_insert_recursive] at h
  | succ fuel ih =>
    intro S S1 ni node parent depth h hn hp hs
    have hrec : ∀ d, recurse_search cfg t fuel S ni node
        ((node.header?).getD zero_header) parent d = some S1 → root_ok S1 := by
      intro d hr
      unfold recurse_search at hr
      simp only [] at hr
      split at hr
      · split at hr
        · cases hr
        · rename_i child hc
          exact ih S S1 _ child _ _ h hc
            (fun pi pn he hi => by
              cases he
              exact root_node_at_root S _ _ h hn hi) hr
      · exact root_ok_add_leaf_child cfg S S1 ni node _ parent t d h hn hr
    cases hh : node.header? with
    | none =>
      cases node with
      | leaf leaf =>
        rw [insert_rec_leaf] at hs
        split at hs
        · exact root_ok_update_leaf_item_loop cfg t ni _ S S1 ni leaf h hn hs
        · exact root_ok_split_leaf cfg S S1 ni leaf parent t depth h hp hs
      | node4 _ _ _ => cases hh
      | node16 _ _ _ => cases hh
      | node48 _ _ _ => cases hh
      | node256 _ _ => cases hh
    | some hd =>
      rw [insert_rec_internal cfg t fuel S ni node hd parent depth hh] at hs
      rw [hh, Option.getD_some] at hrec
      split at hs
      · rename_i hpfx
        have hni : ni ≠ root_iptr := by
          apply ne_root_of_not_root_node S ni node h hn
          cases node with
          | node256 h0 c =>
            simp only [ArtNode.header?, Option.some.injEq] at hh
            subst hh
            simpa [is_root_node] using hpfx
          | _ => rfl
        split at hs
        · cases hs
        · split at hs
          · exact hrec _ hs
          · exact root_ok_split_node_pfx cfg S S1 ni node hd parent t depth _ h hp hni hs
      · exact hrec _ hs

theorem root_ok_fresh_entries (S : ArtIndex) (h : root_ok S) : root_ok (fresh_entries S) := by
  rw [root_ok_iff] at h ⊢
  obtain ⟨p, n, hp, hn, hr⟩ := h
  exact ⟨{ p with dirty := false }, n, by simp [fresh_entries, hp], hn, hr⟩

theorem root_ok_artinsert (cfg : ArtConfig) (S S1 : ArtIndex) (t : ArtTuple) (h : root_ok S)
    (hs : artinsert cfg S t = some S1) : root_ok S1 := by
  unfold artinsert at hs
  split at hs
  · cases hs; exact h
  · split at hs
    · cases hs; exact h
    · unfold _node_insert at hs
      simp only [] at hs
      split at hs
      · cases hs
      · rename_i root hroot
        exact root_ok_node_insert_recursive cfg t _ _ S1 _ root none 0
          (root_ok_fresh_entries S h) hroot (fun _ _ he => by cases he) hs

theorem root_ok_insert_all (cfg : ArtConfig) (tuples : List ArtTuple) :
    ∀ (S S1 : ArtIndex), root_ok S → insert_all cfg S tuples = some S1 → root_ok S1 := by
  induction tuples with
  | nil => intro S S1 h hs; cases hs; exact h
  | cons t ts ih =>
    intro S S1 h hs
    unfold insert_all at hs
    simp only [List.foldl_cons, Option.some_bind] at hs
    cases ha : artinsert cfg S t with
    | none =>
      rw [ha] at hs
      have : ∀ l : List ArtTuple,
          l.foldl (fun acc t => acc.bind (fun s => artinsert cfg s t)) none = none := by
        intro l; induction l with
        | nil => rfl
        | cons _ _ ih2 => simpa using ih2
      rw [this] at hs; cases hs
    | some S2 =>
      rw [ha] at hs
      exact ih S2 S1 (root_ok_artinsert cfg S S2 t h ha) hs

theorem root_ok_empty_index : root_ok empty_index := ⟨alloc_node256, rfl, rfl⟩

end PgArt

namespace PgArt

theorem overwrite_same_size (p : ArtPage) (off : Nat) (node old : ArtNode) (ho : 0 < off)
    (hg : p.items[off - 1]? = some (some old)) (hs : _art_node_size node = _art_node_size old) :
    PageIndexTupleOverwrite p off node
      = some { p with items := p.items.set (off - 1) (some node) } := by
  have hlen : off - 1 < p.items.length := by
    rcases Nat.lt_or_ge (off - 1) p.items.length with h1 | h1
    · exact h1
    · rw [List.getElem?_eq_none h1] at hg; cases hg
  unfold PageIndexTupleOverwrite
  rw [if_neg (by omega)]
  simp only [List.getD_eq_getElem?_getD, hg, Option.getD_some, hs]
  rw [if_neg (by omega)]

theorem get_node_set_page_same (S : ArtIndex) (blk : Nat) (p : ArtPage) (off : Nat)
    (hb : blk < S.pages.length) (ho : off ≠ 0) :
    get_node (set_page S blk p) ⟨blk, off⟩ = p.items.getD (off - 1) none := by
  unfold get_node set_page
  simp [ho, hb]

/-- The index in which the leaf of an oversized key was "added": a second, empty leaf page
exists and is marked dirty, and nothing is stored on it. -/
theorem add_leaf_oversize (p : Option ItemPointerData) (t : ArtTuple) (h : 8115 ≤ t.key.length) :
    ∃ E, (_add_leaf default_config empty_index p t).1 = E ∧
      (_add_leaf default_config empty_index p t).2.1 = ⟨3, 0⟩ ∧
      get_page E 1 = get_page empty_index 1 ∧ 1 < E.pages.length := by
  have hsz : ∀ pp : ItemPointerData, 8145 ≤ _art_node_size (.leaf
      { parent_iptr := pp, next_leaf_iptr := zero_iptr, last_leaf_iptr := zero_iptr,
        key := t.key, items := [t.iptr] }) := by
    intro pp; rw [node_size_leaf]; simp; omega
  unfold _add_leaf _page_add_node
  simp only []
  rw [get_page_empty_leaf _ (hsz _), page_add_item_no_room _ _ (hsz _)]
  exact ⟨_, rfl, rfl, rfl, by decide⟩

/-- Insertion of an oversized key into the empty index: the root gets a child reference
with offset `InvalidOffsetNumber`. -/
theorem insert_oversize (t : ArtTuple) (h1 : 8115 ≤ t.key.length) (h2 : t.key.length < 8144) :
    ∃ S h children, artinsert default_config empty_index t = some S ∧
      get_node S ⟨ART_ROOT_NODE_BLKNO, 1⟩ = some (.node256 h children) ∧
      h.prefix_key_len = 0 ∧
      _art_find_child_equal (.node256 h children) (key_at t.key 0) = none := by
  obtain ⟨E, hE, hiptr, hpage, hlen⟩ :=
    add_leaf_oversize (some ⟨ART_ROOT_NODE_BLKNO, ART_ROOT_NODE_ITEM⟩) t h1
  have hins : artinsert default_config empty_index t
      = _node_insert default_config (fresh_entries empty_index) t := by
    unfold artinsert
    rw [if_neg (by unfold ArtTuple.key_len; omega),
      if_neg (by unfold ArtTuple.key_len; show ¬ (t.key.length ≥ 8144); omega)]
  have hfe : fresh_entries empty_index = empty_index := rfl
  have hroot : get_node empty_index ⟨ART_ROOT_NODE_BLKNO, ART_ROOT_NODE_ITEM⟩
      = some (.node256 zero_header (List.replicate 256 zero_iptr)) := rfl
  have hfuel : store_fuel empty_index = 1 + 1 := rfl
  obtain ⟨page1, hpg, hitems⟩ : ∃ page1, get_page E ART_ROOT_NODE_BLKNO = some page1 ∧
      page1.items = [some (.node256 zero_header (List.replicate 256 zero_iptr))] := by
    refine ⟨(PageAddItem (_art_init_data_page ART_NODE_PAGE false) alloc_node256).1, ?_, ?_⟩
    · show get_page E 1 = _
      rw [hpage]; rfl
    · rfl
  rw [hins, hfe]
  unfold _node_insert
  simp only [hroot, hfuel]
  rw [insert_rec_internal _ _ _ _ _ (.node256 zero_header (List.replicate 256 zero_iptr))
    zero_header _ _ rfl]
  rw [if_neg (by decide)]
  unfold recurse_search
  simp only [find_child_alloc_node256, ItemPointerIsValid_ptr, Bool.false_eq_true, if_false]
  unfold add_leaf_child
  simp only [hE, hiptr, _add_child, _add_child_node256]
  unfold _page_update_node
  simp only [hpg]
  rw [overwrite_same_size page1 ART_ROOT_NODE_ITEM
    (.node256 { zero_header with num_children := (zero_header.num_children + 1) % 256 }
      ((List.replicate 256 zero_iptr).set (key_at t.key 0) ⟨3, 0⟩))
    (.node256 zero_header (List.replicate 256 zero_iptr))
    (by decide) (by rw [hitems]; rfl) rfl]
  simp only [Option.map_some']
  refine ⟨_, { zero_header with num_children := (zero_header.num_children + 1) % 256 },
    (List.replicate 256 zero_iptr).set (key_at t.key 0) ⟨3, 0⟩, rfl, ?_, rfl, ?_⟩
  · show get_node (set_page E 1 _) ⟨1, 1⟩ = _
    rw [get_node_set_page_same E 1 _ 1 hlen (by decide)]
    simp only [hitems]
    rfl
  · unfold _art_find_child_equal
    simp only
    rw [if_neg]
    simp only [List.getD_eq_getElem?_getD, List.getElem?_set, ItemPointerIsValid]
    split
    · split <;> simp [zero_iptr]
    · rw [List.getElem?_replicate]
      split <;> simp [zero_iptr]

end PgArt

namespace PgArt

/-! ## Evaluations of the insert and scan engines on concrete inputs -/

/-- C1 (evaluation at the failing input): the two distinct keys `01 07^256 01` and
`01 07^256 02` (variable-width values, locators (0,1) and (0,2)) are inserted into the empty
index. The leaf split stores the common prefix length 256 in the `uint8` field
`prefix_key_len`, hence 0, and the equality lookup of the first key returns no locator
instead of (0,1). -/
theorem round_trip_long_common_run :
    (insert_all default_config empty_index
        [_art_form_key_varlena (1 :: List.replicate 256 7 ++ [1]) ⟨0, 1⟩,
         _art_form_key_varlena (1 :: List.replicate 256 7 ++ [2]) ⟨0, 2⟩]).map
      (fun S => (internal_prefix_lens S,
        art_scan S BTEqualStrategyNumber
          ( _art_form_key_varlena (1 :: List.replicate 256 7 ++ [1]) zero_iptr).key))
      = some ([0, 0], []) := by
  decide!

/-- C4: the keys "a", "b", "c", "d" (variable-width values) with the locators (0,1), (0,2),
(0,3), (0,4), inserted into the empty index in any of the 24 orders: the `>=` scan on "b"
returns exactly the locators of "b", "c", "d", and the `<` scan on "b" exactly the locator
of "a". -/
theorem range_scan_boundary :
    ∀ p ∈ List.permutations
        [([97], (⟨0, 1⟩ : ItemPointerData)), ([98], ⟨0, 2⟩), ([99], ⟨0, 3⟩), ([100], ⟨0, 4⟩)],
      (insert_all default_config empty_index
          (p.map (fun v => _art_form_key_varlena v.1 v.2))).map
        (fun S =>
          (art_scan S BTGreaterEqualStrategyNumber ( _art_form_key_varlena [98] zero_iptr).key,
           art_scan S BTLessStrategyNumber ( _art_form_key_varlena [98] zero_iptr).key))
        = some ([⟨0, 2⟩, ⟨0, 3⟩, ⟨0, 4⟩], [⟨0, 1⟩]) := by
  decide!

theorem range_scan_boundary_witness :
    [([100], (⟨0, 4⟩ : ItemPointerData)), ([98], ⟨0, 2⟩), ([97], ⟨0, 1⟩), ([99], ⟨0, 3⟩)]
        ∈ List.permutations
          [([97], (⟨0, 1⟩ : ItemPointerData)), ([98], ⟨0, 2⟩), ([99], ⟨0, 3⟩), ([100], ⟨0, 4⟩)] ∧
    (insert_all default_config empty_index
        [_art_form_key_varlena [100] ⟨0, 4⟩, _art_form_key_varlena [98] ⟨0, 2⟩,
         _art_form_key_varlena [97] ⟨0, 1⟩, _art_form_key_varlena [99] ⟨0, 3⟩]).map
      (fun S =>
        (art_scan S BTGreaterEqualStrategyNumber ( _art_form_key_varlena [98] zero_iptr).key,
         art_scan S BTLessStrategyNumber ( _art_form_key_varlena [98] zero_iptr).key))
      = some ([⟨0, 2⟩, ⟨0, 3⟩, ⟨0, 4⟩], [⟨0, 1⟩]) :=
  ⟨by decide!,
    range_scan_boundary
      [([100], ⟨0, 4⟩), ([98], ⟨0, 2⟩), ([97], ⟨0, 1⟩), ([99], ⟨0, 3⟩)] (by decide!)⟩

/-- C5 (evaluation at the failing input): the index holds the single key "bz" with locator
(0,1); the `>` scan on "ba" returns nothing, although "bz" > "ba". -/
theorem range_scan_misses_key :
    (insert_all default_config empty_index [_art_form_key_varlena [98, 122] ⟨0, 1⟩]).map
      (fun S => art_scan S BTGreaterStrategyNumber ( _art_form_key_varlena [98, 97] zero_iptr).key)
      = some [] := by
  decide!

/-- C6 (evaluation at the failing input): the index holds the single key "ba" with locator
(0,1); the `>=` scan on "bb" returns (0,1), although "ba" < "bb". -/
theorem range_scan_returns_smaller_key :
    (insert_all default_config empty_index [_art_form_key_varlena [98, 97] ⟨0, 1⟩]).map
      (fun S =>
        art_scan S BTGreaterEqualStrategyNumber ( _art_form_key_varlena [98, 98] zero_iptr).key)
      = some [⟨0, 1⟩] := by
  decide!

/-- C16 (evaluation at the failing input): after the inserts of `01 07^256 01` and
`01 07^256 02` the Node4 below the root is entered at depth 1 with prefix length 0 (256 in
`uint8`) and its child slots carry the key bytes 1 and 2, which are the leaf keys' bytes at
index 257, not at index 1: the leaf-key path invariant does not hold. It holds for the same
keys with a common run of 255 bytes. -/
theorem path_invariant_long_common_run :
    (insert_all default_config empty_index
        [_art_form_key_varlena (1 :: List.replicate 256 7 ++ [1]) ⟨0, 1⟩,
         _art_form_key_varlena (1 :: List.replicate 256 7 ++ [2]) ⟨0, 2⟩]).map
      leaf_key_path_invariant = some false ∧
    (insert_all default_config empty_index
        [_art_form_key_varlena (1 :: List.replicate 255 7 ++ [1]) ⟨0, 1⟩,
         _art_form_key_varlena (1 :: List.replicate 255 7 ++ [2]) ⟨0, 2⟩]).map
      leaf_key_path_invariant = some true := by
  decide!

end PgArt

namespace PgArt

theorem insert_all_append (cfg : ArtConfig) (S : ArtIndex) (xs ys : List ArtTuple) :
    insert_all cfg S (xs ++ ys) = (insert_all cfg S xs).bind (fun s => insert_all cfg s ys) := by
  unfold insert_all
  rw [List.foldl_append]
  cases h : xs.foldl (fun acc t => acc.bind (fun s => artinsert cfg s t)) (some S) with
  | some s => rfl
  | none =>
    simp only [Option.none_bind]
    induction ys with
    | nil => rfl
    | cons _ _ ih => simpa using ih

theorem insert_all_cons (cfg : ArtConfig) (S : ArtIndex) (t : ArtTuple) (ts : List ArtTuple) :
    insert_all cfg S (t :: ts) = (artinsert cfg S t).bind (fun s => insert_all cfg s ts) := by
  have := insert_all_append cfg S [t] ts
  simpa [insert_all] using this

/-- C2 (evaluation at the failing inputs): a variable-width value of 8114 to 8142 bytes
forms a key of 8115 to 8143 bytes, which passes the size check of `artinsert`
(`key_len < ART_PAGE_SIZE`); its leaf fits no page, `PageAddItem` stores nothing, and the
equality lookup of the key, inserted with locator `L` into the empty index, returns no
locator instead of `L`. -/
theorem duplicate_lookup_oversize_key (value : List Nat) (L : ItemPointerData)
    (h1 : 8114 ≤ value.length) (h2 : value.length ≤ 8142) :
    ( _art_form_key_varlena value L).key_len ≠ 0 ∧
    ( _art_form_key_varlena value L).key_len < ART_PAGE_SIZE ∧
    (artinsert default_config empty_index ( _art_form_key_varlena value L)).map
      (fun S => art_scan S BTEqualStrategyNumber ( _art_form_key_varlena value L).key)
      = some [] := by
  have hlen : ( _art_form_key_varlena value L).key.length = value.length + 1 := by
    simp [_art_form_key_varlena]
  refine ⟨?_, ?_, ?_⟩
  · unfold ArtTuple.key_len; omega
  · unfold ArtTuple.key_len; show _ < 8144; omega
  · obtain ⟨S, h, children, hS, hroot, hp, hc⟩ :=
      insert_oversize ( _art_form_key_varlena value L) (by omega) (by omega)
    rw [hS, Option.map_some', art_scan_eq_root_miss S _ h children hroot hp hc]

theorem duplicate_lookup_oversize_key_witness :
    8114 ≤ (List.replicate 8114 97).length ∧ (List.replicate 8114 97).length ≤ 8142 ∧
    (artinsert default_config empty_index ( _art_form_key_varlena (List.replicate 8114 97) ⟨0, 1⟩)).map
      (fun S => art_scan S BTEqualStrategyNumber
        ( _art_form_key_varlena (List.replicate 8114 97) ⟨0, 1⟩).key) = some [] :=
  ⟨(List.length_replicate _ _).ge, by rw [List.length_replicate]; decide,
    (duplicate_lookup_oversize_key (List.replicate 8114 97) ⟨0, 1⟩
      (List.length_replicate _ _).ge (by rw [List.length_replicate]; decide)).2.2⟩

/-- The index that holds the single key `61 00` with locator (0,1). -/
theorem index_with_key_a :
    ∃ S0 h children leaf,
      insert_all default_config empty_index [_art_form_key_varlena [97] ⟨0, 1⟩] = some S0 ∧
      get_node S0 ⟨ART_ROOT_NODE_BLKNO, 1⟩ = some (.node256 h children) ∧
      h.prefix_key_len = 0 ∧
      _art_find_child_equal (.node256 h children) 97 = some ⟨2, 1⟩ ∧
      get_node S0 ⟨2, 1⟩ = some (.leaf leaf) ∧
      leaf.key = [97, 0] ∧ leaf.items = [⟨0, 1⟩] ∧
      ItemPointerIsValid leaf.next_leaf_iptr = false ∧ 2 ≤ store_fuel S0 :=
  ⟨_, _, _, _, rfl, rfl, rfl, rfl, rfl, rfl, rfl, rfl, by decide⟩

/-- C3 (evaluation at the failing inputs): the index holds the single variable-width value
`61`, that is the key `61 00`, with locator (0,1). An equality lookup of a value `61 00 r`,
with `r` any 65535 bytes, forms a search key of 65538 bytes; `_art_leaf_matches` receives
its length as `uint16`, hence 2, compares 2 bytes, and the lookup returns (0,1) for a key
that was never inserted. -/
theorem equality_lookup_false_positive (r : List Nat) (hr : r.length = 65535) :
    (insert_all default_config empty_index [_art_form_key_varlena [97] ⟨0, 1⟩]).map
      (fun S => art_scan S BTEqualStrategyNumber ( _art_form_key_varlena (97 :: 0 :: r) zero_iptr).key)
      = some [⟨0, 1⟩] := by
  obtain ⟨S0, h, children, leaf, hS, hroot, hp, hc, hl, hkey, hitems, hn, hf⟩ := index_with_key_a
  rw [hS, Option.map_some']
  have hlen : ( _art_form_key_varlena (97 :: 0 :: r) zero_iptr).key.length % 65536 = 2 := by
    simp [_art_form_key_varlena, hr]
  have hm : _art_leaf_matches leaf ( _art_form_key_varlena (97 :: 0 :: r) zero_iptr).key
      (( _art_form_key_varlena (97 :: 0 :: r) zero_iptr).key.length % 65536) = 0 := by
    rw [hlen]
    simp [_art_leaf_matches, hkey, ArtNodeLeaf.data, _art_form_key_varlena]
  rw [art_scan_eq_root_leaf S0 _ h children ⟨2, 1⟩ leaf hroot hp
    (by simpa [_art_form_key_varlena, key_at] using hc) hl hm hn hf, hitems]

theorem equality_lookup_false_positive_witness :
    (List.replicate 65535 0).length = 65535 ∧
    (insert_all default_config empty_index [_art_form_key_varlena [97] ⟨0, 1⟩]).map
      (fun S => art_scan S BTEqualStrategyNumber
        ( _art_form_key_varlena (97 :: 0 :: List.replicate 65535 0) zero_iptr).key)
      = some [⟨0, 1⟩] :=
  ⟨List.length_replicate _ _, equality_lookup_false_positive _ (List.length_replicate _ _)⟩

/-- C12: an insert whose formed key has length 0, or a length of `ART_PAGE_SIZE` or more,
returns normally and leaves the index as it is; the other rows of a batch are inserted as
if the skipped row were absent. -/
theorem oversized_or_empty_key_skipped (cfg : ArtConfig) (S : ArtIndex) (t : ArtTuple)
    (h : t.key_len = 0 ∨ ART_PAGE_SIZE ≤ t.key_len) :
    artinsert cfg S t = some S ∧
    ∀ (before after : List ArtTuple),
      insert_all cfg S (before ++ t :: after) = insert_all cfg S (before ++ after) := by
  have hskip : ∀ s, artinsert cfg s t = some s := by
    intro s
    unfold artinsert
    rcases h with h | h
    · rw [if_pos h]
    · split <;> rfl
  refine ⟨hskip S, fun before after => ?_⟩
  rw [insert_all_append, insert_all_append]
  congr 1
  funext s
  rw [insert_all_cons, hskip s]
  rfl

theorem oversized_or_empty_key_skipped_witness :
    (( _art_form_key_varlena (List.replicate 8143 97) ⟨0, 1⟩).key_len = 0 ∨
      ART_PAGE_SIZE ≤ ( _art_form_key_varlena (List.replicate 8143 97) ⟨0, 1⟩).key_len) ∧
    artinsert default_config empty_index ( _art_form_key_varlena (List.replicate 8143 97) ⟨0, 1⟩)
      = some empty_index :=
  ⟨Or.inr (by
      show ART_PAGE_SIZE ≤ (List.replicate 8143 97 ++ [0]).length
      rw [List.length_append, List.length_replicate]; decide),
    (oversized_or_empty_key_skipped default_config empty_index _
      (Or.inr (by
        show ART_PAGE_SIZE ≤ (List.replicate 8143 97 ++ [0]).length
        rw [List.length_append, List.length_replicate]; decide))).1⟩

/-- C13 (evaluation at the failing inputs): a key of 8115 to 8143 bytes passes the size
check of `artinsert` (`key_len < ART_PAGE_SIZE`, 8144), but the leaf built for it (24 bytes
of header, the key, one locator of 6 bytes), aligned as `PageAddItem` aligns it, is larger
than the free space of an empty leaf page, and `PageAddItem` stores it on no page. -/
theorem accepted_key_does_not_fit (t : ArtTuple) (parent : ItemPointerData)
    (h1 : 8115 ≤ t.key_len) (h2 : t.key_len < ART_PAGE_SIZE) :
    ¬ (t.key_len = 0 ∨ ART_PAGE_SIZE ≤ t.key_len) ∧
    PageGetFreeSpace (_art_init_data_page ART_LEAF_PAGE false)
      < MAXALIGN (_art_node_size (.leaf ⟨parent, zero_iptr, zero_iptr, t.key, [t.iptr]⟩)) ∧
    ∀ page : ArtPage,
      (PageAddItem page (.leaf ⟨parent, zero_iptr, zero_iptr, t.key, [t.iptr]⟩)).2 = 0 := by
  have hps : ART_PAGE_SIZE = 8144 := by decide
  rw [hps] at h2 ⊢
  unfold ArtTuple.key_len at h1 h2 ⊢
  refine ⟨by omega, ?_, fun page => ?_⟩
  · rw [node_size_leaf]
    have : PageGetFreeSpace (_art_init_data_page ART_LEAF_PAGE false) = 8148 := by decide
    rw [this]
    simp only [List.length_singleton]
    unfold MAXALIGN
    omega
  · rw [page_add_item_no_room page _ (by rw [node_size_leaf]; simp; omega)]

theorem accepted_key_does_not_fit_witness :
    8115 ≤ (ArtTuple.mk (List.replicate 8115 97) ⟨0, 1⟩).key_len ∧
    (ArtTuple.mk (List.replicate 8115 97) ⟨0, 1⟩).key_len < ART_PAGE_SIZE ∧
    ∀ page : ArtPage,
      (PageAddItem page (.leaf ⟨root_iptr, zero_iptr, zero_iptr,
        (ArtTuple.mk (List.replicate 8115 97) ⟨0, 1⟩).key,
        [(ArtTuple.mk (List.replicate 8115 97) ⟨0, 1⟩).iptr]⟩)).2 = 0 :=
  ⟨(List.length_replicate _ _).ge,
    by show (List.replicate 8115 97).length < ART_PAGE_SIZE
       rw [List.length_replicate]; decide,
    (accepted_key_does_not_fit ⟨List.replicate 8115 97, ⟨0, 1⟩⟩ root_iptr
      (List.length_replicate _ _).ge
      (by show (List.replicate 8115 97).length < ART_PAGE_SIZE
          rw [List.length_replicate]; decide)).2.2⟩

end PgArt

namespace PgArt

/-! ## Order of the keys formed for fixed-width values -/

theorem length_le_bytes (n x : Nat) : (le_bytes n x).length = n := by
  induction n generalizing x with
  | zero => rfl
  | succ n ih => simp [le_bytes, ih]

theorem lex_lt_snoc (xs ys : List Nat) (a b : Nat) (h : xs.length = ys.length) :
    lex_lt (xs ++ [a]) (ys ++ [b]) = (lex_lt xs ys || (decide (xs = ys) && decide (a < b))) := by
  induction xs generalizing ys with
  | nil =>
    cases ys with
    | nil => simp [lex_lt]
    | cons y ys => simp at h
  | cons x xs ih =>
    cases ys with
    | nil => simp at h
    | cons y ys =>
      simp only [List.length_cons, Nat.add_right_cancel_iff] at h
      show (decide (x < y) || (x == y && lex_lt (xs ++ [a]) (ys ++ [b])))
        = ((decide (x < y) || (x == y && lex_lt xs ys))
            || (decide (x :: xs = y :: ys) && decide (a < b)))
      rw [ih ys h]
      by_cases hlt : x < y
      · simp [hlt]
      · by_cases he : x = y
        · subst he
          simp
        · have hb : (x == y) = false := beq_eq_false_iff_ne.2 he
          simp [hlt, he, hb]

/-- Big-endian byte strings of equal width compare as the numbers they represent. -/
theorem lex_lt_be_bytes (n : Nat) : ∀ x y : Nat, x < 256 ^ n → y < 256 ^ n →
    ((lex_lt (le_bytes n x).reverse (le_bytes n y).reverse = true ↔ x < y) ∧
     ((le_bytes n x).reverse = (le_bytes n y).reverse ↔ x = y)) := by
  induction n with
  | zero =>
    intro x y hx hy
    simp only [pow_zero, Nat.lt_one_iff] at hx hy
    subst hx; subst hy
    simp [le_bytes, lex_lt]
  | succ n ih =>
    intro x y hx hy
    have hx1 : x / 256 < 256 ^ n := by
      rw [Nat.div_lt_iff_lt_mul (by decide)]; rw [pow_succ] at hx; exact hx
    have hy1 : y / 256 < 256 ^ n := by
      rw [Nat.div_lt_iff_lt_mul (by decide)]; rw [pow_succ] at hy; exact hy
    obtain ⟨h1, h2⟩ := ih (x / 256) (y / 256) hx1 hy1
    simp only [le_bytes, List.reverse_cons]
    constructor
    · rw [lex_lt_snoc _ _ _ _ (by simp [length_le_bytes])]
      simp only [Bool.or_eq_true, Bool.and_eq_true, decide_eq_true_eq, h1, h2]
      omega
    · constructor
      · intro h
        have hl := List.append_inj_left' h rfl
        have hr := List.append_inj_right' h rfl
        have := h2.1 hl
        simp only [List.cons.injEq, and_true] at hr
        omega
      · intro h; rw [h]

/-- The unsigned value of the `n`-byte two's complement representation. -/
theorem unsigned_value (n : Nat) (hn : 0 < n) (a : Int)
    (ha : -(128 * 256 ^ (n - 1)) ≤ a ∧ a < 128 * 256 ^ (n - 1)) :
    ((a % (256 : Int) ^ n).toNat : Int) = (if 0 ≤ a then a else a + 256 ^ n) ∧
    (a % (256 : Int) ^ n).toNat < 256 ^ n := by
  obtain ⟨m, rfl⟩ : ∃ m, n = m + 1 := ⟨n - 1, by omega⟩
  simp only [Nat.add_sub_cancel] at ha
  have hM : (256 : Int) ^ (m + 1) = 2 * (128 * 256 ^ m) := by rw [pow_succ]; ring
  have hpos : (0 : Int) < 128 * 256 ^ m := by positivity
  have hmod : a % (256 : Int) ^ (m + 1) = if 0 ≤ a then a else a + 256 ^ (m + 1) := by
    split
    · exact Int.emod_eq_of_lt ‹0 ≤ a› (by rw [hM]; omega)
    · rw [← Int.add_emod_self]
      exact Int.emod_eq_of_lt (by rw [hM]; omega) (by rw [hM]; omega)
  have hnn : 0 ≤ a % (256 : Int) ^ (m + 1) := Int.emod_nonneg _ (by positivity)
  have hlt : a % (256 : Int) ^ (m + 1) < 256 ^ (m + 1) := Int.emod_lt_of_pos _ (by positivity)
  refine ⟨by rw [Int.toNat_of_nonneg hnn, hmod], ?_⟩
  have : ((a % (256 : Int) ^ (m + 1)).toNat : Int) < ((256 ^ (m + 1) : Nat) : Int) := by
    rw [Int.toNat_of_nonneg hnn]; push_cast; exact hlt
  exact_mod_cast this

/-- C17 (as amended): for two values of the same `n`-byte signed integer type, the key formed
by `_art_form_key` precedes in byte-wise lexicographic order exactly when the value is
smaller, provided both values have the same sign; the key of a negative value follows the
key of every non-negative value. -/
theorem fixed_width_key_order (n : Nat) (hn : 0 < n) (a b : Int) (ia ib : ItemPointerData)
    (ha : -(128 * 256 ^ (n - 1)) ≤ a ∧ a < 128 * 256 ^ (n - 1))
    (hb : -(128 * 256 ^ (n - 1)) ≤ b ∧ b < 128 * 256 ^ (n - 1)) :
    ((0 ≤ a ↔ 0 ≤ b) →
      (lex_lt (_art_form_key_fixed (datum_bytes n a) ia).key
          (_art_form_key_fixed (datum_bytes n b) ib).key = true ↔ a < b)) ∧
    (a < 0 → 0 ≤ b →
      lex_lt (_art_form_key_fixed (datum_bytes n b) ib).key
          (_art_form_key_fixed (datum_bytes n a) ia).key = true) := by
  obtain ⟨hua, hla⟩ := unsigned_value n hn a ha
  obtain ⟨hub, hlb⟩ := unsigned_value n hn b hb
  have hpos : (0 : Int) < 256 ^ n := by positivity
  have hM : (256 : Int) ^ n = 2 * (128 * 256 ^ (n - 1)) := by
    obtain ⟨m, rfl⟩ : ∃ m, n = m + 1 := ⟨n - 1, by omega⟩
    rw [pow_succ, Nat.add_sub_cancel]; ring
  unfold _art_form_key_fixed datum_bytes
  simp only []
  constructor
  · intro hs
    rw [(lex_lt_be_bytes n _ _ hla hlb).1, ← Int.ofNat_lt, hua, hub]
    by_cases h0 : 0 ≤ a
    · rw [if_pos h0, if_pos (hs.1 h0)]
    · rw [if_neg h0, if_neg (fun h => h0 (hs.2 h))]; omega
  · intro h1 h2
    rw [(lex_lt_be_bytes n _ _ hlb hla).1, ← Int.ofNat_lt, hua, hub,
      if_pos h2, if_neg (by omega)]
    omega

theorem fixed_width_key_order_witness :
    (-(128 * 256 ^ (4 - 1)) ≤ (-5 : Int) ∧ (-5 : Int) < 128 * 256 ^ (4 - 1)) ∧
    (-(128 * 256 ^ (4 - 1)) ≤ (-2 : Int) ∧ (-2 : Int) < 128 * 256 ^ (4 - 1)) ∧
    (lex_lt (_art_form_key_fixed (datum_bytes 4 (-5)) zero_iptr).key
        (_art_form_key_fixed (datum_bytes 4 (-2)) zero_iptr).key = true ↔ (-5 : Int) < -2) :=
  ⟨by decide, by decide,
    (fixed_width_key_order 4 (by decide) (-5) (-2) zero_iptr zero_iptr (by decide) (by decide)).1
      (by decide)⟩

/-- C17 (counterexample): for the 4-byte integers -1 and 0, -1 < 0 but the key of -1,
`ff ff ff ff`, does not precede the key of 0, `00 00 00 00`. -/
theorem fixed_width_key_order_negative :
    (-1 : Int) < 0 ∧
    lex_lt (_art_form_key_fixed (datum_bytes 4 (-1)) zero_iptr).key
      (_art_form_key_fixed (datum_bytes 4 0) zero_iptr).key = false ∧
    (_art_form_key_fixed (datum_bytes 4 (-1)) zero_iptr).key = [255, 255, 255, 255] ∧
    (_art_form_key_fixed (datum_bytes 4 0) zero_iptr).key = [0, 0, 0, 0] := by
  decide

/-! ## Keys formed for variable-width values -/

/-- C18 (as amended): the key formed for a variable-width value of `n` bytes has `n + 1`
bytes, and for two distinct values that contain no zero byte neither key is a prefix of the
other. -/
theorem varlena_keys_prefix_free (v w : List Nat) (iv iw : ItemPointerData) (hne : v ≠ w)
    (hv : 0 ∉ v) (hw : 0 ∉ w) :
    ( _art_form_key_varlena v iv).key_len = v.length + 1 ∧
    ( _art_form_key_varlena w iw).key_len = w.length + 1 ∧
    ¬ ( _art_form_key_varlena v iv).key <+: ( _art_form_key_varlena w iw).key ∧
    ¬ ( _art_form_key_varlena w iw).key <+: ( _art_form_key_varlena v iv).key := by
  have key : ∀ x y : List Nat, x ≠ y → 0 ∉ y → ¬ (x ++ [0]) <+: (y ++ [0]) := by
    intro x y hxy hy hp
    rcases List.prefix_concat_iff.1 (by simpa using hp) with h | h
    · exact hxy (List.append_inj_left' h rfl)
    · exact hy (h.subset (by simp))
  unfold _art_form_key_varlena ArtTuple.key_len
  exact ⟨by simp, by simp, key v w hne hw, key w v (Ne.symm hne) hv⟩

theorem varlena_keys_prefix_free_witness :
    ([97] : List Nat) ≠ [97, 98] ∧ 0 ∉ ([97] : List Nat) ∧ 0 ∉ ([97, 98] : List Nat) ∧
    ¬ ( _art_form_key_varlena [97] zero_iptr).key <+: ( _art_form_key_varlena [97, 98] zero_iptr).key :=
  ⟨by decide, by decide, by decide,
    (varlena_keys_prefix_free [97] [97, 98] zero_iptr zero_iptr (by decide) (by decide)
      (by decide)).2.2.1⟩

/-- C18 (counterexample): the distinct values `61` and `61 00` form the keys `61 00` and
`61 00 00`, and the first key is a prefix of the second. -/
theorem varlena_key_prefix_with_zero_byte :
    ([97] : List Nat) ≠ [97, 0] ∧
    ( _art_form_key_varlena [97] zero_iptr).key <+: ( _art_form_key_varlena [97, 0] zero_iptr).key := by
  decide

end PgArt

namespace PgArt

/-! ## Slot enumeration of `_art_find_child_range` on `Node48` and `Node256` -/

theorem mem_enum_window {α : Type} (l : List α) (a n : Nat) (s : Nat × α) :
    s ∈ (l.enum.drop a).take n ↔ a ≤ s.1 ∧ s.1 < a + n ∧ l[s.1]? = some s.2 := by
  obtain ⟨i, v⟩ := s
  rw [List.mem_iff_getElem?]
  constructor
  · rintro ⟨j, hj⟩
    rw [List.getElem?_take] at hj
    split_ifs at hj with hjn
    rw [List.getElem?_drop, List.getElem?_enum] at hj
    cases hl : l[a + j]? with
    | none => rw [hl] at hj; cases hj
    | some w =>
        rw [hl] at hj
        simp only [Option.map_some', Option.some.injEq, Prod.mk.injEq] at hj
        obtain ⟨h1, h2⟩ := hj
        subst h1; subst h2
        exact ⟨by omega, by omega, hl⟩
  · rintro ⟨h1, h2, h3⟩
    refine ⟨i - a, ?_⟩
    have hi : a + (i - a) = i := by omega
    have hlt : i - a < n := by omega
    rw [List.getElem?_take, if_pos hlt, List.getElem?_drop, List.getElem?_enum, hi]
    simp only at h3
    rw [h3]; rfl

theorem range_bounds_window (key skStrategy : Nat) (compare : Bool) (i : Nat)
    (hk : key < 256) :
    ((range_bounds key skStrategy compare).1 ≤ i ∧
      i < (range_bounds key skStrategy compare).1 +
        ((range_bounds key skStrategy compare).2 - (range_bounds key skStrategy compare).1)) ↔
      i < 256 ∧
      (compare = true →
        ((skStrategy = BTLessStrategyNumber ∨ skStrategy = BTLessEqualStrategyNumber) → i ≤ key) ∧
        ((skStrategy = BTGreaterStrategyNumber ∨ skStrategy = BTGreaterEqualStrategyNumber) →
          key ≤ i)) := by
  unfold range_bounds BTLessStrategyNumber BTLessEqualStrategyNumber BTGreaterStrategyNumber
    BTGreaterEqualStrategyNumber
  cases compare
  · simp
  · simp only [if_true, true_implies]
    split_ifs with h1 h2
    · simp only []
      rcases h1 with h1 | h1 <;> subst h1 <;> simp <;> omega
    · simp only []
      rcases h2 with h2 | h2 <;> subst h2 <;> simp <;> omega
    · simp only []
      have : ¬ (skStrategy = 1 ∨ skStrategy = 2) := h1
      have : ¬ (skStrategy = 5 ∨ skStrategy = 4) := h2
      simp [*]

theorem getD_of_getElem? {α : Type} (l : List α) (i : Nat) (d v : α) (h : l[i]? = some v) :
    l.getD i d = v := by
  rw [List.getD_eq_getElem?_getD, h]; rfl

theorem getElem?_of_getD_ne {α : Type} (l : List α) (i : Nat) (d : α) (h : l.getD i d ≠ d) :
    l[i]? = some (l.getD i d) := by
  rw [List.getD_eq_getElem?_getD] at h ⊢
  cases hl : l[i]? with
  | none => rw [hl] at h; exact absurd rfl h
  | some w => rfl

/-- C19: on a `Node48` and on a `Node256`, `_art_find_child_range` queues exactly the
children of the occupied slots `i` with `i ≤ key` for `<` and `<=`, with `key ≤ i` for `>`
and `>=`, when the compare flag is set, and of every occupied slot when it is clear; a queued
child is tagged exact exactly when the flag is set and its slot index is the key byte. -/
theorem find_child_range_big_nodes (h : ArtNodeHeader) (keys : List Nat)
    (children : List ItemPointerData) (key skStrategy : Nat) (compare : Bool)
    (x : ArtQueueItemPointer) (hk : key < 256) :
    (x ∈ _art_find_child_range (.node48 h keys children) key skStrategy compare ↔
      ∃ i, i < 256 ∧ keys.getD i 0 ≠ 0 ∧
        (compare = true →
          ((skStrategy = BTLessStrategyNumber ∨ skStrategy = BTLessEqualStrategyNumber) →
            i ≤ key) ∧
          ((skStrategy = BTGreaterStrategyNumber ∨ skStrategy = BTGreaterEqualStrategyNumber) →
            key ≤ i)) ∧
        x = ⟨children.getD (keys.getD i 0 - 1) zero_iptr, compare && decide (i = key)⟩) ∧
    (x ∈ _art_find_child_range (.node256 h children) key skStrategy compare ↔
      ∃ i, i < 256 ∧ ItemPointerIsValid (children.getD i zero_iptr) = true ∧
        (compare = true →
          ((skStrategy = BTLessStrategyNumber ∨ skStrategy = BTLessEqualStrategyNumber) →
            i ≤ key) ∧
          ((skStrategy = BTGreaterStrategyNumber ∨ skStrategy = BTGreaterEqualStrategyNumber) →
            key ≤ i)) ∧
        x = ⟨children.getD i zero_iptr, compare && decide (i = key)⟩) := by
  have hflag : ∀ i : Nat, (if compare = true then decide (i = key) else false)
      = (compare && decide (i = key)) := by
    intro i; cases compare <;> simp
  have hw := fun i => range_bounds_window key skStrategy compare i hk
  unfold _art_find_child_range
  simp only [List.mem_map, List.mem_filter, mem_enum_window, hflag]
  constructor
  · constructor
    · rintro ⟨⟨i, v⟩, ⟨⟨h1, h2, h3⟩, ho⟩, rfl⟩
      obtain ⟨hi, hc⟩ := (hw i).1 ⟨h1, h2⟩
      have hv : keys.getD i 0 = v := getD_of_getElem? keys i 0 v h3
      refine ⟨i, hi, ?_, hc, ?_⟩
      · rw [hv]; simpa using ho
      · rw [hv]
    · rintro ⟨i, hi, ho, hc, rfl⟩
      obtain ⟨h1, h2⟩ := (hw i).2 ⟨hi, hc⟩
      exact ⟨(i, keys.getD i 0), ⟨⟨h1, h2, getElem?_of_getD_ne keys i 0 ho⟩, by simpa using ho⟩,
        rfl⟩
  · constructor
    · rintro ⟨⟨i, v⟩, ⟨⟨h1, h2, h3⟩, ho⟩, rfl⟩
      obtain ⟨hi, hc⟩ := (hw i).1 ⟨h1, h2⟩
      have hv : children.getD i zero_iptr = v := getD_of_getElem? children i zero_iptr v h3
      refine ⟨i, hi, ?_, hc, ?_⟩
      · rw [hv]; exact ho
      · rw [hv]
    · rintro ⟨i, hi, ho, hc, rfl⟩
      obtain ⟨h1, h2⟩ := (hw i).2 ⟨hi, hc⟩
      have hne : children.getD i zero_iptr ≠ zero_iptr := by
        intro hz; rw [hz] at ho; exact absurd ho (by decide)
      exact ⟨(i, children.getD i zero_iptr),
        ⟨⟨h1, h2, getElem?_of_getD_ne children i zero_iptr hne⟩, ho⟩, rfl⟩

theorem find_child_range_big_nodes_witness :
    (3 : Nat) < 256 ∧
    ((⟨⟨5, 1⟩, true⟩ : ArtQueueItemPointer) ∈ _art_find_child_range
      (.node256 zero_header ((List.replicate 256 zero_iptr).set 3 ⟨5, 1⟩))
      3 BTLessEqualStrategyNumber true ↔
      ∃ i, i < 256 ∧
        ItemPointerIsValid (((List.replicate 256 zero_iptr).set 3 ⟨5, 1⟩).getD i zero_iptr) = true ∧
        (true = true →
          ((BTLessEqualStrategyNumber = BTLessStrategyNumber ∨
              BTLessEqualStrategyNumber = BTLessEqualStrategyNumber) → i ≤ 3) ∧
          ((BTLessEqualStrategyNumber = BTGreaterStrategyNumber ∨
              BTLessEqualStrategyNumber = BTGreaterEqualStrategyNumber) → 3 ≤ i)) ∧
        (⟨⟨5, 1⟩, true⟩ : ArtQueueItemPointer)
          = ⟨((List.replicate 256 zero_iptr).set 3 ⟨5, 1⟩).getD i zero_iptr,
              true && decide (i = 3)⟩) :=
  ⟨by decide,
    (find_child_range_big_nodes zero_header [] _ 3 BTLessEqualStrategyNumber true _
      (by decide)).2⟩

/-! ## Page handles -/

/-- C14: releasing a buffer-backed handle that is not a copy and whose reference count `n`
is above 1 only stores `n - 1` in the count: no call is made (no `MarkBufferDirty`, no
unlock, no free) and every other field is unchanged; calls are made only by a release that
finds the count at 1, and then the write-back happens exactly for a dirty handle. -/
theorem release_above_last_reference (e : ArtPageEntry) (hb : e.buffer ≠ InvalidBuffer)
    (hc : e.is_copy = false) (hn : 1 < e.ref_count) (h8 : e.ref_count < 256) :
    _art_page_release (some e) = (some { e with ref_count := e.ref_count - 1 }, []) ∧
    (∀ e1 : ArtPageEntry, (_art_page_release (some e1)).2 ≠ [] → e1.ref_count = 1) ∧
    (∀ e1 : ArtPageEntry, e1.buffer ≠ InvalidBuffer → e1.is_copy = false → e1.ref_count = 1 →
      (_art_page_release (some e1)).1 = none ∧
      (BufferOp.pfree e1 ∈ (_art_page_release (some e1)).2) ∧
      (BufferOp.MarkBufferDirty e1.buffer ∈ (_art_page_release (some e1)).2
        ↔ e1.dirty = true)) := by
  refine ⟨?_, ?_, ?_⟩
  · unfold _art_page_release
    simp only [hb, hc, if_false, Bool.false_eq_true]
    rw [if_neg (by omega)]
    have : (e.ref_count + 255) % 256 = e.ref_count - 1 := by omega
    rw [this]
  · intro e1 h
    unfold _art_page_release at h
    simp only at h
    split_ifs at h <;> first | exact absurd rfl h | assumption
  · intro e1 h1 h2 h3
    unfold _art_page_release
    simp only [h1, h2, h3, if_false, if_true, Bool.false_eq_true]
    refine ⟨trivial, by simp, ?_⟩
    cases e1.dirty <;> simp

theorem release_above_last_reference_witness :
    (⟨7, 3, 100, 2, true, false⟩ : ArtPageEntry).buffer ≠ InvalidBuffer ∧
    _art_page_release (some ⟨7, 3, 100, 2, true, false⟩)
      = (some ⟨7, 3, 100, 1, true, false⟩, []) :=
  ⟨by decide,
    (release_above_last_reference ⟨7, 3, 100, 2, true, false⟩ (by decide) rfl (by decide)
      (by decide)).1⟩

theorem load_page_loop_hit (blockNum : Nat) (pre post : List ArtPageEntry) (e : ArtPageEntry)
    (hpre : ∀ x ∈ pre, x.blk_num ≠ blockNum) (he : e.blk_num = blockNum) :
    load_page_loop blockNum (pre ++ e :: post)
      = some (pre ++ { e with ref_count := (e.ref_count + 1) % 256 } :: post,
              { e with ref_count := (e.ref_count + 1) % 256 }) := by
  induction pre with
  | nil => simp [load_page_loop, he]
  | cons x xs ih =>
    have hx : x.blk_num ≠ blockNum := hpre x (by simp)
    show load_page_loop blockNum (x :: (xs ++ e :: post)) = _
    rw [load_page_loop, if_neg hx, ih (fun y hy => hpre y (by simp [hy]))]
    rfl

theorem load_page_loop_miss (blockNum : Nat) (l : List ArtPageEntry)
    (h : ∀ x ∈ l, x.blk_num ≠ blockNum) : load_page_loop blockNum l = none := by
  induction l with
  | nil => rfl
  | cons x xs ih =>
    have hx : x.blk_num ≠ blockNum := h x (by simp)
    rw [load_page_loop, if_neg hx, ih (fun y hy => h y (by simp [hy]))]
    rfl

/-- C20 (as amended): when the working-set list holds a handle for the requested block,
`_art_load_page` returns the first such handle with its `uint8` reference count increased by
1 modulo 256 (by exactly 1 below 255), reports it as not new, makes no call and changes
nothing else in the list; otherwise it returns a fresh handle for the block with count 1,
reported as new, and leaves the list as it is. -/
theorem load_page_reuses_resident (pageList : List ArtPageEntry)
    (blockNum mode buffer page : Nat) :
    (∀ (pre post : List ArtPageEntry) (e : ArtPageEntry),
      pageList = pre ++ e :: post → (∀ x ∈ pre, x.blk_num ≠ blockNum) →
      e.blk_num = blockNum →
        _art_load_page pageList blockNum mode buffer page
          = { pageList := pre ++ { e with ref_count := (e.ref_count + 1) % 256 } :: post,
              entry := { e with ref_count := (e.ref_count + 1) % 256 },
              isNewPageEntry := false, ops := [] } ∧
        (e.ref_count < 255 →
          (_art_load_page pageList blockNum mode buffer page).entry.ref_count
            = e.ref_count + 1)) ∧
    ((∀ x ∈ pageList, x.blk_num ≠ blockNum) →
      _art_load_page pageList blockNum mode buffer page
        = { pageList := pageList,
            entry := { blk_num := blockNum, buffer := buffer, page := page, ref_count := 1,
                       dirty := false, is_copy := false },
            isNewPageEntry := true,
            ops := [BufferOp.ReadBuffer blockNum, BufferOp.LockBuffer buffer mode] }) := by
  constructor
  · intro pre post e hl hpre he
    subst hl
    have h := load_page_loop_hit blockNum pre post e hpre he
    unfold _art_load_page
    rw [h]
    refine ⟨rfl, fun h255 => ?_⟩
    show (e.ref_count + 1) % 256 = e.ref_count + 1
    omega
  · intro h
    unfold _art_load_page
    rw [load_page_loop_miss blockNum pageList h]

/-- C20 (counterexample): the list holds one handle for block 5 with reference count 255;
`_art_load_page` for block 5 returns it with count 0, not 256. -/
theorem load_page_count_wraps :
    (_art_load_page [⟨5, 1, 100, 255, false, false⟩] 5 1 9 200).isNewPageEntry = false ∧
    (_art_load_page [⟨5, 1, 100, 255, false, false⟩] 5 1 9 200).entry.ref_count = 0 ∧
    (_art_load_page [⟨5, 1, 100, 255, false, false⟩] 5 1 9 200).pageList
      = [⟨5, 1, 100, 0, false, false⟩] := by
  decide

end PgArt

namespace PgArt

/-- The same two keys evaluated: the prefix lengths of the internal nodes are 0 and 11; the
Node4 below the root has the inline prefix bytes `02 .. 09`; against a third key that
differs at key byte 10, `_art_prefix_mismatch` returns 9 and `_art_check_prefix` stops at
8. -/
theorem prefix_overflow_evaluation :
    (insert_all default_config empty_index
        [_art_form_key_varlena [1, 2, 3, 4, 5, 6, 7, 8, 9, 10, 11, 12, 13] ⟨0, 1⟩,
         _art_form_key_varlena [1, 2, 3, 4, 5, 6, 7, 8, 9, 10, 11, 12, 14] ⟨0, 2⟩]).map
      (fun S =>
        (internal_prefix_lens S,
         mismatch_below_root S
           ( _art_form_key_varlena [1, 2, 3, 4, 5, 6, 7, 8, 9, 10, 99, 12, 13] zero_iptr).key,
         (node_below_root S 1).bind (fun n => n.header?.map (fun h =>
           ( _art_check_prefix h
             ( _art_form_key_varlena [1, 2, 3, 4, 5, 6, 7, 8, 9, 10, 99, 12, 13] zero_iptr).key
             14 1)))))
      = some ([0, 11], some (11, [2, 3, 4, 5, 6, 7, 8, 9], 9), some 8) := by
  decide!

/-- C15: in the index made by `artbuild` on an empty table or by `artbuildempty`, and in
every index reached from it by a sequence of inserts, the entry at block 1, item 1 is a
`Node256` with prefix length 0. -/
theorem root_always_node256 (cfg : ArtConfig) (tuples : List ArtTuple) (S : ArtIndex)
    (h : insert_all cfg empty_index tuples = some S) :
    ∃ hd children,
      get_node S ⟨ART_ROOT_NODE_BLKNO, ART_ROOT_NODE_ITEM⟩ = some (.node256 hd children) ∧
      hd.prefix_key_len = 0 := by
  obtain ⟨n, hn, hr⟩ := root_ok_insert_all cfg tuples empty_index S root_ok_empty_index h
  cases n with
  | node256 hd children => exact ⟨hd, children, hn, by simpa [is_root_node] using hr⟩
  | _ => cases hr

theorem root_always_node256_witness :
    ∃ S, insert_all default_config empty_index
        [_art_form_key_varlena [98, 97] ⟨0, 1⟩, _art_form_key_varlena [98, 98] ⟨0, 2⟩,
         _art_form_key_varlena [99] ⟨0, 3⟩] = some S ∧
      ∃ hd children,
        get_node S ⟨ART_ROOT_NODE_BLKNO, ART_ROOT_NODE_ITEM⟩ = some (.node256 hd children) ∧
        hd.prefix_key_len = 0 :=
  have hs : (insert_all default_config empty_index
        [_art_form_key_varlena [98, 97] ⟨0, 1⟩, _art_form_key_varlena [98, 98] ⟨0, 2⟩,
         _art_form_key_varlena [99] ⟨0, 3⟩]).isSome = true := by decide!
  ⟨_, (Option.some_get hs).symm,
    root_always_node256 default_config _ _ (Option.some_get hs).symm⟩

end PgArt

namespace PgArt

/-! ## Pages and item pointers under the store operations -/

theorem get_page_lt (S : ArtIndex) (b : Nat) (p : ArtPage) (h : get_page S b = some p) :
    b < S.pages.length := by
  unfold get_page at h
  rcases Nat.lt_or_ge b S.pages.length with hl | hl
  · exact hl
  · rw [List.getElem?_eq_none hl] at h; cases h

theorem get_page_set_page_same (S : ArtIndex) (b : Nat) (p : ArtPage)
    (h : b < S.pages.length) : get_page (set_page S b p) b = some p := by
  unfold get_page set_page
  simp [h]

theorem get_page_set_page_ne (S : ArtIndex) (b c : Nat) (p : ArtPage) (h : c ≠ b) :
    get_page (set_page S b p) c = get_page S c := by
  unfold get_page set_page
  simp only [List.getElem?_set]
  rw [if_neg (fun e => h e.symm)]

theorem maxalign_mod8 (n : Nat) : MAXALIGN n % 8 = 0 := by
  unfold MAXALIGN; omega

theorem maxalign_ge (n : Nat) : n ≤ MAXALIGN n := by
  unfold MAXALIGN; omega

theorem maxalign_lt (n : Nat) : MAXALIGN n < n + 8 := by
  unfold MAXALIGN; omega

theorem page_used_mod8 (p : ArtPage) : page_used p % 8 = 0 := by
  unfold page_used
  induction p.items with
  | nil => rfl
  | cons it rest ih =>
      rw [List.map_cons, List.sum_cons]
      cases it with
      | none => simpa using ih
      | some n =>
          have := maxalign_mod8 (_art_node_size n)
          simp only []
          omega

/-- The free space of a page is a multiple of 4. -/
theorem free_space_mod4 (p : ArtPage) : PageGetFreeSpace p % 4 = 0 := by
  have hu := page_used_mod8 p
  unfold PageGetFreeSpace PageGetExactFreeSpace pd_upper pd_lower pd_special BLCKSZ
    SizeOfPageHeaderData sizeof_ItemIdData sizeof_ArtDataPageOpaqueData MAXALIGN
  split_ifs <;> omega

end PgArt

namespace PgArt

/-- C21: `_get_page_with_free_space` called for a page kind whose recorded tail page is
`tail`, under any setting of the tunables. The usable free space of the tail is its free
space, for a leaf page multiplied by the reservation fraction as the C code does it: the
`double` product rounded to nearest and stored back into the `Size` variable, which drops
the fractional part. When the usable free space exceeds the aligned item size, the tail
block is returned and the index is unchanged. Otherwise a new page of that kind is
appended, its block number is returned, the old tail's `right_link` is that block number,
every other page is unchanged, the recorded tail of the kind is the new block and the
recorded tail of the other kind is unchanged. With the default fraction, the `double`
nearest to 0.8, the stored product exceeds the aligned size exactly when four fifths of
the free space do. -/
theorem get_page_with_free_space_contract (cfg : ArtConfig) (S : ArtIndex)
    (pageType itemsz : Nat) (tail : ArtPage)
    (hk : pageType = ART_NODE_PAGE ∨ pageType = ART_LEAF_PAGE)
    (ht : get_page S (tail_blk_num S pageType) = some tail) :
    (MAXALIGN itemsz < usable_free_space cfg pageType tail →
      _get_page_with_free_space cfg S pageType itemsz = (S, tail_blk_num S pageType)) ∧
    (¬ MAXALIGN itemsz < usable_free_space cfg pageType tail →
      (_get_page_with_free_space cfg S pageType itemsz).2 = S.pages.length ∧
      (_get_page_with_free_space cfg S pageType itemsz).2 ≠ tail_blk_num S pageType ∧
      (_get_page_with_free_space cfg S pageType itemsz).1.pages.length = S.pages.length + 1 ∧
      get_page (_get_page_with_free_space cfg S pageType itemsz).1 S.pages.length
        = some (_art_init_data_page pageType false) ∧
      get_page (_get_page_with_free_space cfg S pageType itemsz).1 (tail_blk_num S pageType)
        = some { tail with right_link := S.pages.length } ∧
      (∀ b, b ≠ tail_blk_num S pageType → b ≠ S.pages.length →
        get_page (_get_page_with_free_space cfg S pageType itemsz).1 b = get_page S b) ∧
      tail_blk_num (_get_page_with_free_space cfg S pageType itemsz).1 pageType
        = S.pages.length ∧
      (pageType = ART_NODE_PAGE →
        (_get_page_with_free_space cfg S pageType itemsz).1.last_leaf_blk_num
          = S.last_leaf_blk_num) ∧
      (pageType = ART_LEAF_PAGE →
        (_get_page_with_free_space cfg S pageType itemsz).1.last_internal_node_blk_num
          = S.last_internal_node_blk_num)) ∧
    (MAXALIGN itemsz < usable_free_space default_config pageType tail ↔
      (pageType = ART_LEAF_PAGE → 5 * MAXALIGN itemsz < 4 * PageGetFreeSpace tail) ∧
      (pageType = ART_NODE_PAGE → MAXALIGN itemsz < PageGetFreeSpace tail)) := by
  have hlt := get_page_lt S _ tail ht
  have hgp : (get_page S (if pageType = ART_NODE_PAGE then S.last_internal_node_blk_num
      else S.last_leaf_blk_num)).getD (_art_init_data_page 0 false) = tail := by
    have := ht; unfold tail_blk_num at this; rw [this]; rfl
  have hne : ART_NODE_PAGE ≠ ART_LEAF_PAGE := by decide
  refine ⟨?_, ?_, ?_⟩
  · intro hroom
    unfold _get_page_with_free_space
    simp only [hgp]
    unfold usable_free_space at hroom
    rw [if_pos hroom]
    rfl
  · intro hroom
    unfold usable_free_space at hroom
    have hnew : _get_page_with_free_space cfg S pageType itemsz =
        if pageType = ART_NODE_PAGE then
          ({ pages := (set_page S (tail_blk_num S pageType)
                { tail with right_link := S.pages.length }).pages
                ++ [_art_init_data_page pageType false],
             last_internal_node_blk_num := S.pages.length,
             last_leaf_blk_num := S.last_leaf_blk_num }, S.pages.length)
        else
          ({ pages := (set_page S (tail_blk_num S pageType)
                { tail with right_link := S.pages.length }).pages
                ++ [_art_init_data_page pageType false],
             last_internal_node_blk_num := S.last_internal_node_blk_num,
             last_leaf_blk_num := S.pages.length }, S.pages.length) := by
      unfold _get_page_with_free_space
      simp only [hgp]
      rw [if_neg hroom]
      rcases hk with hk | hk
      · subst hk; simp only [if_true]; rfl
      · subst hk; simp only [if_neg hne.symm]; rfl
    have hpages : (_get_page_with_free_space cfg S pageType itemsz).1.pages
        = (S.pages.set (tail_blk_num S pageType) { tail with right_link := S.pages.length })
            ++ [_art_init_data_page pageType false] := by
      rw [hnew]; split_ifs <;> rfl
    have hres : (_get_page_with_free_space cfg S pageType itemsz).2 = S.pages.length := by
      rw [hnew]; split_ifs <;> rfl
    refine ⟨hres, ?_, ?_, ?_, ?_, ?_, ?_, ?_, ?_⟩
    · rw [hres]; omega
    · rw [hpages]; simp
    · unfold get_page; rw [hpages]
      simp [List.getElem?_append_right]
    · unfold get_page; rw [hpages]
      rw [List.getElem?_append_left (by simpa using hlt)]
      simp [hlt]
    · intro b hb1 hb2
      unfold get_page; rw [hpages]
      rcases Nat.lt_or_ge b S.pages.length with hb | hb
      · rw [List.getElem?_append_left (by simpa using hb), List.getElem?_set]
        rw [if_neg (fun e => hb1 e.symm)]
      · have hb3 : S.pages.length < b := by omega
        rw [List.getElem?_eq_none (by simp; omega), List.getElem?_eq_none (by omega)]
    · rw [hnew]; unfold tail_blk_num
      rcases hk with hk | hk
      · subst hk; simp
      · subst hk; simp [hne.symm]
    · intro hn; rw [hnew, if_pos hn]
    · intro hl
      have : pageType ≠ ART_NODE_PAGE := by rw [hl]; exact hne.symm
      rw [hnew, if_neg this]
  · have h4 := free_space_mod4 tail
    have h8 := maxalign_mod8 itemsz
    have hd := default_product_floor (PageGetFreeSpace tail) (free_space_le_block tail)
    unfold usable_free_space default_config
    rcases hk with hk | hk
    · subst hk
      simp only [if_neg hne, hne, false_implies, true_and, true_implies, if_false]
    · subst hk
      simp only [if_true, hne.symm, false_implies, and_true, true_implies]
      rw [hd]
      omega

theorem get_page_with_free_space_contract_witness :
    (ART_LEAF_PAGE = ART_NODE_PAGE ∨ ART_LEAF_PAGE = ART_LEAF_PAGE) ∧
    get_page empty_index (tail_blk_num empty_index ART_LEAF_PAGE)
      = some (_art_init_data_page ART_LEAF_PAGE false) ∧
    _get_page_with_free_space default_config empty_index ART_LEAF_PAGE 31
      = (empty_index, ART_LEAF_NODE_BLKNO) ∧
    (_get_page_with_free_space default_config empty_index ART_LEAF_PAGE 8000).2 = 3 ∧
    get_page reserve_example_index (tail_blk_num reserve_example_index ART_LEAF_PAGE)
      = some reserve_example_page ∧
    PageGetFreeSpace reserve_example_page = 100 ∧
    usable_free_space reserve_example_config ART_LEAF_PAGE reserve_example_page = 56 ∧
    (_get_page_with_free_space reserve_example_config reserve_example_index ART_LEAF_PAGE 56).2
      = 3 :=
  ⟨Or.inr rfl, rfl,
    (get_page_with_free_space_contract default_config empty_index ART_LEAF_PAGE 31
      (_art_init_data_page ART_LEAF_PAGE false) (Or.inr rfl) rfl).1 (by decide),
    ((get_page_with_free_space_contract default_config empty_index ART_LEAF_PAGE 8000
      (_art_init_data_page ART_LEAF_PAGE false) (Or.inr rfl) rfl).2.1 (by decide)).1,
    rfl, by decide!, by decide!,
    ((get_page_with_free_space_contract reserve_example_config reserve_example_index
      ART_LEAF_PAGE 56 reserve_example_page (Or.inr rfl) rfl).2.1 (by decide!)).1⟩

end PgArt

namespace PgArt

/-! ## Unknown type tags -/

/-- C22 (evaluation at the failing inputs): for a `node_type` byte `t` outside
`ArtNodeType`, `_art_alloc_node` and `_add_child` raise an error, but `_art_node_size`
returns 0, `_art_find_child_equal` returns NULL and `_art_find_child_range` queues nothing:
these three return normally. -/
theorem unknown_node_type_outcomes (t key skStrategy : Nat) (compare : Bool)
    (iptr : ItemPointerData) (ht : NODE_256 < t) :
    _art_alloc_node t = .error .invalid_art_node ∧
    _add_child_tagged (.other t) key iptr = .error .unknown_node_type ∧
    _art_node_size_tagged (.other t) = 0 ∧
    _art_find_child_equal_tagged (.other t) key = none ∧
    _art_find_child_range_tagged (.other t) key skStrategy compare = [] := by
  refine ⟨?_, rfl, rfl, rfl, rfl⟩
  unfold NODE_256 at ht
  unfold _art_alloc_node NODE_4 NODE_16 NODE_48 NODE_256
  rw [if_neg (by omega), if_neg (by omega), if_neg (by omega), if_neg (by omega)]

theorem unknown_node_type_outcomes_witness :
    NODE_256 < 5 ∧
    _art_alloc_node 5 = .error .invalid_art_node ∧
    _add_child_tagged (.other 5) 97 ⟨2, 1⟩ = .error .unknown_node_type ∧
    _art_node_size_tagged (.other 5) = 0 ∧
    _art_find_child_equal_tagged (.other 5) 97 = none ∧
    _art_find_child_range_tagged (.other 5) 97 BTGreaterStrategyNumber true = [] :=
  ⟨by decide, unknown_node_type_outcomes 5 97 BTGreaterStrategyNumber true ⟨2, 1⟩ (by decide)⟩

/-! ## Range enumeration on the small nodes -/

/-- C23 (evaluation at the failing input): a `Node4` with the ascending key bytes 97 and
99, asked with the compare flag set for `>=` the byte 98, queues nothing, because its loop
stops at the first key byte below the search byte; a `Node256` holding the same two
(key, child) pairs queues the child under 99. In the index holding "xa" and "xc" the
Node4 below the root's slot 120 is that node, and the `>=` and `>` scans on "xb" return
nothing instead of the locator of "xc". -/
theorem find_child_range_node4_greater :
    _art_find_child_range
        (.node4 { zero_header with num_children := 2 } [97, 99, 0, 0]
          [⟨2, 1⟩, ⟨2, 2⟩, zero_iptr, zero_iptr])
        98 BTGreaterEqualStrategyNumber true = [] ∧
    _art_find_child_range
        (.node256 { zero_header with num_children := 2 }
          (((List.replicate 256 zero_iptr).set 97 ⟨2, 1⟩).set 99 ⟨2, 2⟩))
        98 BTGreaterEqualStrategyNumber true = [⟨⟨2, 2⟩, false⟩] ∧
    (insert_all default_config empty_index
        [_art_form_key_varlena [120, 97] ⟨0, 1⟩, _art_form_key_varlena [120, 99] ⟨0, 2⟩]).map
      (fun S =>
        ((node_below_root S 120).map child_slots,
         art_scan S BTGreaterEqualStrategyNumber
           ( _art_form_key_varlena [120, 98] zero_iptr).key,
         art_scan S BTGreaterStrategyNumber
           ( _art_form_key_varlena [120, 98] zero_iptr).key))
      = some (some [(97, ⟨2, 1⟩), (99, ⟨2, 2⟩)], [], []) := by
  decide!

/-! ## Splits -/

/-- C24 (evaluation at the failing input): the keys of the variable-width values `61^257 62`
and `61^257 63` have a longest common run of 256 bytes starting at index 1, the depth at
which the insertion of the second one reaches the leaf of the first; the new Node4 stored
below the root's slot 97 has `prefix_key_len` 0, not 256. -/
theorem leaf_split_long_common_run :
    first_difference
        (( _art_form_key_varlena (List.replicate 257 97 ++ [98]) zero_iptr).key.drop 1)
        (( _art_form_key_varlena (List.replicate 257 97 ++ [99]) zero_iptr).key.drop 1)
      = 256 ∧
    (insert_all default_config empty_index
        [_art_form_key_varlena (List.replicate 257 97 ++ [98]) ⟨0, 1⟩,
         _art_form_key_varlena (List.replicate 257 97 ++ [99]) ⟨0, 2⟩]).map
      (fun S => (node_below_root S 97).map (fun n =>
        (node_type n, n.header?.map (fun h => h.prefix_key_len), child_slots n)))
      = some (some (1, some 0, [(98, ⟨2, 1⟩), (99, ⟨2, 2⟩)])) := by
  decide!

/-- C26 (evaluation at the failing input): after the inserts of `61^300 62` and `61^10 63`
the Node4 below the root has prefix length 9 and `_art_prefix_mismatch` against the key of
`61^257 64`, entered at depth 1, returns 256: the key agrees with all 9 bytes of the true
prefix. The value is assigned to the `uint8_t` variable `prefix_diff`, which becomes 0, and
the insert of the third key splits the node at index 0: the new Node4 below the root has
prefix length 0 and two child slots with the same key byte 97, and the equality lookup of
the third key returns nothing. -/
theorem prefix_consumed_or_split_truncated :
    (insert_all default_config empty_index
        [_art_form_key_varlena (List.replicate 300 97 ++ [98]) ⟨0, 1⟩,
         _art_form_key_varlena (List.replicate 10 97 ++ [99]) ⟨0, 2⟩]).map
      (fun S => mismatch_below_root S
        ( _art_form_key_varlena (List.replicate 257 97 ++ [100]) zero_iptr).key)
      = some (some (9, [97, 97, 97, 97, 97, 97, 97, 97], 256)) ∧
    (insert_all default_config empty_index
        [_art_form_key_varlena (List.replicate 300 97 ++ [98]) ⟨0, 1⟩,
         _art_form_key_varlena (List.replicate 10 97 ++ [99]) ⟨0, 2⟩,
         _art_form_key_varlena (List.replicate 257 97 ++ [100]) ⟨0, 3⟩]).map
      (fun S =>
        ((node_below_root S 97).map (fun n =>
          (n.header?.map (fun h => h.prefix_key_len), child_slots n)),
         art_scan S BTEqualStrategyNumber
           ( _art_form_key_varlena (List.replicate 257 97 ++ [100]) zero_iptr).key))
      = some (some (some 0, [(97, ⟨1, 2⟩), (97, ⟨2, 3⟩)]), []) := by
  constructor
  · decide!
  · decide!

/-! ## Growth -/

/-- C29 (evaluation at the failing inputs): `_add_child` on a full Node4, Node16 or Node48
returns a grown node whose `parent_iptr` is the zeroed one of the fresh allocation, and
leaves the old node with its `parent_iptr` overwritten by that zero value: the last
statement of `_art_copy_header` copies from `dest` to `src`. Prefix length and child count
are carried over as claimed. -/
theorem growth_loses_parent_reference (h : ArtNodeHeader) (keys : List Nat)
    (children : List ItemPointerData) (key : Nat) (iptr : ItemPointerData) :
    (h.num_children = 4 →
      (_add_child_node4 h keys children key iptr).1
        = .node4 { h with parent_iptr := zero_iptr } keys children ∧
      ∃ g, (_add_child_node4 h keys children key iptr).2 = some g ∧ node_type g = 2 ∧
        g.header?.map (fun x => (x.parent_iptr, x.prefix_key_len, x.num_children))
          = some (zero_iptr, h.prefix_key_len, 5)) ∧
    (h.num_children = 16 →
      (_add_child_node16 h keys children key iptr).1
        = .node16 { h with parent_iptr := zero_iptr } keys children ∧
      ∃ g, (_add_child_node16 h keys children key iptr).2 = some g ∧ node_type g = 3 ∧
        g.header?.map (fun x => (x.parent_iptr, x.prefix_key_len, x.num_children))
          = some (zero_iptr, h.prefix_key_len, 17)) ∧
    (h.num_children = 48 →
      (_add_child_node48 h keys children key iptr).1
        = .node48 { h with parent_iptr := zero_iptr } keys children ∧
      ∃ g, (_add_child_node48 h keys children key iptr).2 = some g ∧ node_type g = 4 ∧
        g.header?.map (fun x => (x.parent_iptr, x.prefix_key_len, x.num_children))
          = some (zero_iptr, h.prefix_key_len, 49)) := by
  refine ⟨?_, ?_, ?_⟩
  · intro hn
    simp [_add_child_node4, _add_child_node16, _art_copy_header, hn, zero_header, node_type,
      ArtNode.header?]
  · intro hn
    simp [_add_child_node16, _add_child_node48, _art_copy_header, hn, zero_header, node_type,
      ArtNode.header?]
  · intro hn
    simp [_add_child_node48, _add_child_node256, _art_copy_header, hn, zero_header, node_type,
      ArtNode.header?]

theorem growth_loses_parent_reference_witness :
    (({ parent_iptr := ⟨1, 1⟩, num_children := 4, prefix_key_len := 0,
        prefix_bytes := [0, 0, 0, 0, 0, 0, 0, 0] } : ArtNodeHeader).num_children = 4) ∧
    (_add_child_node4
        { parent_iptr := ⟨1, 1⟩, num_children := 4, prefix_key_len := 0,
          prefix_bytes := [0, 0, 0, 0, 0, 0, 0, 0] }
        [1, 2, 3, 4] [⟨2, 1⟩, ⟨2, 2⟩, ⟨2, 3⟩, ⟨2, 4⟩] 5 ⟨2, 5⟩).1
      = .node4 { parent_iptr := zero_iptr, num_children := 4, prefix_key_len := 0,
                 prefix_bytes := [0, 0, 0, 0, 0, 0, 0, 0] }
          [1, 2, 3, 4] [⟨2, 1⟩, ⟨2, 2⟩, ⟨2, 3⟩, ⟨2, 4⟩] :=
  ⟨rfl,
    ((growth_loses_parent_reference
      { parent_iptr := ⟨1, 1⟩, num_children := 4, prefix_key_len := 0,
        prefix_bytes := [0, 0, 0, 0, 0, 0, 0, 0] }
      [1, 2, 3, 4] [⟨2, 1⟩, ⟨2, 2⟩, ⟨2, 3⟩, ⟨2, 4⟩] 5 ⟨2, 5⟩).1 rfl).1⟩

end PgArt

namespace PgArt

/-! ## The comparison loop and the first difference of two byte strings -/

theorem first_difference_cons (x y : Nat) (a b : List Nat) :
    first_difference (x :: a) (y :: b) = if x = y then first_difference a b + 1 else 0 := rfl

theorem first_difference_comm : ∀ a b : List Nat, first_difference a b = first_difference b a
  | [], [] => rfl
  | [], _ :: _ => rfl
  | _ :: _, [] => rfl
  | x :: a, y :: b => by
      unfold first_difference
      by_cases h : x = y
      · rw [if_pos h, if_pos h.symm, first_difference_comm a b]
      · rw [if_neg h, if_neg (fun e => h e.symm)]

theorem first_difference_le_left : ∀ a b : List Nat, first_difference a b ≤ a.length
  | [], [] => Nat.le_refl _
  | [], _ :: _ => Nat.le_refl _
  | _ :: _, [] => Nat.zero_le _
  | x :: a, y :: b => by
      unfold first_difference
      have := first_difference_le_left a b
      split_ifs
      · simp only [List.length_cons]; omega
      · exact Nat.zero_le _

theorem first_difference_le_right (a b : List Nat) : first_difference a b ≤ b.length := by
  rw [first_difference_comm]; exact first_difference_le_left b a

theorem first_difference_take : ∀ (m : Nat) (a b : List Nat),
    first_difference (a.take m) (b.take m) = min m (first_difference a b)
  | 0, a, b => by simp [first_difference]
  | m + 1, [], b => by simp [first_difference]
  | m + 1, _ :: _, [] => by simp [first_difference]
  | m + 1, x :: a, y :: b => by
      simp only [List.take_succ_cons]
      unfold first_difference
      by_cases h : x = y
      · rw [if_pos h, if_pos h, first_difference_take m a b]; omega
      · rw [if_neg h, if_neg h]; omega

theorem first_difference_drop : ∀ (m : Nat) (a b : List Nat), m ≤ first_difference a b →
    first_difference a b = m + first_difference (a.drop m) (b.drop m)
  | 0, a, b, _ => by simp
  | m + 1, [], b, h => by simp [first_difference] at h
  | m + 1, _ :: _, [], h => by simp [first_difference] at h
  | m + 1, x :: a, y :: b, h => by
      rw [first_difference_cons] at h ⊢
      by_cases hxy : x = y
      · rw [if_pos hxy] at h ⊢
        simp only [List.drop_succ_cons]
        rw [first_difference_drop m a b (by omega)]; omega
      · rw [if_neg hxy] at h; omega

/-- The comparison loop run over positions that exist in both buffers returns the start
index plus the first difference of the compared stretches. -/
theorem mismatch_loop_eq : ∀ (todo : Nat) (as bs : List Nat) (idx : Nat),
    todo ≤ as.length → todo ≤ bs.length →
    mismatch_loop as bs todo idx = idx + first_difference (as.take todo) (bs.take todo)
  | 0, as, bs, idx, _, _ => by simp [mismatch_loop, first_difference]
  | todo + 1, [], _, _, h, _ => by simp at h
  | todo + 1, _ :: _, [], _, _, h => by simp at h
  | todo + 1, x :: as, y :: bs, idx, h1, h2 => by
      simp only [List.length_cons] at h1 h2
      unfold mismatch_loop
      simp only [List.headD_cons, List.tail_cons, List.take_succ_cons]
      unfold first_difference
      by_cases hxy : x = y
      · subst hxy
        simp only [bne_self_eq_false, Bool.false_eq_true, if_false, if_true]
        rw [mismatch_loop_eq todo as bs (idx + 1) (by omega) (by omega)]; omega
      · have : (x != y) = true := by simpa using hxy
        rw [if_pos this, if_neg hxy]; rfl

theorem sub_u32_of_le (a b : Nat) (h : b ≤ a) (ha : a < 4294967296) : sub_u32 a b = a - b := by
  unfold sub_u32; omega

/-- For a node with a prefix longer than 8 whose inline bytes agree with its minimum leaf,
`_art_prefix_mismatch` returns the first difference, counted from `depth`, of the key and
the key of the minimum leaf. -/
theorem prefix_mismatch_first_difference (S : ArtIndex) (h : ArtNodeHeader) (node : ArtNode)
    (l : ArtNodeLeaf) (key : List Nat) (depth : Nat)
    (hp : MAX_PREFIX_KEY_LEN < h.prefix_key_len)
    (hl : _art_minimum_leaf S (store_fuel S) node = some l)
    (hin : h.prefix_bytes.take 8 = (l.key.drop depth).take 8)
    (h8 : depth + 8 ≤ l.key.length)
    (hd : depth ≤ key.length) (hk : key.length < 4294967296) :
    _art_prefix_mismatch S h node key key.length depth
      = some (first_difference (key.drop depth) (l.key.drop depth)) := by
  unfold MAX_PREFIX_KEY_LEN at hp
  have hpb : 8 ≤ h.prefix_bytes.length := by
    have := congrArg List.length hin
    simp only [List.length_take, List.length_drop] at this
    omega
  have hm : min (min MAX_PREFIX_KEY_LEN h.prefix_key_len) (sub_u32 key.length depth)
      = min 8 (key.length - depth) := by
    rw [sub_u32_of_le _ _ hd hk]; unfold MAX_PREFIX_KEY_LEN; omega
  have htake : ∀ m, m ≤ 8 → h.prefix_bytes.take m = (l.key.drop depth).take m := by
    intro m hm8
    have := congrArg (List.take m) hin
    rwa [List.take_take, List.take_take, Nat.min_eq_left hm8] at this
  have hidx : mismatch_loop h.prefix_bytes (key.drop depth) (min 8 (key.length - depth)) 0
      = min (min 8 (key.length - depth))
          (first_difference (key.drop depth) (l.key.drop depth)) := by
    rw [mismatch_loop_eq _ _ _ _ (by omega) (by simp), htake _ (Nat.min_le_left _ _),
      first_difference_take, first_difference_comm, Nat.zero_add]
  have hF1 := first_difference_le_left (key.drop depth) (l.key.drop depth)
  have hF2 := first_difference_le_right (key.drop depth) (l.key.drop depth)
  simp only [List.length_drop] at hF1 hF2
  unfold _art_prefix_mismatch
  simp only [hm, hidx, hl]
  by_cases hlt : first_difference (key.drop depth) (l.key.drop depth)
      < min 8 (key.length - depth)
  · rw [if_pos (by omega)]
    congr 1; omega
  · rw [if_neg (by omega), if_pos (by unfold MAX_PREFIX_KEY_LEN; omega)]
    have hmin : min (min 8 (key.length - depth))
        (first_difference (key.drop depth) (l.key.drop depth))
        = min 8 (key.length - depth) := by omega
    rw [hmin]
    congr 1
    have hdata : List.take (min l.key.length key.length - depth - min 8 (key.length - depth))
        (l.data.drop (depth + min 8 (key.length - depth)))
        = List.take (min l.key.length key.length - depth - min 8 (key.length - depth))
            ((l.key.drop depth).drop (min 8 (key.length - depth))) := by
      unfold ArtNodeLeaf.data
      rw [List.drop_drop, List.drop_append_of_le_length (by omega),
        List.take_append_of_le_length (by simp only [List.length_drop]; omega)]
    rw [mismatch_loop_eq _ _ _ _
      (by unfold ArtNodeLeaf.data; simp only [List.length_drop, List.length_append]; omega)
      (by simp only [List.length_drop]; omega), hdata,
      show key.drop (depth + min 8 (key.length - depth))
        = (key.drop depth).drop (min 8 (key.length - depth)) by
          rw [List.drop_drop],
      first_difference_take, first_difference_comm,
      first_difference_drop (min 8 (key.length - depth)) (key.drop depth) (l.key.drop depth)
        (by omega)]
    have hF3 := first_difference_le_left
      ((key.drop depth).drop (min 8 (key.length - depth)))
      ((l.key.drop depth).drop (min 8 (key.length - depth)))
    have hF4 := first_difference_le_right
      ((key.drop depth).drop (min 8 (key.length - depth)))
      ((l.key.drop depth).drop (min 8 (key.length - depth)))
    simp only [List.length_drop] at hF3 hF4
    omega

end PgArt

namespace PgArt

/-- C27: for a node whose prefix length exceeds 8, whose minimum leaf is `l` and whose
inline prefix holds the bytes `depth .. depth + 7` of the key of `l`, and for every key
that reaches `depth`, `_art_prefix_mismatch` returns the first index, counted from `depth`,
at which the key and the key of `l` differ, and the number of positions both keys have
from `depth` on when they do not differ there. -/
theorem prefix_mismatch_overlong (S : ArtIndex) (h : ArtNodeHeader) (node : ArtNode)
    (l : ArtNodeLeaf) (key : List Nat) (depth : Nat)
    (hp : MAX_PREFIX_KEY_LEN < h.prefix_key_len)
    (hl : _art_minimum_leaf S (store_fuel S) node = some l)
    (hin : h.prefix_bytes.take 8 = (l.key.drop depth).take 8)
    (h8 : depth + 8 ≤ l.key.length)
    (hd : depth ≤ key.length) (hk : key.length < 4294967296) :
    _art_prefix_mismatch S h node key key.length depth
      = some (first_difference (key.drop depth) (l.key.drop depth)) :=
  prefix_mismatch_first_difference S h node l key depth hp hl hin h8 hd hk

theorem prefix_mismatch_overlong_witness :
    MAX_PREFIX_KEY_LEN < two_key_header.prefix_key_len ∧
    _art_minimum_leaf two_key_index (store_fuel two_key_index) two_key_node
      = some two_key_min_leaf ∧
    two_key_header.prefix_bytes.take 8 = (two_key_min_leaf.key.drop 1).take 8 ∧
    _art_prefix_mismatch two_key_index two_key_header two_key_node
        [1, 2, 3, 4, 5, 6, 7, 8, 9, 10, 99, 12, 13, 0] 14 1
      = some (first_difference
          (List.drop 1 [1, 2, 3, 4, 5, 6, 7, 8, 9, 10, 99, 12, 13, 0])
          (two_key_min_leaf.key.drop 1)) ∧
    first_difference (List.drop 1 [1, 2, 3, 4, 5, 6, 7, 8, 9, 10, 99, 12, 13, 0])
      (two_key_min_leaf.key.drop 1) = 9 :=
  ⟨by decide!, by decide!, by decide!,
    prefix_mismatch_overlong two_key_index two_key_header two_key_node two_key_min_leaf
      [1, 2, 3, 4, 5, 6, 7, 8, 9, 10, 99, 12, 13, 0] 1
      (by decide!) (by decide!) (by decide!) (by decide!) (by decide!) (by decide!),
    by decide!⟩

end PgArt

namespace PgArt

/-! ## The minimum leaf of a well-formed subtree -/

theorem lex_lt_irrefl : ∀ a : List Nat, lex_lt a a = false
  | [] => rfl
  | x :: a => by
      unfold lex_lt
      simp only [Nat.lt_irrefl, decide_False, beq_self_eq_true, Bool.true_and, Bool.false_or]
      exact lex_lt_irrefl a

/-- Two keys that agree on their first `q` bytes compare as their bytes at index `q` do. -/
theorem lex_lt_of_diff_at : ∀ (q : Nat) (a b : List Nat), a.take q = b.take q →
    q < a.length → q < b.length → a.getD q 0 < b.getD q 0 → lex_lt b a = false
  | 0, x :: a, y :: b, _, _, _, h => by
      simp only [List.getD_cons_zero] at h
      unfold lex_lt
      have h1 : ¬ y < x := by omega
      have h2 : ¬ y = x := by omega
      simp [h1, h2]
  | q + 1, x :: a, y :: b, ht, ha, hb, h => by
      simp only [List.take_succ_cons, List.cons.injEq] at ht
      simp only [List.length_cons] at ha hb
      simp only [List.getD_cons_succ] at h
      obtain ⟨hxy, ht⟩ := ht
      subst hxy
      unfold lex_lt
      simp only [Nat.lt_irrefl, decide_False, beq_self_eq_true, Bool.true_and, Bool.false_or]
      exact lex_lt_of_diff_at q a b ht (by omega) (by omega) h
  | 0, [], _, _, ha, _, _ => by simp at ha
  | 0, _ :: _, [], _, _, hb, _ => by simp at hb
  | _ + 1, [], _, _, ha, _, _ => by simp at ha
  | _ + 1, _ :: _, [], _, _, hb, _ => by simp at hb

theorem smallest_slot_mem : ∀ (l : List (Nat × ItemPointerData)) (m : Nat × ItemPointerData),
    smallest_slot l = some m → m ∈ l
  | [], m, h => by simp [smallest_slot] at h
  | kc :: rest, m, h => by
      unfold smallest_slot at h
      cases hr : smallest_slot rest with
      | none =>
          rw [hr] at h
          simp only [Option.some.injEq] at h
          subst h; exact List.mem_cons_self _ _
      | some m1 =>
          rw [hr] at h
          simp only at h
          split_ifs at h
          · simp only [Option.some.injEq] at h
            subst h
            exact List.mem_cons_of_mem _ (smallest_slot_mem rest m1 hr)
          · simp only [Option.some.injEq] at h
            subst h; exact List.mem_cons_self _ _

/-- With strictly ascending key bytes the slot with the smallest key byte is the first. -/
theorem smallest_slot_of_sorted (kc : Nat × ItemPointerData)
    (rest : List (Nat × ItemPointerData))
    (h : (kc :: rest).Pairwise (fun a b => a.1 < b.1)) :
    smallest_slot (kc :: rest) = some kc := by
  unfold smallest_slot
  cases hr : smallest_slot rest with
  | none => rfl
  | some m =>
      have hm := smallest_slot_mem rest m hr
      have := (List.pairwise_cons.1 h).1 m hm
      simp only
      rw [if_neg (by omega)]

/-- The first occupied entry of an indexed array is the entry at the index where the scan
`while (!occupied(a[idx])) idx++` stops. -/
theorem enumFrom_filter_head {α : Type} (p : α → Bool) (d : α) :
    ∀ (l : List α) (k : Nat) (s : Nat × α) (rest : List (Nat × α)),
      (l.enumFrom k).filter (fun s => p s.2) = s :: rest →
      s = (k + first_index_where p l, l.getD (first_index_where p l) d)
  | [], k, s, rest, h => by simp at h
  | x :: l, k, s, rest, h => by
      unfold first_index_where
      simp only [List.enumFrom_cons, List.filter_cons] at h
      by_cases hx : p x = true
      · rw [if_pos hx] at h
        simp only [List.cons.injEq] at h
        rw [← h.1]
        simp [List.takeWhile_cons, hx]
      · rw [if_neg hx] at h
        have ih := enumFrom_filter_head p d l (k + 1) s rest h
        unfold first_index_where at ih
        rw [ih]
        simp only [Bool.not_eq_true] at hx
        simp [List.takeWhile_cons, hx]
        omega

theorem enum_filter_head {α : Type} (p : α → Bool) (d : α) (l : List α) (s : Nat × α)
    (rest : List (Nat × α)) (h : l.enum.filter (fun s => p s.2) = s :: rest) :
    s = (first_index_where p l, l.getD (first_index_where p l) d) := by
  have := enumFrom_filter_head p d l 0 s rest h
  simpa using this

/-- The minimum-leaf descent enters the child of the first child slot. -/
theorem minimum_leaf_step (S : ArtIndex) (m : Nat) (node : ArtNode) (h : ArtNodeHeader)
    (kc : Nat × ItemPointerData) (rest : List (Nat × ItemPointerData))
    (hh : node.header? = some h) (hs : child_slots node = kc :: rest) :
    _art_minimum_leaf S (m + 1) node = (get_node S kc.2).bind (_art_minimum_leaf S m) := by
  cases node with
  | leaf l => cases hh
  | node4 h1 keys children =>
      have hs1 : (keys.take h1.num_children).zip (children.take h1.num_children)
          = kc :: rest := hs
      show (get_node S (children.getD 0 zero_iptr)).bind (_art_minimum_leaf S m) = _
      cases hk : keys.take h1.num_children with
      | nil => rw [hk] at hs1; simp at hs1
      | cons k ks =>
          cases hc : children.take h1.num_children with
          | nil => rw [hc] at hs1; simp at hs1
          | cons c cs =>
              rw [hk, hc] at hs1
              simp only [List.zip_cons_cons, List.cons.injEq] at hs1
              have hc0 : children.getD 0 zero_iptr = c := by
                cases children with
                | nil => simp at hc
                | cons c1 cs1 =>
                    cases hn : h1.num_children with
                    | zero => rw [hn] at hc; simp at hc
                    | succ j =>
                        rw [hn] at hc
                        simp only [List.take_succ_cons, List.cons.injEq] at hc
                        simp [hc.1]
              rw [hc0, ← hs1.1]
  | node16 h1 keys children =>
      have hs1 : (keys.take h1.num_children).zip (children.take h1.num_children)
          = kc :: rest := hs
      show (get_node S (children.getD 0 zero_iptr)).bind (_art_minimum_leaf S m) = _
      cases hk : keys.take h1.num_children with
      | nil => rw [hk] at hs1; simp at hs1
      | cons k ks =>
          cases hc : children.take h1.num_children with
          | nil => rw [hc] at hs1; simp at hs1
          | cons c cs =>
              rw [hk, hc] at hs1
              simp only [List.zip_cons_cons, List.cons.injEq] at hs1
              have hc0 : children.getD 0 zero_iptr = c := by
                cases children with
                | nil => simp at hc
                | cons c1 cs1 =>
                    cases hn : h1.num_children with
                    | zero => rw [hn] at hc; simp at hc
                    | succ j =>
                        rw [hn] at hc
                        simp only [List.take_succ_cons, List.cons.injEq] at hc
                        simp [hc.1]
              rw [hc0, ← hs1.1]
  | node48 h1 keys children =>
      have hs1 : (keys.enum.filter (fun s => s.2 != 0)).map
          (fun s => (s.1, children.getD (s.2 - 1) zero_iptr)) = kc :: rest := hs
      show (get_node S (children.getD
        (keys.getD (first_index_where (fun x => x != 0) keys) 0 - 1) zero_iptr)).bind
          (_art_minimum_leaf S m) = _
      cases hf : keys.enum.filter (fun s => s.2 != 0) with
      | nil => rw [hf] at hs1; simp at hs1
      | cons s ss =>
          rw [hf] at hs1
          simp only [List.map_cons, List.cons.injEq] at hs1
          have := enum_filter_head (fun x => x != 0) 0 keys s ss hf
          rw [← hs1.1, this]
  | node256 h1 children =>
      have hs1 : children.enum.filter (fun s => ItemPointerIsValid s.2) = kc :: rest := hs
      show (get_node S (children.getD (first_index_where ItemPointerIsValid children)
        zero_iptr)).bind (_art_minimum_leaf S m) = _
      have := enum_filter_head ItemPointerIsValid zero_iptr children kc rest hs1
      rw [this]

end PgArt

namespace PgArt

theorem subtree_leaves_internal (S : ArtIndex) (n : Nat) (node : ArtNode) (h : ArtNodeHeader)
    (hh : node.header? = some h) :
    subtree_leaves S (n + 1) node =
      ((child_slots node).map (fun kc =>
        match get_node S kc.2 with
        | none => []
        | some child => subtree_leaves S n child)).flatten := by
  cases node <;> cases hh <;> rfl

theorem leftmost_leaf_internal (S : ArtIndex) (n : Nat) (node : ArtNode) (h : ArtNodeHeader)
    (hh : node.header? = some h) :
    leftmost_leaf S (n + 1) node =
      match smallest_slot (child_slots node) with
      | none => none
      | some kc => (get_node S kc.2).bind (leftmost_leaf S n) := by
  cases node <;> cases hh <;> rfl

theorem wf_subtree_internal (S : ArtIndex) (n : Nat) (node : ArtNode) (h : ArtNodeHeader)
    (depth : Nat) (hh : node.header? = some h) :
    wf_subtree S (n + 1) node depth =
      (!(child_slots node).isEmpty &&
        decide ((child_slots node).Pairwise (fun a b => a.1 < b.1)) &&
        (child_slots node).all (fun kc =>
          match get_node S kc.2 with
          | none => false
          | some child =>
              wf_subtree S n child (depth + h.prefix_key_len + 1) &&
              (subtree_leaves S n child).all (fun l =>
                decide (depth + h.prefix_key_len < l.key.length) &&
                l.key.getD (depth + h.prefix_key_len) 0 == kc.1)) &&
        (subtree_leaves S (n + 1) node).all (fun l1 =>
          (subtree_leaves S (n + 1) node).all (fun l2 =>
            l1.key.take (depth + h.prefix_key_len)
              == l2.key.take (depth + h.prefix_key_len)))) := by
  cases node <;> cases hh <;> rfl

/-- C28: on a well-formed subtree of height at most `n` in which every internal node has a
child, `_art_minimum_leaf` returns a leaf for every recursion budget of `n` or more; that
leaf is the one reached by following the child with the smallest key byte at each internal
node, it is the node itself when the node is a leaf, it is stored in the subtree, and no
key stored in the subtree is byte-wise smaller than its key. -/
theorem minimum_leaf_smallest (S : ArtIndex) : ∀ (n : Nat) (node : ArtNode) (depth : Nat),
    wf_subtree S n node depth = true →
    ∃ l, (∀ m, n ≤ m → _art_minimum_leaf S m node = some l) ∧
      leftmost_leaf S n node = some l ∧
      (∀ lf, node = .leaf lf → l = lf) ∧
      l ∈ subtree_leaves S n node ∧
      ∀ l1 ∈ subtree_leaves S n node, lex_lt l1.key l.key = false
  | 0, node, depth, hwf => by simp [wf_subtree] at hwf
  | n + 1, node, depth, hwf => by
      cases hh : node.header? with
      | none =>
          cases node with
          | leaf lf =>
              refine ⟨lf, ?_, rfl, ?_, ?_, ?_⟩
              · intro m hm
                obtain ⟨m1, rfl⟩ : ∃ m1, m = m1 + 1 := ⟨m - 1, by omega⟩
                rfl
              · intro lf1 e; cases e; rfl
              · exact List.mem_singleton.2 rfl
              · intro l1 hl1
                have : l1 = lf := List.mem_singleton.1 hl1
                rw [this]; exact lex_lt_irrefl _
          | node4 _ _ _ => cases hh
          | node16 _ _ _ => cases hh
          | node48 _ _ _ => cases hh
          | node256 _ _ => cases hh
      | some h =>
          rw [wf_subtree_internal S n node h depth hh] at hwf
          simp only [Bool.and_eq_true, Bool.not_eq_true', decide_eq_true_eq,
            List.all_eq_true, beq_iff_eq] at hwf
          obtain ⟨⟨⟨hne, hpw⟩, hch⟩, hagree⟩ := hwf
          cases hs : child_slots node with
          | nil => rw [hs] at hne; simp at hne
          | cons kc rest =>
              rw [hs] at hpw hch
              have hkc := hch kc (List.mem_cons_self _ _)
              cases hg : get_node S kc.2 with
              | none => rw [hg] at hkc; simp at hkc
              | some child =>
                  rw [hg] at hkc
                  simp only [Bool.and_eq_true, List.all_eq_true, decide_eq_true_eq,
                    beq_iff_eq] at hkc
                  obtain ⟨hwfc, hcl⟩ := hkc
                  obtain ⟨l, hmin, hleft, _, hmem, hsmall⟩ :=
                    minimum_leaf_smallest S n child _ hwfc
                  have hmem1 : ∀ (kc1 : Nat × ItemPointerData) (c1 : ArtNode) (l1 : ArtNodeLeaf),
                      kc1 ∈ kc :: rest → get_node S kc1.2 = some c1 →
                      l1 ∈ subtree_leaves S n c1 → l1 ∈ subtree_leaves S (n + 1) node := by
                    intro kc1 c1 l1 h1 h2 h3
                    rw [subtree_leaves_internal S n node h hh, hs, List.mem_flatten]
                    refine ⟨subtree_leaves S n c1, ?_, h3⟩
                    rw [List.mem_map]
                    exact ⟨kc1, h1, by rw [h2]⟩
                  have hl_in := hmem1 kc child l (List.mem_cons_self _ _) hg hmem
                  refine ⟨l, ?_, ?_, ?_, hl_in, ?_⟩
                  · intro m hm
                    obtain ⟨m1, rfl⟩ : ∃ m1, m = m1 + 1 := ⟨m - 1, by omega⟩
                    rw [minimum_leaf_step S m1 node h kc rest hh hs, hg]
                    exact hmin m1 (by omega)
                  · rw [leftmost_leaf_internal S n node h hh, hs,
                      smallest_slot_of_sorted kc rest hpw]
                    simp only [hg]
                    exact hleft
                  · intro lf e; rw [e] at hh; cases hh
                  · intro l1 hl1
                    rw [subtree_leaves_internal S n node h hh, hs, List.mem_flatten] at hl1
                    obtain ⟨ls, hls, hl1⟩ := hl1
                    rw [List.mem_map] at hls
                    obtain ⟨kc1, hkc1, rfl⟩ := hls
                    cases hg1 : get_node S kc1.2 with
                    | none => rw [hg1] at hl1; simp at hl1
                    | some c1 =>
                        rw [hg1] at hl1
                        simp only at hl1
                        rcases List.mem_cons.1 hkc1 with e | hrest
                        · subst e
                          rw [hg] at hg1
                          cases hg1
                          exact hsmall l1 hl1
                        · have hlt := (List.pairwise_cons.1 hpw).1 kc1 hrest
                          have h1 := hch kc1 hkc1
                          rw [hg1] at h1
                          simp only [Bool.and_eq_true, List.all_eq_true, decide_eq_true_eq,
                            beq_iff_eq] at h1
                          have hb1 := h1.2 l1 hl1
                          have hb := hcl l hmem
                          have hl1_in := hmem1 kc1 c1 l1 hkc1 hg1 hl1
                          have hag := hagree l hl_in l1 hl1_in
                          exact lex_lt_of_diff_at (depth + h.prefix_key_len) l.key l1.key hag
                            hb.1 hb1.1 (by rw [hb.2, hb1.2]; exact hlt)

theorem minimum_leaf_smallest_witness :
    wf_subtree two_key_index 3 two_key_root 0 = true ∧
    ∃ l, (∀ m, 3 ≤ m → _art_minimum_leaf two_key_index m two_key_root = some l) ∧
      leftmost_leaf two_key_index 3 two_key_root = some l ∧
      (∀ lf, two_key_root = .leaf lf → l = lf) ∧
      l ∈ subtree_leaves two_key_index 3 two_key_root ∧
      ∀ l1 ∈ subtree_leaves two_key_index 3 two_key_root, lex_lt l1.key l.key = false :=
  ⟨by decide!, minimum_leaf_smallest two_key_index 3 two_key_root 0 (by decide!)⟩

end PgArt

namespace PgArt

/-! ## Stored nodes under the page operations -/

theorem get_node_of_page (S : ArtIndex) (q : ItemPointerData) (p : ArtPage)
    (hp : get_page S q.ip_blkid = some p) (hq : q.ip_posid ≠ 0) :
    get_node S q = p.items.getD (q.ip_posid - 1) none := by
  unfold get_node; unfold get_page at hp; rw [if_neg hq, hp]

theorem get_node_no_page (S : ArtIndex) (q : ItemPointerData)
    (hp : get_page S q.ip_blkid = none) : get_node S q = none := by
  unfold get_node; unfold get_page at hp
  split
  · rfl
  · rw [hp]

theorem get_node_posid_zero (S : ArtIndex) (q : ItemPointerData) (hq : q.ip_posid = 0) :
    get_node S q = none := by
  unfold get_node; rw [if_pos hq]

theorem get_node_some (S : ArtIndex) (q : ItemPointerData) (n : ArtNode)
    (h : get_node S q = some n) :
    q.ip_posid ≠ 0 ∧ ∃ p, get_page S q.ip_blkid = some p ∧
      p.items[q.ip_posid - 1]? = some (some n) := by
  by_cases hq : q.ip_posid = 0
  · rw [get_node_posid_zero S q hq] at h; cases h
  · refine ⟨hq, ?_⟩
    cases hp : get_page S q.ip_blkid with
    | none => rw [get_node_no_page S q hp] at h; cases h
    | some p =>
        rw [get_node_of_page S q p hp hq, List.getD_eq_getElem?_getD] at h
        refine ⟨p, rfl, ?_⟩
        cases hx : p.items[q.ip_posid - 1]? with
        | none => rw [hx] at h; cases h
        | some x => rw [hx] at h; simp only [Option.getD_some] at h; rw [h]

/-- The node at an item pointer depends only on the items of the pointer's page. -/
theorem get_node_congr (S T : ArtIndex) (q : ItemPointerData)
    (h : (get_page T q.ip_blkid).map (fun p => p.items)
      = (get_page S q.ip_blkid).map (fun p => p.items)) :
    get_node T q = get_node S q := by
  by_cases hq : q.ip_posid = 0
  · rw [get_node_posid_zero S q hq, get_node_posid_zero T q hq]
  · cases hs : get_page S q.ip_blkid with
    | none =>
        rw [hs] at h
        cases ht : get_page T q.ip_blkid with
        | none => rw [get_node_no_page S q hs, get_node_no_page T q ht]
        | some pt => rw [ht] at h; cases h
    | some ps =>
        rw [hs] at h
        cases ht : get_page T q.ip_blkid with
        | none => rw [ht] at h; cases h
        | some pt =>
            rw [ht] at h
            simp only [Option.map_some', Option.some.injEq] at h
            rw [get_node_of_page S q ps hs hq, get_node_of_page T q pt ht hq, h]

theorem get_node_set_page_other (S : ArtIndex) (b : Nat) (p : ArtPage) (q : ItemPointerData)
    (h : q.ip_blkid ≠ b) : get_node (set_page S b p) q = get_node S q :=
  get_node_congr S _ q (by rw [get_page_set_page_ne S b q.ip_blkid p h])

theorem set_page_length (S : ArtIndex) (b : Nat) (p : ArtPage) :
    (set_page S b p).pages.length = S.pages.length := by
  unfold set_page; simp

/-- The two outcomes of `_get_page_with_free_space`. -/
theorem get_page_with_free_space_cases (cfg : ArtConfig) (S : ArtIndex)
    (pageType itemsz : Nat) (tail : ArtPage)
    (hk : pageType = ART_NODE_PAGE ∨ pageType = ART_LEAF_PAGE)
    (ht : get_page S (tail_blk_num S pageType) = some tail) :
    (MAXALIGN itemsz < usable_free_space cfg pageType tail ∧
      _get_page_with_free_space cfg S pageType itemsz = (S, tail_blk_num S pageType)) ∨
    (¬ MAXALIGN itemsz < usable_free_space cfg pageType tail ∧
      (_get_page_with_free_space cfg S pageType itemsz).2 = S.pages.length ∧
      (_get_page_with_free_space cfg S pageType itemsz).1.pages
        = S.pages.set (tail_blk_num S pageType) { tail with right_link := S.pages.length }
            ++ [_art_init_data_page pageType false] ∧
      ((_get_page_with_free_space cfg S pageType itemsz).1.last_internal_node_blk_num
          = S.pages.length ∨
        (_get_page_with_free_space cfg S pageType itemsz).1.last_internal_node_blk_num
          = S.last_internal_node_blk_num) ∧
      ((_get_page_with_free_space cfg S pageType itemsz).1.last_leaf_blk_num
          = S.pages.length ∨
        (_get_page_with_free_space cfg S pageType itemsz).1.last_leaf_blk_num
          = S.last_leaf_blk_num)) := by
  have hgp : (get_page S (if pageType = ART_NODE_PAGE then S.last_internal_node_blk_num
      else S.last_leaf_blk_num)).getD (_art_init_data_page 0 false) = tail := by
    have := ht; unfold tail_blk_num at this; rw [this]; rfl
  have hne : ART_NODE_PAGE ≠ ART_LEAF_PAGE := by decide
  by_cases hroom : MAXALIGN itemsz < usable_free_space cfg pageType tail
  · left
    refine ⟨hroom, ?_⟩
    unfold _get_page_with_free_space
    simp only [hgp]
    unfold usable_free_space at hroom
    rw [if_pos hroom]
    rfl
  · right
    refine ⟨hroom, ?_⟩
    unfold usable_free_space at hroom
    unfold _get_page_with_free_space
    simp only [hgp]
    rw [if_neg hroom]
    rcases hk with hk | hk
    · subst hk; rw [if_pos rfl, if_pos rfl]
      exact ⟨rfl, rfl, Or.inl rfl, Or.inr rfl⟩
    · subst hk; rw [if_neg hne.symm, if_neg hne.symm]
      exact ⟨rfl, rfl, Or.inr rfl, Or.inl rfl⟩

theorem usable_free_space_le (cfg : ArtConfig) (pageType : Nat) (p : ArtPage)
    (hcfg : pageType = ART_LEAF_PAGE → cfg.leaf_treshold_mant ≤ 2 ^ cfg.leaf_treshold_exp) :
    usable_free_space cfg pageType p ≤ PageGetFreeSpace p := by
  unfold usable_free_space
  split_ifs with hl
  · exact size_times_double_le _ _ _ (free_space_lt_pow p) (hcfg hl)
  · exact Nat.le_refl _

/-- The page returned by `_get_page_with_free_space` has room for the item, every stored
node stays where it is, and the tail blocks exist afterwards. -/
theorem get_page_with_free_space_spec (cfg : ArtConfig) (S : ArtIndex) (pageType itemsz : Nat)
    (hk : pageType = ART_NODE_PAGE ∨ pageType = ART_LEAF_PAGE) (htails : tails_ok S)
    (hcfg : pageType = ART_LEAF_PAGE → cfg.leaf_treshold_mant ≤ 2 ^ cfg.leaf_treshold_exp)
    (hsz : MAXALIGN itemsz ≤ 8148) :
    (∀ q, get_node (_get_page_with_free_space cfg S pageType itemsz).1 q = get_node S q) ∧
    tails_ok (_get_page_with_free_space cfg S pageType itemsz).1 ∧
    ∃ p, get_page (_get_page_with_free_space cfg S pageType itemsz).1
          (_get_page_with_free_space cfg S pageType itemsz).2 = some p ∧
      pd_lower p + sizeof_ItemIdData + MAXALIGN itemsz ≤ pd_upper p := by
  have hlt : tail_blk_num S pageType < S.pages.length := by
    unfold tail_blk_num; split_ifs
    · exact htails.1
    · exact htails.2
  obtain ⟨tail, ht⟩ : ∃ tail, get_page S (tail_blk_num S pageType) = some tail :=
    ⟨S.pages[tail_blk_num S pageType], by unfold get_page; simp [hlt]⟩
  rcases get_page_with_free_space_cases cfg S pageType itemsz tail hk ht with
    ⟨hroom, hr⟩ | ⟨hroom, hr2, hpages, hti, htl⟩
  · rw [hr]
    refine ⟨fun _ => rfl, htails, tail, ht, ?_⟩
    have h1 := usable_free_space_le cfg pageType tail hcfg
    have h2 : MAXALIGN itemsz < PageGetFreeSpace tail := by omega
    unfold PageGetFreeSpace PageGetExactFreeSpace at h2
    unfold sizeof_ItemIdData at h2 ⊢
    split_ifs at h2 <;> omega
  · refine ⟨?_, ?_, ?_⟩
    · intro q
      rcases Nat.lt_trichotomy q.ip_blkid S.pages.length with hb | hb | hb
      · apply get_node_congr
        unfold get_page
        rw [hpages, List.getElem?_append_left (by simpa using hb), List.getElem?_set]
        by_cases h1 : tail_blk_num S pageType = q.ip_blkid
        · rw [if_pos h1, if_pos hlt]
          have := ht; unfold get_page at this; rw [h1] at this; rw [this]; rfl
        · rw [if_neg h1]
      · have hnone : get_page S q.ip_blkid = none := by
          unfold get_page; exact List.getElem?_eq_none (by omega)
        rw [get_node_no_page S q hnone]
        by_cases hq : q.ip_posid = 0
        · exact get_node_posid_zero _ q hq
        · rw [get_node_of_page _ q (_art_init_data_page pageType false) _ hq]
          · rfl
          · unfold get_page; rw [hpages, hb]
            simp [List.getElem?_append_right]
      · apply get_node_congr
        unfold get_page
        rw [hpages, List.getElem?_eq_none (by simp; omega), List.getElem?_eq_none (by omega)]
    · unfold tails_ok
      have hl : (_get_page_with_free_space cfg S pageType itemsz).1.pages.length
          = S.pages.length + 1 := by rw [hpages]; simp
      rw [hl]
      have := htails.1; have := htails.2
      constructor
      · rcases hti with h | h <;> rw [h] <;> omega
      · rcases htl with h | h <;> rw [h] <;> omega
    · rw [hr2]
      refine ⟨_art_init_data_page pageType false, ?_, ?_⟩
      · unfold get_page; rw [hpages]
        simp [List.getElem?_append_right]
      · unfold pd_lower pd_upper pd_special page_used _art_init_data_page BLCKSZ
          SizeOfPageHeaderData sizeof_ItemIdData sizeof_ArtDataPageOpaqueData
        simp only [List.length_nil, List.map_nil, List.sum_nil]
        have : MAXALIGN 12 = 16 := by decide
        rw [this]; omega

end PgArt

namespace PgArt

theorem iptr_ne_posid (q : ItemPointerData) (blk off : Nat) (h : q ≠ ⟨blk, off⟩)
    (hb : q.ip_blkid = blk) : q.ip_posid ≠ off := by
  intro ho
  apply h
  cases q
  simp only at hb ho
  rw [hb, ho]

/-- About `_page_add_node` on a page with room: the node is stored at a fresh item pointer and
every other item pointer designates what it did. -/
theorem page_add_node_spec (S : ArtIndex) (blk : Nat) (node : ArtNode) (p : ArtPage)
    (hp : get_page S blk = some p)
    (hfit : pd_lower p + sizeof_ItemIdData + MAXALIGN (_art_node_size node) ≤ pd_upper p) :
    (_page_add_node S blk node).2 = ⟨blk, p.items.length + 1⟩ ∧
    get_node S (_page_add_node S blk node).2 = none ∧
    get_node (_page_add_node S blk node).1 (_page_add_node S blk node).2 = some node ∧
    (∀ q, q ≠ (_page_add_node S blk node).2 →
      get_node (_page_add_node S blk node).1 q = get_node S q) ∧
    (_page_add_node S blk node).1.pages.length = S.pages.length ∧
    (_page_add_node S blk node).1.last_internal_node_blk_num = S.last_internal_node_blk_num ∧
    (_page_add_node S blk node).1.last_leaf_blk_num = S.last_leaf_blk_num := by
  have hlt := get_page_lt S blk p hp
  have hadd : PageAddItem p node
      = ({ p with items := p.items ++ [some node] }, p.items.length + 1) := by
    unfold PageAddItem
    rw [if_neg (by omega)]
  have hres : _page_add_node S blk node
      = (set_page S blk { p with items := p.items ++ [some node], dirty := true,
                                 n_total := (p.n_total + 1) % 65536 },
         ⟨blk, p.items.length + 1⟩) := by
    unfold _page_add_node
    simp only [hp, Option.getD_some, hadd]
  rw [hres]
  refine ⟨rfl, ?_, ?_, ?_, set_page_length _ _ _, rfl, rfl⟩
  · rw [get_node_of_page S ⟨blk, p.items.length + 1⟩ p hp (by simp)]
    simp [List.getD_eq_getElem?_getD]
  · rw [get_node_of_page _ ⟨blk, p.items.length + 1⟩ _
      (get_page_set_page_same S blk _ hlt) (by simp)]
    simp [List.getD_eq_getElem?_getD]
  · intro q hq
    by_cases hb : q.ip_blkid = blk
    · have hpos := iptr_ne_posid q blk _ hq hb
      by_cases h0 : q.ip_posid = 0
      · rw [get_node_posid_zero _ q h0, get_node_posid_zero _ q h0]
      · rw [get_node_of_page _ q _ (by rw [hb]; exact get_page_set_page_same S blk _ hlt) h0,
          get_node_of_page S q p (by rw [hb]; exact hp) h0]
        simp only [List.getD_eq_getElem?_getD]
        rcases Nat.lt_or_ge (q.ip_posid - 1) p.items.length with h1 | h1
        · rw [List.getElem?_append_left h1]
        · rw [List.getElem?_eq_none (by simp; omega), List.getElem?_eq_none h1]
    · exact get_node_set_page_other S blk _ q hb

/-- About `_page_update_node` with a node of the size of the stored one: the node replaces it
and every other item pointer designates what it did. -/
theorem page_update_node_spec (S : ArtIndex) (q : ItemPointerData) (node old : ArtNode)
    (hold : get_node S q = some old) (hs : _art_node_size node = _art_node_size old) :
    ∃ T, _page_update_node S q node = some T ∧ get_node T q = some node ∧
      (∀ r, r ≠ q → get_node T r = get_node S r) ∧
      T.pages.length = S.pages.length ∧
      T.last_internal_node_blk_num = S.last_internal_node_blk_num ∧
      T.last_leaf_blk_num = S.last_leaf_blk_num := by
  obtain ⟨hq, p, hp, hitem⟩ := get_node_some S q old hold
  have hlt := get_page_lt S _ p hp
  have hlen : q.ip_posid - 1 < p.items.length := by
    rcases Nat.lt_or_ge (q.ip_posid - 1) p.items.length with h1 | h1
    · exact h1
    · rw [List.getElem?_eq_none h1] at hitem; cases hitem
  have how := overwrite_same_size p q.ip_posid node old (by omega) hitem hs
  refine ⟨set_page S q.ip_blkid
      { p with items := p.items.set (q.ip_posid - 1) (some node), dirty := true }, ?_, ?_, ?_,
    set_page_length _ _ _, rfl, rfl⟩
  · unfold _page_update_node
    rw [hp]
    simp only [how, Option.map_some']
  · rw [get_node_of_page _ q _ (get_page_set_page_same S _ _ hlt) hq]
    simp [List.getD_eq_getElem?_getD, hlen]
  · intro r hr
    by_cases hb : r.ip_blkid = q.ip_blkid
    · have hpos : r.ip_posid ≠ q.ip_posid := by
        apply iptr_ne_posid r q.ip_blkid q.ip_posid _ hb
        intro e; apply hr; rw [e]
      by_cases h0 : r.ip_posid = 0
      · rw [get_node_posid_zero _ r h0, get_node_posid_zero _ r h0]
      · rw [get_node_of_page _ r _ (by rw [hb]; exact get_page_set_page_same S _ _ hlt) h0,
          get_node_of_page S r p (by rw [hb]; exact hp) h0]
        simp only [List.getD_eq_getElem?_getD]
        rw [List.getElem?_set_ne (by omega)]
    · exact get_node_set_page_other S _ _ r hb

/-- A node stored by `_get_page_with_free_space` followed by `_page_add_node`. -/
theorem store_node_spec (cfg : ArtConfig) (S : ArtIndex) (pageType : Nat) (node : ArtNode)
    (hk : pageType = ART_NODE_PAGE ∨ pageType = ART_LEAF_PAGE) (htails : tails_ok S)
    (hcfg : pageType = ART_LEAF_PAGE → cfg.leaf_treshold_mant ≤ 2 ^ cfg.leaf_treshold_exp)
    (hsz : MAXALIGN (_art_node_size node) ≤ 8148) :
    ∃ T a, _page_add_node
        (_get_page_with_free_space cfg S pageType (_art_node_size node)).1
        (_get_page_with_free_space cfg S pageType (_art_node_size node)).2 node = (T, a) ∧
      a.ip_posid ≠ 0 ∧ get_node S a = none ∧ get_node T a = some node ∧
      (∀ q, q ≠ a → get_node T q = get_node S q) ∧ tails_ok T := by
  obtain ⟨hframe, htails1, p, hp, hfit⟩ :=
    get_page_with_free_space_spec cfg S pageType (_art_node_size node) hk htails hcfg hsz
  obtain ⟨h1, h2, h3, h4, h5, h6, h7⟩ := page_add_node_spec _ _ node p hp hfit
  cases hTa : _page_add_node
      (_get_page_with_free_space cfg S pageType (_art_node_size node)).1
      (_get_page_with_free_space cfg S pageType (_art_node_size node)).2 node with
  | mk T a =>
      rw [hTa] at h1 h2 h3 h4 h5 h6 h7
      simp only at h1 h2 h3 h4 h5 h6 h7
      refine ⟨T, a, rfl, ?_, ?_, h3, ?_, ?_⟩
      · rw [h1]; simp
      · rw [← hframe]; exact h2
      · intro q hq; rw [h4 q hq, hframe]
      · unfold tails_ok at htails1 ⊢
        rw [h5, h6, h7]; exact htails1

end PgArt

namespace PgArt

/-! ## Node-level facts used by the splits -/

theorem is_valid_ne_zero (c : ItemPointerData) (h : ItemPointerIsValid c = true) :
    c ≠ zero_iptr := by
  intro e; rw [e] at h; exact absurd h (by decide)

theorem getD_set_self {α : Type} (l : List α) (i : Nat) (x d : α) (h : l.getD i d ≠ d) :
    (l.set i x).getD i d = x := by
  have hi : i < l.length := by
    rcases Nat.lt_or_ge i l.length with h1 | h1
    · exact h1
    · exfalso; apply h
      rw [List.getD_eq_getElem?_getD, List.getElem?_eq_none h1]; rfl
  rw [List.getD_eq_getElem?_getD, List.getElem?_set_self (by simpa using hi)]; rfl

/-- About `_replace_child_iptr` on a node whose slot for `key` holds a valid reference: the slot
holds the new reference afterwards and the node keeps its size. -/
theorem replace_child_iptr_spec (node : ArtNode) (key : Nat) (c x : ItemPointerData)
    (hslot : _art_find_child_equal node key = some c) (hc : ItemPointerIsValid c = true)
    (hx : ItemPointerIsValid x = true) :
    ∃ node1, _replace_child_iptr node key x = some node1 ∧
      _art_find_child_equal node1 key = some x ∧
      _art_node_size node1 = _art_node_size node ∧ node_type node1 = node_type node := by
  have hcz := is_valid_ne_zero c hc
  cases node with
  | leaf l => cases hslot
  | node4 h keys children =>
      unfold _art_find_child_equal at hslot
      unfold _replace_child_iptr
      simp only at hslot ⊢
      cases hi : find_key_index keys h.num_children key with
      | none => rw [hi] at hslot; cases hslot
      | some i =>
          rw [hi] at hslot
          simp only [Option.map_some', Option.some.injEq] at hslot
          refine ⟨_, rfl, ?_, rfl, rfl⟩
          unfold _art_find_child_equal
          simp only [hi, Option.map_some', Option.some.injEq]
          exact getD_set_self children i x zero_iptr (by rw [hslot]; exact hcz)
  | node16 h keys children =>
      unfold _art_find_child_equal at hslot
      unfold _replace_child_iptr
      simp only at hslot ⊢
      cases hi : find_key_index keys (min h.num_children 16) key with
      | none => rw [hi] at hslot; cases hslot
      | some i =>
          rw [hi] at hslot
          simp only [Option.map_some', Option.some.injEq] at hslot
          refine ⟨_, rfl, ?_, rfl, rfl⟩
          unfold _art_find_child_equal
          simp only [hi, Option.map_some', Option.some.injEq]
          exact getD_set_self children i x zero_iptr (by rw [hslot]; exact hcz)
  | node48 h keys children =>
      unfold _art_find_child_equal at hslot
      unfold _replace_child_iptr
      simp only at hslot ⊢
      by_cases hk : (keys.getD key 0 != 0) = true
      · rw [if_pos hk] at hslot ⊢
        simp only [Option.some.injEq] at hslot
        refine ⟨_, rfl, ?_, rfl, rfl⟩
        unfold _art_find_child_equal
        simp only [hk, if_true, Option.some.injEq]
        exact getD_set_self children _ x zero_iptr (by rw [hslot]; exact hcz)
      · rw [if_neg hk] at hslot; cases hslot
  | node256 h children =>
      unfold _art_find_child_equal at hslot
      unfold _replace_child_iptr
      simp only at hslot ⊢
      by_cases hk : ItemPointerIsValid (children.getD key zero_iptr) = true
      · rw [if_pos hk] at hslot ⊢
        simp only [Option.some.injEq] at hslot
        refine ⟨_, rfl, ?_, rfl, rfl⟩
        unfold _art_find_child_equal
        have hg := getD_set_self children key x zero_iptr (by rw [hslot]; exact hcz)
        simp only [hg, hx, if_true]
      · rw [if_neg hk] at hslot; cases hslot

end PgArt

namespace PgArt

/-! ## The prefix split -/

theorem tails_ok_of_eq (S T : ArtIndex) (h : tails_ok S)
    (h1 : T.pages.length = S.pages.length)
    (h2 : T.last_internal_node_blk_num = S.last_internal_node_blk_num)
    (h3 : T.last_leaf_blk_num = S.last_leaf_blk_num) : tails_ok T := by
  unfold tails_ok at h ⊢
  rw [h1, h2, h3]; exact h

theorem ne_of_get_node (S : ArtIndex) (a b : ItemPointerData) (n : ArtNode)
    (ha : get_node S a = some n) (hb : get_node S b = none) : a ≠ b := by
  intro e; rw [e, hb] at ha; cases ha

theorem valid_of_get_node (S : ArtIndex) (a : ItemPointerData) (n : ArtNode)
    (ha : get_node S a = some n) : ItemPointerIsValid a = true := by
  have := (get_node_some S a n ha).1
  unfold ItemPointerIsValid
  simpa using this

theorem leaf_fits (l : ArtNodeLeaf) (hk : l.key.length ≤ 8114) (hi : l.items.length = 1) :
    MAXALIGN (_art_node_size (.leaf l)) ≤ 8148 := by
  rw [node_size_leaf, hi]; unfold MAXALIGN; omega

end PgArt

namespace PgArt

theorem data_getD_key (l : ArtNodeLeaf) (i : Nat) (h : i < l.key.length) :
    l.data.getD i 0 = l.key.getD i 0 := by
  unfold ArtNodeLeaf.data
  simp only [List.getD_eq_getElem?_getD]
  rw [List.getElem?_append_left h]

end PgArt

namespace PgArt

end PgArt

namespace PgArt

/-! ## Relocation of a grown node -/

/-- About `_replace_child_iptr` changes one entry of the child array and nothing else. -/
theorem replace_child_iptr_frame (node node1 : ArtNode) (key : Nat) (x : ItemPointerData)
    (h : _replace_child_iptr node key x = some node1) :
    node1.header? = node.header? ∧ node_keys node1 = node_keys node ∧
    ∃ i, node_children node1 = (node_children node).set i x := by
  cases node with
  | leaf l => cases h
  | node4 hd keys children =>
      unfold _replace_child_iptr at h
      simp only at h
      cases hi : find_key_index keys hd.num_children key with
      | none => rw [hi] at h; cases h
      | some i =>
          rw [hi] at h
          simp only [Option.map_some', Option.some.injEq] at h
          rw [← h]
          exact ⟨rfl, rfl, i, rfl⟩
  | node16 hd keys children =>
      unfold _replace_child_iptr at h
      simp only at h
      cases hi : find_key_index keys (min hd.num_children 16) key with
      | none => rw [hi] at h; cases h
      | some i =>
          rw [hi] at h
          simp only [Option.map_some', Option.some.injEq] at h
          rw [← h]
          exact ⟨rfl, rfl, i, rfl⟩
  | node48 hd keys children =>
      unfold _replace_child_iptr at h
      simp only at h
      split_ifs at h
      simp only [Option.some.injEq] at h
      rw [← h]
      exact ⟨rfl, rfl, _, rfl⟩
  | node256 hd children =>
      unfold _replace_child_iptr at h
      simp only at h
      split_ifs at h
      simp only [Option.some.injEq] at h
      rw [← h]
      exact ⟨rfl, rfl, _, rfl⟩

theorem maxalign_sub_add (a b : Nat) : MAXALIGN a ≤ MAXALIGN b + MAXALIGN (a - b) := by
  unfold MAXALIGN; omega

/-- About `PageIndexTupleOverwrite` with a larger item that the free space of the page admits. -/
theorem overwrite_grow (p : ArtPage) (off : Nat) (node old : ArtNode) (ho : 0 < off)
    (hg : p.items[off - 1]? = some (some old))
    (hroom : MAXALIGN (_art_node_size node - _art_node_size old) ≤ PageGetExactFreeSpace p) :
    PageIndexTupleOverwrite p off node
      = some { p with items := p.items.set (off - 1) (some node) } := by
  have hlen : off - 1 < p.items.length := by
    rcases Nat.lt_or_ge (off - 1) p.items.length with h1 | h1
    · exact h1
    · rw [List.getElem?_eq_none h1] at hg; cases hg
  have := maxalign_sub_add (_art_node_size node) (_art_node_size old)
  unfold PageGetExactFreeSpace at hroom
  unfold PageIndexTupleOverwrite
  rw [if_neg (by omega)]
  simp only [List.getD_eq_getElem?_getD, hg, Option.getD_some]
  rw [if_neg (by omega)]

/-- Replacement of the items of a page: the node at one item pointer changes. -/
theorem get_node_set_items (S : ArtIndex) (q : ItemPointerData) (p p1 : ArtPage)
    (x : Option ArtNode) (hp : get_page S q.ip_blkid = some p) (hq : q.ip_posid ≠ 0)
    (hlen : q.ip_posid - 1 < p.items.length)
    (hitems : p1.items = p.items.set (q.ip_posid - 1) x) :
    get_node (set_page S q.ip_blkid p1) q = x ∧
    ∀ r, r ≠ q → get_node (set_page S q.ip_blkid p1) r = get_node S r := by
  have hlt := get_page_lt S _ p hp
  constructor
  · rw [get_node_of_page _ q _ (get_page_set_page_same S _ _ hlt) hq, hitems]
    simp [List.getD_eq_getElem?_getD, hlen]
  · intro r hr
    by_cases hb : r.ip_blkid = q.ip_blkid
    · have hpos : r.ip_posid ≠ q.ip_posid := by
        apply iptr_ne_posid r q.ip_blkid q.ip_posid _ hb
        intro e; apply hr; rw [e]
      by_cases h0 : r.ip_posid = 0
      · rw [get_node_posid_zero _ r h0, get_node_posid_zero _ r h0]
      · rw [get_node_of_page _ r _ (by rw [hb]; exact get_page_set_page_same S _ _ hlt) h0,
          get_node_of_page S r p (by rw [hb]; exact hp) h0, hitems]
        simp only [List.getD_eq_getElem?_getD]
        rw [List.getElem?_set_ne (by omega)]
    · exact get_node_set_page_other S _ _ r hb

end PgArt

namespace PgArt

/-- Bytes taken by a list of items. -/
theorem page_used_eq (p : ArtPage) :
    page_used p = (p.items.map (fun it => match it with
      | none => 0
      | some n => MAXALIGN (_art_node_size n))).sum := rfl

theorem used_set_none (old : ArtNode) : ∀ (l : List (Option ArtNode)) (i : Nat),
    l[i]? = some (some old) →
    ((l.set i none).map (fun it => match it with
        | none => 0
        | some n => MAXALIGN (_art_node_size n))).sum + MAXALIGN (_art_node_size old)
      = (l.map (fun it => match it with
        | none => 0
        | some n => MAXALIGN (_art_node_size n))).sum
  | [], i, h => by simp at h
  | x :: l, 0, h => by
      simp only [List.getElem?_cons_zero, Option.some.injEq] at h
      subst h
      simp only [List.set_cons_zero, List.map_cons, List.sum_cons]
      omega
  | x :: l, i + 1, h => by
      simp only [List.getElem?_cons_succ] at h
      have ih := used_set_none old l i h
      simp only [List.set_cons_succ, List.map_cons, List.sum_cons]
      omega

theorem used_dropLast (old : ArtNode) : ∀ (l : List (Option ArtNode)),
    l[l.length - 1]? = some (some old) →
    (l.dropLast.map (fun it => match it with
        | none => 0
        | some n => MAXALIGN (_art_node_size n))).sum + MAXALIGN (_art_node_size old)
      = (l.map (fun it => match it with
        | none => 0
        | some n => MAXALIGN (_art_node_size n))).sum
  | [], h => by simp at h
  | [x], h => by
      simp only [List.length_singleton, Nat.sub_self, List.getElem?_cons_zero,
        Option.some.injEq] at h
      subst h
      simp
  | x :: y :: l, h => by
      simp only [List.length_cons, Nat.add_sub_cancel, List.getElem?_cons_succ] at h
      have ih := used_dropLast old (y :: l) (by simpa using h)
      simp only [List.dropLast_cons₂, List.map_cons, List.sum_cons] at ih ⊢
      omega

/-- About `PageIndexTupleDeleteNoCompact` of a stored item: the item is gone, every other item
stays, the counters are untouched, and the room gained is the item's aligned size and at
most one line pointer. -/
theorem delete_item_spec (p : ArtPage) (off : Nat) (old : ArtNode) (ho : 0 < off)
    (hg : p.items[off - 1]? = some (some old)) :
    ∃ p1, PageIndexTupleDeleteNoCompact p off = some p1 ∧
      p1.items.getD (off - 1) none = none ∧
      (∀ i, i ≠ off - 1 → p1.items.getD i none = p.items.getD i none) ∧
      p1.n_deleted = p.n_deleted ∧ p1.deleted_item_size = p.deleted_item_size ∧
      pd_upper p1 ≤ pd_upper p + MAXALIGN (_art_node_size old) ∧
      pd_lower p ≤ pd_lower p1 + 4 := by
  have hlen : off - 1 < p.items.length := by
    rcases Nat.lt_or_ge (off - 1) p.items.length with h1 | h1
    · exact h1
    · rw [List.getElem?_eq_none h1] at hg; cases hg
  unfold PageIndexTupleDeleteNoCompact
  rw [if_neg (by omega)]
  simp only [List.getD_eq_getElem?_getD, hg, Option.getD_some]
  by_cases hlast : off < p.items.length
  · rw [if_pos hlast]
    refine ⟨_, rfl, ?_, ?_, rfl, rfl, ?_, ?_⟩
    · simp [hlen]
    · intro i hi
      simp only []
      rw [List.getElem?_set_ne (fun e => hi e.symm)]
    · have := used_set_none old p.items (off - 1) hg
      unfold pd_upper
      rw [page_used_eq, page_used_eq]
      simp only []
      omega
    · unfold pd_lower
      simp only [List.length_set]
      omega
  · rw [if_neg hlast]
    have hoff : off - 1 = p.items.length - 1 := by omega
    refine ⟨_, rfl, ?_, ?_, rfl, rfl, ?_, ?_⟩
    · simp only []
      rw [List.getElem?_eq_none (by simp only [List.length_dropLast]; omega)]
      rfl
    · intro i hi
      simp only []
      rcases Nat.lt_or_ge i (p.items.length - 1) with h1 | h1
      · rw [List.getElem?_dropLast, if_pos h1]
      · rw [List.getElem?_eq_none (by simp only [List.length_dropLast]; omega),
          List.getElem?_eq_none (by omega)]
    · have := used_dropLast old p.items (by rw [← hoff]; exact hg)
      unfold pd_upper
      rw [page_used_eq, page_used_eq]
      simp only []
      omega
    · unfold pd_lower sizeof_ItemIdData
      simp only [List.length_dropLast]
      omega

/-- Every page keeps its items and its deletion counters under
`_get_page_with_free_space`. -/
theorem get_page_with_free_space_fields (cfg : ArtConfig) (S : ArtIndex)
    (pageType itemsz : Nat) (hk : pageType = ART_NODE_PAGE ∨ pageType = ART_LEAF_PAGE)
    (htails : tails_ok S) (b : Nat) (pb : ArtPage) (hb : get_page S b = some pb) :
    ∃ pb1, get_page (_get_page_with_free_space cfg S pageType itemsz).1 b = some pb1 ∧
      pb1.items = pb.items ∧ pb1.n_deleted = pb.n_deleted ∧
      pb1.deleted_item_size = pb.deleted_item_size := by
  have hlt : tail_blk_num S pageType < S.pages.length := by
    unfold tail_blk_num; split_ifs
    · exact htails.1
    · exact htails.2
  obtain ⟨tail, ht⟩ : ∃ tail, get_page S (tail_blk_num S pageType) = some tail :=
    ⟨S.pages[tail_blk_num S pageType], by unfold get_page; simp [hlt]⟩
  have hbl := get_page_lt S b pb hb
  rcases get_page_with_free_space_cases cfg S pageType itemsz tail hk ht with
    ⟨_, hr⟩ | ⟨_, _, hpages, _, _⟩
  · rw [hr]; exact ⟨pb, hb, rfl, rfl, rfl⟩
  · unfold get_page
    rw [hpages, List.getElem?_append_left (by simpa using hbl), List.getElem?_set]
    by_cases h1 : tail_blk_num S pageType = b
    · rw [if_pos h1, if_pos hlt]
      rw [h1, hb] at ht
      cases ht
      exact ⟨_, rfl, rfl, rfl, rfl⟩
    · rw [if_neg h1]
      exact ⟨pb, hb, rfl, rfl, rfl⟩

/-- Every page keeps its deletion counters under `_page_update_node`. -/
theorem page_update_node_fields (S T : ArtIndex) (q : ItemPointerData) (node : ArtNode)
    (h : _page_update_node S q node = some T) (b : Nat) (pb : ArtPage)
    (hb : get_page S b = some pb) :
    ∃ pb1, get_page T b = some pb1 ∧ pb1.n_deleted = pb.n_deleted ∧
      pb1.deleted_item_size = pb.deleted_item_size := by
  unfold _page_update_node at h
  cases hp : get_page S q.ip_blkid with
  | none => rw [hp] at h; cases h
  | some p =>
      rw [hp] at h
      simp only at h
      cases ho : PageIndexTupleOverwrite p q.ip_posid node with
      | none => rw [ho] at h; cases h
      | some p1 =>
          rw [ho] at h
          simp only [Option.map_some', Option.some.injEq] at h
          rw [← h]
          by_cases hbq : b = q.ip_blkid
          · rw [hbq] at hb ⊢
            rw [hp] at hb
            cases hb
            rw [get_page_set_page_same S _ _ (get_page_lt S _ _ hp)]
            refine ⟨_, rfl, ?_, ?_⟩
            · unfold PageIndexTupleOverwrite at ho
              split_ifs at ho
              split at ho
              · cases ho
              · split_ifs at ho <;> cases ho <;> rfl
            · unfold PageIndexTupleOverwrite at ho
              split_ifs at ho
              split at ho
              · cases ho
              · split_ifs at ho <;> cases ho <;> rfl
          · rw [get_page_set_page_ne S _ b _ hbq]
            exact ⟨pb, hb, rfl, rfl⟩

end PgArt

namespace PgArt

theorem node_size_of_type (n : ArtNode) :
    (node_type n = 1 → _art_node_size n = 46) ∧ (node_type n = 2 → _art_node_size n = 130) ∧
    (node_type n = 3 → _art_node_size n = 562) ∧ (node_type n = 4 → _art_node_size n = 1554) := by
  cases n <;> simp [node_type, _art_node_size, sizeof_ArtNode4, sizeof_ArtNode16,
    sizeof_ArtNode48, sizeof_ArtNode256]

/-- Sizes of a node and of the next larger variant it grows into. -/
theorem growth_sizes (old node : ArtNode)
    (hgrow : (node_type old = 1 ∧ node_type node = 2) ∨
      (node_type old = 2 ∧ node_type node = 3) ∨ (node_type old = 3 ∧ node_type node = 4)) :
    MAXALIGN (_art_node_size node - _art_node_size old) + MAXALIGN (_art_node_size old)
      ≤ MAXALIGN (_art_node_size node) ∧
    MAXALIGN (_art_node_size node) ≤ 8148 := by
  have ho := node_size_of_type old
  have hn := node_size_of_type node
  rcases hgrow with ⟨h1, h2⟩ | ⟨h1, h2⟩ | ⟨h1, h2⟩
  · rw [ho.1 h1, hn.2.1 h2]; decide
  · rw [ho.2.1 h1, hn.2.2.1 h2]; decide
  · rw [ho.2.2.1 h1, hn.2.2.2 h2]; decide

/-- The in-place branch of `_page_replace_node`. -/
theorem replace_in_place (cfg : ArtConfig) (S : ArtIndex) (old_iptr : ItemPointerData)
    (old node : ArtNode) (parent : Option ItemPointerData) (key : Nat) (old_page : ArtPage)
    (hold : get_node S old_iptr = some old)
    (hpage : get_page S old_iptr.ip_blkid = some old_page)
    (hroom : MAXALIGN (_art_node_size node - _art_node_size old)
      ≤ PageGetExactFreeSpace old_page) :
    ∃ T, _page_replace_node cfg S old_iptr (_art_node_size old) node parent key
        = some (T, none) ∧
      get_node T old_iptr = some node ∧ ∀ q, q ≠ old_iptr → get_node T q = get_node S q := by
  obtain ⟨ho, p, hp, hitem⟩ := get_node_some S old_iptr old hold
  rw [hpage] at hp
  cases hp
  have hlen : old_iptr.ip_posid - 1 < old_page.items.length := by
    rcases Nat.lt_or_ge (old_iptr.ip_posid - 1) old_page.items.length with h1 | h1
    · exact h1
    · rw [List.getElem?_eq_none h1] at hitem; cases hitem
  have how := overwrite_grow old_page old_iptr.ip_posid node old (by omega) hitem hroom
  obtain ⟨h1, h2⟩ := get_node_set_items S old_iptr old_page
    { old_page with items := old_page.items.set (old_iptr.ip_posid - 1) (some node) }
    (some node) hpage ho hlen rfl
  refine ⟨_, ?_, h1, h2⟩
  unfold _page_replace_node
  simp only [hpage]
  rw [if_pos hroom, how]
  rfl

end PgArt

namespace PgArt

theorem pd_lower_of_items (p q : ArtPage) (h : q.items = p.items) : pd_lower q = pd_lower p := by
  unfold pd_lower; rw [h]

theorem pd_upper_of_items (p q : ArtPage) (h : q.items = p.items) : pd_upper q = pd_upper p := by
  unfold pd_upper page_used; rw [h]

/-- The relocating branch of `_page_replace_node` for a node grown into the next larger
variant. -/
theorem replace_relocate (cfg : ArtConfig) (S : ArtIndex) (old_iptr : ItemPointerData)
    (old node : ArtNode) (parent_iptr : ItemPointerData) (parent_node : ArtNode) (key : Nat)
    (old_page : ArtPage) (htails : tails_ok S)
    (hold : get_node S old_iptr = some old)
    (hpage : get_page S old_iptr.ip_blkid = some old_page)
    (hgrow : (node_type old = 1 ∧ node_type node = 2) ∨
      (node_type old = 2 ∧ node_type node = 3) ∨ (node_type old = 3 ∧ node_type node = 4))
    (hparent : get_node S parent_iptr = some parent_node) (hne : parent_iptr ≠ old_iptr)
    (hslot : _art_find_child_equal parent_node key = some old_iptr)
    (hroom : ¬ MAXALIGN (_art_node_size node - _art_node_size old)
      ≤ PageGetExactFreeSpace old_page) :
    ∃ T new_iptr parent1 page1 i,
      _page_replace_node cfg S old_iptr (_art_node_size old) node (some parent_iptr) key
        = some (T, some new_iptr) ∧
      get_node T old_iptr = none ∧
      get_page T old_iptr.ip_blkid = some page1 ∧
      page1.n_deleted = (old_page.n_deleted + 1) % 65536 ∧
      page1.deleted_item_size = (old_page.deleted_item_size + _art_node_size old) % 65536 ∧
      new_iptr ≠ old_iptr ∧ get_node S new_iptr = none ∧ get_node T new_iptr = some node ∧
      get_node T parent_iptr = some parent1 ∧
      _art_find_child_equal parent1 key = some new_iptr ∧
      parent1.header? = parent_node.header? ∧ node_keys parent1 = node_keys parent_node ∧
      node_children parent1 = (node_children parent_node).set i new_iptr ∧
      ∀ q, q ≠ old_iptr → q ≠ new_iptr → q ≠ parent_iptr → get_node T q = get_node S q := by
  obtain ⟨hsz1, hsz2⟩ := growth_sizes old node hgrow
  obtain ⟨ho, p, hp, hitem⟩ := get_node_some S old_iptr old hold
  rw [hpage] at hp
  cases hp
  have hblt := get_page_lt S _ old_page hpage
  obtain ⟨p1, hdel, hgone, hkeep, hnd, hds, hup, hlow⟩ :=
    delete_item_spec old_page old_iptr.ip_posid old (by omega) hitem
  -- the index after the old slot was deleted and the counters were advanced
  have hS1page : get_page (set_page S old_iptr.ip_blkid
      { p1 with dirty := true, n_deleted := (p1.n_deleted + 1) % 65536,
                deleted_item_size := (p1.deleted_item_size + _art_node_size old) % 65536 })
      old_iptr.ip_blkid = some
      { p1 with dirty := true, n_deleted := (p1.n_deleted + 1) % 65536,
                deleted_item_size := (p1.deleted_item_size + _art_node_size old) % 65536 } :=
    get_page_set_page_same S _ _ hblt
  generalize hS1 : set_page S old_iptr.ip_blkid
      { p1 with dirty := true, n_deleted := (p1.n_deleted + 1) % 65536,
                deleted_item_size := (p1.deleted_item_size + _art_node_size old) % 65536 }
      = S1 at hS1page
  have hS1old : get_node S1 old_iptr = none := by
    rw [get_node_of_page S1 old_iptr _ hS1page ho]; exact hgone
  have hS1f : ∀ q, q ≠ old_iptr → get_node S1 q = get_node S q := by
    intro q hq
    by_cases hb : q.ip_blkid = old_iptr.ip_blkid
    · have hpos : q.ip_posid ≠ old_iptr.ip_posid := by
        apply iptr_ne_posid q old_iptr.ip_blkid old_iptr.ip_posid _ hb
        intro e; apply hq; rw [e]
      by_cases h0 : q.ip_posid = 0
      · rw [get_node_posid_zero _ q h0, get_node_posid_zero _ q h0]
      · rw [get_node_of_page S1 q _ (by rw [hb]; exact hS1page) h0,
          get_node_of_page S q old_page (by rw [hb]; exact hpage) h0]
        exact hkeep _ (by omega)
    · rw [← hS1]; exact get_node_set_page_other S _ _ q hb
  have htS1 : tails_ok S1 := by
    rw [← hS1]
    exact tails_ok_of_eq S _ htails (set_page_length _ _ _) rfl rfl
  -- the page chosen for the grown node
  obtain ⟨hframe, htails1, p2, hp2, hfit⟩ :=
    get_page_with_free_space_spec cfg S1 ART_NODE_PAGE (_art_node_size node) (Or.inl rfl) htS1
      (fun e => absurd e (by decide)) hsz2
  obtain ⟨pb1, hpb1, hpb1i, hpb1n, hpb1d⟩ :=
    get_page_with_free_space_fields cfg S1 ART_NODE_PAGE (_art_node_size node) (Or.inl rfl)
      htS1 old_iptr.ip_blkid _ hS1page
  have hblk : (_get_page_with_free_space cfg S1 ART_NODE_PAGE (_art_node_size node)).2
      ≠ old_iptr.ip_blkid := by
    intro e
    rw [e, hpb1] at hp2
    rw [← Option.some.inj hp2] at hfit
    have e1 : pd_lower pb1 = pd_lower p1 := pd_lower_of_items p1 pb1 hpb1i
    have e2 : pd_upper pb1 = pd_upper p1 := pd_upper_of_items p1 pb1 hpb1i
    rw [e1, e2] at hfit
    unfold PageGetExactFreeSpace at hroom
    unfold sizeof_ItemIdData at hfit
    omega
  obtain ⟨h1, h2, h3, h4, h5, h6, h7⟩ := page_add_node_spec _ _ node p2 hp2 hfit
  have hpage_a : get_page (_page_add_node
      (_get_page_with_free_space cfg S1 ART_NODE_PAGE (_art_node_size node)).1
      (_get_page_with_free_space cfg S1 ART_NODE_PAGE (_art_node_size node)).2 node).1
      old_iptr.ip_blkid = some pb1 := by
    show get_page (set_page _ _ _) _ = _
    rw [get_page_set_page_ne _ _ _ _ (Ne.symm hblk)]; exact hpb1
  cases hTa : _page_add_node
      (_get_page_with_free_space cfg S1 ART_NODE_PAGE (_art_node_size node)).1
      (_get_page_with_free_space cfg S1 ART_NODE_PAGE (_art_node_size node)).2 node with
  | mk Sa a =>
      rw [hTa] at h1 h2 h3 h4 hpage_a
      simp only at h1 h2 h3 h4 hpage_a
      have ha_blk : a.ip_blkid ≠ old_iptr.ip_blkid := by rw [h1]; exact hblk
      have ha_old : a ≠ old_iptr := fun e => ha_blk (by rw [e])
      have ha_fresh : get_node S1 a = none := by rw [← hframe]; exact h2
      have hpar1 : get_node S1 parent_iptr = some parent_node := by
        rw [hS1f _ hne]; exact hparent
      have hp_a : parent_iptr ≠ a := ne_of_get_node S1 _ _ _ hpar1 ha_fresh
      have hparA : get_node Sa parent_iptr = some parent_node := by
        rw [h4 _ hp_a, hframe]; exact hpar1
      have ha_valid : ItemPointerIsValid a = true := valid_of_get_node Sa a node h3
      obtain ⟨parent1, hrep, hfind, hpsz, _⟩ :=
        replace_child_iptr_spec parent_node key old_iptr a hslot
          (valid_of_get_node S _ _ hold) ha_valid
      obtain ⟨hfh, hfk, i, hfc⟩ := replace_child_iptr_frame parent_node parent1 key a hrep
      obtain ⟨T, hT, hTp, hTf, _⟩ :=
        page_update_node_spec Sa parent_iptr parent1 parent_node hparA hpsz
      obtain ⟨page1, hpage1, hp1n, hp1d⟩ :=
        page_update_node_fields Sa T parent_iptr parent1 hT old_iptr.ip_blkid pb1 hpage_a
      refine ⟨T, a, parent1, page1, i, ?_, ?_, hpage1, ?_, ?_, ha_old, ?_, ?_, hTp, hfind,
        hfh, hfk, hfc, ?_⟩
      · unfold _page_replace_node
        simp only [hpage]
        rw [if_neg (by omega), hdel]
        simp only [hS1, hTa, hparA, hrep, hT, Option.map_some']
      · rw [hTf _ (Ne.symm hne), h4 _ (Ne.symm ha_old), hframe]; exact hS1old
      · rw [hp1n, hpb1n, hnd]
      · rw [hp1d, hpb1d, hds]
      · rw [← hS1f _ ha_old]; exact ha_fresh
      · rw [hTf _ (Ne.symm hp_a)]; exact h3
      · intro q hq1 hq2 hq3
        rw [hTf _ hq3, h4 _ hq2, hframe, hS1f _ hq1]

end PgArt

namespace PgArt

/-- C30 (counterexample): on a node page whose deleted-bytes counter stands at 65500, the
relocation of a full `Node4` (46 bytes) grown into a `Node16` advances the deleted count
from 120 to 121 but leaves the deleted-bytes counter at 10: the counter is a `uint16` and
65546 does not fit. -/
theorem relocation_deleted_bytes_wrap :
    (get_page (full_page_index 120 65500) 1).map
        (fun p => (PageGetExactFreeSpace p, p.n_deleted, p.deleted_item_size))
      = some (36, 120, 65500) ∧
    (_page_replace_node default_config (full_page_index 120 65500) ⟨1, 2⟩
        (_art_node_size full_node4) grown_node16 (some root_iptr) 97).map
      (fun r => ((get_page r.1 1).map (fun p => (p.n_deleted, p.deleted_item_size)), r.2))
      = some (some (121, 10), some ⟨3, 1⟩) := by
  constructor
  · decide!
  · decide!

/-- C30 (as amended): `_page_replace_node` for a stored node `old`, reached through the slot
for `key` of its stored parent, and the next larger variant `node` it has grown into. If
the exact free space of the old page is at least the aligned size difference, `node` is
stored at the old item pointer and every other item pointer, the parent's included,
designates what it did. Otherwise the old item pointer designates nothing afterwards, the
old page's `n_deleted` is advanced by 1 and its `deleted_item_size` by the old node's size,
both modulo 65536, `node` is stored at an item pointer that designated nothing before and
differs from the old one, the parent's slot for `key` refers to it, the parent's header,
key array and every other entry of its child array are unchanged, and so is every other
stored node. -/
theorem growth_relocation (cfg : ArtConfig) (S : ArtIndex) (old_iptr : ItemPointerData)
    (old node : ArtNode) (parent_iptr : ItemPointerData) (parent_node : ArtNode) (key : Nat)
    (old_page : ArtPage) (htails : tails_ok S)
    (hold : get_node S old_iptr = some old)
    (hpage : get_page S old_iptr.ip_blkid = some old_page)
    (hgrow : (node_type old = 1 ∧ node_type node = 2) ∨
      (node_type old = 2 ∧ node_type node = 3) ∨ (node_type old = 3 ∧ node_type node = 4))
    (hparent : get_node S parent_iptr = some parent_node) (hne : parent_iptr ≠ old_iptr)
    (hslot : _art_find_child_equal parent_node key = some old_iptr) :
    (MAXALIGN (_art_node_size node - _art_node_size old) ≤ PageGetExactFreeSpace old_page →
      ∃ T, _page_replace_node cfg S old_iptr (_art_node_size old) node (some parent_iptr) key
          = some (T, none) ∧
        get_node T old_iptr = some node ∧
        get_node T parent_iptr = some parent_node ∧
        ∀ q, q ≠ old_iptr → get_node T q = get_node S q) ∧
    (¬ MAXALIGN (_art_node_size node - _art_node_size old) ≤ PageGetExactFreeSpace old_page →
      ∃ T new_iptr parent1 page1 i,
        _page_replace_node cfg S old_iptr (_art_node_size old) node (some parent_iptr) key
          = some (T, some new_iptr) ∧
        get_node T old_iptr = none ∧
        get_page T old_iptr.ip_blkid = some page1 ∧
        page1.n_deleted = (old_page.n_deleted + 1) % 65536 ∧
        page1.deleted_item_size
          = (old_page.deleted_item_size + _art_node_size old) % 65536 ∧
        new_iptr ≠ old_iptr ∧ get_node S new_iptr = none ∧ get_node T new_iptr = some node ∧
        get_node T parent_iptr = some parent1 ∧
        _art_find_child_equal parent1 key = some new_iptr ∧
        parent1.header? = parent_node.header? ∧ node_keys parent1 = node_keys parent_node ∧
        node_children parent1 = (node_children parent_node).set i new_iptr ∧
        ∀ q, q ≠ old_iptr → q ≠ new_iptr → q ≠ parent_iptr → get_node T q = get_node S q) := by
  constructor
  · intro hroom
    obtain ⟨T, h1, h2, h3⟩ :=
      replace_in_place cfg S old_iptr old node (some parent_iptr) key old_page hold hpage hroom
    exact ⟨T, h1, h2, by rw [h3 _ hne]; exact hparent, h3⟩
  · intro hroom
    exact replace_relocate cfg S old_iptr old node parent_iptr parent_node key old_page htails
      hold hpage hgrow hparent hne hslot hroom

theorem growth_relocation_witness :
    get_node (full_page_index 3 138) ⟨1, 2⟩ = some full_node4 ∧
    (get_page (full_page_index 3 138) 1).map PageGetExactFreeSpace = some 36 ∧
    MAXALIGN (_art_node_size grown_node16 - _art_node_size full_node4) = 88 ∧
    ∃ T new_iptr page1,
      _page_replace_node default_config (full_page_index 3 138) ⟨1, 2⟩
          (_art_node_size full_node4) grown_node16 (some root_iptr) 97
        = some (T, some new_iptr) ∧
      get_node T ⟨1, 2⟩ = none ∧ get_page T 1 = some page1 ∧
      page1.n_deleted = (3 + 1) % 65536 ∧
      page1.deleted_item_size = (138 + _art_node_size full_node4) % 65536 ∧
      get_node T new_iptr = some grown_node16 :=
  ⟨by decide!, by decide!, by decide!,
    let ⟨T, new_iptr, _, page1, _, h1, h2, h3, h4, h5, _, _, h6, _⟩ :=
      (growth_relocation default_config (full_page_index 3 138) ⟨1, 2⟩ full_node4 grown_node16
        root_iptr full_page_root 97 (full_node_page 3 138)
        ⟨by decide!, by decide!⟩ (by decide!) rfl (Or.inl ⟨by decide!, by decide!⟩)
        (by decide!) (by decide!) (by decide!)).2 (by decide!)
    ⟨T, new_iptr, page1, h1, h2, h3, h4, h5, h6⟩⟩

end PgArt
namespace PgArt

/-- C40 — search and insert agree on short prefixes. For every node header whose
`prefix_key_len` is at most `MAX_PREFIX_KEY_LEN` (8), every key and every depth not above the
key length (a length that fits the `int` parameter of `_art_check_prefix`), the insert's
`_art_prefix_mismatch` returns, without consulting any leaf, exactly the value of the search's
`_art_check_prefix`. -/
theorem check_prefix_eq_prefix_mismatch (S : ArtIndex) (h : ArtNodeHeader) (node : ArtNode)
    (key : List Nat) (key_len depth : Nat)
    (hp : h.prefix_key_len ≤ MAX_PREFIX_KEY_LEN) (hd : depth ≤ key_len)
    (hk : key_len < 2147483648) :
    _art_prefix_mismatch S h node key key_len depth
      = some ( _art_check_prefix h key key_len depth) := by
  unfold _art_prefix_mismatch _art_check_prefix
  rw [sub_u32_of_le key_len depth hd (by omega), Nat.min_comm MAX_PREFIX_KEY_LEN]
  simp only
  split_ifs with h1 h2
  · rfl
  · omega
  · rfl

/-- Instance of C40: a three-byte prefix compared with a key that differs at its second byte. -/
theorem check_prefix_eq_prefix_mismatch_witness :
    _art_prefix_mismatch empty_index
        { zero_header with prefix_key_len := 3, prefix_bytes := [1, 2, 3, 0, 0, 0, 0, 0] }
        alloc_node4 [9, 1, 7, 3, 4] 5 1
      = some ( _art_check_prefix
        { zero_header with prefix_key_len := 3, prefix_bytes := [1, 2, 3, 0, 0, 0, 0, 0] }
        [9, 1, 7, 3, 4] 5 1) :=
  check_prefix_eq_prefix_mismatch empty_index _ alloc_node4 [9, 1, 7, 3, 4] 5 1
    (by decide) (by decide) (by decide)

end PgArt
namespace PgArt

theorem add_child_field (node : ArtNode) (k : Nat) (c : ItemPointerData)
    (hw : well_formed node) (r : ArtNode) (hr : add_child_result node k c = some r) :
    num_children_field r = (num_children_field node + 1) % 256 := by
  cases node with
  | leaf l => exact absurd hw id
  | node4 h keys children =>
    have hle : h.num_children ≤ 4 := hw.2.2.1
    unfold add_child_result _add_child _add_child_node4 at hr
    by_cases hlt : h.num_children < 4
    · simp only [hlt, if_true, Option.map_some', Option.getD_none, Option.some.injEq] at hr
      subst hr; rfl
    · have h16 : h.num_children < 16 := by omega
      simp only [hlt, if_false, Option.map_some', Option.getD_some, Option.some.injEq] at hr
      subst hr
      unfold _add_child_node16 _art_copy_header
      simp only [h16, if_true]
      rfl
  | node16 h keys children =>
    have hle : h.num_children ≤ 16 := hw.2.2.1
    unfold add_child_result _add_child _add_child_node16 at hr
    by_cases hlt : h.num_children < 16
    · simp only [hlt, if_true, Option.map_some', Option.getD_none, Option.some.injEq] at hr
      subst hr; rfl
    · have h48 : h.num_children < 48 := by omega
      simp only [hlt, if_false, Option.map_some', Option.getD_some, Option.some.injEq] at hr
      subst hr
      unfold _add_child_node48 _art_copy_header
      simp only [h48, if_true]
      rfl
  | node48 h keys children =>
    unfold add_child_result _add_child _add_child_node48 at hr
    by_cases hlt : h.num_children < 48
    · simp only [hlt, if_true, Option.map_some', Option.getD_none, Option.some.injEq] at hr
      subst hr; rfl
    · simp only [hlt, if_false, Option.map_some', Option.getD_some, Option.some.injEq] at hr
      subst hr
      rfl
  | node256 h children =>
    unfold add_child_result _add_child at hr
    simp only [Option.map_some', Option.getD_none, Option.some.injEq] at hr
    subst hr; rfl

/-- Successive `_add_child` calls on a well-formed node whose stored count is its number of
children modulo 256 keep that relation. -/
theorem add_children_count (start : ArtNode) (hw0 : well_formed start)
    (hc0 : num_children_field start = children_held start % 256)
    (L : List (Nat × ItemPointerData))
    (hnd : (L.map Prod.fst).Nodup)
    (hb : ∀ p ∈ L, p.1 < 256 ∧ ItemPointerIsValid p.2 = true)
    (hf0 : ∀ p ∈ L, _art_find_child_equal start p.1 = none) :
    ∃ r, add_children start L = some r ∧ well_formed r ∧
      children_held r = children_held start + L.length ∧
      num_children_field r = children_held r % 256 ∧
      (∀ k, _art_find_child_equal start k = none → k ∉ L.map Prod.fst →
        _art_find_child_equal r k = none) := by
  induction L using List.reverseRecOn with
  | nil => exact ⟨start, rfl, hw0, rfl, hc0, fun k hk _ => hk⟩
  | append_singleton L p ih =>
    rw [List.map_append, List.nodup_append] at hnd
    obtain ⟨h1, _, h3⟩ := hnd
    obtain ⟨r, hres, hw, hheld, hcnt, hfresh⟩ :=
      ih h1 (fun q hq => hb q (List.mem_append_left _ hq))
        (fun q hq => hf0 q (List.mem_append_left _ hq))
    have hp := hb p (List.mem_append_right _ (by simp))
    have hpf : p.1 ∉ L.map Prod.fst := fun hm => h3 hm (by simp)
    have hp0 := hf0 p (List.mem_append_right _ (by simp))
    obtain ⟨r', hres', ⟨hw', hfk, hfo, hheld', hty'⟩, _⟩ :=
      add_child_spec r p.1 p.2 hw hp.1 (hfresh _ hp0 hpf) hp.2
    refine ⟨r', ?_, hw', ?_, ?_, ?_⟩
    · rw [add_children_snoc, hres]; exact hres'
    · rw [hheld', hheld, List.length_append, List.length_singleton]; omega
    · rw [add_child_field r p.1 p.2 hw r' hres', hcnt, hheld']; omega
    · intro k hk0 hk
      rw [List.map_append, List.mem_append] at hk
      have hne : k ≠ p.1 := fun e => hk (Or.inr (by simp [e]))
      rw [hfo k hne]
      exact hfresh k hk0 (fun hm => hk (Or.inl hm))

theorem wf_alloc_node256 : well_formed alloc_node256 := List.length_replicate _ _

theorem find_alloc_node256 (k : Nat) : _art_find_child_equal alloc_node256 k = none := by
  have : (List.replicate 256 zero_iptr).getD k zero_iptr = zero_iptr := by
    rw [List.getD_eq_getElem?_getD, List.getElem?_replicate]
    split_ifs <;> rfl
  show (if ItemPointerIsValid ((List.replicate 256 zero_iptr).getD k zero_iptr) = true
    then some ((List.replicate 256 zero_iptr).getD k zero_iptr) else none) = none
  rw [this]; rfl


theorem held_alloc_node256 : children_held alloc_node256 = 0 := by
  unfold alloc_node256 children_held
  rw [List.countP_eq_zero]
  intro a ha
  rw [List.eq_of_mem_replicate ha]
  decide

/-- C38, amended — the stored child count is the number of children modulo 256. For every
sequence of `_add_child` calls with distinct key bytes and valid child references, applied to
an empty `Node4` (replaced by the grown node whenever one is returned) or to an empty
`Node256`, the resulting node holds as many children as there were calls and the
`num_children` field of its header, a `uint8`, is that number modulo 256: the number itself
while the node holds at most 255 children, and 0 when it holds all 256. -/
theorem stored_child_count (start : ArtNode)
    (hs : start = alloc_node4 ∨ start = alloc_node256)
    (L : List (Nat × ItemPointerData))
    (hnd : (L.map Prod.fst).Nodup)
    (hb : ∀ p ∈ L, p.1 < 256 ∧ ItemPointerIsValid p.2 = true) :
    ∃ r, add_children start L = some r ∧ children_held r = L.length ∧
      num_children_field r = children_held r % 256 ∧
      (L.length ≤ 255 → num_children_field r = children_held r) ∧
      (L.length = 256 → num_children_field r = 0) := by
  have key : ∃ r, add_children start L = some r ∧ children_held r = L.length ∧
      num_children_field r = children_held r % 256 := by
    rcases hs with rfl | rfl
    · obtain ⟨r, h1, _, h3, h4, _⟩ := add_children_count alloc_node4 wf_alloc_node4 rfl L hnd hb
        (fun p _ => find_alloc_node4 p.1)
      exact ⟨r, h1, by rw [h3]; exact Nat.zero_add _, h4⟩
    · obtain ⟨r, h1, _, h3, h4, _⟩ := add_children_count alloc_node256 wf_alloc_node256
        (by rw [held_alloc_node256]; rfl) L hnd hb (fun p _ => find_alloc_node256 p.1)
      exact ⟨r, h1, by rw [h3, held_alloc_node256]; exact Nat.zero_add _, h4⟩
  obtain ⟨r, h1, h2, h3⟩ := key
  refine ⟨r, h1, h2, h3, ?_, ?_⟩
  · intro hl; rw [h3, h2]; exact Nat.mod_eq_of_lt (by omega)
  · intro hl; rw [h3, h2, hl]

/-- Instance of C38 (amended): five children added to an empty `Node4`. -/
theorem stored_child_count_witness :
    ∃ r, add_children alloc_node4
        [(5, ⟨7, 1⟩), (1, ⟨7, 2⟩), (9, ⟨7, 3⟩), (3, ⟨7, 4⟩), (7, ⟨7, 5⟩)] = some r ∧
      children_held r = 5 ∧
      num_children_field r = children_held r % 256 ∧
      ((5 : Nat) ≤ 255 → num_children_field r = children_held r) ∧
      ((5 : Nat) = 256 → num_children_field r = 0) :=
  stored_child_count alloc_node4 (Or.inl rfl)
    [(5, ⟨7, 1⟩), (1, ⟨7, 2⟩), (9, ⟨7, 3⟩), (3, ⟨7, 4⟩), (7, ⟨7, 5⟩)] (by decide) (by decide)

/-- C38, counterexample — all 256 key bytes added to an empty `Node4`: the node is a `Node256`
that holds 256 children while its `num_children` field, a `uint8`, reads 0. -/
theorem full_node256_count_wraps :
    ∃ r, add_children alloc_node4 all_bytes_children = some r ∧ node_type r = 4 ∧
      children_held r = 256 ∧ (node_pairs r).length = 256 ∧ num_children_field r = 0 := by
  decide!

end PgArt
namespace PgArt

theorem cmp_order_nonneg (a b : ArtQueueItemPointer) :
    0 ≤ _art_find_cmp_order a b ↔ a.iptr.ip_blkid ≤ b.iptr.ip_blkid := by
  unfold _art_find_cmp_order
  split_ifs with h1 h2
  · simp [h1]
  · simp; omega
  · simp; omega

theorem cmp_order_neg (a b : ArtQueueItemPointer) :
    _art_find_cmp_order a b < 0 ↔ b.iptr.ip_blkid < a.iptr.ip_blkid := by
  unfold _art_find_cmp_order
  split_ifs with h1 h2
  · simp [h1]
  · simp; omega
  · simp; omega

theorem ph_elems_mk {α : Type} (v : α) (cs : List (PHNode α)) :
    ph_elems (.mk v cs) = v :: ph_elems_list cs := by
  rw [ph_elems]

theorem ph_elems_list_cons {α : Type} (c : PHNode α) (cs : List (PHNode α)) :
    ph_elems_list (c :: cs) = ph_elems c ++ ph_elems_list cs := by
  rw [ph_elems_list]

theorem ph_elems_list_nil {α : Type} : ph_elems_list ([] : List (PHNode α)) = [] := by
  rw [ph_elems_list]

theorem ph_ordered_mk {α : Type} (cmp : α → α → Int) (v : α) (cs : List (PHNode α)) :
    ph_ordered cmp (.mk v cs) ↔ ph_ordered_list cmp v cs := by
  rw [ph_ordered]

theorem ph_ordered_list_cons {α : Type} (cmp : α → α → Int) (v : α) (c : PHNode α)
    (cs : List (PHNode α)) :
    ph_ordered_list cmp v (c :: cs)
      ↔ 0 ≤ cmp v c.val ∧ ph_ordered cmp c ∧ ph_ordered_list cmp v cs := by
  rw [ph_ordered_list]

theorem ph_ordered_list_nil {α : Type} (cmp : α → α → Int) (v : α) :
    ph_ordered_list cmp v [] := by
  rw [ph_ordered_list]; trivial

theorem ph_elems_eq {α : Type} (r : PHNode α) : ph_elems r = r.val :: ph_elems_list r.children := by
  cases r with
  | mk v cs => exact ph_elems_mk v cs

theorem ph_ordered_eq {α : Type} (cmp : α → α → Int) (r : PHNode α) :
    ph_ordered cmp r ↔ ph_ordered_list cmp r.val r.children := by
  cases r with
  | mk v cs => exact ph_ordered_mk cmp v cs

/-- Every child heap of an ordered node is ordered. -/
theorem ordered_children {α : Type} (cmp : α → α → Int) (v : α) :
    ∀ cs : List (PHNode α), ph_ordered_list cmp v cs → ∀ c ∈ cs, ph_ordered cmp c
  | [], _, c, hc => absurd hc (List.not_mem_nil c)
  | d :: ds, h, c, hc => by
      rw [ph_ordered_list_cons] at h
      rcases List.mem_cons.1 hc with rfl | hm
      · exact h.2.1
      · exact ordered_children cmp v ds h.2.2 c hm

/-- The root of an ordered heap holds the smallest block number of the heap. -/
theorem root_smallest_block : ∀ (n : Nat) (r : PHNode ArtQueueItemPointer), sizeOf r ≤ n →
    ph_ordered _art_find_cmp_order r →
    ∀ y ∈ ph_elems r, r.val.iptr.ip_blkid ≤ y.iptr.ip_blkid
  | 0, .mk v cs, hn, _ => by simp at hn
  | n + 1, .mk v cs, hn, h => by
      rw [ph_ordered_mk] at h
      intro y hy
      rw [ph_elems_mk] at hy
      rcases List.mem_cons.1 hy with rfl | hm
      · exact Nat.le_refl _
      · show v.iptr.ip_blkid ≤ y.iptr.ip_blkid
        have hsz : sizeOf cs ≤ n := by simp at hn; omega
        clear hn hy
        induction cs with
        | nil => rw [ph_elems_list_nil] at hm; exact absurd hm (List.not_mem_nil y)
        | cons c cs ih =>
          rw [ph_ordered_list_cons] at h
          rw [ph_elems_list_cons] at hm
          simp only [List.cons.sizeOf_spec] at hsz
          rcases List.mem_append.1 hm with h1 | h2
          · have := root_smallest_block n c (by omega) h.2.1 y h1
            have h0 := (cmp_order_nonneg v c.val).1 h.1
            omega
          · exact ih h.2.2 h2 (by omega)

theorem ordered_merge (a b : PHNode ArtQueueItemPointer)
    (ha : ph_ordered _art_find_cmp_order a) (hb : ph_ordered _art_find_cmp_order b) :
    ph_ordered _art_find_cmp_order (ph_merge _art_find_cmp_order a b) := by
  unfold ph_merge
  split_ifs with h
  · rw [ph_ordered_mk, ph_ordered_list_cons]
    refine ⟨?_, ha, (ph_ordered_eq _ b).1 hb⟩
    rw [cmp_order_nonneg]; rw [cmp_order_neg] at h; omega
  · rw [ph_ordered_mk, ph_ordered_list_cons]
    exact ⟨by omega, hb, (ph_ordered_eq _ a).1 ha⟩

theorem elems_merge {α : Type} (cmp : α → α → Int) (a b : PHNode α) :
    (ph_elems (ph_merge cmp a b)).Perm (ph_elems a ++ ph_elems b) := by
  unfold ph_merge
  split_ifs with h
  · rw [ph_elems_mk, ph_elems_list_cons, ph_elems_eq b]
    refine (List.Perm.cons _ List.perm_append_comm).trans ?_
    rw [← List.cons_append]
    exact List.perm_append_comm
  · rw [ph_elems_mk, ph_elems_list_cons, ph_elems_eq a]
    refine (List.Perm.cons _ List.perm_append_comm).trans ?_
    rfl

theorem ordered_pair_up : ∀ (cs pairs : List (PHNode ArtQueueItemPointer)),
    (∀ c ∈ cs, ph_ordered _art_find_cmp_order c) →
    (∀ c ∈ pairs, ph_ordered _art_find_cmp_order c) →
    ∀ c ∈ ph_pair_up _art_find_cmp_order cs pairs, ph_ordered _art_find_cmp_order c
  | [], pairs, _, hp => by unfold ph_pair_up; exact hp
  | [c], pairs, hc, hp => by
      unfold ph_pair_up
      intro d hd
      rcases List.mem_cons.1 hd with rfl | hm
      · exact hc _ (by simp)
      · exact hp d hm
  | c1 :: c2 :: rest, pairs, hc, hp => by
      unfold ph_pair_up
      refine ordered_pair_up rest _ (fun c hm => hc c (by simp [hm])) ?_
      intro d hd
      rcases List.mem_cons.1 hd with rfl | hm
      · exact ordered_merge c1 c2 (hc _ (by simp)) (hc _ (by simp))
      · exact hp d hm

theorem elems_pair_up {α : Type} (cmp : α → α → Int) : ∀ (cs pairs : List (PHNode α)),
    (ph_elems_list (ph_pair_up cmp cs pairs)).Perm (ph_elems_list cs ++ ph_elems_list pairs)
  | [], pairs => by unfold ph_pair_up; rw [ph_elems_list_nil]; rfl
  | [c], pairs => by
      unfold ph_pair_up
      rw [ph_elems_list_cons, ph_elems_list_cons, ph_elems_list_nil, List.append_nil]
  | c1 :: c2 :: rest, pairs => by
      unfold ph_pair_up
      refine (elems_pair_up cmp rest _).trans ?_
      rw [ph_elems_list_cons, ph_elems_list_cons, ph_elems_list_cons]
      have h := elems_merge cmp c1 c2
      have h2 : (ph_elems_list rest ++ (ph_elems (ph_merge cmp c1 c2) ++ ph_elems_list pairs)).Perm
          (ph_elems_list rest ++ ((ph_elems c1 ++ ph_elems c2) ++ ph_elems_list pairs)) :=
        List.Perm.append_left _ (List.Perm.append_right _ h)
      refine h2.trans ?_
      have h3 : (ph_elems_list rest ++ (ph_elems c1 ++ ph_elems c2)).Perm
          ((ph_elems c1 ++ ph_elems c2) ++ ph_elems_list rest) := List.perm_append_comm
      have h4 := h3.append_right (ph_elems_list pairs)
      simp only [List.append_assoc] at h4 ⊢
      exact h4

theorem ordered_foldl : ∀ (ps : List (PHNode ArtQueueItemPointer))
    (p : PHNode ArtQueueItemPointer), ph_ordered _art_find_cmp_order p →
    (∀ c ∈ ps, ph_ordered _art_find_cmp_order c) →
    ph_ordered _art_find_cmp_order
      (ps.foldl (fun newroot curr => ph_merge _art_find_cmp_order newroot curr) p)
  | [], p, hp, _ => hp
  | c :: ps, p, hp, hc => by
      rw [List.foldl_cons]
      exact ordered_foldl ps _ (ordered_merge p c hp (hc c (by simp)))
        (fun d hd => hc d (by simp [hd]))

theorem elems_foldl {α : Type} (cmp : α → α → Int) : ∀ (ps : List (PHNode α)) (p : PHNode α),
    (ph_elems (ps.foldl (fun newroot curr => ph_merge cmp newroot curr) p)).Perm
      (ph_elems p ++ ph_elems_list ps)
  | [], p => by rw [List.foldl_nil, ph_elems_list_nil, List.append_nil]
  | c :: ps, p => by
      rw [List.foldl_cons, ph_elems_list_cons, ← List.append_assoc]
      exact (elems_foldl cmp ps _).trans (List.Perm.append_right _ (elems_merge cmp p c))

/-- The heap left by `merge_children` is ordered and holds the values of the children. -/
theorem merge_children_spec (cs : List (PHNode ArtQueueItemPointer))
    (hc : ∀ c ∈ cs, ph_ordered _art_find_cmp_order c) :
    (∀ r, ph_merge_children _art_find_cmp_order cs = some r →
      ph_ordered _art_find_cmp_order r) ∧
    (queue_elems (ph_merge_children _art_find_cmp_order cs)).Perm (ph_elems_list cs) := by
  have ho := ordered_pair_up cs [] hc (fun c hm => absurd hm (List.not_mem_nil c))
  have he := elems_pair_up _art_find_cmp_order cs []
  rw [ph_elems_list_nil, List.append_nil] at he
  unfold ph_merge_children
  cases hpu : ph_pair_up _art_find_cmp_order cs [] with
  | nil =>
    rw [hpu, ph_elems_list_nil] at he
    refine ⟨?_, ?_⟩
    · intro r hr; cases hr
    · show List.Perm [] _
      exact he
  | cons p ps =>
    rw [hpu] at ho he
    refine ⟨fun r hr => ?_, ?_⟩
    · cases hr
      exact ordered_foldl ps p (ho p (by simp)) (fun d hd => ho d (by simp [hd]))
    · show (ph_elems _).Perm _
      refine (elems_foldl _ ps p).trans ?_
      rw [ph_elems_list_cons] at he
      exact he

/-- Every queue reached by adds and removals is an ordered heap. -/
theorem queue_run_ordered (ops : List (Option ArtQueueItemPointer)) :
    ∀ r, queue_run ops = some r → ph_ordered _art_find_cmp_order r := by
  induction ops using List.reverseRecOn with
  | nil => intro r hr; cases hr
  | append_singleton ops op ih =>
    intro r hr
    unfold queue_run at hr ih
    rw [List.foldl_append, List.foldl_cons, List.foldl_nil] at hr
    cases op with
    | some x =>
      cases hq : ops.foldl queue_step none with
      | none =>
        rw [hq] at hr
        cases hr
        rw [ph_ordered_mk]; exact ph_ordered_list_nil _ _
      | some r0 =>
        rw [hq] at hr
        have : r = ph_merge _art_find_cmp_order r0 (.mk x []) := by
          cases hr; rfl
        rw [this]
        exact ordered_merge r0 _ (ih r0 hq)
          (by rw [ph_ordered_mk]; exact ph_ordered_list_nil _ _)
    | none =>
      cases hq : ops.foldl queue_step none with
      | none => rw [hq] at hr; cases hr
      | some r0 =>
        rw [hq] at hr
        have h0 := (ph_ordered_eq _ r0).1 (ih r0 hq)
        exact (merge_children_spec r0.children
          (ordered_children _ _ _ h0)).1 r hr

/-- C34, counterexample — three leaf references on blocks 3, 2 and 5 are pending: the one
removed first is the one on block 2, the smallest block number, not the one on block 5. -/
theorem first_removed_not_largest_block :
    (pairingheap_remove_first _art_find_cmp_order
        (queue_run [some ⟨⟨3, 1⟩, false⟩, some ⟨⟨2, 1⟩, false⟩, some ⟨⟨5, 1⟩, false⟩])).map
      (fun r => r.1.iptr) = some ⟨2, 1⟩ ∧
    ph_drain _art_find_cmp_order 3
        (queue_run [some ⟨⟨3, 1⟩, false⟩, some ⟨⟨2, 1⟩, false⟩, some ⟨⟨5, 1⟩, false⟩])
      = [⟨⟨2, 1⟩, false⟩, ⟨⟨3, 1⟩, false⟩, ⟨⟨5, 1⟩, false⟩] := by
  constructor <;> decide

/-- C34, amended — pending leaves are fetched by ascending block identity. For every result
queue reached from the empty queue by additions of leaf references and removals of the first
element, the element removed next holds the smallest block number among the pending
references; it is the one the comparator `_art_find_cmp_order` ranks highest (the comparator
is not negative against any pending reference, and it ranks the smaller block number higher);
and the removal takes exactly that element out of the pending ones. -/
theorem first_removed_smallest_block (ops : List (Option ArtQueueItemPointer))
    (x : ArtQueueItemPointer) (rest : Option (PHNode ArtQueueItemPointer))
    (h : pairingheap_remove_first _art_find_cmp_order (queue_run ops) = some (x, rest)) :
    (∀ y ∈ queue_elems (queue_run ops),
      x.iptr.ip_blkid ≤ y.iptr.ip_blkid ∧ 0 ≤ _art_find_cmp_order x y) ∧
    (queue_elems (queue_run ops)).Perm (x :: queue_elems rest) := by
  cases hq : queue_run ops with
  | none => rw [hq] at h; cases h
  | some r =>
    rw [hq] at h
    have ho := queue_run_ordered ops r hq
    have hx : x = r.val := by cases h; rfl
    have hr : rest = ph_merge_children _art_find_cmp_order r.children := by cases h; rfl
    refine ⟨fun y hy => ?_, ?_⟩
    · have := root_smallest_block _ r (Nat.le_refl _) ho y hy
      rw [hx]
      exact ⟨this, (cmp_order_nonneg _ _).2 this⟩
    · show (ph_elems r).Perm _
      rw [ph_elems_eq, hx, hr]
      exact List.Perm.cons _ (merge_children_spec r.children
        (ordered_children _ _ _ ((ph_ordered_eq _ r).1 ho))).2.symm

/-- Instance of C34 (amended): references on blocks 3, 2 and 5 are added, the first is
removed (block 2), a reference on block 1 is added; the next removal yields block 1. -/
theorem first_removed_smallest_block_witness :
    ∃ x rest,
      pairingheap_remove_first _art_find_cmp_order
        (queue_run [some ⟨⟨3, 1⟩, false⟩, some ⟨⟨2, 1⟩, false⟩, some ⟨⟨5, 1⟩, false⟩, none,
          some ⟨⟨1, 4⟩, false⟩]) = some (x, rest) ∧
      x.iptr = ⟨1, 4⟩ ∧
      (∀ y ∈ queue_elems (queue_run [some ⟨⟨3, 1⟩, false⟩, some ⟨⟨2, 1⟩, false⟩,
          some ⟨⟨5, 1⟩, false⟩, none, some ⟨⟨1, 4⟩, false⟩]),
        x.iptr.ip_blkid ≤ y.iptr.ip_blkid ∧ 0 ≤ _art_find_cmp_order x y) ∧
      (queue_elems (queue_run [some ⟨⟨3, 1⟩, false⟩, some ⟨⟨2, 1⟩, false⟩,
          some ⟨⟨5, 1⟩, false⟩, none, some ⟨⟨1, 4⟩, false⟩])).Perm (x :: queue_elems rest) :=
  ⟨_, _, rfl, rfl,
    first_removed_smallest_block [some ⟨⟨3, 1⟩, false⟩, some ⟨⟨2, 1⟩, false⟩,
      some ⟨⟨5, 1⟩, false⟩, none, some ⟨⟨1, 4⟩, false⟩] _ _ rfl⟩

end PgArt
namespace PgArt

/-- C35 — a rewrite that leaves its page clean. In the index holding `xa`, `xb`, `xc`, `xd`
the insert of `xe` finds the `Node4` at (1,2) full and replaces it in place by a `Node16`:
the item at (1,2) differs from the one the page entry was loaded with, and the entry of
block 1 still has its dirty flag clear when the insert returns, while the entry of the leaf
page, block 2, is dirty. Likewise `_update_child_node_parent_iptr` rewrites the parent
reference of the leaf at (2,1) and leaves the entry of block 2 clean. -/
theorem in_place_growth_leaves_page_clean :
    (get_node (fresh_entries four_key_index) ⟨1, 2⟩).map node_type = some 1 ∧
    (get_node five_key_index ⟨1, 2⟩).map node_type = some 2 ∧
    item_differs (fresh_entries four_key_index) five_key_index ⟨1, 2⟩ = true ∧
    page_dirty five_key_index 1 = some false ∧
    page_dirty five_key_index 2 = some true ∧
    item_differs (fresh_entries four_key_index)
      (_update_child_node_parent_iptr default_config (fresh_entries four_key_index)
        ⟨2, 1⟩ ⟨1, 7⟩) ⟨2, 1⟩ = true ∧
    page_dirty (_update_child_node_parent_iptr default_config (fresh_entries four_key_index)
        ⟨2, 1⟩ ⟨1, 7⟩) 2 = some false := by
  refine ⟨?_, ?_, ?_, ?_, ?_, ?_, ?_⟩ <;> decide!

end PgArt
namespace PgArt

/-- C33 — parent references that designate the wrong node, with `update_parent_iptr` on.
(1) After the inserts of `xa` and `xb` the leaf split has put both leaves below the new
`Node4` at (1,2), but the old leaf (2,1) still carries the root's address (1,1): only the new
leaf's reference is refreshed. (2) After the inserts of `xa` .. `xe` the `Node16` that
replaced the `Node4` at (1,2) in place carries the zero reference (0,0), not the root's
address: `_art_copy_header` copies the parent reference in the wrong direction. (3) After the
inserts of `01 .. 0c 0d`, `01 .. 0c 0e` and `01 02 03 63` the prefix split has put the new
`Node4` at (1,3) between the root and the old node (1,2): the new node carries the old node's
address (1,2) instead of the root's, and the old node still carries the root's address
instead of (1,3). -/
theorem parent_references_stale :
    default_config.update_parent_iptr = true ∧
    (insert_all default_config empty_index
        [_art_form_key_varlena [120, 97] ⟨0, 1⟩, _art_form_key_varlena [120, 98] ⟨0, 2⟩]).map
      stale_parent_refs = some [(⟨1, 2⟩, 97, ⟨2, 1⟩, ⟨1, 1⟩)] ∧
    stale_parent_refs five_key_index
      = [(⟨1, 1⟩, 120, ⟨1, 2⟩, ⟨0, 0⟩), (⟨1, 2⟩, 97, ⟨2, 1⟩, ⟨1, 1⟩)] ∧
    (artinsert default_config two_key_index (_art_form_key_varlena [1, 2, 3, 99] ⟨0, 3⟩)).map
      stale_parent_refs
      = some [(⟨1, 1⟩, 1, ⟨1, 3⟩, ⟨1, 2⟩), (⟨1, 2⟩, 13, ⟨2, 1⟩, ⟨1, 1⟩),
              (⟨1, 3⟩, 4, ⟨1, 2⟩, ⟨1, 1⟩)] := by
  refine ⟨rfl, ?_, ?_, ?_⟩ <;> decide!

end PgArt
namespace PgArt

/-- C37 — `artrescan` does not restart a scan that has fetched. `artrescan` leaves the
`fetching` flag and the result queue as they are, so the next `artgettuple` skips the search.
On the index holding `xa`, `xb`, `xc`, `xd` with the locators (0,1) .. (0,4): a fresh scan for
`= xb` returns (0,2); a scan for `= xa` that has returned (0,1) and is then rescanned for
`= xb` returns false, although `xb` is stored; a scan for `>= xa` that has returned (0,1) and
is then rescanned for `= z`, a key that is not stored, returns (0,2), a locator left over from
the previous search. -/
theorem rescan_keeps_previous_search :
    (∀ (scan : IndexScanDesc) (scankey : Option ScanKeyData),
      (artrescan scan scankey).so.fetching = scan.so.fetching ∧
      queue_elems (artrescan scan scankey).so.leaf_list_queue
        = queue_elems scan.so.leaf_list_queue) ∧
    gettuple_result (artgettuple four_key_index
        (artrescan (artbeginscan default) (some ⟨BTEqualStrategyNumber, [120, 98, 0]⟩)))
      = some (some ⟨0, 2⟩) ∧
    gettuple_result (artgettuple four_key_index
        (artrescan (artbeginscan default) (some ⟨BTEqualStrategyNumber, [120, 97, 0]⟩)))
      = some (some ⟨0, 1⟩) ∧
    gettuple_result
        ((artgettuple four_key_index
            (artrescan (artbeginscan default)
              (some ⟨BTEqualStrategyNumber, [120, 97, 0]⟩))).bind
          (fun r => artgettuple four_key_index
            (artrescan r.1 (some ⟨BTEqualStrategyNumber, [120, 98, 0]⟩))))
      = some none ∧
    gettuple_result (artgettuple four_key_index
        (artrescan (artbeginscan default) (some ⟨BTEqualStrategyNumber, [122, 0]⟩)))
      = some none ∧
    gettuple_result
        ((artgettuple four_key_index
            (artrescan (artbeginscan default)
              (some ⟨BTGreaterEqualStrategyNumber, [120, 97, 0]⟩))).bind
          (fun r => artgettuple four_key_index
            (artrescan r.1 (some ⟨BTEqualStrategyNumber, [122, 0]⟩))))
      = some (some ⟨0, 2⟩) := by
  refine ⟨fun scan scankey => ⟨rfl, rfl⟩, ?_, ?_, ?_, ?_, ?_⟩ <;> decide!

end PgArt
namespace PgArt

theorem compare_key_eq_zero (a b : Nat) : _art_compare_key a b = 0 ↔ a = b := by
  unfold _art_compare_key; omega

/-- An item that the `NODE_4` / `NODE_16` loop of `_art_find_child_range` tags as exact comes
from a pair whose key byte equals the search byte. -/
theorem small_range_exact_slot (key skStrategy : Nat) (compare : Bool) :
    ∀ (L : List (Nat × ItemPointerData)) (item : ArtQueueItemPointer),
      item ∈ find_child_range_small key skStrategy compare L → item.compare = true →
      (key, item.iptr) ∈ L
  | [], item, h, _ => by
      unfold find_child_range_small at h
      exact absurd h (List.not_mem_nil item)
  | (ck, c) :: rest, item, h, hf => by
      have ih := small_range_exact_slot key skStrategy compare rest item
      unfold find_child_range_small at h
      by_cases hc : compare = true
      · subst hc
        simp only [Bool.not_true, Bool.false_eq_true, if_false] at h
        split_ifs at h with h1 h2 h3 h4 h5 h6
        · rcases List.mem_cons.1 h with rfl | hm
          · cases hf
          · exact List.mem_cons_of_mem _ (ih hm hf)
        · rcases List.mem_cons.1 h with rfl | hm
          · rw [(compare_key_eq_zero ck key).1 h3]; exact List.mem_cons_self _ _
          · exact List.mem_cons_of_mem _ (ih hm hf)
        · exact absurd h (List.not_mem_nil item)
        · rcases List.mem_cons.1 h with rfl | hm
          · cases hf
          · exact List.mem_cons_of_mem _ (ih hm hf)
        · rcases List.mem_cons.1 h with rfl | hm
          · rw [(compare_key_eq_zero ck key).1 h6]; exact List.mem_cons_self _ _
          · exact List.mem_cons_of_mem _ (ih hm hf)
        · exact absurd h (List.not_mem_nil item)
        · exact List.mem_cons_of_mem _ (ih h hf)
      · have hc' : compare = false := by cases compare <;> simp_all
        subst hc'
        simp only [Bool.not_false, if_true] at h
        rcases List.mem_cons.1 h with rfl | hm
        · cases hf
        · exact List.mem_cons_of_mem _ (ih hm hf)

/-- An item that `_art_find_child_range` tags as exact comes from a child slot whose key
byte is the search byte. -/
theorem range_exact_slot (node : ArtNode) (key skStrategy : Nat) (compare : Bool)
    (item : ArtQueueItemPointer)
    (h : item ∈ _art_find_child_range node key skStrategy compare)
    (hf : item.compare = true) : (key, item.iptr) ∈ child_slots node := by
  cases node with
  | leaf l => exact absurd h (List.not_mem_nil item)
  | node4 hd keys children => exact small_range_exact_slot key skStrategy compare _ item h hf
  | node16 hd keys children => exact small_range_exact_slot key skStrategy compare _ item h hf
  | node48 hd keys children =>
    unfold _art_find_child_range at h
    simp only [List.mem_map, List.mem_filter] at h
    obtain ⟨s, ⟨hs, hnz⟩, rfl⟩ := h
    have hs1 : s ∈ keys.enum := List.mem_of_mem_drop (List.mem_of_mem_take hs)
    have hk : s.1 = key := by
      by_cases hc : compare = true
      · simp only [hc, if_true, decide_eq_true_eq] at hf; exact hf
      · simp [hc] at hf
    unfold child_slots
    simp only [List.mem_map, List.mem_filter]
    exact ⟨s, ⟨hs1, hnz⟩, by rw [hk]⟩
  | node256 hd children =>
    unfold _art_find_child_range at h
    simp only [List.mem_map, List.mem_filter] at h
    obtain ⟨s, ⟨hs, hv⟩, rfl⟩ := h
    have hs1 : s ∈ children.enum := List.mem_of_mem_drop (List.mem_of_mem_take hs)
    have hk : s.1 = key := by
      by_cases hc : compare = true
      · simp only [hc, if_true, decide_eq_true_eq] at hf; exact hf
      · simp [hc] at hf
    unfold child_slots
    simp only [List.mem_filter]
    refine ⟨?_, hv⟩
    rw [← hk]; exact hs1

/-- The path invariant at an internal node fixes, for every leaf directly below it, the key
byte at the index after the node's prefix to the key byte of the leaf's slot. -/
theorem path_inv_leaf_byte (S : ArtIndex) (fuel : Nat) (node : ArtNode) (h : ArtNodeHeader)
    (depth : Nat) (cs : List (Nat × Nat)) (hh : node.header? = some h)
    (hinv : path_inv S (fuel + 2) node depth cs = true)
    (b : Nat) (c : ItemPointerData) (hs : (b, c) ∈ child_slots node)
    (leaf : ArtNodeLeaf) (hl : get_node S c = some (.leaf leaf)) :
    depth + h.prefix_key_len < leaf.key.length ∧
      leaf.key.getD (depth + h.prefix_key_len) 0 = b := by
  have hall : ∀ kc ∈ child_slots node,
      (match get_node S kc.2 with
        | none => true
        | some child =>
            path_inv S (fuel + 1) child (depth + h.prefix_key_len + 1)
              ((depth + h.prefix_key_len, kc.1) ::
                (cs ++ (List.range (min h.prefix_key_len MAX_PREFIX_KEY_LEN)).map
                  (fun i => (depth + i, h.prefix_bytes.getD i 0))))) = true := by
    cases node with
    | leaf l => cases hh
    | node4 hd keys children =>
      cases hh
      have h1 := hinv
      unfold path_inv at h1
      simp only [ArtNode.header?] at h1
      exact List.all_eq_true.1 h1
    | node16 hd keys children =>
      cases hh
      have h1 := hinv
      unfold path_inv at h1
      simp only [ArtNode.header?] at h1
      exact List.all_eq_true.1 h1
    | node48 hd keys children =>
      cases hh
      have h1 := hinv
      unfold path_inv at h1
      simp only [ArtNode.header?] at h1
      exact List.all_eq_true.1 h1
    | node256 hd children =>
      cases hh
      have h1 := hinv
      unfold path_inv at h1
      simp only [ArtNode.header?] at h1
      exact List.all_eq_true.1 h1
  have h2 := hall (b, c) hs
  simp only [hl] at h2
  unfold path_inv at h2
  simp only [List.all_cons, Bool.and_eq_true, decide_eq_true_eq, beq_iff_eq] at h2
  exact h2.1

/-- C36 — the exact-leaf re-comparison compares equal bytes. Let an internal node with
prefix length `p`, entered by `_art_search` at `depth`, satisfy the leaf-key path invariant,
and let `_art_find_child_range`, called with the search key's byte at `depth + p`, queue a
child with the exact flag set that is a leaf; `_art_search` visits that leaf at depth
`d = depth + p + 1` with `compare` set. Then `leaf.data[d - 1]` equals the search key's byte
`d - 1`, and in a range scan the leaf is admitted exactly when the comparator is `<=` or
`>=`, whatever the other bytes of the two keys are. -/
theorem exact_leaf_recomparison (S : ArtIndex) (fuel : Nat) (node : ArtNode)
    (h : ArtNodeHeader) (depth : Nat) (cs : List (Nat × Nat)) (key : List Nat)
    (skStrategy : Nat) (compare : Bool) (item : ArtQueueItemPointer) (leaf : ArtNodeLeaf)
    (hh : node.header? = some h)
    (hinv : path_inv S (fuel + 2) node depth cs = true)
    (hi : item ∈ _art_find_child_range node (key_at key (depth + h.prefix_key_len))
      skStrategy compare)
    (hf : item.compare = true)
    (hl : get_node S item.iptr = some (.leaf leaf)) :
    leaf_data_at leaf (depth + h.prefix_key_len + 1 - 1)
      = key_at key (depth + h.prefix_key_len + 1 - 1) ∧
    leaf_admitted leaf skStrategy key true true (depth + h.prefix_key_len + 1)
      = decide (skStrategy = BTLessEqualStrategyNumber ∨
          skStrategy = BTGreaterEqualStrategyNumber) := by
  have hs := range_exact_slot node _ skStrategy compare item hi hf
  obtain ⟨hlt, hb⟩ := path_inv_leaf_byte S fuel node h depth cs hh hinv _ _ hs leaf hl
  have hbyte : leaf_data_at leaf (depth + h.prefix_key_len + 1 - 1)
      = key_at key (depth + h.prefix_key_len + 1 - 1) := by
    rw [Nat.add_sub_cancel]
    unfold leaf_data_at
    rw [data_getD_key leaf _ hlt, hb]
  refine ⟨hbyte, ?_⟩
  unfold leaf_admitted
  rw [hbyte]
  have h0 : _art_compare_key (key_at key (depth + h.prefix_key_len + 1 - 1))
      (key_at key (depth + h.prefix_key_len + 1 - 1)) = 0 := (compare_key_eq_zero _ _).2 rfl
  simp only [h0, if_true, Bool.not_true, Bool.false_eq_true, if_false]
  unfold BTLessStrategyNumber BTLessEqualStrategyNumber BTGreaterStrategyNumber
    BTGreaterEqualStrategyNumber
  by_cases h1 : skStrategy = 1
  · subst h1; decide
  · by_cases h2 : skStrategy = 2
    · subst h2; decide
    · by_cases h5 : skStrategy = 5
      · subst h5; decide
      · by_cases h4 : skStrategy = 4
        · subst h4; decide
        · simp [h1, h2, h4, h5]

/-- Instance of C36: in the index holding `xa`, `xb`, `xc`, `xd` the `Node4` at (1,2) is
entered at depth 1; a `<=` scan for `xb` queues the leaf of `xb` at (2,2) with the exact
flag. -/
theorem exact_leaf_recomparison_witness :
    leaf_data_at ⟨⟨1, 2⟩, zero_iptr, zero_iptr, [120, 98, 0], [⟨0, 2⟩]⟩ (1 + 0 + 1 - 1)
      = key_at [120, 98, 0] (1 + 0 + 1 - 1) ∧
    leaf_admitted ⟨⟨1, 2⟩, zero_iptr, zero_iptr, [120, 98, 0], [⟨0, 2⟩]⟩
        BTLessEqualStrategyNumber [120, 98, 0] true true (1 + 0 + 1)
      = decide (BTLessEqualStrategyNumber = BTLessEqualStrategyNumber ∨
          BTLessEqualStrategyNumber = BTGreaterEqualStrategyNumber) :=
  exact_leaf_recomparison four_key_index 0
    (.node4 { parent_iptr := ⟨1, 1⟩, num_children := 4, prefix_key_len := 0,
              prefix_bytes := [0, 0, 0, 0, 0, 0, 0, 0] }
      [97, 98, 99, 100] [⟨2, 1⟩, ⟨2, 2⟩, ⟨2, 3⟩, ⟨2, 4⟩])
    { parent_iptr := ⟨1, 1⟩, num_children := 4, prefix_key_len := 0,
      prefix_bytes := [0, 0, 0, 0, 0, 0, 0, 0] }
    1 [(0, 120)] [120, 98, 0] BTLessEqualStrategyNumber true ⟨⟨2, 2⟩, true⟩
    ⟨⟨1, 2⟩, zero_iptr, zero_iptr, [120, 98, 0], [⟨0, 2⟩]⟩
    rfl (by decide!) (by decide!) rfl (by decide!)

end PgArt
namespace PgArt

/-- C39 — a key-byte read at the key length. The keys of the variable-width values
`01 07^256 01`, `01 07^256 02` and `01 01 07^255 01` (259 bytes each) are not empty and none
is a prefix of another. After the first two inserts the `Node4` below the root has
`prefix_key_len` 0 (256 stored in a `uint8`) and child slots for the bytes 01 and 02. The
insert of the third key reads `key[0]` and `key[1]`, follows the slot 01 to the leaf of the
first key at depth 2, finds the two keys equal from index 2 to their end, so that
`longest_prefix` is 257, and reads `leaf->data[259]` and `new_leaf->data[259]`: index 259 is
the length of both keys. With a common run of 255 bytes instead of 256 every read of the
third insert is below the key length. -/
theorem key_read_at_key_length :
    prefix_free_keys
      [( _art_form_key_varlena (1 :: List.replicate 256 7 ++ [1]) ⟨0, 1⟩).key,
       ( _art_form_key_varlena (1 :: List.replicate 256 7 ++ [2]) ⟨0, 2⟩).key,
       ( _art_form_key_varlena (1 :: 1 :: List.replicate 255 7 ++ [1]) ⟨0, 3⟩).key] = true ∧
    (insert_all default_config empty_index
        [_art_form_key_varlena (1 :: List.replicate 256 7 ++ [1]) ⟨0, 1⟩,
         _art_form_key_varlena (1 :: List.replicate 256 7 ++ [2]) ⟨0, 2⟩]).map
      (fun S => artinsert_key_reads S
        ( _art_form_key_varlena (1 :: 1 :: List.replicate 255 7 ++ [1]) ⟨0, 3⟩))
      = some [(0, 259), (1, 259), (259, 259), (259, 259), (1, 259)] ∧
    (insert_all default_config empty_index
        [_art_form_key_varlena (1 :: List.replicate 255 7 ++ [1]) ⟨0, 1⟩,
         _art_form_key_varlena (1 :: List.replicate 255 7 ++ [2]) ⟨0, 2⟩]).map
      (fun S => artinsert_key_reads S
        ( _art_form_key_varlena (1 :: 1 :: List.replicate 254 7 ++ [1]) ⟨0, 3⟩))
      = some [(0, 258), (1, 258), (1, 258), (0, 258)] := by
  refine ⟨?_, ?_, ?_⟩ <;> decide!

end PgArt
namespace PgArt

/-! ## Leaf chains: the invariant under changes of the store -/

theorem chain_linked_one (nx : ItemPointerData → Option (List Nat × ItemPointerData))
    (key : List Nat) (a : ItemPointerData) :
    chain_linked nx key [a]
      = (match nx a with
         | some (k, n) => k == key && !ItemPointerIsValid n
         | none => false) := rfl

theorem chain_linked_two (nx : ItemPointerData → Option (List Nat × ItemPointerData))
    (key : List Nat) (a b : ItemPointerData) (rest : List ItemPointerData) :
    chain_linked nx key (a :: b :: rest)
      = (match nx a with
         | some (k, n) =>
             k == key && ItemPointerIsValid n && n == b && chain_linked nx key (b :: rest)
         | none => false) := rfl

/-- Every segment of a linked chain designates a leaf with the key of the chain. -/
theorem chain_linked_mem (nx : ItemPointerData → Option (List Nat × ItemPointerData))
    (key : List Nat) : ∀ (segs : List ItemPointerData), chain_linked nx key segs = true →
    ∀ a ∈ segs, ∃ n, nx a = some (key, n)
  | [], h, _, _ => by cases h
  | [a], h, c, hc => by
      rw [chain_linked_one] at h
      rw [List.mem_singleton] at hc
      subst hc
      cases hx : nx c with
      | none => rw [hx] at h; cases h
      | some kn =>
        obtain ⟨k, n⟩ := kn
        rw [hx] at h
        simp only [Bool.and_eq_true, beq_iff_eq] at h
        exact ⟨n, by rw [h.1]⟩
  | a :: b :: rest, h, c, hc => by
      rw [chain_linked_two] at h
      cases hx : nx a with
      | none => rw [hx] at h; cases h
      | some kn =>
        obtain ⟨k, n⟩ := kn
        rw [hx] at h
        simp only [Bool.and_eq_true, beq_iff_eq] at h
        rcases List.mem_cons.1 hc with rfl | hm
        · exact ⟨n, by rw [hx, h.1.1.1]⟩
        · exact chain_linked_mem nx key (b :: rest) h.2 c hm

/-- The final segment of a linked chain has an invalid next reference. -/
theorem chain_linked_final (nx : ItemPointerData → Option (List Nat × ItemPointerData))
    (key : List Nat) : ∀ (pre : List ItemPointerData) (f : ItemPointerData),
    chain_linked nx key (pre ++ [f]) = true →
    ∃ n, nx f = some (key, n) ∧ ItemPointerIsValid n = false
  | [], f, h => by
      rw [List.nil_append, chain_linked_one] at h
      cases hx : nx f with
      | none => rw [hx] at h; cases h
      | some kn =>
        obtain ⟨k, n⟩ := kn
        rw [hx] at h
        simp only [Bool.and_eq_true, beq_iff_eq, Bool.not_eq_true'] at h
        exact ⟨n, by rw [h.1], h.2⟩
  | [a], f, h => by
      rw [List.singleton_append, chain_linked_two] at h
      cases hx : nx a with
      | none => rw [hx] at h; cases h
      | some kn =>
        rw [hx] at h
        simp only [Bool.and_eq_true] at h
        exact chain_linked_final nx key [] f h.2
  | a :: b :: pre, f, h => by
      rw [List.cons_append, List.cons_append, chain_linked_two] at h
      cases hx : nx a with
      | none => rw [hx] at h; cases h
      | some kn =>
        rw [hx] at h
        simp only [Bool.and_eq_true] at h
        exact chain_linked_final nx key (b :: pre) f h.2

/-- A linked chain stays linked when the views of all segments but the final one are kept
and the final segment keeps the key and an invalid next reference. -/
theorem chain_linked_keep (nx nx1 : ItemPointerData → Option (List Nat × ItemPointerData))
    (key : List Nat) (f z : ItemPointerData)
    (hf : nx1 f = some (key, z)) (hz : ItemPointerIsValid z = false) :
    ∀ (pre : List ItemPointerData), (∀ a ∈ pre, nx1 a = nx a) →
    chain_linked nx key (pre ++ [f]) = true → chain_linked nx1 key (pre ++ [f]) = true
  | [], _, _ => by
      rw [List.nil_append, chain_linked_one, hf]
      simp [hz]
  | [a], hp, h => by
      rw [List.singleton_append, chain_linked_two] at h ⊢
      rw [hp a (by simp)]
      cases hx : nx a with
      | none => rw [hx] at h; cases h
      | some kn =>
        rw [hx] at h
        simp only [Bool.and_eq_true] at h ⊢
        exact ⟨h.1, chain_linked_keep nx nx1 key f z hf hz [] (fun _ hm => by cases hm) h.2⟩
  | a :: b :: pre, hp, h => by
      rw [List.cons_append, List.cons_append, chain_linked_two] at h ⊢
      rw [hp a (by simp)]
      cases hx : nx a with
      | none => rw [hx] at h; cases h
      | some kn =>
        rw [hx] at h
        simp only [Bool.and_eq_true] at h ⊢
        exact ⟨h.1, chain_linked_keep nx nx1 key f z hf hz (b :: pre)
          (fun c hc => hp c (List.mem_cons_of_mem _ hc)) h.2⟩

/-- A linked chain extended by a new final segment `n`: the views of all segments but the
old final one `f` are kept, `f` now refers to `n`, and `n` is a leaf with the key and an
invalid next reference. -/
theorem chain_linked_extend (nx nx1 : ItemPointerData → Option (List Nat × ItemPointerData))
    (key : List Nat) (f n z : ItemPointerData)
    (hf : nx1 f = some (key, n)) (hv : ItemPointerIsValid n = true)
    (hn : nx1 n = some (key, z)) (hz : ItemPointerIsValid z = false) :
    ∀ (pre : List ItemPointerData), (∀ a ∈ pre, nx1 a = nx a) →
    chain_linked nx key (pre ++ [f]) = true → chain_linked nx1 key (pre ++ [f] ++ [n]) = true
  | [], _, _ => by
      show chain_linked nx1 key [f, n] = true
      rw [chain_linked_two, hf, chain_linked_one, hn]
      simp [hv, hz]
  | [a], hp, h => by
      rw [List.singleton_append, chain_linked_two] at h
      show chain_linked nx1 key (a :: f :: [n]) = true
      rw [chain_linked_two, hp a (by simp)]
      cases hx : nx a with
      | none => rw [hx] at h; cases h
      | some kn =>
        rw [hx] at h
        simp only [Bool.and_eq_true] at h ⊢
        exact ⟨h.1, chain_linked_extend nx nx1 key f n z hf hv hn hz []
          (fun _ hm => by cases hm) h.2⟩
  | a :: b :: pre, hp, h => by
      rw [List.cons_append, List.cons_append, chain_linked_two] at h
      show chain_linked nx1 key (a :: b :: (pre ++ [f] ++ [n])) = true
      rw [chain_linked_two, hp a (by simp)]
      cases hx : nx a with
      | none => rw [hx] at h; cases h
      | some kn =>
        rw [hx] at h
        simp only [Bool.and_eq_true] at h ⊢
        exact ⟨h.1, chain_linked_extend nx nx1 key f n z hf hv hn hz (b :: pre)
          (fun c hc => hp c (List.mem_cons_of_mem _ hc)) h.2⟩

theorem chain_last_refs_one (ls : ItemPointerData → Option ItemPointerData)
    (a : ItemPointerData) :
    chain_last_refs ls [a]
      = (match ls a with
         | some p => !ItemPointerIsValid p
         | none => false) := rfl

theorem chain_last_refs_two (ls : ItemPointerData → Option ItemPointerData)
    (a b : ItemPointerData) (rest : List ItemPointerData) :
    chain_last_refs ls (a :: b :: rest)
      = ((ls a == (b :: rest).getLast?) &&
         (b :: rest).all (fun c =>
           match ls c with
           | some p => !ItemPointerIsValid p
           | none => false)) := rfl

theorem invalid_last_iff (ls : ItemPointerData → Option ItemPointerData) (c : ItemPointerData) :
    (match ls c with
      | some p => !ItemPointerIsValid p
      | none => false) = true ↔ ∃ p, ls c = some p ∧ ItemPointerIsValid p = false := by
  cases hx : ls c with
  | none => simp
  | some p => simp

/-- What the last references of a chain say about the head and about the other segments. -/
theorem chain_last_refs_spec (ls : ItemPointerData → Option ItemPointerData)
    (head : ItemPointerData) (tail : List ItemPointerData)
    (h : chain_last_refs ls (head :: tail) = true) :
    (tail = [] → ∃ p, ls head = some p ∧ ItemPointerIsValid p = false) ∧
    (tail ≠ [] → ls head = tail.getLast?) ∧
    (∀ c ∈ tail, ∃ p, ls c = some p ∧ ItemPointerIsValid p = false) := by
  cases tail with
  | nil =>
    rw [chain_last_refs_one] at h
    exact ⟨fun _ => (invalid_last_iff ls head).1 h, fun hne => absurd rfl hne,
      fun c hc => absurd hc (List.not_mem_nil c)⟩
  | cons b rest =>
    rw [chain_last_refs_two] at h
    simp only [Bool.and_eq_true, beq_iff_eq, List.all_eq_true] at h
    exact ⟨fun e => (by cases e), fun _ => h.1,
      fun c hc => (invalid_last_iff ls c).1 (h.2 c hc)⟩

/-- The last references stay as the invariant says when the head keeps its last reference
(or, alone, an invalid one) and every other segment has an invalid one. -/
theorem chain_last_refs_keep (ls ls1 : ItemPointerData → Option ItemPointerData)
    (head : ItemPointerData) (tail : List ItemPointerData)
    (h : chain_last_refs ls (head :: tail) = true)
    (h1 : tail = [] → ∃ p, ls1 head = some p ∧ ItemPointerIsValid p = false)
    (h2 : tail ≠ [] → ls1 head = ls head)
    (h3 : ∀ c ∈ tail, ∃ p, ls1 c = some p ∧ ItemPointerIsValid p = false) :
    chain_last_refs ls1 (head :: tail) = true := by
  cases tail with
  | nil =>
    rw [chain_last_refs_one]
    exact (invalid_last_iff ls1 head).2 (h1 rfl)
  | cons b rest =>
    rw [chain_last_refs_two] at h ⊢
    simp only [Bool.and_eq_true, beq_iff_eq, List.all_eq_true] at h ⊢
    refine ⟨?_, fun c hc => (invalid_last_iff ls1 c).2 (h3 c hc)⟩
    rw [h2 (by simp)]; exact h.1

/-- The last references of a chain extended by a new final segment `n`. -/
theorem chain_last_refs_extend (ls1 : ItemPointerData → Option ItemPointerData)
    (head n : ItemPointerData) (tail : List ItemPointerData)
    (h1 : ls1 head = some n)
    (h3 : ∀ c ∈ tail, ∃ p, ls1 c = some p ∧ ItemPointerIsValid p = false)
    (hn : ∃ p, ls1 n = some p ∧ ItemPointerIsValid p = false) :
    chain_last_refs ls1 (head :: tail ++ [n]) = true := by
  cases tail with
  | nil =>
    show chain_last_refs ls1 [head, n] = true
    rw [chain_last_refs_two]
    simp only [Bool.and_eq_true, beq_iff_eq, List.all_eq_true]
    refine ⟨by rw [h1]; rfl, fun c hc => ?_⟩
    rw [List.mem_singleton] at hc
    subst hc
    exact (invalid_last_iff ls1 c).2 hn
  | cons b rest =>
    show chain_last_refs ls1 (head :: b :: (rest ++ [n])) = true
    rw [chain_last_refs_two]
    simp only [Bool.and_eq_true, beq_iff_eq, List.all_eq_true]
    refine ⟨?_, fun c hc => ?_⟩
    · rw [h1, ← List.cons_append, List.getLast?_concat]
    · rw [← List.cons_append, List.mem_append, List.mem_singleton] at hc
      rcases hc with hc | rfl
      · exact (invalid_last_iff ls1 c).2 (h3 c hc)
      · exact (invalid_last_iff ls1 c).2 hn

end PgArt
namespace PgArt

/-! ## Leaf chains: the store operations of `_update_leaf_item` -/

/-- A stored item gives the descent at least two units of fuel. -/
theorem store_fuel_ge_two (S : ArtIndex) (a : ItemPointerData) (n : ArtNode)
    (h : get_node S a = some n) : 2 ≤ store_fuel S := by
  obtain ⟨_, p, hp, hi⟩ := get_node_some S a n h
  have hlen : 1 ≤ p.items.length := by
    rcases Nat.lt_or_ge (a.ip_posid - 1) p.items.length with h1 | h1
    · omega
    · rw [List.getElem?_eq_none h1] at hi; cases hi
  have hmem : p ∈ S.pages := by
    unfold get_page at hp
    exact List.mem_iff_getElem?.2 ⟨_, hp⟩
  have hsum : p.items.length ≤ (S.pages.map (fun p => p.items.length)).sum :=
    List.single_le_sum (fun _ _ => Nat.zero_le _) _ (List.mem_map.2 ⟨p, hmem, rfl⟩)
  unfold store_fuel
  omega

/-- About `_add_leaf` for a key that fits a page: the new leaf is stored at a fresh address. -/
theorem add_leaf_spec (cfg : ArtConfig) (S : ArtIndex) (parent : Option ItemPointerData)
    (t : ArtTuple) (hcfg : cfg.leaf_treshold_mant ≤ 2 ^ cfg.leaf_treshold_exp) (htails : tails_ok S)
    (hfit : t.key.length ≤ 8114) :
    ∃ T n lf, _add_leaf cfg S parent t = (T, n, lf) ∧
      lf.key = t.key ∧ lf.items = [t.iptr] ∧ lf.next_leaf_iptr = zero_iptr ∧
      lf.last_leaf_iptr = zero_iptr ∧
      n.ip_posid ≠ 0 ∧ get_node S n = none ∧ get_node T n = some (.leaf lf) ∧
      (∀ q, q ≠ n → get_node T q = get_node S q) ∧ tails_ok T := by
  obtain ⟨T, n, hadd, hn0, hfresh, hn, hframe, ht⟩ :=
    store_node_spec cfg S ART_LEAF_PAGE
      (.leaf { parent_iptr :=
                 match parent with
                 | some p => if cfg.update_parent_iptr then p else zero_iptr
                 | none => zero_iptr
               next_leaf_iptr := zero_iptr, last_leaf_iptr := zero_iptr,
               key := t.key, items := [t.iptr] })
      (Or.inr rfl) htails (fun _ => hcfg) (leaf_fits _ hfit rfl)
  have e1 : (_add_leaf cfg S parent t).1 = T := congrArg Prod.fst hadd
  have e2 : (_add_leaf cfg S parent t).2.1 = n := congrArg Prod.snd hadd
  exact ⟨T, n, _, Prod.ext e1 (Prod.ext e2 rfl), rfl, rfl, rfl, rfl, hn0, hfresh, hn, hframe, ht⟩

/-- About `_page_update_node` with a leaf that is one locator longer, on a page with room. -/
theorem append_in_place (S : ArtIndex) (f : ItemPointerData) (lf : ArtNodeLeaf) (node : ArtNode)
    (hf : get_node S f = some (.leaf lf))
    (hroom : PageGetFreeSpace ((get_page S f.ip_blkid).getD (_art_init_data_page 0 false))
      > MAXALIGN sizeof_ItemPointerData)
    (hsz : _art_node_size node = _art_node_size (.leaf lf) + sizeof_ItemPointerData) :
    ∃ T, _page_update_node S f node = some T ∧ get_node T f = some node ∧
      (∀ r, r ≠ f → get_node T r = get_node S r) ∧
      T.pages.length = S.pages.length ∧
      T.last_internal_node_blk_num = S.last_internal_node_blk_num ∧
      T.last_leaf_blk_num = S.last_leaf_blk_num := by
  obtain ⟨hq, p, hp, hitem⟩ := get_node_some S f _ hf
  have hlen : f.ip_posid - 1 < p.items.length := by
    rcases Nat.lt_or_ge (f.ip_posid - 1) p.items.length with h1 | h1
    · exact h1
    · rw [List.getElem?_eq_none h1] at hitem; cases hitem
  rw [hp, Option.getD_some] at hroom
  have hex : MAXALIGN (_art_node_size node - _art_node_size (.leaf lf))
      ≤ PageGetExactFreeSpace p := by
    rw [hsz, Nat.add_sub_cancel_left]
    unfold PageGetFreeSpace at hroom
    unfold MAXALIGN sizeof_ItemPointerData sizeof_ItemIdData at *
    split_ifs at hroom <;> omega
  have how := overwrite_grow p f.ip_posid node (.leaf lf) (by omega) hitem hex
  obtain ⟨h1, h2⟩ := get_node_set_items S f p
    { p with items := p.items.set (f.ip_posid - 1) (some node), dirty := true }
    (some node) hp hq hlen rfl
  refine ⟨set_page S f.ip_blkid
      { p with items := p.items.set (f.ip_posid - 1) (some node), dirty := true }, ?_, h1, h2,
    set_page_length _ _ _, rfl, rfl⟩
  unfold _page_update_node
  rw [hp]
  simp only [how, Option.map_some']

/-- The branch of the loop of `_update_leaf_item` taken at a leaf whose last reference is
invalid. -/
theorem update_loop_final (cfg : ArtConfig) (t : ArtTuple) (init : ItemPointerData)
    (fuel : Nat) (S : ArtIndex) (f : ItemPointerData) (lf : ArtNodeLeaf)
    (hlast : ItemPointerIsValid lf.last_leaf_iptr = false) :
    _update_leaf_item_loop cfg t init (fuel + 1) S f lf
      = (if PageGetFreeSpace ((get_page S f.ip_blkid).getD (_art_init_data_page 0 false))
            > MAXALIGN sizeof_ItemPointerData then
          _page_update_node S f (.leaf
            { parent_iptr := if cfg.update_parent_iptr then lf.parent_iptr else zero_iptr
              next_leaf_iptr := invalid_iptr
              last_leaf_iptr := invalid_iptr
              key := lf.key
              items := lf.items ++ [t.iptr] })
        else
          match _page_update_node (_add_leaf cfg S (some lf.parent_iptr) t).1 f
              (.leaf { lf with next_leaf_iptr := (_add_leaf cfg S (some lf.parent_iptr) t).2.1 })
          with
          | none => none
          | some S2 =>
              match get_node S2 init with
              | some (.leaf init_leaf) =>
                  _page_update_node S2 init (.leaf
                    { init_leaf with
                      last_leaf_iptr := (_add_leaf cfg S (some lf.parent_iptr) t).2.1 })
              | _ => none) := by
  rw [_update_leaf_item_loop]
  simp only [hlast, Bool.false_eq_true, if_false]
  try rfl

/-- The branch of the loop of `_update_leaf_item` taken at a leaf whose last reference
designates a leaf. -/
theorem update_loop_jump (cfg : ArtConfig) (t : ArtTuple) (init : ItemPointerData)
    (fuel : Nat) (S : ArtIndex) (a : ItemPointerData) (l lf : ArtNodeLeaf)
    (hlast : ItemPointerIsValid l.last_leaf_iptr = true)
    (hf : get_node S l.last_leaf_iptr = some (.leaf lf)) :
    _update_leaf_item_loop cfg t init (fuel + 1) S a l
      = _update_leaf_item_loop cfg t init fuel S l.last_leaf_iptr lf := by
  rw [_update_leaf_item_loop]
  simp only [hlast, if_true, hf]

/-- The continuation branch of `_update_leaf_item` at the final segment `f` of the chain whose
head is `init`: a new leaf is stored at a fresh address `n`, `f` refers to it as its next
leaf, and the head refers to it as the last leaf. -/
theorem continuation_spec (cfg : ArtConfig) (S : ArtIndex) (t : ArtTuple)
    (init f : ItemPointerData) (lf lh : ArtNodeLeaf)
    (hcfg : cfg.leaf_treshold_mant ≤ 2 ^ cfg.leaf_treshold_exp) (htails : tails_ok S)
    (hfit : t.key.length ≤ 8114)
    (hf : get_node S f = some (.leaf lf)) (hh : get_node S init = some (.leaf lh)) :
    ∃ T n lf0,
      (match _page_update_node (_add_leaf cfg S (some lf.parent_iptr) t).1 f
          (.leaf { lf with next_leaf_iptr := (_add_leaf cfg S (some lf.parent_iptr) t).2.1 })
        with
        | none => none
        | some S2 =>
            match get_node S2 init with
            | some (.leaf init_leaf) =>
                _page_update_node S2 init (.leaf
                  { init_leaf with
                    last_leaf_iptr := (_add_leaf cfg S (some lf.parent_iptr) t).2.1 })
            | _ => none) = some T ∧
      tails_ok T ∧ get_node S n = none ∧ ItemPointerIsValid n = true ∧
      lf0.key = t.key ∧ lf0.items = [t.iptr] ∧ lf0.next_leaf_iptr = zero_iptr ∧
      lf0.last_leaf_iptr = zero_iptr ∧ get_node T n = some (.leaf lf0) ∧
      (∃ lf1, get_node T f = some (.leaf lf1) ∧ lf1.key = lf.key ∧ lf1.next_leaf_iptr = n ∧
        lf1.items = lf.items ∧ (f ≠ init → lf1.last_leaf_iptr = lf.last_leaf_iptr)) ∧
      (∃ lh1, get_node T init = some (.leaf lh1) ∧ lh1.key = lh.key ∧ lh1.last_leaf_iptr = n ∧
        lh1.items = lh.items ∧ (init ≠ f → lh1.next_leaf_iptr = lh.next_leaf_iptr)) ∧
      (∀ r, r ≠ n → r ≠ f → r ≠ init → get_node T r = get_node S r) := by
  obtain ⟨T1, n, lf0, hal, hk, hi, hnx, hls, hn0, hfresh, hn, hframe1, ht1⟩ :=
    add_leaf_spec cfg S (some lf.parent_iptr) t hcfg htails hfit
  rw [hal]
  simp only
  have hfn : f ≠ n := ne_of_get_node S f n _ hf hfresh
  have hin : init ≠ n := ne_of_get_node S init n _ hh hfresh
  have hvn : ItemPointerIsValid n = true := valid_of_get_node T1 n _ hn
  have hf1 : get_node T1 f = some (.leaf lf) := by rw [hframe1 f hfn]; exact hf
  obtain ⟨S2, hS2, hS2f, hS2frame, hl2, hti2, htl2⟩ :=
    page_update_node_spec T1 f (.leaf { lf with next_leaf_iptr := n }) (.leaf lf) hf1 rfl
  have ht2 := tails_ok_of_eq T1 S2 ht1 hl2 hti2 htl2
  rw [hS2]
  simp only
  by_cases hfi : f = init
  · subst hfi
    have hlh : lh = lf := by rw [hf] at hh; cases hh; rfl
    subst hlh
    rw [hS2f]
    simp only
    obtain ⟨S3, hS3, hS3f, hS3frame, hl3, hti3, htl3⟩ :=
      page_update_node_spec S2 f
        (.leaf { lh with next_leaf_iptr := n, last_leaf_iptr := n })
        (.leaf { lh with next_leaf_iptr := n }) hS2f rfl
    refine ⟨S3, n, lf0, hS3, tails_ok_of_eq S2 S3 ht2 hl3 hti3 htl3, hfresh, hvn, hk, hi, hnx,
      hls, ?_, ⟨_, hS3f, rfl, rfl, rfl, fun h => absurd rfl h⟩,
      ⟨_, hS3f, rfl, rfl, rfl, fun h => absurd rfl h⟩, ?_⟩
    · rw [hS3frame n (fun e => hfn e.symm), hS2frame n (fun e => hfn e.symm)]; exact hn
    · intro r h1 h2 _
      rw [hS3frame r h2, hS2frame r h2, hframe1 r h1]
  · have hne : init ≠ f := fun e => hfi e.symm
    have hh2 : get_node S2 init = some (.leaf lh) := by
      rw [hS2frame init hne, hframe1 init hin]; exact hh
    rw [hh2]
    simp only
    obtain ⟨S3, hS3, hS3f, hS3frame, hl3, hti3, htl3⟩ :=
      page_update_node_spec S2 init (.leaf { lh with last_leaf_iptr := n }) (.leaf lh) hh2 rfl
    refine ⟨S3, n, lf0, hS3, tails_ok_of_eq S2 S3 ht2 hl3 hti3 htl3, hfresh, hvn, hk, hi, hnx,
      hls, ?_, ⟨{ lf with next_leaf_iptr := n }, ?_, rfl, rfl, rfl, fun _ => rfl⟩,
      ⟨_, hS3f, rfl, rfl, rfl, fun _ => rfl⟩, ?_⟩
    · rw [hS3frame n (fun e => hin e.symm), hS2frame n (fun e => hfn e.symm)]; exact hn
    · rw [hS3frame f hfi]; exact hS2f
    · intro r h1 h2 h3
      rw [hS3frame r h3, hS2frame r h2, hframe1 r h1]

end PgArt
namespace PgArt

/-! ## Leaf chains: one call of `_update_leaf_item` -/

theorem leaf_next_of (S : ArtIndex) (a : ItemPointerData) (l : ArtNodeLeaf)
    (h : get_node S a = some (.leaf l)) : leaf_next S a = some (l.key, l.next_leaf_iptr) := by
  unfold leaf_next; rw [h]

theorem leaf_last_of (S : ArtIndex) (a : ItemPointerData) (l : ArtNodeLeaf)
    (h : get_node S a = some (.leaf l)) : leaf_last S a = some l.last_leaf_iptr := by
  unfold leaf_last; rw [h]

theorem leaf_items_of (S : ArtIndex) (a : ItemPointerData) (l : ArtNodeLeaf)
    (h : get_node S a = some (.leaf l)) : leaf_items S a = l.items := by
  unfold leaf_items; rw [h]

theorem leaf_next_congr (S T : ArtIndex) (a : ItemPointerData)
    (h : get_node T a = get_node S a) : leaf_next T a = leaf_next S a := by
  unfold leaf_next; rw [h]

theorem leaf_last_congr (S T : ArtIndex) (a : ItemPointerData)
    (h : get_node T a = get_node S a) : leaf_last T a = leaf_last S a := by
  unfold leaf_last; rw [h]

theorem leaf_items_congr (S T : ArtIndex) (a : ItemPointerData)
    (h : get_node T a = get_node S a) : leaf_items T a = leaf_items S a := by
  unfold leaf_items; rw [h]

/-- A key and next reference at an address come from a stored leaf. -/
theorem leaf_of_next (S : ArtIndex) (a : ItemPointerData) (k : List Nat) (n : ItemPointerData)
    (h : leaf_next S a = some (k, n)) :
    ∃ l, get_node S a = some (.leaf l) ∧ l.key = k ∧ l.next_leaf_iptr = n := by
  unfold leaf_next at h
  cases hg : get_node S a with
  | none => rw [hg] at h; cases h
  | some node =>
    cases node with
    | leaf l =>
      rw [hg] at h
      simp only [Option.some.injEq, Prod.mk.injEq] at h
      exact ⟨l, rfl, h.1, h.2⟩
    | node4 _ _ _ => rw [hg] at h; cases h
    | node16 _ _ _ => rw [hg] at h; cases h
    | node48 _ _ _ => rw [hg] at h; cases h
    | node256 _ _ => rw [hg] at h; cases h

theorem chain_items_append (S : ArtIndex) (a b : List ItemPointerData) :
    chain_items S (a ++ b) = chain_items S a ++ chain_items S b := by
  unfold chain_items
  rw [List.map_append, List.flatten_append]

theorem chain_items_one (S : ArtIndex) (a : ItemPointerData) :
    chain_items S [a] = leaf_items S a := by
  unfold chain_items
  simp

theorem chain_items_congr (S T : ArtIndex) (l : List ItemPointerData)
    (h : ∀ a ∈ l, leaf_items T a = leaf_items S a) : chain_items T l = chain_items S l := by
  unfold chain_items
  rw [List.map_congr_left h]

/-- The last references of a chain written as the segments before the final one followed by
the final one. -/
theorem chain_last_refs_iff (ls : ItemPointerData → Option ItemPointerData)
    (pre : List ItemPointerData) (f : ItemPointerData) :
    chain_last_refs ls (pre ++ [f]) = true ↔
      (pre = [] → ∃ p, ls f = some p ∧ ItemPointerIsValid p = false) ∧
      (∀ head mid, pre = head :: mid → ls head = some f ∧
        ∀ c ∈ mid ++ [f], ∃ p, ls c = some p ∧ ItemPointerIsValid p = false) := by
  cases pre with
  | nil =>
    rw [List.nil_append, chain_last_refs_one, invalid_last_iff]
    exact ⟨fun h => ⟨fun _ => h, fun _ _ e => (by cases e)⟩, fun h => h.1 rfl⟩
  | cons head mid =>
    have hl : ∀ m : List ItemPointerData, (m ++ [f]).getLast? = some f :=
      fun m => List.getLast?_concat m
    constructor
    · intro h
      obtain ⟨_, h2, h3⟩ := chain_last_refs_spec ls head (mid ++ [f]) h
      refine ⟨fun e => (by cases e), fun head1 mid1 e => ?_⟩
      cases e
      exact ⟨by rw [h2 (by simp), hl], h3⟩
    · intro h
      obtain ⟨h1, h2⟩ := h.2 head mid rfl
      cases mid with
      | nil =>
        show chain_last_refs ls [head, f] = true
        rw [chain_last_refs_two]
        simp only [Bool.and_eq_true, beq_iff_eq, List.all_eq_true]
        exact ⟨by rw [h1]; rfl, fun c hc => (invalid_last_iff ls c).2 (h2 c (by simpa using hc))⟩
      | cons b m =>
        show chain_last_refs ls (head :: b :: (m ++ [f])) = true
        rw [chain_last_refs_two]
        simp only [Bool.and_eq_true, beq_iff_eq, List.all_eq_true]
        refine ⟨?_, fun c hc => (invalid_last_iff ls c).2 (h2 c hc)⟩
        rw [h1, ← List.cons_append, hl]

/-- The chain invariant after a locator was appended in place to the final segment. -/
theorem chain_after_append (S T : ArtIndex) (key : List Nat) (pre : List ItemPointerData)
    (f x : ItemPointerData) (lf1 : ArtNodeLeaf)
    (hok : leaf_chain_ok S key (pre ++ [f]) = true)
    (hT : get_node T f = some (.leaf lf1)) (hk : lf1.key = key)
    (hnx : ItemPointerIsValid lf1.next_leaf_iptr = false)
    (hls : ItemPointerIsValid lf1.last_leaf_iptr = false)
    (hitems : lf1.items = leaf_items S f ++ [x])
    (hframe : ∀ r, r ≠ f → get_node T r = get_node S r) :
    leaf_chain_ok T key (pre ++ [f]) = true ∧
      chain_items T (pre ++ [f]) = chain_items S (pre ++ [f]) ++ [x] := by
  unfold leaf_chain_ok at hok ⊢
  simp only [Bool.and_eq_true, decide_eq_true_eq] at hok ⊢
  obtain ⟨⟨hnd, hlink⟩, hlast⟩ := hok
  have hpf : ∀ a ∈ pre, a ≠ f := by
    intro a ha e
    rw [List.nodup_append] at hnd
    exact hnd.2.2 ha (by rw [e]; exact List.mem_singleton_self f)
  refine ⟨⟨⟨hnd, ?_⟩, ?_⟩, ?_⟩
  · exact chain_linked_keep (leaf_next S) (leaf_next T) key f lf1.next_leaf_iptr
      (by rw [leaf_next_of T f lf1 hT, hk]) hnx pre
      (fun a ha => leaf_next_congr S T a (hframe a (hpf a ha))) hlink
  · rw [chain_last_refs_iff] at hlast ⊢
    refine ⟨fun _ => ⟨_, leaf_last_of T f lf1 hT, hls⟩, fun head mid e => ?_⟩
    obtain ⟨h1, h2⟩ := hlast.2 head mid e
    have hhp : head ∈ pre := by rw [e]; exact List.mem_cons_self _ _
    refine ⟨by rw [leaf_last_congr S T head (hframe head (hpf head hhp))]; exact h1,
      fun c hc => ?_⟩
    by_cases hcf : c = f
    · rw [hcf]; exact ⟨_, leaf_last_of T f lf1 hT, hls⟩
    · rw [leaf_last_congr S T c (hframe c hcf)]; exact h2 c hc
  · rw [chain_items_append, chain_items_append, chain_items_one, chain_items_one,
      chain_items_congr S T pre
        (fun a ha => leaf_items_congr S T a (hframe a (hpf a ha))),
      leaf_items_of T f lf1 hT, hitems, List.append_assoc]

/-- The chain invariant after a continuation leaf was linked behind the final segment. -/
theorem chain_after_continuation (S T : ArtIndex) (key : List Nat)
    (pre : List ItemPointerData) (head f n x : ItemPointerData) (lf lh lf0 : ArtNodeLeaf)
    (hok : leaf_chain_ok S key (pre ++ [f]) = true)
    (hhead : (pre ++ [f]).head? = some head)
    (hf : get_node S f = some (.leaf lf)) (hh : get_node S head = some (.leaf lh))
    (hfresh : get_node S n = none) (hvn : ItemPointerIsValid n = true)
    (hn : get_node T n = some (.leaf lf0)) (hk0 : lf0.key = key) (hi0 : lf0.items = [x])
    (hnx0 : lf0.next_leaf_iptr = zero_iptr) (hls0 : lf0.last_leaf_iptr = zero_iptr)
    (hf1 : ∃ lf1, get_node T f = some (.leaf lf1) ∧ lf1.key = lf.key ∧
      lf1.next_leaf_iptr = n ∧ lf1.items = lf.items ∧
      (f ≠ head → lf1.last_leaf_iptr = lf.last_leaf_iptr))
    (hh1 : ∃ lh1, get_node T head = some (.leaf lh1) ∧ lh1.key = lh.key ∧
      lh1.last_leaf_iptr = n ∧ lh1.items = lh.items ∧
      (head ≠ f → lh1.next_leaf_iptr = lh.next_leaf_iptr))
    (hframe : ∀ r, r ≠ n → r ≠ f → r ≠ head → get_node T r = get_node S r) :
    leaf_chain_ok T key (pre ++ [f] ++ [n]) = true ∧
      chain_items T (pre ++ [f] ++ [n]) = chain_items S (pre ++ [f]) ++ [x] := by
  unfold leaf_chain_ok at hok ⊢
  simp only [Bool.and_eq_true, decide_eq_true_eq] at hok ⊢
  obtain ⟨⟨hnd, hlink⟩, hlast⟩ := hok
  obtain ⟨lf1, hTf, hk1, hnx1, hi1, hls1⟩ := hf1
  obtain ⟨lh1, hTh, hkh, hlsh, hih, hnxh⟩ := hh1
  have hpf : ∀ a ∈ pre, a ≠ f := by
    intro a ha e
    rw [List.nodup_append] at hnd
    exact hnd.2.2 ha (by rw [e]; exact List.mem_singleton_self f)
  have hstored : ∀ a ∈ pre ++ [f], a ≠ n := by
    intro a ha e
    obtain ⟨m, hm⟩ := chain_linked_mem _ key _ hlink a ha
    obtain ⟨l, hl, _, _⟩ := leaf_of_next S a key m hm
    rw [e, hfresh] at hl; cases hl
  have hfn : f ≠ n := hstored f (by simp)
  have hlfk : lf.key = key := by
    obtain ⟨m, hm⟩ := chain_linked_mem _ key _ hlink f (by simp)
    rw [leaf_next_of S f lf hf] at hm
    simp only [Option.some.injEq, Prod.mk.injEq] at hm
    exact hm.1
  -- the views of the old segments
  have hnext : ∀ a ∈ pre, leaf_next T a = leaf_next S a := by
    intro a ha
    by_cases hah : a = head
    · rw [hah, leaf_next_of T head lh1 hTh, leaf_next_of S head lh hh, hkh,
        hnxh (fun e => hpf a ha (by rw [hah, e]))]
    · exact leaf_next_congr S T a
        (hframe a (hstored a (List.mem_append_left _ ha)) (hpf a ha) hah)
  have hitems : ∀ a ∈ pre ++ [f], leaf_items T a = leaf_items S a := by
    intro a ha
    by_cases haf : a = f
    · rw [haf, leaf_items_of T f lf1 hTf, leaf_items_of S f lf hf, hi1]
    · by_cases hah : a = head
      · rw [hah, leaf_items_of T head lh1 hTh, leaf_items_of S head lh hh, hih]
      · exact leaf_items_congr S T a (hframe a (hstored a ha) haf hah)
  refine ⟨⟨⟨?_, ?_⟩, ?_⟩, ?_⟩
  · rw [List.nodup_append]
    refine ⟨hnd, List.nodup_singleton n, ?_⟩
    intro a ha hb
    rw [List.mem_singleton] at hb
    exact hstored a ha hb
  · exact chain_linked_extend (leaf_next S) (leaf_next T) key f n zero_iptr
      (by rw [leaf_next_of T f lf1 hTf, hk1, hlfk, hnx1]) hvn
      (by rw [leaf_next_of T n lf0 hn, hk0, hnx0]) rfl pre hnext hlink
  · rw [chain_last_refs_iff]
    refine ⟨fun e => absurd e (by simp), fun head1 mid1 e => ?_⟩
    have hh1 : head1 = head := by
      rw [e] at hhead
      simp only [List.head?_cons, Option.some.injEq] at hhead
      exact hhead
    subst hh1
    refine ⟨by rw [leaf_last_of T head1 lh1 hTh, hlsh], fun c hc => ?_⟩
    rw [List.mem_append, List.mem_singleton] at hc
    rcases hc with hc | rfl
    · rw [e] at hlast hnd
      obtain ⟨_, _, h3⟩ := chain_last_refs_spec _ head1 mid1 hlast
      have hch : c ≠ head1 := by
        intro e1
        rw [List.nodup_cons] at hnd
        exact hnd.1 (by rw [← e1]; exact hc)
      have hcn : c ≠ n := hstored c (by rw [e]; exact List.mem_cons_of_mem _ hc)
      by_cases hcf : c = f
      · subst hcf
        rw [leaf_last_of T c lf1 hTf, hls1 hch, ← leaf_last_of S c lf hf]
        exact h3 c hc
      · rw [leaf_last_congr S T c (hframe c hcn hcf hch)]
        exact h3 c hc
    · exact ⟨_, leaf_last_of T c lf0 hn, by rw [hls0]; rfl⟩
  · rw [chain_items_append, chain_items_one, chain_items_congr S T _ hitems,
      leaf_items_of T n lf0 hn, hi0]

end PgArt
namespace PgArt

/-- The work of `_update_leaf_item` at the final segment `f` of the chain headed by `head`. -/
theorem final_segment_step (cfg : ArtConfig) (S : ArtIndex) (key : List Nat) (t : ArtTuple)
    (head f : ItemPointerData) (lf lh : ArtNodeLeaf) (pre : List ItemPointerData) (fuel : Nat)
    (hcfg : cfg.leaf_treshold_mant ≤ 2 ^ cfg.leaf_treshold_exp) (htails : tails_ok S)
    (hkey : key.length ≤ 8114) (ht : t.key = key)
    (hhead : (pre ++ [f]).head? = some head)
    (hf : get_node S f = some (.leaf lf)) (hh : get_node S head = some (.leaf lh))
    (hlast : ItemPointerIsValid lf.last_leaf_iptr = false)
    (hok : leaf_chain_ok S key (pre ++ [f]) = true) :
    ∃ T ext, _update_leaf_item_loop cfg t head (fuel + 1) S f lf = some T ∧ tails_ok T ∧
      ext.length ≤ 1 ∧ leaf_chain_ok T key (pre ++ [f] ++ ext) = true ∧
      chain_items T (pre ++ [f] ++ ext) = chain_items S (pre ++ [f]) ++ [t.iptr] := by
  have hlfk : lf.key = key := by
    have hlink : chain_linked (leaf_next S) key (pre ++ [f]) = true := by
      unfold leaf_chain_ok at hok
      simp only [Bool.and_eq_true] at hok
      exact hok.1.2
    obtain ⟨m, hm⟩ := chain_linked_mem _ key _ hlink f (by simp)
    rw [leaf_next_of S f lf hf] at hm
    simp only [Option.some.injEq, Prod.mk.injEq] at hm
    exact hm.1
  rw [update_loop_final cfg t head fuel S f lf hlast]
  by_cases hroom : PageGetFreeSpace ((get_page S f.ip_blkid).getD (_art_init_data_page 0 false))
      > MAXALIGN sizeof_ItemPointerData
  · rw [if_pos hroom]
    obtain ⟨T, hT, hTf, hframe, hlen, hti, htl⟩ := append_in_place S f lf
      (.leaf { parent_iptr := if cfg.update_parent_iptr then lf.parent_iptr else zero_iptr
               next_leaf_iptr := invalid_iptr
               last_leaf_iptr := invalid_iptr
               key := lf.key
               items := lf.items ++ [t.iptr] }) hf hroom
      (by simp only [_art_node_size, List.length_append, List.length_singleton,
            sizeof_ItemPointerData]; omega)
    obtain ⟨h1, h2⟩ := chain_after_append S T key pre f t.iptr _ hok hTf hlfk rfl rfl
      (by rw [leaf_items_of S f lf hf]) hframe
    exact ⟨T, [], hT, tails_ok_of_eq S T htails hlen hti htl, Nat.zero_le _,
      by rw [List.append_nil]; exact h1, by rw [List.append_nil]; exact h2⟩
  · rw [if_neg hroom]
    obtain ⟨T, n, lf0, hT, htT, hfresh, hvn, hk0, hi0, hnx0, hls0, hn, hf1, hh1, hframe⟩ :=
      continuation_spec cfg S t head f lf lh hcfg htails (by rw [ht]; exact hkey) hf hh
    obtain ⟨h1, h2⟩ := chain_after_continuation S T key pre head f n t.iptr lf lh lf0 hok hhead
      hf hh hfresh hvn hn (by rw [hk0, ht]) hi0 hnx0 hls0 hf1 hh1 hframe
    exact ⟨T, [n], hT, htT, Nat.le_refl _, h1, h2⟩

/-- One call of `_update_leaf_item` on the head of a chain that satisfies the invariant: the
call returns, the chain is the old one or the old one followed by one new segment, the
invariant holds again, and the new locator is the last one of the chain. -/
theorem update_leaf_item_step (cfg : ArtConfig) (S : ArtIndex) (key : List Nat) (t : ArtTuple)
    (head : ItemPointerData) (l : ArtNodeLeaf) (segs : List ItemPointerData)
    (hcfg : cfg.leaf_treshold_mant ≤ 2 ^ cfg.leaf_treshold_exp) (htails : tails_ok S)
    (hkey : key.length ≤ 8114) (ht : t.key = key)
    (hhead : segs.head? = some head) (hl : get_node S head = some (.leaf l))
    (hok : leaf_chain_ok S key segs = true) :
    ∃ T ext, _update_leaf_item cfg S head l t = some T ∧ tails_ok T ∧
      ext.length ≤ 1 ∧ leaf_chain_ok T key (segs ++ ext) = true ∧
      chain_items T (segs ++ ext) = chain_items S segs ++ [t.iptr] := by
  have hne : segs ≠ [] := by
    intro e; rw [e] at hhead; cases hhead
  obtain ⟨pre, f, rfl⟩ : ∃ pre f, segs = pre ++ [f] :=
    ⟨segs.dropLast, segs.getLast hne, (List.dropLast_append_getLast hne).symm⟩
  have hok' := hok
  unfold leaf_chain_ok at hok'
  simp only [Bool.and_eq_true, decide_eq_true_eq] at hok'
  obtain ⟨⟨hnd, hlink⟩, hlastrefs⟩ := hok'
  obtain ⟨m, hm⟩ := chain_linked_mem _ key _ hlink f (by simp)
  obtain ⟨lf, hf, _, _⟩ := leaf_of_next S f key m hm
  obtain ⟨k, hk⟩ : ∃ k, store_fuel S = k + 2 :=
    ⟨store_fuel S - 2, by have := store_fuel_ge_two S f _ hf; omega⟩
  rw [chain_last_refs_iff] at hlastrefs
  unfold _update_leaf_item
  rw [hk]
  cases pre with
  | nil =>
    have hfh : f = head := by
      simp only [List.nil_append, List.head?_cons, Option.some.injEq] at hhead
      exact hhead
    subst hfh
    have hll : l = lf := by rw [hf] at hl; cases hl; rfl
    subst hll
    obtain ⟨p, hp, hpv⟩ := hlastrefs.1 rfl
    rw [leaf_last_of S f l hf] at hp
    cases hp
    exact final_segment_step cfg S key t f f l l [] (k + 1) hcfg htails hkey ht hhead hf hf
      hpv hok
  | cons head1 mid =>
    have hh1 : head1 = head := by
      simp only [List.cons_append, List.head?_cons, Option.some.injEq] at hhead
      exact hhead
    subst hh1
    obtain ⟨h1, h2⟩ := hlastrefs.2 head1 mid rfl
    rw [leaf_last_of S head1 l hl] at h1
    simp only [Option.some.injEq] at h1
    obtain ⟨p, hp, hpv⟩ := h2 f (by simp)
    rw [leaf_last_of S f lf hf] at hp
    cases hp
    rw [update_loop_jump cfg t head1 (k + 1) S head1 l lf
      (by rw [h1]; exact valid_of_get_node S f _ hf) (by rw [h1]; exact hf), h1]
    exact final_segment_step cfg S key t head1 f lf l (head1 :: mid) k hcfg htails hkey ht
      hhead hf hl hpv hok

end PgArt
namespace PgArt

theorem get_node_fresh_entries (S : ArtIndex) (q : ItemPointerData) :
    get_node (fresh_entries S) q = get_node S q := by
  unfold get_node fresh_entries
  simp only [List.getElem?_map]
  cases S.pages[q.ip_blkid]? <;> rfl

theorem tails_ok_fresh_entries (S : ArtIndex) (h : tails_ok S) : tails_ok (fresh_entries S) := by
  unfold tails_ok fresh_entries at *
  simpa using h

theorem leaf_chain_ok_fresh_entries (S : ArtIndex) (key : List Nat)
    (segs : List ItemPointerData) :
    leaf_chain_ok (fresh_entries S) key segs = leaf_chain_ok S key segs := by
  have h1 : leaf_next (fresh_entries S) = leaf_next S :=
    funext (fun a => leaf_next_congr S _ a (get_node_fresh_entries S a))
  have h2 : leaf_last (fresh_entries S) = leaf_last S :=
    funext (fun a => leaf_last_congr S _ a (get_node_fresh_entries S a))
  unfold leaf_chain_ok
  rw [h1, h2]

theorem chain_items_fresh_entries (S : ArtIndex) (segs : List ItemPointerData) :
    chain_items (fresh_entries S) segs = chain_items S segs :=
  chain_items_congr S _ segs (fun a _ => leaf_items_congr S _ a (get_node_fresh_entries S a))

theorem chain_head_leaf (S : ArtIndex) (key : List Nat) (head : ItemPointerData)
    (segs : List ItemPointerData) (hhead : segs.head? = some head)
    (hok : leaf_chain_ok S key segs = true) : ∃ l, get_node S head = some (.leaf l) := by
  unfold leaf_chain_ok at hok
  simp only [Bool.and_eq_true] at hok
  have hmem : head ∈ segs := by
    cases segs with
    | nil => cases hhead
    | cons a rest =>
      simp only [List.head?_cons, Option.some.injEq] at hhead
      rw [hhead]; exact List.mem_cons_self _ _
  obtain ⟨m, hm⟩ := chain_linked_mem _ key _ hok.1.2 head hmem
  obtain ⟨l, hl, _, _⟩ := leaf_of_next S head key m hm
  exact ⟨l, hl⟩

/-- C31 — leaf chain invariant. Let `segs` (head first) be the chain of the key `key` in an
index whose recorded tail pages exist, with a reservation fraction of at most 1 and a key of
at most 8114 bytes (a leaf of the key fits an empty page), and let the chain satisfy
`leaf_chain_ok`: no address occurs twice; every segment is a leaf with that key whose next
reference is valid and designates the following segment, except the final segment, whose
next reference is invalid; the head's last reference is invalid when the head is the only
segment and designates the final segment otherwise, and no other segment has a valid last
reference. Then every sequence of duplicate-key inserts under that key (`_update_leaf_item`
on the head with fresh page entries, once per tuple) returns, and afterwards the chain is the old chain followed by
the continuation leaves added, at most one per insert, each linked behind the segment that
was final before; the invariant holds for it; and the locators along the chain are the old
ones followed by the inserted ones in insertion order. -/
theorem leaf_chain_invariant (cfg : ArtConfig) (key : List Nat) (head : ItemPointerData)
    (hcfg : cfg.leaf_treshold_mant ≤ 2 ^ cfg.leaf_treshold_exp) (hkey : key.length ≤ 8114) :
    ∀ (ts : List ArtTuple) (S : ArtIndex) (segs : List ItemPointerData),
      tails_ok S → segs.head? = some head → leaf_chain_ok S key segs = true →
      (∀ t ∈ ts, t.key = key) →
      ∃ T ext, update_leaf_items cfg head S ts = some T ∧ ext.length ≤ ts.length ∧
        leaf_chain_ok T key (segs ++ ext) = true ∧
        chain_items T (segs ++ ext) = chain_items S segs ++ ts.map (fun t => t.iptr)
  | [], S, segs, _, _, hok, _ =>
      ⟨S, [], rfl, Nat.le_refl _, by rw [List.append_nil]; exact hok,
        by rw [List.append_nil, List.map_nil, List.append_nil]⟩
  | t :: ts, S, segs, htails, hhead, hok, hts => by
      have hok0 : leaf_chain_ok (fresh_entries S) key segs = true := by
        rw [leaf_chain_ok_fresh_entries]; exact hok
      obtain ⟨l, hl⟩ := chain_head_leaf (fresh_entries S) key head segs hhead hok0
      obtain ⟨T1, ext1, hT1, htT1, hlen1, hok1, hit1⟩ :=
        update_leaf_item_step cfg (fresh_entries S) key t head l segs hcfg
          (tails_ok_fresh_entries S htails) hkey
          (hts t (List.mem_cons_self _ _)) hhead hl hok0
      have hhead1 : (segs ++ ext1).head? = some head := by
        cases segs with
        | nil => cases hhead
        | cons a rest => exact hhead
      obtain ⟨T, ext, hT, hlen, hokT, hit⟩ :=
        leaf_chain_invariant cfg key head hcfg hkey ts T1 (segs ++ ext1) htT1 hhead1 hok1
          (fun u hu => hts u (List.mem_cons_of_mem _ hu))
      refine ⟨T, ext1 ++ ext, ?_, ?_, ?_, ?_⟩
      · rw [update_leaf_items, hl]
        simp only [hT1]
        exact hT
      · rw [List.length_append, List.length_cons]; omega
      · rw [← List.append_assoc]; exact hokT
      · rw [← List.append_assoc, hit, hit1, chain_items_fresh_entries, List.map_cons,
          List.append_assoc, List.singleton_append]

/-- Instance of C31: two further inserts of the value `xa` into the index that holds it
once. -/
theorem leaf_chain_invariant_witness :
    ∃ T ext,
      update_leaf_items default_config ⟨2, 1⟩ one_key_index
        [_art_form_key_varlena [120, 97] ⟨0, 2⟩, _art_form_key_varlena [120, 97] ⟨0, 3⟩]
        = some T ∧
      ext.length ≤ 2 ∧ leaf_chain_ok T [120, 97, 0] ([⟨2, 1⟩] ++ ext) = true ∧
      chain_items T ([⟨2, 1⟩] ++ ext)
        = chain_items one_key_index [⟨2, 1⟩] ++ [⟨0, 2⟩, ⟨0, 3⟩] :=
  leaf_chain_invariant default_config [120, 97, 0] ⟨2, 1⟩ (by decide) (by decide)
    [_art_form_key_varlena [120, 97] ⟨0, 2⟩, _art_form_key_varlena [120, 97] ⟨0, 3⟩]
    one_key_index [⟨2, 1⟩] ⟨by decide!, by decide!⟩ rfl (by decide!) (by decide)

end PgArt
namespace PgArt

/-- C32 — a scan that reads an item which is not stored. With the default settings the
inserts of `xa`, `xb` and of the value `x c 07^8112`, whose key of 8115 bytes is accepted,
all return: `PageAddItem` finds no room for the third leaf, `_page_add_node` sets the entry's
offset number to `InvalidOffsetNumber`, and `_add_child` stores the reference (3,0) in the
third slot of the `Node4` at (1,2). The search of a `>=` scan for `x` removes the three
child references from the children queue and hands each to `_art_get_node_from_iptr`; the
search of the `=` scan for the third key does the same with (3,0) alone. The reference (3,0)
is not valid and designates no item of block 3, so `PageGetItemId(page, 0)` is the line
pointer before the first one. On the index without the third key every reference read
designates a stored node. -/
theorem scan_reads_unstored_item :
    oversize_tuple.key_len = 8115 ∧
    oversize_child_index.map (fun S => (node_below_root S 120).map child_slots)
      = some (some [(97, ⟨2, 1⟩), (98, ⟨2, 2⟩), (99, ⟨3, 0⟩)]) ∧
    oversize_child_index.map
        (fun S => scan_dereferences S BTGreaterEqualStrategyNumber [120, 0])
      = some [⟨1, 1⟩, ⟨1, 2⟩, ⟨2, 1⟩, ⟨3, 0⟩, ⟨2, 2⟩] ∧
    oversize_child_index.map
        (fun S => undesignated S (scan_dereferences S BTGreaterEqualStrategyNumber [120, 0]))
      = some [⟨3, 0⟩] ∧
    oversize_child_index.map
        (fun S => scan_dereferences S BTEqualStrategyNumber oversize_tuple.key)
      = some [⟨1, 1⟩, ⟨1, 2⟩, ⟨3, 0⟩] ∧
    ItemPointerIsValid ⟨3, 0⟩ = false ∧
    (insert_all default_config empty_index
        [_art_form_key_varlena [120, 97] ⟨0, 1⟩, _art_form_key_varlena [120, 98] ⟨0, 2⟩]).map
      (fun S => undesignated S (scan_dereferences S BTGreaterEqualStrategyNumber [120, 0]))
      = some [] := by
  refine ⟨?_, ?_, ?_, ?_, ?_, rfl, ?_⟩ <;> decide!

end PgArt

namespace PgArt

/-! ## The leaf split and the first two insertions into the empty index -/

end PgArt

namespace PgArt

end PgArt
